import Mathlib

/-!
Chat hub (`internal/ws`): rooms, envelopes and dispatch; and the frames of
`internal/simplews`.

A shallow embedding of `types.go`, `room.go`, `client.go`, `hub.go` and of the
reading and writing of frames in `simplews.go`.

* Go maps are association lists (`mapGet`, `mapSet`); a map keyed by `*Client`
  is a list of clients.
* `*Participant` pointers are indices into a per-room store `parts`, so the
  aliasing between the registries and `assignedAgent` is kept.
* Every `time.Now()` is an explicit argument: a function with one call site
  takes `now : Time`, a function with several takes `now : Nat → Time`, the
  index being the call site in program order.
* `json.Marshal` of an envelope is the envelope itself and never fails: a
  queue holds the envelopes that were serialised into it.
* A `send` channel is an open buffered channel: its capacity and its queued
  items. Which channels have been closed is kept next to the hub, in `Conns`.
* Calls are made one at a time (`Hub.step`, `Hub.run`); where two calls to
  `HandleIncoming` overlap, a call is the two steps `Hub.storeChat` and
  `Hub.sendChat`, the lock of the room being released in between.
-/

namespace Ws

/-! ## types.go -/

/-- Instants of `time.Time`; `0` is the zero instant (`IsZero`). -/
abbrev Time := Int

/-- `t.IsZero()`. -/
def IsZero (t : Time) : Bool := decide (t = 0)

/-- `a.After(b)`. -/
def After (a b : Time) : Bool := decide (b < a)

abbrev MessageTypeChat : String := "chat.message"
abbrev MessageTypeTyping : String := "chat.typing"
abbrev MessageTypeHistory : String := "chat.history"
abbrev MessageTypeSystem : String := "system.notice"

abbrev RolePlayer : String := "player"
abbrev RoleAgent : String := "agent"

/-- A Go `map[string]string`; `none` is the nil map. -/
abbrev StrMap := Option (List (String × String))

/-- ChatMessage of types.go. `Sequence` is an `int64`; see `Room.AddMessage`. -/
structure ChatMessage where
  RoomID : String := ""
  SenderID : String := ""
  SenderRole : String := ""
  DisplayName : String := ""
  Content : String := ""
  Timestamp : Time := 0
  Sequence : Int := 0
  Metadata : StrMap := none
  deriving DecidableEq, Repr

/-- Values stored in `Envelope.Payload` (`map[string]any`): the two kinds the
hub itself writes, and any other JSON value kept as raw text. -/
inductive PayloadValue where
  | messages (ms : List ChatMessage)
  | int (n : Int)
  | raw (json : String)
  deriving DecidableEq, Repr

/-- Envelope of types.go; the Go field `Type` is `Type_` here. -/
structure Envelope where
  Cmd : String := ""
  Type_ : String := ""
  RoomID : String := ""
  SenderID : String := ""
  SenderRole : String := ""
  DisplayName : String := ""
  Content : String := ""
  Timestamp : Time := 0
  Metadata : StrMap := none
  Payload : Option (List (String × PayloadValue)) := none
  History : List ChatMessage := []
  Seq : Int := 0
  Ack : Int := 0
  deriving DecidableEq, Repr

/-- Participant of types.go. -/
structure Participant where
  ID : String
  DisplayName : String
  Role : String
  Connected : Bool := false
  LastSeen : Time := 0
  deriving DecidableEq, Repr

/-- RoomSummary of types.go; the counts are Go `int`s that hold lengths. -/
structure RoomSummary where
  RoomID : String := ""
  CreatedAt : Time := 0
  LastActivity : Time := 0
  PlayerCount : Nat := 0
  AgentCount : Nat := 0
  ConnectedPlayerCount : Nat := 0
  ConnectedAgentCount : Nat := 0
  AssignedAgentID : String := ""
  AssignedAgent : String := ""
  LastMessage : String := ""
  deriving DecidableEq, Repr

/-- RoomSnapshot of types.go. -/
structure RoomSnapshot where
  Summary : RoomSummary
  Participants : List Participant
  History : List ChatMessage
  NextSequence : Int
  deriving DecidableEq, Repr

/-- `normalizeLegacyType` of types.go. -/
def normalizeLegacyType (value : String) : String :=
  if value = "" ∨ value = MessageTypeChat ∨ value = MessageTypeTyping
      ∨ value = MessageTypeHistory ∨ value = MessageTypeSystem then value
  else if value = "message" then MessageTypeChat
  else if value = "typing" then MessageTypeTyping
  else if value = "history" then MessageTypeHistory
  else if value = "system" then MessageTypeSystem
  else value

/-- `(*Envelope).Normalize` of types.go; the receiver is returned. -/
def Envelope.Normalize (e : Envelope) : Envelope :=
  let e1 := { e with Cmd := normalizeLegacyType e.Cmd }
  let e2 := { e1 with Type_ := normalizeLegacyType e1.Type_ }
  let e3 := if e2.Cmd = "" then { e2 with Cmd := e2.Type_ } else e2
  if e3.Type_ = "" then { e3 with Type_ := e3.Cmd } else e3

/-! ## Go maps as association lists -/

/-- `m[key]` with the comma-ok result. -/
def mapGet {α β : Type} [DecidableEq α] : List (α × β) → α → Option β
  | [], _ => none
  | (k, v) :: rest, key => if k = key then some v else mapGet rest key

/-- `m[key] = val`. -/
def mapSet {α β : Type} [DecidableEq α] : List (α × β) → α → β → List (α × β)
  | [], key, val => [(key, val)]
  | (k, v) :: rest, key, val =>
    if k = key then (key, val) :: rest else (k, v) :: mapSet rest key val

/-! ## client.go: the client record and its outbound queue -/

/-- Client of client.go, without `hub`, `conn` and `closeOnce`. A `*Client` is
the record itself; `ptr` tells apart two clients with equal fields. The `send`
channel of a client is kept in `Hub.sends`. -/
structure Client where
  ptr : Nat
  ID : String
  DisplayName : String
  Role : String
  RoomID : String
  deriving DecidableEq, Repr

/-- A buffered channel of serialised envelopes: capacity and queued items,
oldest first. -/
structure Chan where
  cap : Nat
  buf : List Envelope
  deriving DecidableEq, Repr

/-- The non-blocking send `select { case ch <- p: ...; default: ... }`: the
channel afterwards and whether the send case ran. -/
def Chan.trySend (ch : Chan) (p : Envelope) : Chan × Bool :=
  if ch.buf.length < ch.cap then ({ ch with buf := ch.buf ++ [p] }, true) else (ch, false)

/-! ## room.go -/

/-- Room of room.go. `parts` stores the `Participant` objects; the registries
and `assignedAgent` hold indices into it (`*Participant`). -/
structure Room where
  id : String
  history : List ChatMessage := []
  clients : List Client := []
  parts : List Participant := []
  players : List (String × Nat) := []
  agents : List (String × Nat) := []
  assignedAgent : Option Nat := none
  createdAt : Time := 0
  lastActivity : Time := 0
  nextSequence : Int := 0
  deriving DecidableEq, Repr

/-- Assignment through a `*Participant`: `p.field = ...` written as `f`. -/
def Room.update (r : Room) (p : Nat) (f : Participant → Participant) : Room :=
  match r.parts[p]? with
  | some x => { r with parts := r.parts.set p (f x) }
  | none => r

/-- `NewRoom`; `now` is its `time.Now()`. -/
def NewRoom (id : String) (now : Time) : Room :=
  { id := id, history := [], clients := [], parts := [], players := [], agents := [],
    assignedAgent := none, createdAt := now, lastActivity := now, nextSequence := 0 }

/-- `(*Room).ensureParticipantLocked`: the room afterwards and the pointer
returned. -/
def Room.ensureParticipantLocked (r : Room) (c : Client) (now : Time) : Room × Nat :=
  let registry := if c.Role = RolePlayer then r.players else r.agents
  match mapGet registry c.ID with
  | some p =>
    (r.update p (fun x => { x with DisplayName := c.DisplayName, Role := c.Role }), p)
  | none =>
    let p := r.parts.length
    let participant : Participant :=
      { ID := c.ID, DisplayName := c.DisplayName, Role := c.Role, Connected := true,
        LastSeen := now }
    let r1 := { r with parts := r.parts ++ [participant] }
    let r2 :=
      if c.Role = RolePlayer then { r1 with players := mapSet r1.players c.ID p }
      else { r1 with agents := mapSet r1.agents c.ID p }
    let assignedHasID : Bool :=
      match r2.assignedAgent with
      | some a =>
        (match r2.parts[a]? with
         | some x => decide (x.ID = c.ID)
         | none => false)
      | none => false
    if c.Role = RoleAgent ∧ assignedHasID = true then
      ({ r2 with assignedAgent := some p }, p)
    else (r2, p)

/-- `(*Room).AddClient`; `now 0` is read in `ensureParticipantLocked`, `now 1`
for `LastSeen`, `now 2` for `lastActivity`. -/
def Room.AddClient (r : Room) (c : Client) (now : Nat → Time) : Room × Nat :=
  if c ∈ r.clients then r.ensureParticipantLocked c (now 0)
  else
    let r1 := { r with clients := r.clients ++ [c] }
    let rp := r1.ensureParticipantLocked c (now 0)
    let r2 := rp.1.update rp.2 (fun x => { x with Connected := true })
    let r3 := r2.update rp.2 (fun x => { x with LastSeen := now 1 })
    ({ r3 with lastActivity := now 2 }, rp.2)

/-- `(*Room).RemoveClient`. -/
def Room.RemoveClient (r : Room) (c : Client) (now : Time) : Room :=
  if ¬ c ∈ r.clients then r
  else
    let r1 := { r with clients := r.clients.erase c }
    let registry := if c.Role = RoleAgent then r1.agents else r1.players
    match mapGet registry c.ID with
    | some p =>
      (r1.update p (fun x => { x with Connected := false })).update p
        (fun x => { x with LastSeen := now })
    | none => r1

/-- `(*Room).Touch`. -/
def Room.Touch (r : Room) (ts : Time) : Room :=
  if After ts r.lastActivity then { r with lastActivity := ts } else r

/-- `(*Room).AddMessage`: the room afterwards and the stored message. The
counter is an `int64` that only this increment changes, once per appended
history entry, so it is modelled without wrap-around. -/
def Room.AddMessage (r : Room) (msg : ChatMessage) (now : Time) : Room × ChatMessage :=
  let msg1 := if IsZero msg.Timestamp then { msg with Timestamp := now } else msg
  let r1 := { r with nextSequence := r.nextSequence + 1 }
  let msg2 := { msg1 with Sequence := r1.nextSequence }
  let r2 := { r1 with history := r1.history ++ [msg2] }
  let r3 := { r2 with lastActivity := msg2.Timestamp }
  let r4 :=
    match mapGet r3.players msg2.SenderID with
    | some p => r3.update p (fun x => { x with LastSeen := msg2.Timestamp })
    | none => r3
  let r5 :=
    match mapGet r4.agents msg2.SenderID with
    | some p => r4.update p (fun x => { x with LastSeen := msg2.Timestamp })
    | none => r4
  (r5, msg2)

/-- The loop of `MessagesSince`: the index of the first entry, counted from
`i`, whose sequence exceeds `sequence`, or the index past the end. -/
def scanStart (sequence : Int) : List ChatMessage → Nat → Nat
  | [], i => i
  | msg :: rest, i => if msg.Sequence > sequence then i else scanStart sequence rest (i + 1)

/-- `(*Room).MessagesSince`. `start` is an index, so the test `start < 0` of
the source never holds and only `start > len(r.history)` is kept. -/
def Room.MessagesSince (r : Room) (sequence : Int) : List ChatMessage × Int :=
  let start : Nat := if sequence > 0 then scanStart sequence r.history 0 else 0
  let start := if start > r.history.length then r.history.length else start
  (r.history.drop start, r.nextSequence)

/-- `(*Room).NextSequence`. -/
def Room.NextSequence (r : Room) : Int := r.nextSequence

/-- `(*Room).Clients`. -/
def Room.Clients (r : Room) : List Client := r.clients

/-- `(*Room).SetAssignedAgent`. -/
def Room.SetAssignedAgent (r : Room) (agentID displayName : String) (now : Time) : Room :=
  let rp : Room × Nat :=
    match mapGet r.agents agentID with
    | some existing =>
      ((r.update existing (fun x => { x with DisplayName := displayName })).update existing
        (fun x => { x with Role := RoleAgent }), existing)
    | none =>
      let p := r.parts.length
      let participant : Participant :=
        { ID := agentID, DisplayName := displayName, Role := RoleAgent, LastSeen := now }
      let r1 := { r with parts := r.parts ++ [participant] }
      ({ r1 with agents := mapSet r1.agents agentID p }, p)
  let r2 := rp.1.update rp.2 (fun x => { x with Connected := false })
  { r2 with assignedAgent := some rp.2 }

/-- `(*Room).AssignedAgent`: a copy of the assigned participant, `none` for
nil. -/
def Room.AssignedAgent (r : Room) : Option Participant :=
  match r.assignedAgent with
  | none => none
  | some a => r.parts[a]?

/-- The participants a registry points at, in the order of the registry:
`for _, p := range registry` reading `*p`. -/
def Room.registryValues (r : Room) (registry : List (String × Nat)) : List Participant :=
  registry.filterMap (fun kp => r.parts[kp.2]?)

/-- The number of connected participants of a registry. -/
def Room.connectedCount (r : Room) (registry : List (String × Nat)) : Nat :=
  ((r.registryValues registry).filter (fun p => p.Connected)).length

/-- `(*Room).Summary`. -/
def Room.Summary (r : Room) : RoomSummary :=
  let connectedPlayers := r.connectedCount r.players
  let connectedAgents := r.connectedCount r.agents
  let summary : RoomSummary :=
    { RoomID := r.id, CreatedAt := r.createdAt, LastActivity := r.lastActivity,
      PlayerCount := r.players.length, AgentCount := r.agents.length,
      ConnectedPlayerCount := connectedPlayers, ConnectedAgentCount := connectedAgents }
  let summary1 :=
    match r.AssignedAgent with
    | some a => { summary with AssignedAgentID := a.ID, AssignedAgent := a.DisplayName }
    | none => summary
  match r.history.getLast? with
  | some m => { summary1 with LastMessage := m.Content }
  | none => summary1

/-- `(*Room).Snapshot`; the summary is built in place, as in the source. -/
def Room.Snapshot (r : Room) : RoomSnapshot :=
  let participants := r.registryValues r.players ++ r.registryValues r.agents
  let history := r.history
  let connectedPlayers := r.connectedCount r.players
  let connectedAgents := r.connectedCount r.agents
  let summary : RoomSummary :=
    { RoomID := r.id, CreatedAt := r.createdAt, LastActivity := r.lastActivity,
      PlayerCount := r.players.length, AgentCount := r.agents.length,
      ConnectedPlayerCount := connectedPlayers, ConnectedAgentCount := connectedAgents }
  let summary1 :=
    match r.assignedAgent with
    | some a =>
      (match r.parts[a]? with
       | some x => { summary with AssignedAgentID := x.ID, AssignedAgent := x.DisplayName }
       | none => summary)
    | none => summary
  let summary2 :=
    if r.history.length > 0 then
      { summary1 with LastMessage := (r.history.getLast?.getD {}).Content }
    else summary1
  { Summary := summary2, Participants := participants, History := history,
    NextSequence := r.nextSequence }

/-- `(*Room).HasClient`. -/
def Room.HasClient (r : Room) (c : Client) : Bool := decide (c ∈ r.clients)

/-- `(*Room).AgentParticipants`. -/
def Room.AgentParticipants (r : Room) : List Participant := r.registryValues r.agents

/-! ## hub.go and the channel operations of client.go -/

/-- The errors of the package: the three declared variables and the ones made
in place with `errors.New` / `fmt.Errorf`. -/
inductive Err where
  | ErrUnknownMessage
  | ErrRoomNotFound
  | ErrClientNotInRoom
  | roomIdRequired
  | contentRequired
  | sendBufferFull
  | unableToAssign
  deriving DecidableEq, Repr

/-- AgentPresence of hub.go. -/
structure AgentPresence where
  ID : String
  DisplayName : String
  Rooms : List String
  LastSeen : Time
  deriving DecidableEq, Repr

/-- Hub of hub.go together with the `send` channel of every client. -/
structure Hub where
  rooms : List (String × Room) := []
  sends : List (Client × Chan) := []
  deriving DecidableEq, Repr

/-- `NewHub`. -/
def NewHub : Hub := { rooms := [], sends := [] }

/-- `c.send`; a client without an entry has the nil channel, on which a
non-blocking send never succeeds. -/
def Hub.chan (h : Hub) (c : Client) : Chan := (mapGet h.sends c).getD { cap := 0, buf := [] }

/-- `select { case c.send <- p: ...; default: ... }` on the channel of `c` while
it is open. `Hub` does not record closed channels: the send on a closed
channel, which panics, is `Conns.trySendTo`. -/
def Hub.trySendTo (h : Hub) (c : Client) (p : Envelope) : Hub × Bool :=
  let r := (h.chan c).trySend p
  if r.2 then ({ h with sends := mapSet h.sends c r.1 }, true) else (h, false)

/-- `NewClient`: a client with a fresh, empty channel of capacity 16. -/
def NewClient (h : Hub) (ptr : Nat) (roomID id role displayName : String) : Hub × Client :=
  let c : Client :=
    { ptr := ptr, ID := id, DisplayName := displayName, Role := role, RoomID := roomID }
  ({ h with sends := mapSet h.sends c { cap := 16, buf := [] } }, c)

/-- `(*Client).SendEnvelope`. -/
def Client.SendEnvelope (c : Client) (h : Hub) (env : Envelope) (now : Time) :
    Hub × Option Err :=
  let env1 := if IsZero env.Timestamp then { env with Timestamp := now } else env
  let env2 := env1.Normalize
  let r := h.trySendTo c env2
  if r.2 then (r.1, none) else (h, some Err.sendBufferFull)

/-- `(*Hub).getRoom`; `none` is the nil room. -/
def Hub.getRoom (h : Hub) (roomID : String) : Option Room := mapGet h.rooms roomID

/-- A write through the `*Room` stored under `roomID`. -/
def Hub.setRoom (h : Hub) (roomID : String) (room : Room) : Hub :=
  { h with rooms := mapSet h.rooms roomID room }

/-- `(*Hub).getOrCreateRoom`. -/
def Hub.getOrCreateRoom (h : Hub) (roomID : String) (now : Time) : Hub × Room :=
  match mapGet h.rooms roomID with
  | some room => (h, room)
  | none =>
    let room := NewRoom roomID now
    ({ h with rooms := mapSet h.rooms roomID room }, room)

/-- The loop of `broadcast`: one non-blocking send of `payload` to each client
in turn. -/
def Hub.sendAll (h : Hub) (clients : List Client) (payload : Envelope) : Hub :=
  clients.foldl (fun acc client => (acc.trySendTo client payload).1) h

/-- `(*Hub).broadcast`. -/
def Hub.broadcast (h : Hub) (room : Room) (env : Envelope) (now : Time) : Hub :=
  let env1 := env.Normalize
  let env2 := if IsZero env1.Timestamp then { env1 with Timestamp := now } else env1
  h.sendAll room.Clients env2

/-- Value of an ASCII decimal digit. -/
def digitVal (ch : Char) : Option Nat :=
  if '0' ≤ ch ∧ ch ≤ '9' then some (ch.toNat - 48) else none

/-- Digits read left to right onto the accumulator. -/
def parseDigits : List Char → Nat → Option Nat
  | [], acc => some acc
  | ch :: rest, acc =>
    match digitVal ch with
    | some d => parseDigits rest (acc * 10 + d)
    | none => none

/-- `strconv.ParseInt(s, 10, 64)`; `none` is a non-nil error (syntax or
range). -/
def ParseInt (s : String) : Option Int :=
  match s.toList with
  | [] => none
  | ch :: rest =>
    let neg := decide (ch = '-')
    let digits := if ch = '+' ∨ ch = '-' then rest else ch :: rest
    if digits = [] then none
    else
      match parseDigits digits 0 with
      | none => none
      | some n =>
        if neg then (if n ≤ 2 ^ 63 then some (-(n : Int)) else none)
        else (if n < 2 ^ 63 then some (n : Int) else none)

/-- The `since` of the `chat.history` case of `HandleIncoming`. -/
def historySince (env : Envelope) : Int :=
  let since := env.Seq
  if since = 0 then
    match env.Metadata with
    | some md =>
      (match mapGet md "since" with
       | some value =>
         (match ParseInt value with
          | some parsed => parsed
          | none => since)
       | none => since)
    | none => since
  else since

/-- `(*Hub).HandleIncoming`; `now 0` is its own `time.Now()`, `now 1` the one
of `AddMessage` or `SendEnvelope`, `now 2` the one of `broadcast`. -/
def Hub.HandleIncoming (h : Hub) (c : Client) (env : Envelope) (now : Nat → Time) :
    Hub × Option Err :=
  match h.getRoom c.RoomID with
  | none => (h, some Err.ErrRoomNotFound)
  | some room =>
    let env1 := if IsZero env.Timestamp then { env with Timestamp := now 0 } else env
    let env2 := env1.Normalize
    if env2.Cmd = MessageTypeChat then
      if env2.Content = "" then (h, some Err.contentRequired)
      else
        let chat : ChatMessage :=
          { RoomID := c.RoomID, SenderID := c.ID, SenderRole := c.Role,
            DisplayName := c.DisplayName, Content := env2.Content,
            Timestamp := env2.Timestamp }
        let rs := room.AddMessage chat (now 1)
        let out : Envelope :=
          { env2 with
            Cmd := MessageTypeChat, Type_ := MessageTypeChat, RoomID := c.RoomID,
            SenderID := c.ID, SenderRole := c.Role, DisplayName := c.DisplayName,
            Timestamp := rs.2.Timestamp, Seq := rs.2.Sequence, Ack := rs.2.Sequence }
        ((h.setRoom c.RoomID rs.1).broadcast rs.1 out (now 2), none)
    else if env2.Cmd = MessageTypeTyping then
      let out : Envelope :=
        { env2 with
          Cmd := MessageTypeTyping, Type_ := MessageTypeTyping, RoomID := c.RoomID,
          SenderID := c.ID, SenderRole := c.Role, DisplayName := c.DisplayName }
      let room1 := room.Touch out.Timestamp
      let out1 := { out with Ack := room1.NextSequence }
      ((h.setRoom c.RoomID room1).broadcast room1 out1 (now 2), none)
    else if env2.Cmd = MessageTypeHistory then
      let since := historySince env2
      let hn := room.MessagesSince since
      let response : Envelope :=
        { Cmd := MessageTypeHistory, Type_ := MessageTypeHistory, RoomID := c.RoomID,
          Timestamp := env2.Timestamp, History := hn.1, Seq := hn.2, Ack := hn.2,
          Payload := some [("messages", PayloadValue.messages hn.1),
                           ("nextSeq", PayloadValue.int hn.2)] }
      c.SendEnvelope h response (now 1)
    else (h, some Err.ErrUnknownMessage)

/-- `(*Hub).Register`; the clock is read, in order, by `NewRoom` (0),
`AddClient` (1 to 3), the history envelope (4), `SendEnvelope` (5), the join
notice (6) and `broadcast` (7). -/
def Hub.Register (h : Hub) (c : Client) (now : Nat → Time) : Hub × Option Err :=
  if c.RoomID = "" then (h, some Err.roomIdRequired)
  else
    let hr := h.getOrCreateRoom c.RoomID (now 0)
    let rp := hr.2.AddClient c (fun i => now (i + 1))
    let room := rp.1
    let h1 := hr.1.setRoom c.RoomID room
    let participant : Participant :=
      (room.parts[rp.2]?).getD { ID := "", DisplayName := "", Role := "" }
    let hn := room.MessagesSince 0
    let h2 :=
      if hn.1.length > 0 then
        (c.SendEnvelope h1
          { Cmd := MessageTypeHistory, Type_ := MessageTypeHistory, RoomID := room.id,
            Timestamp := now 4, History := hn.1, Seq := hn.2, Ack := hn.2,
            Payload := some [("messages", PayloadValue.messages hn.1),
                             ("nextSeq", PayloadValue.int hn.2)] }
          (now 5)).1
      else h1
    let joinContent := participant.DisplayName ++ " (" ++ participant.Role ++ ") 加入對話"
    (h2.broadcast room
      { Cmd := MessageTypeSystem, Type_ := MessageTypeSystem, RoomID := room.id,
        Timestamp := now 6, Content := joinContent, SenderID := c.ID,
        SenderRole := c.Role, DisplayName := c.DisplayName }
      (now 7), none)

/-- `(*Hub).Unregister`; the clock is read by `RemoveClient` (0), the leave
notice (1) and `broadcast` (2). -/
def Hub.Unregister (h : Hub) (c : Client) (now : Nat → Time) : Hub :=
  if c.RoomID = "" then h
  else
    match h.getRoom c.RoomID with
    | none => h
    | some room =>
      let room1 := room.RemoveClient c (now 0)
      let h1 := h.setRoom c.RoomID room1
      h1.broadcast room1
        { Cmd := MessageTypeSystem, Type_ := MessageTypeSystem, RoomID := room1.id,
          Timestamp := now 1, Content := c.DisplayName ++ " 離開對話", SenderID := c.ID,
          SenderRole := c.Role, DisplayName := c.DisplayName }
        (now 2)

/-- `(*Hub).RoomSnapshot`. -/
def Hub.RoomSnapshot (h : Hub) (roomID : String) : Except Err RoomSnapshot :=
  match h.getRoom roomID with
  | none => Except.error Err.ErrRoomNotFound
  | some room => Except.ok room.Snapshot

/-- `(*Hub).MessagesSince`. -/
def Hub.MessagesSince (h : Hub) (roomID : String) (sequence : Int) :
    Except Err (List ChatMessage × Int) :=
  match h.getRoom roomID with
  | none => Except.error Err.ErrRoomNotFound
  | some room => Except.ok (room.MessagesSince sequence)

/-- The body of the inner loop of `OnlineAgents` for one agent of the room
`roomID`; the catalog entries are pointers, so the entry is written back. -/
def catalogAdd (catalog : List (String × AgentPresence)) (roomID : String)
    (agent : Participant) : List (String × AgentPresence) :=
  if agent.Connected = false then catalog
  else
    let entry : AgentPresence :=
      match mapGet catalog agent.ID with
      | some e => e
      | none =>
        { ID := agent.ID, DisplayName := agent.DisplayName, Rooms := [],
          LastSeen := agent.LastSeen }
    let entry1 := { entry with Rooms := entry.Rooms ++ [roomID] }
    let entry2 :=
      if After agent.LastSeen entry1.LastSeen then { entry1 with LastSeen := agent.LastSeen }
      else entry1
    mapSet catalog agent.ID entry2

/-- The `less` of the `sort.Slice` in `OnlineAgents`. -/
def presenceLess (a b : AgentPresence) : Bool :=
  if a.DisplayName = b.DisplayName then decide (a.ID < b.ID)
  else decide (a.DisplayName < b.DisplayName)

/-- `(*Hub).OnlineAgents`; `sort.Slice` is an insertion sort by `presenceLess`. -/
def Hub.OnlineAgents (h : Hub) : List AgentPresence :=
  let catalog : List (String × AgentPresence) :=
    h.rooms.foldl
      (fun cat kr => kr.2.AgentParticipants.foldl (fun cat1 agent => catalogAdd cat1 kr.2.id agent) cat)
      []
  (catalog.map (fun ke => ke.2)).insertionSort (fun a b => presenceLess b a = false)

/-- `(*Hub).agentPresence`; `none` is nil. -/
def Hub.agentPresence (h : Hub) (agentID : String) : Option AgentPresence :=
  h.OnlineAgents.find? (fun agent => decide (agent.ID = agentID))

/-- `(*Hub).AssignAgent`; the clock is read by `SetAssignedAgent` (0), the
notice (1) and `broadcast` (2). -/
def Hub.AssignAgent (h : Hub) (roomID agentID displayName : String) (now : Nat → Time) :
    Hub × Except Err Participant :=
  match h.getRoom roomID with
  | none => (h, Except.error Err.ErrRoomNotFound)
  | some room =>
    let displayName1 :=
      match h.agentPresence agentID with
      | some presence => if presence.DisplayName ≠ "" then presence.DisplayName else displayName
      | none => displayName
    let room1 := room.SetAssignedAgent agentID displayName1 (now 0)
    let h1 := h.setRoom roomID room1
    match room1.AssignedAgent with
    | none => (h1, Except.error Err.unableToAssign)
    | some assigned =>
      (h1.broadcast room1
        { Cmd := MessageTypeSystem, Type_ := MessageTypeSystem, RoomID := roomID,
          Timestamp := now 1,
          Content := "客服 " ++ displayName1 ++ " 將協助這個對話",
          SenderID := agentID, SenderRole := RoleAgent, DisplayName := displayName1,
          Metadata := some [("assignedAgent", displayName1), ("assignedAgentId", agentID)] }
        (now 2), Except.ok assigned)

/-- `(*Hub).Rooms`; `sort.Slice` is an insertion sort by the `less` of the
source, `After` on `LastActivity`. -/
def Hub.Rooms (h : Hub) : List RoomSummary :=
  (h.rooms.map (fun kr => kr.2.Summary)).insertionSort
    (fun a b => After b.LastActivity a.LastActivity = false)

/-- The receive `message, ok := <-c.send` of `WritePump` on an open channel:
the oldest queued item and the channel without it; `none` while the channel is
empty and the receive waits. -/
def Chan.recv (ch : Chan) : Option (Envelope × Chan) :=
  match ch.buf with
  | [] => none
  | p :: rest => some (p, { ch with buf := rest })

/-- One turn of the loop of `WritePump` that takes a message from `c.send`: the
hub afterwards and the message handed to `WriteMessage`. -/
def Hub.recv (h : Hub) (c : Client) : Hub × Option Envelope :=
  match (h.chan c).recv with
  | none => (h, none)
  | some pc => ({ h with sends := mapSet h.sends c pc.2 }, some pc.1)

/-- `(*Client).sendSystemError`; the clock is read for the envelope (0) and by
`SendEnvelope` (1). -/
def Client.sendSystemError (c : Client) (h : Hub) (message : String) (now : Nat → Time) : Hub :=
  (c.SendEnvelope h
    { Cmd := MessageTypeSystem, Type_ := MessageTypeSystem, RoomID := c.RoomID,
      Timestamp := now 0, Content := message }
    (now 1)).1

/-- The `chat.message` case of `HandleIncoming` up to the return of
`AddMessage`, where the lock of the room is released: the hub afterwards and
the envelope the call goes on to hand to `broadcast`; `none` for a call that
does not get to `AddMessage`. -/
def Hub.storeChat (h : Hub) (c : Client) (env : Envelope) (now : Nat → Time) :
    Option (Hub × Envelope) :=
  match h.getRoom c.RoomID with
  | none => none
  | some room =>
    let env1 := if IsZero env.Timestamp then { env with Timestamp := now 0 } else env
    let env2 := env1.Normalize
    if env2.Cmd = MessageTypeChat then
      if env2.Content = "" then none
      else
        let chat : ChatMessage :=
          { RoomID := c.RoomID, SenderID := c.ID, SenderRole := c.Role,
            DisplayName := c.DisplayName, Content := env2.Content,
            Timestamp := env2.Timestamp }
        let rs := room.AddMessage chat (now 1)
        let out : Envelope :=
          { env2 with
            Cmd := MessageTypeChat, Type_ := MessageTypeChat, RoomID := c.RoomID,
            SenderID := c.ID, SenderRole := c.Role, DisplayName := c.DisplayName,
            Timestamp := rs.2.Timestamp, Seq := rs.2.Sequence, Ack := rs.2.Sequence }
        some (h.setRoom c.RoomID rs.1, out)
    else none

/-- The rest of the `chat.message` case of `HandleIncoming`: the call
`h.broadcast(room, env)` through the room pointer, which reads the live clients
of the room as they are when the call gets there. -/
def Hub.sendChat (h : Hub) (roomID : String) (out : Envelope) (now : Time) : Hub :=
  match h.getRoom roomID with
  | some room => h.broadcast room out now
  | none => h

/-- A hub together with the clients whose `send` channel has been closed. -/
structure Conns where
  hub : Hub
  closed : List Client
  deriving DecidableEq

/-- `(*Client).Close`: `closeOnce` runs `close(c.send)` the first time only. -/
def Client.Close (c : Client) (s : Conns) : Conns :=
  if c ∈ s.closed then s else { s with closed := s.closed ++ [c] }

/-- The deferred function of `ReadPump`, run when the read loop exits:
`c.hub.Unregister(c)`, `c.Close()`, then `c.conn.Close()`. -/
def Client.readPumpExit (c : Client) (s : Conns) (now : Nat → Time) : Conns :=
  c.Close { s with hub := s.hub.Unregister c now }

/-- The deferred function of `WritePump`, run when the write loop exits:
`ticker.Stop()`, `c.Close()`, then `c.conn.Close()`. -/
def Client.writePumpExit (c : Client) (s : Conns) : Conns := c.Close s

/-- Whether the loop of `broadcast` over `room.Clients()` comes to a client
whose `send` channel is closed; the send `client.send <- payload` on a closed
channel panics. -/
def Conns.sendsOnClosed (s : Conns) (room : Room) : Bool :=
  room.Clients.any (fun client => decide (client ∈ s.closed))

/-! ## simplews.go

Bytes are natural numbers below 256. A connection is the bytes still to be
read from it, the bytes written to it, its read limit and the payloads its
pong handler was called with. Reading `n` bytes with `io.ReadFull` fails when
fewer than `n` bytes are left; writes to the connection do not fail. -/

abbrev TextMessage : Int := 1
abbrev BinaryMessage : Int := 2
abbrev CloseMessage : Int := 8
abbrev PingMessage : Int := 9
abbrev PongMessage : Int := 10

abbrev CloseNormalClosure : Nat := 1000
abbrev CloseGoingAway : Nat := 1001
abbrev CloseAbnormalClosure : Nat := 1006

/-- The errors of simplews.go: the two declared variables, the two made in
`readFrame` with `errors.New`, `*CloseError`, and the error of `io.ReadFull`. -/
inductive WsErr where
  | errBadRequest
  | errUnsupportedData
  | readLimitExceeded
  | notMasked
  | closeError (code : Nat) (text : List Nat)
  | readFailed
  deriving DecidableEq, Repr

/-- How a call ends without a result: it returns an error, or `make` panics on
a negative length. -/
inductive Failure where
  | error (e : WsErr)
  | makeslicePanic
  deriving DecidableEq, Repr

/-- Conn of simplews.go. -/
structure Conn where
  readLimit : Int := 0
  input : List Nat := []
  output : List Nat := []
  pongs : List (List Nat) := []
  deriving DecidableEq, Repr

/-- `io.ReadFull(c.reader, buf)` for a buffer of `n` bytes: the bytes read and
the bytes left, `none` for an error. -/
def readFull (r : List Nat) (n : Nat) : Option (List Nat × List Nat) :=
  if n ≤ r.length then some (r.take n, r.drop n) else none

/-- `binary.BigEndian.Uint16`. -/
def beUint16 (b : List Nat) : Nat := b.getD 0 0 * 256 + b.getD 1 0

/-- `binary.BigEndian.Uint64`. -/
def beUint64 (b : List Nat) : Nat := (b.take 8).foldl (fun acc x => acc * 256 + x) 0

/-- `binary.BigEndian.PutUint16` of `uint16(v)`. -/
def putUint16 (v : Nat) : List Nat := [v / 256 % 256, v % 256]

/-- `binary.BigEndian.PutUint64` of `uint64(v)`. -/
def putUint64 (v : Nat) : List Nat :=
  [v / 2 ^ 56 % 256, v / 2 ^ 48 % 256, v / 2 ^ 40 % 256, v / 2 ^ 32 % 256, v / 2 ^ 24 % 256,
   v / 2 ^ 16 % 256, v / 2 ^ 8 % 256, v % 256]

/-- The conversion `int64(x)` of a `uint64`: values from `2 ^ 63` on become
negative. -/
def toInt64 (x : Nat) : Int :=
  if x % 2 ^ 64 < 2 ^ 63 then ((x % 2 ^ 64 : Nat) : Int) else ((x % 2 ^ 64 : Nat) : Int) - 2 ^ 64

/-- The loop `payload[i] ^= maskKey[i%4]` of `readFrame`, from index `i` on. -/
def unmaskFrom (maskKey : List Nat) : Nat → List Nat → List Nat
  | _, [] => []
  | i, b :: rest => (b ^^^ maskKey.getD (i % 4) 0) :: unmaskFrom maskKey (i + 1) rest

/-- `(*Conn).WriteMessage`. -/
def Conn.WriteMessage (c : Conn) (messageType : Int) (data : List Nat) : Conn × Option WsErr :=
  let opcode : Option Nat :=
    if messageType = TextMessage then some 0x1
    else if messageType = BinaryMessage then some 0x2
    else if messageType = CloseMessage then some 0x8
    else if messageType = PingMessage then some 0x9
    else if messageType = PongMessage then some 0xA
    else none
  match opcode with
  | none => (c, some WsErr.errUnsupportedData)
  | some op =>
    let header : List Nat := [0x80 ||| op]
    let length := data.length
    let header1 :=
      if length ≤ 125 then header ++ [length]
      else if length ≤ 65535 then header ++ [126] ++ putUint16 length
      else header ++ [127] ++ putUint64 length
    let c1 := { c with output := c.output ++ header1 }
    let c2 := if length > 0 then { c1 with output := c1.output ++ data } else c1
    (c2, none)

/-- The length of the payload as `readFrame` settles it in its `switch`: the
7-bit value, or the extended length read from the connection; `none` when
`io.ReadFull` fails. -/
def readPayloadLen (b1 : Nat) (r : List Nat) : Option (Int × List Nat) :=
  let payloadLen : Int := ((b1 &&& 0x7F : Nat) : Int)
  if payloadLen = 126 then
    match readFull r 2 with
    | none => none
    | some er => some (((beUint16 er.1 : Nat) : Int), er.2)
  else if payloadLen = 127 then
    match readFull r 8 with
    | none => none
    | some er => some (toInt64 (beUint64 er.1), er.2)
  else some (payloadLen, r)

/-- `(*Conn).readFrame`: the opcode and the payload, or how the call failed,
and the connection afterwards. -/
def Conn.readFrame (c : Conn) : Except Failure (Nat × List Nat) × Conn :=
  match readFull c.input 2 with
  | none => (Except.error (Failure.error WsErr.readFailed), { c with input := [] })
  | some hr =>
    let header := hr.1
    let fin := decide (header.getD 0 0 &&& 0x80 ≠ 0)
    let opcode := header.getD 0 0 &&& 0x0F
    let masked := decide (header.getD 1 0 &&& 0x80 ≠ 0)
    if fin = false then
      (Except.error (Failure.error WsErr.errUnsupportedData), { c with input := hr.2 })
    else
      match readPayloadLen (header.getD 1 0) hr.2 with
      | none => (Except.error (Failure.error WsErr.readFailed), { c with input := [] })
      | some lr =>
        let payloadLen := lr.1
        if c.readLimit > 0 ∧ payloadLen > c.readLimit then
          (Except.error (Failure.error WsErr.readLimitExceeded), { c with input := lr.2 })
        else if masked = true then
          match readFull lr.2 4 with
          | none => (Except.error (Failure.error WsErr.readFailed), { c with input := [] })
          | some kr =>
            if payloadLen < 0 then (Except.error Failure.makeslicePanic, { c with input := kr.2 })
            else
              match readFull kr.2 payloadLen.toNat with
              | none => (Except.error (Failure.error WsErr.readFailed), { c with input := [] })
              | some pr => (Except.ok (opcode, unmaskFrom kr.1 0 pr.1), { c with input := pr.2 })
        else (Except.error (Failure.error WsErr.notMasked), { c with input := lr.2 })

/-- The loop of `(*Conn).ReadMessage`, for at most `fuel` frames. -/
def Conn.readMessageLoop : Nat → Conn → Except Failure (Int × List Nat) × Conn
  | 0, c => (Except.error (Failure.error WsErr.readFailed), c)
  | fuel + 1, c =>
    match c.readFrame with
    | (Except.error e, c1) => (Except.error e, c1)
    | (Except.ok (opcode, payload), c1) =>
      if opcode = 0x1 then (Except.ok (TextMessage, payload), c1)
      else if opcode = 0x2 then (Except.ok (BinaryMessage, payload), c1)
      else if opcode = 0x8 then
        if payload.length ≥ 2 then
          (Except.error (Failure.error
            (WsErr.closeError (beUint16 (payload.take 2)) (payload.drop 2))), c1)
        else (Except.error (Failure.error (WsErr.closeError CloseNormalClosure [])), c1)
      else if opcode = 0x9 then
        Conn.readMessageLoop fuel (c1.WriteMessage PongMessage payload).1
      else if opcode = 0xA then
        Conn.readMessageLoop fuel { c1 with pongs := c1.pongs ++ [payload] }
      else (Except.error (Failure.error WsErr.errUnsupportedData), c1)

/-- `(*Conn).ReadMessage`. A frame takes at least two bytes, so the loop reads
fewer frames than the connection has bytes left plus one. -/
def Conn.ReadMessage (c : Conn) : Except Failure (Int × List Nat) × Conn :=
  Conn.readMessageLoop (c.input.length + 1) c

/-- `IsUnexpectedCloseError`. The type assertion `err.(*CloseError)` succeeds
for `WsErr.closeError` only; every other error is one of the other
constructors. -/
def IsUnexpectedCloseError (err : WsErr) (codes : List Int) : Bool :=
  match err with
  | WsErr.closeError code _ =>
    if codes.length = 0 then
      decide ((code : Int) = (CloseGoingAway : Int))
        || decide ((code : Int) = (CloseAbnormalClosure : Int))
    else codes.any (fun c => decide ((code : Int) = c))
  | _ => false

/-! ### The opening handshake

`strings.TrimSpace`, `strings.EqualFold` and `strings.Split` are modelled on
lists of characters. Header keys are in canonical form, as the server stores
them and `Header.Get` looks them up. -/

/-- `unicode.IsSpace`. -/
def isSpace (c : Char) : Bool :=
  c.toNat = 0x09 || c.toNat = 0x0A || c.toNat = 0x0B || c.toNat = 0x0C || c.toNat = 0x0D
    || c.toNat = 0x20 || c.toNat = 0x85 || c.toNat = 0xA0 || c.toNat = 0x1680
    || (0x2000 ≤ c.toNat && c.toNat ≤ 0x200A) || c.toNat = 0x2028 || c.toNat = 0x2029
    || c.toNat = 0x202F || c.toNat = 0x205F || c.toNat = 0x3000

/-- `strings.TrimSpace`. -/
def TrimSpace (s : String) : String :=
  String.mk ((s.toList.dropWhile isSpace).reverse.dropWhile isSpace).reverse

/-- The simple case folding of `strings.EqualFold` for the characters that fold
to an ASCII letter: the upper-case ASCII letters, the Kelvin sign and the long
s; every other character is kept. -/
def foldChar (c : Char) : Char :=
  if 'A' ≤ c ∧ c ≤ 'Z' then Char.ofNat (c.toNat + 32)
  else if c.toNat = 0x212A then 'k'
  else if c.toNat = 0x017F then 's'
  else c

/-- `strings.EqualFold`; exact when one of the two strings is ASCII, as in every
call of the source. -/
def EqualFold (s t : String) : Bool := decide (s.toList.map foldChar = t.toList.map foldChar)

/-- An HTTP request, as far as `Upgrade` reads it. -/
structure Request where
  Method : String
  Header : List (String × List String)

/-- `http.Header.Get`: the first value under the key, or the empty string. -/
def headerGet (h : List (String × List String)) (key : String) : String :=
  match mapGet h key with
  | some (v :: _) => v
  | _ => ""

/-- The pieces of a list of characters between the occurrences of `sep`. -/
def splitChars (sep : Char) : List Char → List (List Char)
  | [] => [[]]
  | c :: cs =>
    if c = sep then [] :: splitChars sep cs
    else match splitChars sep cs with
      | p :: ps => (c :: p) :: ps
      | [] => [[c]]

/-- `strings.Split` for a separator of one character. -/
def Split (s : String) (sep : Char) : List String :=
  (splitChars sep s.toList).map String.mk

/-- `headerContainsToken`. -/
def headerContainsToken (h : List (String × List String)) (key token : String) : Bool :=
  let value := headerGet h key
  if value = "" then false
  else (Split value ',').any (fun part => EqualFold (TrimSpace part) token)

/-- Upgrader of simplews.go; `none` is the nil `CheckOrigin`. -/
structure Upgrader where
  CheckOrigin : Option (Request → Bool)

/-- The response writer, as far as `Upgrade` uses it: whether it implements
`http.Hijacker`, whether `Hijack` fails and whether writing the handshake to
the hijacked connection fails. -/
structure ResponseWriter where
  hijacker : Bool
  hijackFails : Bool
  writeFails : Bool

/-- The errors of `Upgrade`: a declared error, the error made in place for a
writer that is no hijacker, the error of `Hijack`, and the error of a write. -/
inductive HandshakeErr where
  | declared (e : WsErr)
  | notHijacker
  | hijackFailed
  | writeFailed
  deriving DecidableEq, Repr

/-- `writeHandshake`: the lines written to the connection. -/
def writeHandshake (accept : String) (header : List (String × List String)) : List String :=
  ["HTTP/1.1 101 Switching Protocols\r\n", "Upgrade: websocket\r\n",
   "Connection: Upgrade\r\n", "Sec-WebSocket-Accept: " ++ accept ++ "\r\n"]
    ++ header.flatMap (fun kv => kv.2.map (fun v => kv.1 ++ ": " ++ v ++ "\r\n"))
    ++ ["\r\n"]

/-- `(*Upgrader).Upgrade`: the error, or the new connection, and the lines
written to the connection. `computeAcceptKey`, a SHA-1 digest in base64, is the
argument `acceptKey`. -/
def Upgrader.Upgrade (u : Upgrader) (w : ResponseWriter) (r : Request)
    (responseHeader : List (String × List String)) (acceptKey : String → String) :
    Except HandshakeErr Conn × List String :=
  if EqualFold r.Method "GET" = false then
    (Except.error (HandshakeErr.declared WsErr.errBadRequest), [])
  else if (match u.CheckOrigin with
      | some check => !(check r)
      | none => false) = true then
    (Except.error (HandshakeErr.declared WsErr.errBadRequest), [])
  else if headerContainsToken r.Header "Connection" "Upgrade" = false
      ∨ headerContainsToken r.Header "Upgrade" "websocket" = false then
    (Except.error (HandshakeErr.declared WsErr.errBadRequest), [])
  else
    let key := headerGet r.Header "Sec-Websocket-Key"
    if key = "" then (Except.error (HandshakeErr.declared WsErr.errBadRequest), [])
    else if headerGet r.Header "Sec-Websocket-Version" ≠ "13" then
      (Except.error (HandshakeErr.declared WsErr.errBadRequest), [])
    else
      let accept := acceptKey key
      if w.hijacker = false then (Except.error HandshakeErr.notHijacker, [])
      else if w.hijackFails = true then (Except.error HandshakeErr.hijackFailed, [])
      else if w.writeFails = true then (Except.error HandshakeErr.writeFailed, [])
      else (Except.ok { readLimit := 0 }, writeHandshake accept responseHeader)

/-! ## auth: manager.go and token_store.go

Instants are whole seconds, so that `t.Unix()` is `t` and a duration is a
number of seconds. The functions of other packages that the manager calls are
the fields of `Lib`. -/

namespace Auth

/-- `RoleAdmin` of manager.go. -/
abbrev RoleAdmin : String := "admin"

/-- `RolePlayer` of manager.go. -/
abbrev RolePlayer : String := "player"

/-- The declared errors of manager.go, and the error of the token store for a
token that is not stored. -/
inductive AuthErr where
  | accountExists
  | invalidCredentials
  | forbidden
  | unauthorized
  | invalidUsername
  | invalidPassword
  | accountNotFound
  | tokenNotFound
  deriving DecidableEq, Repr

/-- Account of manager.go. -/
structure Account where
  Username : String := ""
  DisplayName : String := ""
  Role : String := ""
  Agency : String := ""
  CreatedAt : Time := 0
  CreatedBy : String := ""
  deriving DecidableEq, Repr

/-- AccountRecord of manager.go: the embedded account and the password hash. -/
structure AccountRecord extends Account where
  PasswordHash : List Nat := []
  deriving DecidableEq, Repr

/-- A value of `jwt.MapClaims`, as far as the manager writes and reads them. -/
inductive ClaimValue where
  | str (s : String)
  | num (n : Int)
  deriving DecidableEq, Repr

/-- The functions of other packages: `strings.ToLower`, `sha256.Sum256`, and
of golang-jwt `SignedString` with HS256 under a secret and `jwt.Parse` under
the same secret at an instant, which gives the claims of a token it holds
valid and `none` otherwise. -/
structure Lib where
  ToLower : String → String
  Sum256 : String → List Nat
  SignedString : String → List (String × ClaimValue) → String
  Parse : String → String → Time → Option (List (String × ClaimValue))

/-- `claims[key].(string)`: the value and whether the assertion holds. -/
def claimString (claims : List (String × ClaimValue)) (key : String) : String × Bool :=
  match mapGet claims key with
  | some (ClaimValue.str s) => (s, true)
  | _ => ("", false)

/-- `normalizeUsername`. -/
def normalizeUsername (lib : Lib) (username : String) : String :=
  lib.ToLower (TrimSpace username)

/-- The account repository `memoryAccountRepo` of manager_test.go: the records
by user name. A repository over a database can fail in other ways, which are
not modelled. -/
structure memoryAccountRepo where
  accounts : List (String × AccountRecord) := []

/-- `(*memoryAccountRepo).CreateAccount`. -/
def memoryAccountRepo.CreateAccount (lib : Lib) (r : memoryAccountRepo) (record : AccountRecord)
    (now : Time) : Except AuthErr Account × memoryAccountRepo :=
  let username := normalizeUsername lib record.Username
  if username = "" then (Except.error AuthErr.invalidUsername, r)
  else if (mapGet r.accounts username).isSome then (Except.error AuthErr.accountExists, r)
  else
    let clone : AccountRecord := { record with Username := username }
    let clone1 : AccountRecord :=
      if clone.CreatedAt = 0 then { clone with CreatedAt := now } else clone
    (Except.ok clone1.toAccount, { r with accounts := mapSet r.accounts username clone1 })

/-- `(*memoryAccountRepo).FindByUsername`. -/
def memoryAccountRepo.FindByUsername (lib : Lib) (r : memoryAccountRepo) (username : String) :
    Except AuthErr AccountRecord :=
  match mapGet r.accounts (normalizeUsername lib username) with
  | some account => Except.ok account
  | none => Except.error AuthErr.accountNotFound

/-- The token store `RedisTokenStore` of token_store.go: under each token the
subject and the instant at which the key expires, `none` for a key that does
not expire. The fixed prefix of the keys is left out, and so are the failures
of the connection to Redis. -/
structure RedisTokenStore where
  keys : List (String × (String × Option Time)) := []

/-- `(*RedisTokenStore).SaveToken`: `SET` with the time to live, which Redis
applies when it is positive. -/
def RedisTokenStore.SaveToken (s : RedisTokenStore) (token subject : String) (ttl : Int)
    (now : Time) : RedisTokenStore :=
  { s with keys := mapSet s.keys token (subject, if ttl > 0 then some (now + ttl) else none) }

/-- `(*RedisTokenStore).DeleteToken`. -/
def RedisTokenStore.DeleteToken (s : RedisTokenStore) (token : String) : RedisTokenStore :=
  { s with keys := s.keys.filter (fun kv => decide (kv.1 ≠ token)) }

/-- `(*RedisTokenStore).LookupSubject`: `GET`, which finds no key that has
expired. -/
def RedisTokenStore.LookupSubject (s : RedisTokenStore) (token : String) (now : Time) :
    Except AuthErr String :=
  match mapGet s.keys token with
  | some (subject, some expiry) =>
    if now < expiry then Except.ok subject else Except.error AuthErr.tokenNotFound
  | some (subject, none) => Except.ok subject
  | none => Except.error AuthErr.tokenNotFound

/-- Manager of manager.go. -/
structure Manager where
  repo : memoryAccountRepo := {}
  tokens : RedisTokenStore := {}
  jwtSecret : String
  jwtIssuer : String
  tokenTTL : Int

/-- `hashPassword`. -/
def hashPassword (lib : Lib) (password : String) : List Nat := lib.Sum256 password

/-- `verifyPassword`. -/
def verifyPassword (lib : Lib) (hash : List Nat) (password : String) : Bool :=
  if hash.length ≠ 32 then false
  else decide (hash = lib.Sum256 password)

/-- `(*Manager).ensureBootstrapAdmin`; `none` when it returns no error. -/
def Manager.ensureBootstrapAdmin (lib : Lib) (m : Manager) (now : Time) :
    Option AuthErr × Manager :=
  match m.repo.FindByUsername lib "admin01" with
  | Except.ok _ => (none, m)
  | Except.error e =>
    if e ≠ AuthErr.accountNotFound then (some e, m)
    else
      let passwordHash := hashPassword lib "admin01pass"
      let res := m.repo.CreateAccount lib
        { Username := "admin01", DisplayName := "客服主管", Role := RoleAdmin, Agency := "master",
          CreatedBy := "system", PasswordHash := passwordHash } now
      (match res.1 with
        | Except.ok _ => none
        | Except.error err => some err, { m with repo := res.2 })

/-- `NewManager` over an empty repository and an empty token store; `none` for
the error of an empty secret. -/
def NewManager (lib : Lib) (jwtSecret jwtIssuer : String) (ttl : Int) (now : Time) :
    Option Manager :=
  let secret := TrimSpace jwtSecret
  if secret = "" then none
  else
    let ttl1 := if ttl ≤ 0 then 24 * 3600 else ttl
    let manager : Manager :=
      { jwtSecret := secret, jwtIssuer := TrimSpace jwtIssuer, tokenTTL := ttl1 }
    match manager.ensureBootstrapAdmin lib now with
    | (some _, _) => none
    | (none, manager1) => some manager1

/-- The check of the creator in `(*Manager).CreateAccount`, on the normalized
creator and user name: the error it returns, or `none` when it passes. -/
def Manager.checkCreator (lib : Lib) (m : Manager) (creator role username : String) :
    Option AuthErr :=
  if role = RoleAdmin then
    if creator ≠ "admin01" then some AuthErr.forbidden else none
  else
    if creator ≠ "" ∧ creator ≠ username then
      match m.repo.FindByUsername lib creator with
      | Except.error err =>
        if err = AuthErr.accountNotFound then some AuthErr.forbidden else some err
      | Except.ok creatorAccount =>
        if creatorAccount.Role ≠ RoleAdmin then some AuthErr.forbidden else none
    else none

/-- `(*Manager).CreateAccount`; `now 0` is the instant read for `CreatedAt`,
`now 1` the instant the repository reads. -/
def Manager.CreateAccount (lib : Lib) (m : Manager)
    (creator role agency username password displayName : String) (now : Nat → Time) :
    Except AuthErr Account × Manager :=
  let username := normalizeUsername lib username
  if username = "" then (Except.error AuthErr.invalidUsername, m)
  else if TrimSpace password = "" then (Except.error AuthErr.invalidPassword, m)
  else
    let creator := normalizeUsername lib creator
    let displayName := if displayName = "" then username else displayName
    let agency := if TrimSpace agency = "" then "default" else TrimSpace agency
    match m.checkCreator lib creator role username with
    | some err => (Except.error err, m)
    | none =>
      let createdBy := if creator = "" then username else creator
      let passwordHash := hashPassword lib password
      let account : AccountRecord :=
        { Username := username, DisplayName := displayName, Role := role, Agency := agency,
          CreatedBy := createdBy, CreatedAt := now 0, PasswordHash := passwordHash }
      let res := m.repo.CreateAccount lib account (now 1)
      (res.1, { m with repo := res.2 })

/-- The claims that `(*Manager).generateToken` signs. -/
def Manager.claims (m : Manager) (account : Account) (now : Time) : List (String × ClaimValue) :=
  let claims : List (String × ClaimValue) :=
    [("sub", ClaimValue.str account.Username), ("role", ClaimValue.str account.Role),
      ("agency", ClaimValue.str account.Agency), ("iat", ClaimValue.num now),
      ("exp", ClaimValue.num (now + m.tokenTTL))]
  if m.jwtIssuer ≠ "" then mapSet claims "iss" (ClaimValue.str m.jwtIssuer) else claims

/-- `(*Manager).generateToken`. -/
def Manager.generateToken (lib : Lib) (m : Manager) (account : Account) (now : Time) : String :=
  lib.SignedString m.jwtSecret (m.claims account now)

/-- `(*Manager).Login`. -/
def Manager.Login (lib : Lib) (m : Manager) (username password : String) (now : Time) :
    Except AuthErr (String × Account) × Manager :=
  let username := normalizeUsername lib username
  if username = "" ∨ TrimSpace password = "" then (Except.error AuthErr.invalidCredentials, m)
  else
    match m.repo.FindByUsername lib username with
    | Except.error err =>
      if err = AuthErr.accountNotFound then (Except.error AuthErr.invalidCredentials, m)
      else (Except.error err, m)
    | Except.ok record =>
      if verifyPassword lib record.PasswordHash password = false then
        (Except.error AuthErr.invalidCredentials, m)
      else
        let token := m.generateToken lib record.toAccount now
        (Except.ok (token, record.toAccount),
          { m with tokens := m.tokens.SaveToken token record.Username m.tokenTTL now })

/-- `(*Manager).Authenticate`. -/
def Manager.Authenticate (lib : Lib) (m : Manager) (token : String) (now : Time) :
    Except AuthErr Account :=
  let token := TrimSpace token
  if token = "" then Except.error AuthErr.unauthorized
  else
    match lib.Parse m.jwtSecret token now with
    | none => Except.error AuthErr.unauthorized
    | some claims =>
      if (claimString claims "iss").2 = true ∧ m.jwtIssuer ≠ ""
          ∧ (claimString claims "iss").1 ≠ m.jwtIssuer then
        Except.error AuthErr.unauthorized
      else
        let subject := (claimString claims "sub").1
        if subject = "" then Except.error AuthErr.unauthorized
        else
          match m.tokens.LookupSubject token now with
          | Except.error _ => Except.error AuthErr.unauthorized
          | Except.ok storedSubject =>
            if storedSubject ≠ subject then Except.error AuthErr.unauthorized
            else
              match m.repo.FindByUsername lib subject with
              | Except.error _ => Except.error AuthErr.unauthorized
              | Except.ok record => Except.ok record.toAccount

/-- `(*Manager).Logout`. -/
def Manager.Logout (m : Manager) (token : String) : Manager :=
  let token := TrimSpace token
  if token = "" then m
  else { m with tokens := m.tokens.DeleteToken token }

end Auth

/-! ## hub.go and room.go: the order of the locks

The calls of `Lock`, `RLock`, `Unlock` and `RUnlock` on `Hub.mu` and `Room.mu`
that an operation makes, in program order, with the statements between them:
a lookup in the room map, the creation of a room with its insertion, and any
other work. A deferred unlock is the last event of its function. -/

/-- The mutexes: `Hub.mu`, and `Room.mu` of the room with the given id. -/
inductive Mutex where
  | hub
  | room (id : String)
  deriving DecidableEq, Repr

/-- An event of an operation; `write` tells `Lock` from `RLock`. -/
inductive LockEvent where
  | acquire (mu : Mutex) (write : Bool)
  | release (mu : Mutex) (write : Bool)
  | lookup
  | create
  | work
  deriving DecidableEq, Repr

/-- A method of room.go that takes `r.mu` on entry and defers the unlock. -/
def Room.locked (r : Room) (write : Bool) : List LockEvent :=
  [LockEvent.acquire (Mutex.room r.id) write, LockEvent.work,
    LockEvent.release (Mutex.room r.id) write]

/-- The events of `(*Hub).getRoom`. -/
def Hub.getRoomLocks : List LockEvent :=
  [LockEvent.acquire Mutex.hub false, LockEvent.lookup, LockEvent.release Mutex.hub false]

/-- The events of `(*Hub).getOrCreateRoom`. -/
def Hub.getOrCreateRoomLocks (h : Hub) (roomID : String) : List LockEvent :=
  [LockEvent.acquire Mutex.hub true, LockEvent.lookup]
    ++ (match mapGet h.rooms roomID with
      | some _ => []
      | none => [LockEvent.create])
    ++ [LockEvent.release Mutex.hub true]

/-- The events of `(*Hub).broadcast`: the envelope is serialised, `Clients`
reads the room, and the payload is offered to the queues. -/
def Hub.broadcastLocks (room : Room) : List LockEvent :=
  [LockEvent.work] ++ room.locked false ++ [LockEvent.work]

/-- The events of `(*Hub).Register`: `getOrCreateRoom`, `AddClient`,
`MessagesSince`, the history envelope and `broadcast`; `ID` takes no lock. -/
def Hub.RegisterLocks (h : Hub) (c : Client) (now : Nat → Time) : List LockEvent :=
  if c.RoomID = "" then []
  else
    let hr := h.getOrCreateRoom c.RoomID (now 0)
    h.getOrCreateRoomLocks c.RoomID ++ hr.2.locked true ++ hr.2.locked false
      ++ [LockEvent.work] ++ Hub.broadcastLocks hr.2

/-- The events of `(*Hub).Unregister`: `getRoom`, `RemoveClient` and
`broadcast`. -/
def Hub.UnregisterLocks (h : Hub) (c : Client) : List LockEvent :=
  if c.RoomID = "" then []
  else
    Hub.getRoomLocks
      ++ (match h.getRoom c.RoomID with
        | none => []
        | some room => room.locked true ++ Hub.broadcastLocks room)

/-- The events of `(*Hub).HandleIncoming`: `getRoom`, then `AddMessage` and
`broadcast` for a chat message, `Touch`, `NextSequence` and `broadcast` for a
typing notice, `MessagesSince` and `SendEnvelope` for a history request. -/
def Hub.HandleIncomingLocks (h : Hub) (c : Client) (env : Envelope) (now : Nat → Time) :
    List LockEvent :=
  Hub.getRoomLocks
    ++ (match h.getRoom c.RoomID with
      | none => []
      | some room =>
        let env1 := if IsZero env.Timestamp then { env with Timestamp := now 0 } else env
        let env2 := env1.Normalize
        if env2.Cmd = MessageTypeChat then
          if env2.Content = "" then [LockEvent.work]
          else [LockEvent.work] ++ room.locked true ++ Hub.broadcastLocks room
        else if env2.Cmd = MessageTypeTyping then
          [LockEvent.work] ++ room.locked true ++ room.locked false ++ Hub.broadcastLocks room
        else if env2.Cmd = MessageTypeHistory then
          [LockEvent.work] ++ room.locked false ++ [LockEvent.work]
        else [LockEvent.work])

/-- The events of `(*Hub).Rooms`: under the read lock of the hub, `Summary` of
every room and the append of its result, then the sort. -/
def Hub.RoomsLocks (h : Hub) : List LockEvent :=
  [LockEvent.acquire Mutex.hub false]
    ++ h.rooms.flatMap (fun kr => kr.2.locked false ++ [LockEvent.work])
    ++ [LockEvent.work, LockEvent.release Mutex.hub false]

/-- The events of `(*Hub).RoomSnapshot`: `getRoom` and `Snapshot`. -/
def Hub.RoomSnapshotLocks (h : Hub) (roomID : String) : List LockEvent :=
  Hub.getRoomLocks
    ++ (match h.getRoom roomID with
      | none => []
      | some room => room.locked false)

/-- The events of `(*Hub).MessagesSince`: `getRoom` and `MessagesSince` of the
room. -/
def Hub.MessagesSinceLocks (h : Hub) (roomID : String) : List LockEvent :=
  Hub.getRoomLocks
    ++ (match h.getRoom roomID with
      | none => []
      | some room => room.locked false)

/-- The events of `(*Hub).OnlineAgents`: under the read lock of the hub,
`AgentParticipants` of every room and the loop over its agents, then the copy
of the catalog and the sort. -/
def Hub.OnlineAgentsLocks (h : Hub) : List LockEvent :=
  [LockEvent.acquire Mutex.hub false]
    ++ h.rooms.flatMap (fun kr => kr.2.locked false ++ [LockEvent.work])
    ++ [LockEvent.work, LockEvent.release Mutex.hub false]

/-- The events of `(*Hub).AssignAgent`: `getRoom`, `agentPresence`, which calls
`OnlineAgents`, `SetAssignedAgent`, `AssignedAgent` and `broadcast`. -/
def Hub.AssignAgentLocks (h : Hub) (roomID agentID displayName : String) (now : Nat → Time) :
    List LockEvent :=
  Hub.getRoomLocks
    ++ (match h.getRoom roomID with
      | none => []
      | some room =>
        let displayName1 :=
          match h.agentPresence agentID with
          | some presence =>
            if presence.DisplayName ≠ "" then presence.DisplayName else displayName
          | none => displayName
        let room1 := room.SetAssignedAgent agentID displayName1 (now 0)
        h.OnlineAgentsLocks ++ [LockEvent.work] ++ room.locked true ++ room.locked false
          ++ (match room1.AssignedAgent with
            | none => []
            | some _ => Hub.broadcastLocks room))

/-- A call of an exported operation of the hub. -/
inductive HubCall where
  | register (c : Client) (now : Nat → Time)
  | unregister (c : Client)
  | handleIncoming (c : Client) (env : Envelope) (now : Nat → Time)
  | rooms
  | roomSnapshot (roomID : String)
  | assignAgent (roomID agentID displayName : String) (now : Nat → Time)
  | messagesSince (roomID : String)
  | onlineAgents

/-- The events of a call on the hub `h`. -/
def Hub.locks (h : Hub) : HubCall → List LockEvent
  | HubCall.register c now => h.RegisterLocks c now
  | HubCall.unregister c => h.UnregisterLocks c
  | HubCall.handleIncoming c env now => h.HandleIncomingLocks c env now
  | HubCall.rooms => h.RoomsLocks
  | HubCall.roomSnapshot roomID => h.RoomSnapshotLocks roomID
  | HubCall.assignAgent roomID agentID displayName now =>
    h.AssignAgentLocks roomID agentID displayName now
  | HubCall.messagesSince roomID => h.MessagesSinceLocks roomID
  | HubCall.onlineAgents => h.OnlineAgentsLocks

/-! ## hub.go and client.go: sends when a channel can be closed

`close(c.send)` in `Close` makes every later send on the channel panic, also
inside a `select` with a `default` branch. The calls of the hub that send are
given here over `Conns`, which records the closed channels, with the panic as
an outcome; the rest of each call is as in the functions over `Hub`. -/

/-- How a call ends: it returns, or it panics on a send on a closed channel. -/
inductive Outcome (α : Type) where
  | returns (a : α)
  | panics
  deriving DecidableEq, Repr

/-- `select { case c.send <- p: ...; default: ... }`: a panic when `c.send` is
closed, the non-blocking send otherwise. -/
def Conns.trySendTo (s : Conns) (c : Client) (p : Envelope) : Outcome (Conns × Bool) :=
  if c ∈ s.closed then Outcome.panics
  else Outcome.returns ({ s with hub := (s.hub.trySendTo c p).1 }, (s.hub.trySendTo c p).2)

/-- The loop of `broadcast`: it stops at the first send that panics. -/
def Conns.sendAll : Conns → List Client → Envelope → Outcome Conns
  | s, [], _ => Outcome.returns s
  | s, client :: rest, payload =>
    match s.trySendTo client payload with
    | Outcome.panics => Outcome.panics
    | Outcome.returns r => Conns.sendAll r.1 rest payload

/-- `(*Hub).broadcast`. -/
def Conns.broadcast (s : Conns) (room : Room) (env : Envelope) (now : Time) : Outcome Conns :=
  let env1 := env.Normalize
  let env2 := if IsZero env1.Timestamp then { env1 with Timestamp := now } else env1
  s.sendAll room.Clients env2

/-- `(*Client).SendEnvelope`. -/
def Conns.SendEnvelope (s : Conns) (c : Client) (env : Envelope) (now : Time) :
    Outcome (Conns × Option Err) :=
  let env1 := if IsZero env.Timestamp then { env with Timestamp := now } else env
  let env2 := env1.Normalize
  match s.trySendTo c env2 with
  | Outcome.panics => Outcome.panics
  | Outcome.returns r =>
    if r.2 then Outcome.returns (r.1, none) else Outcome.returns (s, some Err.sendBufferFull)

/-- The end of a call that returns no error once its broadcast has returned. -/
def Outcome.noError (o : Outcome Conns) : Outcome (Conns × Option Err) :=
  match o with
  | Outcome.panics => Outcome.panics
  | Outcome.returns s => Outcome.returns (s, none)

/-- `(*Hub).HandleIncoming`; the clock is read as in `Hub.HandleIncoming`. -/
def Conns.HandleIncoming (s : Conns) (c : Client) (env : Envelope) (now : Nat → Time) :
    Outcome (Conns × Option Err) :=
  match s.hub.getRoom c.RoomID with
  | none => Outcome.returns (s, some Err.ErrRoomNotFound)
  | some room =>
    let env1 := if IsZero env.Timestamp then { env with Timestamp := now 0 } else env
    let env2 := env1.Normalize
    if env2.Cmd = MessageTypeChat then
      if env2.Content = "" then Outcome.returns (s, some Err.contentRequired)
      else
        let chat : ChatMessage :=
          { RoomID := c.RoomID, SenderID := c.ID, SenderRole := c.Role,
            DisplayName := c.DisplayName, Content := env2.Content,
            Timestamp := env2.Timestamp }
        let rs := room.AddMessage chat (now 1)
        let out : Envelope :=
          { env2 with
            Cmd := MessageTypeChat, Type_ := MessageTypeChat, RoomID := c.RoomID,
            SenderID := c.ID, SenderRole := c.Role, DisplayName := c.DisplayName,
            Timestamp := rs.2.Timestamp, Seq := rs.2.Sequence, Ack := rs.2.Sequence }
        (Conns.broadcast { s with hub := s.hub.setRoom c.RoomID rs.1 } rs.1 out (now 2)).noError
    else if env2.Cmd = MessageTypeTyping then
      let out : Envelope :=
        { env2 with
          Cmd := MessageTypeTyping, Type_ := MessageTypeTyping, RoomID := c.RoomID,
          SenderID := c.ID, SenderRole := c.Role, DisplayName := c.DisplayName }
      let room1 := room.Touch out.Timestamp
      let out1 := { out with Ack := room1.NextSequence }
      (Conns.broadcast { s with hub := s.hub.setRoom c.RoomID room1 } room1 out1 (now 2)).noError
    else if env2.Cmd = MessageTypeHistory then
      let since := historySince env2
      let hn := room.MessagesSince since
      let response : Envelope :=
        { Cmd := MessageTypeHistory, Type_ := MessageTypeHistory, RoomID := c.RoomID,
          Timestamp := env2.Timestamp, History := hn.1, Seq := hn.2, Ack := hn.2,
          Payload := some [("messages", PayloadValue.messages hn.1),
                           ("nextSeq", PayloadValue.int hn.2)] }
      s.SendEnvelope c response (now 1)
    else Outcome.returns (s, some Err.ErrUnknownMessage)

/-- `(*Hub).AssignAgent`; the clock is read as in `Hub.AssignAgent`. -/
def Conns.AssignAgent (s : Conns) (roomID agentID displayName : String) (now : Nat → Time) :
    Outcome (Conns × Except Err Participant) :=
  match s.hub.getRoom roomID with
  | none => Outcome.returns (s, Except.error Err.ErrRoomNotFound)
  | some room =>
    let displayName1 :=
      match s.hub.agentPresence agentID with
      | some presence => if presence.DisplayName ≠ "" then presence.DisplayName else displayName
      | none => displayName
    let room1 := room.SetAssignedAgent agentID displayName1 (now 0)
    let s1 : Conns := { s with hub := s.hub.setRoom roomID room1 }
    match room1.AssignedAgent with
    | none => Outcome.returns (s1, Except.error Err.unableToAssign)
    | some assigned =>
      match s1.broadcast room1
        { Cmd := MessageTypeSystem, Type_ := MessageTypeSystem, RoomID := roomID,
          Timestamp := now 1,
          Content := "客服 " ++ displayName1 ++ " 將協助這個對話",
          SenderID := agentID, SenderRole := RoleAgent, DisplayName := displayName1,
          Metadata := some [("assignedAgent", displayName1), ("assignedAgentId", agentID)] }
        (now 2) with
      | Outcome.panics => Outcome.panics
      | Outcome.returns s2 => Outcome.returns (s2, Except.ok assigned)

/-! ## Specification vocabulary -/

/-- Rooms built from `NewRoom` by the five mutating operations of room.go. -/
inductive Room.Reachable : Room → Prop where
  | newRoom (id : String) (now : Time) : Room.Reachable (NewRoom id now)
  | addClient (r : Room) (c : Client) (now : Nat → Time) :
      Room.Reachable r → Room.Reachable (r.AddClient c now).1
  | removeClient (r : Room) (c : Client) (now : Time) :
      Room.Reachable r → Room.Reachable (r.RemoveClient c now)
  | touch (r : Room) (ts : Time) : Room.Reachable r → Room.Reachable (r.Touch ts)
  | addMessage (r : Room) (msg : ChatMessage) (now : Time) :
      Room.Reachable r → Room.Reachable (r.AddMessage msg now).1
  | setAssignedAgent (r : Room) (agentID displayName : String) (now : Time) :
      Room.Reachable r → Room.Reachable (r.SetAssignedAgent agentID displayName now)

/-- The sequence invariant: entry `i` of the history has sequence `i + 1`, and
the counter equals the length of the history. -/
def Room.SeqInv (r : Room) : Prop :=
  (∀ (i : Nat) (hi : i < r.history.length), (r.history.get ⟨i, hi⟩).Sequence = (i : Int) + 1)
    ∧ r.nextSequence = (r.history.length : Int)

/-- The registry in which `ensureParticipantLocked` keeps the participant of a
client: the players for the role `player`, the agents for every other role. -/
def Room.registryOf (r : Room) (c : Client) : List (String × Nat) :=
  if c.Role = RolePlayer then r.players else r.agents

/-- Well-formed pointers of a room: every registry entry points at a stored
participant whose id is the key of the entry, and the assigned agent, if set,
is the participant the agents registry holds under its id. -/
def Room.WF (r : Room) : Prop :=
  (∀ (k : String) (p : Nat), mapGet r.players k = some p →
      ∃ x : Participant, r.parts[p]? = some x ∧ x.ID = k)
    ∧ (∀ (k : String) (p : Nat), mapGet r.agents k = some p →
      ∃ x : Participant, r.parts[p]? = some x ∧ x.ID = k)
    ∧ (∀ a : Nat, r.assignedAgent = some a →
      ∃ x : Participant, r.parts[a]? = some x ∧ mapGet r.agents x.ID = some a)

/-- The live clients of a room are represented as connected: each has, in the
registry of its role, an entry under its id that points at a participant with
`Connected = true`. -/
def Room.LiveConnected (r : Room) : Prop :=
  ∀ c : Client, c ∈ r.clients →
    ∃ (p : Nat) (x : Participant),
      mapGet (r.registryOf c) c.ID = some p ∧ r.parts[p]? = some x ∧ x.Connected = true

/-- The room `r1` keeps what `r` knows about its participants: every registry
entry of `r` is an entry of `r1`, and a pointer at a connected participant in
`r` points at a connected participant in `r1`. -/
def Room.Keeps (r r1 : Room) : Prop :=
  (∀ (k : String) (p : Nat), mapGet r.players k = some p → mapGet r1.players k = some p)
    ∧ (∀ (k : String) (p : Nat), mapGet r.agents k = some p → mapGet r1.agents k = some p)
    ∧ (∀ (q : Nat) (x : Participant), r.parts[q]? = some x → x.Connected = true →
        ∃ y : Participant, r1.parts[q]? = some y ∧ y.Connected = true)

/-- Rooms reachable when no two clients that are live at the same time share a
participant id and an agent is assigned only while no live client has its
id. -/
inductive Room.ReachableDistinct : Room → Prop where
  | newRoom (id : String) (now : Time) : Room.ReachableDistinct (NewRoom id now)
  | addClient (r : Room) (c : Client) (now : Nat → Time) :
      Room.ReachableDistinct r → (∀ d : Client, d ∈ r.clients → d ≠ c → d.ID ≠ c.ID) →
      Room.ReachableDistinct (r.AddClient c now).1
  | removeClient (r : Room) (c : Client) (now : Time) :
      Room.ReachableDistinct r → Room.ReachableDistinct (r.RemoveClient c now)
  | touch (r : Room) (ts : Time) :
      Room.ReachableDistinct r → Room.ReachableDistinct (r.Touch ts)
  | addMessage (r : Room) (msg : ChatMessage) (now : Time) :
      Room.ReachableDistinct r → Room.ReachableDistinct (r.AddMessage msg now).1
  | setAssignedAgent (r : Room) (agentID displayName : String) (now : Time) :
      Room.ReachableDistinct r → (∀ c : Client, c ∈ r.clients → c.ID ≠ agentID) →
      Room.ReachableDistinct (r.SetAssignedAgent agentID displayName now)

/-- An example room: two chat messages stored in a fresh room. -/
def exampleRoom : Room :=
  (((NewRoom "room-x" 100).AddMessage { SenderID := "px", Content := "hello" } 101).1.AddMessage
    { SenderID := "px", Content := "world" } 102).1

/-- An example clock: reading `i` is the instant `100 + i`. -/
def exampleClock : Nat → Time := fun i => 100 + (i : Int)

/-- A player connected to `room-1`. -/
def player1 : Client :=
  { ptr := 1, ID := "p1", DisplayName := "玩家1", Role := "player", RoomID := "room-1" }

/-- An agent connected to `room-1`. -/
def agentA : Client :=
  { ptr := 2, ID := "a1", DisplayName := "客服A", Role := "agent", RoomID := "room-1" }

/-- A client that names `room-1` but never registered with the hub. -/
def outsider : Client :=
  { ptr := 3, ID := "p9", DisplayName := "玩家9", Role := "player", RoomID := "room-1" }

/-- A hub in which `player1`, made by `NewClient`, has registered. -/
def exampleHub : Hub :=
  ((NewClient NewHub 1 "room-1" "p1" "player" "玩家1").1.Register player1 exampleClock).1

/-- The room of `exampleHub`: a fresh `room-1` joined by `player1`. -/
def joinedRoom : Room :=
  ((NewRoom "room-1" 100).AddClient player1 (fun i => exampleClock (i + 1))).1

/-- A system notice used to fill a queue. -/
def fillerNotice : Envelope :=
  { Cmd := MessageTypeSystem, Type_ := MessageTypeSystem, RoomID := "room-1", Timestamp := 50 }

/-- The room of `crowdedHub`: `player1` and `agentA` are live. -/
def crowdedRoom : Room :=
  { id := "room-1", clients := [player1, agentA],
    parts := [{ ID := "p1", DisplayName := "玩家1", Role := "player", Connected := true,
                LastSeen := 10 },
              { ID := "a1", DisplayName := "客服A", Role := "agent", Connected := true,
                LastSeen := 20 }],
    players := [("p1", 0)], agents := [("a1", 1)], createdAt := 10, lastActivity := 20 }

/-- A hub whose room has two live clients; the queue of `agentA`, of capacity
16, already holds 16 undelivered envelopes and the queue of `player1` is
empty. -/
def crowdedHub : Hub :=
  { rooms := [("room-1", crowdedRoom)],
    sends := [(player1, { cap := 16, buf := [] }),
              (agentA, { cap := 16, buf := List.replicate 16 fillerNotice })] }

/-- A room in which the agent `a1` was assigned before connecting, then
connected as `agentA`. -/
def assignedRoom : Room :=
  ((joinedRoom.SetAssignedAgent "a1" "客服A" 200).AddClient agentA exampleClock).1

/-- A fresh room joined by `agentA`. -/
def agentRoom : Room := ((NewRoom "room-1" 100).AddClient agentA exampleClock).1

/-- A hub in which `agentA`, made by `NewClient`, has registered. -/
def agentHub : Hub :=
  ((NewClient NewHub 2 "room-1" "a1" "agent" "客服A").1.Register agentA exampleClock).1

/-- A second connection of the player `p1`: another client with the same id. -/
def player1Tab : Client :=
  { ptr := 7, ID := "p1", DisplayName := "玩家1", Role := "player", RoomID := "room-1" }

/-- A client whose role is neither `player` nor `agent`. -/
def adminClient : Client :=
  { ptr := 8, ID := "x1", DisplayName := "Admin", Role := "admin", RoomID := "room-1" }

/-- A client with the id of `player1` and the role `agent`. -/
def agentP1 : Client :=
  { ptr := 9, ID := "p1", DisplayName := "客服P", Role := "agent", RoomID := "room-1" }

/-- Two connections of the player `p1` joined `room-1` and the second one
left. -/
def sharedIdRoom : Room :=
  ((joinedRoom.AddClient player1Tab exampleClock).1.RemoveClient player1Tab 200)

/-- The player `p1` joined and left `room-1`, then a client with the same id
joined as an agent. -/
def reusedIdRoom : Room :=
  ((joinedRoom.RemoveClient player1 200).AddClient agentP1 exampleClock).1

/-- A clock that reads `200 + i`, later than every reading of `exampleClock`
used to build `exampleHub`. -/
def laterClock : Nat → Time := fun i => 200 + (i : Int)

/-- The room `getOrCreateRoom` returns: the one stored under the id, or a new
one. -/
def Hub.roomFor (h : Hub) (roomID : String) (now : Time) : Room :=
  (h.getRoom roomID).getD (NewRoom roomID now)

/-- The room of a registering client once `AddClient` has run. -/
def Hub.registeredRoom (h : Hub) (c : Client) (now : Nat → Time) : Room :=
  ((h.roomFor c.RoomID (now 0)).AddClient c (fun i => now (i + 1))).1

/-- The `chat.history` envelope `Register` sends to a new client of `room`. -/
def historyEnvelope (room : Room) (t : Time) : Envelope :=
  { Cmd := MessageTypeHistory, Type_ := MessageTypeHistory, RoomID := room.id,
    Timestamp := t, History := room.history, Seq := room.nextSequence,
    Ack := room.nextSequence,
    Payload := some [("messages", PayloadValue.messages room.history),
                     ("nextSeq", PayloadValue.int room.nextSequence)] }

/-- The join notice of the specification: the display name of the client, its
role in parentheses and the text 加入對話, with the sender fields of the
client. -/
def joinNotice (c : Client) (room : Room) (t : Time) : Envelope :=
  { Cmd := MessageTypeSystem, Type_ := MessageTypeSystem, RoomID := room.id,
    Timestamp := t, Content := c.DisplayName ++ " (" ++ c.Role ++ ") 加入對話",
    SenderID := c.ID, SenderRole := c.Role, DisplayName := c.DisplayName }

/-- A hub in which two connections of the player `p1`, both made by
`NewClient`, registered with `room-1` and the second one unregistered. -/
def twoTabsHub : Hub :=
  ((((NewClient (NewClient NewHub 1 "room-1" "p1" "player" "玩家1").1 7 "room-1" "p1" "player"
      "玩家1").1.Register player1 exampleClock).1.Register player1Tab exampleClock).1.Unregister
    player1Tab exampleClock)

/-- The payload serialised for `env`: the envelope normalised, a zero timestamp
replaced by `now`, as `broadcast` and `SendEnvelope` both produce it. -/
def wireForm (env : Envelope) (now : Time) : Envelope :=
  if env.Normalize.Timestamp = 0 then { env.Normalize with Timestamp := now }
  else env.Normalize

/-- The channel `ch` with `p` enqueued if it has room, unchanged otherwise. -/
def Chan.offer (ch : Chan) (p : Envelope) : Chan :=
  if ch.buf.length < ch.cap then { ch with buf := ch.buf ++ [p] } else ch

/-- The envelope `e` with its `senderId`, `senderRole`, `displayName` and
`roomId` replaced: what a client may claim about the sender. -/
def Envelope.withSender (e : Envelope) (senderID senderRole displayName roomID : String) :
    Envelope :=
  { e with SenderID := senderID, SenderRole := senderRole, DisplayName := displayName,
           RoomID := roomID }

/-- The `since` of a history request in the words of the specification: the
`seq` of the envelope if it is not zero, otherwise the decimal integer under
`since` in the metadata if present and parseable, otherwise 0. -/
def sinceOf (env : Envelope) : Int :=
  if env.Seq ≠ 0 then env.Seq
  else
    match env.Metadata with
    | none => 0
    | some md =>
      (match mapGet md "since" with
       | none => 0
       | some value => (ParseInt value).getD 0)

/-- The calls that change a hub or the queue of a client: `NewClient`, the four
mutating operations of the hub, `sendSystemError` of the read loop and the
receive of the write loop. -/
inductive HubOp where
  | newClient (ptr : Nat) (roomID id role displayName : String)
  | register (c : Client) (now : Nat → Time)
  | unregister (c : Client) (now : Nat → Time)
  | handleIncoming (c : Client) (env : Envelope) (now : Nat → Time)
  | assignAgent (roomID agentID displayName : String) (now : Nat → Time)
  | sendSystemError (c : Client) (message : String) (now : Nat → Time)
  | receive (c : Client)

/-- The hub after one call. -/
def Hub.step (h : Hub) : HubOp → Hub
  | HubOp.newClient ptr roomID id role displayName =>
    (NewClient h ptr roomID id role displayName).1
  | HubOp.register c now => (h.Register c now).1
  | HubOp.unregister c now => h.Unregister c now
  | HubOp.handleIncoming c env now => (h.HandleIncoming c env now).1
  | HubOp.assignAgent roomID agentID displayName now =>
    (h.AssignAgent roomID agentID displayName now).1
  | HubOp.sendSystemError c message now => c.sendSystemError h message now
  | HubOp.receive c => (h.recv c).1

/-- The hub after the calls `ops`, made one at a time, starting from `h`. -/
def Hub.runFrom (h : Hub) (ops : List HubOp) : Hub := ops.foldl Hub.step h

/-- The hub after the calls `ops`, made one at a time on a new hub. -/
def Hub.run (ops : List HubOp) : Hub := NewHub.runFrom ops

/-- The room id on behalf of which a hub operation is performed. -/
def HubOp.roomOf : HubOp → Option String
  | HubOp.register c _ => some c.RoomID
  | HubOp.unregister c _ => some c.RoomID
  | HubOp.handleIncoming c _ _ => some c.RoomID
  | HubOp.assignAgent roomID _ _ _ => some roomID
  | _ => none

/-- Whether the call `op`, made on the hub `h`, is a `Register` for the room id
`k` that returns no error. -/
def HubOp.registers (op : HubOp) (h : Hub) (k : String) : Bool :=
  match op with
  | HubOp.register c now => decide (c.RoomID = k) && (h.Register c now).2.isNone
  | _ => false

/-- Whether some `Register` among the calls `ops`, made one at a time from the
hub `h`, was for the room id `k` and returned no error. -/
def everRegistered (k : String) : Hub → List HubOp → Bool
  | _, [] => false
  | h, op :: rest => op.registers h k || everRegistered k (h.step op) rest

/-- The invariant of the room map: the keys are distinct and not empty, and the
room under a key has that key as its id, is reachable by the operations of
room.go, and has live clients made for that room id only. -/
def Hub.Inv (h : Hub) : Prop :=
  (h.rooms.map (fun kr => kr.1)).Nodup
    ∧ ∀ (k : String) (r : Room), h.getRoom k = some r →
        k ≠ "" ∧ r.id = k ∧ r.Reachable ∧ ∀ d : Client, d ∈ r.clients → d.RoomID = k

/-- A player connected to `room-2`. -/
def player2 : Client :=
  { ptr := 5, ID := "p2", DisplayName := "玩家2", Role := "player", RoomID := "room-2" }

/-- Calls after which `player1` is live in `room-1` and `player2` in `room-2`. -/
def twoRoomCalls : List HubOp :=
  [HubOp.newClient 1 "room-1" "p1" "player" "玩家1", HubOp.register player1 exampleClock,
   HubOp.newClient 5 "room-2" "p2" "player" "玩家2", HubOp.register player2 exampleClock]

/-- A hub together with the messages its write loops have taken from the
queues and written to the connections, oldest first. -/
structure Session where
  hub : Hub
  written : List (Client × Envelope)

/-- One call in a session: the hub makes the call, and a receive adds the
message it took to the written messages. -/
def Session.step (s : Session) (op : HubOp) : Session :=
  { hub := s.hub.step op,
    written :=
      match op with
      | HubOp.receive c =>
        (match (s.hub.recv c).2 with
         | some p => s.written ++ [(c, p)]
         | none => s.written)
      | _ => s.written }

/-- The session after the calls `ops`, made one at a time, starting from `s`. -/
def Session.runFrom (s : Session) (ops : List HubOp) : Session := ops.foldl Session.step s

/-- The session after the calls `ops`, made one at a time on a new hub. -/
def Session.run (ops : List HubOp) : Session :=
  Session.runFrom { hub := NewHub, written := [] } ops

/-- The envelopes delivered to the client `c`, in the order of enqueueing:
those written to its connection, then those waiting in its queue. -/
def Session.deliveredTo (s : Session) (c : Client) : List Envelope :=
  (s.written.filter (fun ce => decide (ce.1 = c))).map (fun ce => ce.2) ++ (s.hub.chan c).buf

/-- Whether an envelope is a `chat.message` envelope, by `cmd` or by `type`. -/
def Envelope.isChat (e : Envelope) : Bool :=
  decide (e.Cmd = MessageTypeChat) || decide (e.Type_ = MessageTypeChat)

/-- The sequence counter of the room `roomID`, 0 while there is no such room. -/
def Hub.counterOf (h : Hub) (roomID : String) : Int :=
  match h.getRoom roomID with
  | some room => room.nextSequence
  | none => 0

/-- What one call adds to the queue of the client `d` between the hubs `h` and
`h1`: envelopes that are no chat messages, the counter of the room of `d` not
going down, or the one chat message that takes the counter one up. -/
def Hub.Enqueues (h h1 : Hub) (d : Client) : Prop :=
  ∃ es : List Envelope, (h1.chan d).buf = (h.chan d).buf ++ es
    ∧ (((∀ e : Envelope, e ∈ es → e.isChat = false)
          ∧ h.counterOf d.RoomID ≤ h1.counterOf d.RoomID)
        ∨ ∃ e : Envelope, es = [e] ∧ e.Seq = h.counterOf d.RoomID + 1
            ∧ h1.counterOf d.RoomID = h.counterOf d.RoomID + 1)

/-- The chat messages delivered to `d` are in strictly increasing order of
`seq`, and each `seq` is between 1 and the counter of the room of `d`. -/
def Session.Ordered (s : Session) (d : Client) : Prop :=
  ((s.deliveredTo d).filter Envelope.isChat).Pairwise (fun a b => a.Seq < b.Seq)
    ∧ ∀ e : Envelope, e ∈ s.deliveredTo d → e.isChat = true →
        1 ≤ e.Seq ∧ e.Seq ≤ s.hub.counterOf d.RoomID

/-- The participant under `id` in the agents registry of the room, if it is
marked connected. -/
def Room.connectedAgent (r : Room) (id : String) : Option Participant :=
  match mapGet r.agents id with
  | some p =>
    (match r.parts[p]? with
     | some x => if x.Connected = true then some x else none
     | none => none)
  | none => none

/-- The pairs the two loops of `OnlineAgents` visit, in order: the id of a room
with a participant of its agents registry. -/
def Hub.agentEntries (h : Hub) : List (String × Participant) :=
  h.rooms.flatMap (fun kr => kr.2.AgentParticipants.map (fun agent => (kr.2.id, agent)))

/-- The catalog `OnlineAgents` builds from the pairs it visits. -/
def catalogOf (P : List (String × Participant)) : List (String × AgentPresence) :=
  P.foldl (fun cat q => catalogAdd cat q.1 q.2) []

/-- The order of the specification on presences: by display name, then by
id. -/
def presenceLe (a b : AgentPresence) : Prop :=
  a.DisplayName < b.DisplayName ∨ (a.DisplayName = b.DisplayName ∧ a.ID ≤ b.ID)

/-- Calls after which `player1` and `agentA` are live in `room-1`, their
queues holding the join notices only. -/
def pairCalls : List HubOp :=
  [HubOp.newClient 1 "room-1" "p1" "player" "玩家1", HubOp.register player1 exampleClock,
   HubOp.newClient 2 "room-1" "a1" "agent" "客服A", HubOp.register agentA exampleClock]

/-- A `chat.message` call to `HandleIncoming` that nothing interrupts between
`AddMessage` and `broadcast`; a call that does not get to `AddMessage` is left
out. -/
def Hub.chatCall (h : Hub) (call : Client × Envelope × (Nat → Time)) : Hub :=
  match h.storeChat call.1 call.2.1 call.2.2 with
  | some ho => ho.1.sendChat call.1.RoomID ho.2 (call.2.2 2)
  | none => h

/-- The `seq` of the `chat.message` envelopes of a queue, oldest first. -/
def chatSeqs (l : List Envelope) : List Int := (l.filter Envelope.isChat).map (fun e => e.Seq)

/-- The three forms of the length field of a frame. -/
inductive LenForm where
  | short
  | ext16
  | ext64
  deriving DecidableEq, Repr

/-- Whether a form of the length field can hold the length `n`. -/
def LenForm.holds : LenForm → Nat → Prop
  | LenForm.short, n => n ≤ 125
  | LenForm.ext16, n => n < 2 ^ 16
  | LenForm.ext64, n => n < 2 ^ 63

/-- The length field of a frame with the mask bit set, in the words of the
specification: the 7-bit form, or 126 with a 2-byte big-endian length, or 127
with an 8-byte big-endian length. -/
def maskedLenField : LenForm → Nat → List Nat
  | LenForm.short, n => [0x80 + n]
  | LenForm.ext16, n => [0x80 + 126, n / 256 % 256, n % 256]
  | LenForm.ext64, n =>
    [0x80 + 127, n / 2 ^ 56 % 256, n / 2 ^ 48 % 256, n / 2 ^ 40 % 256, n / 2 ^ 32 % 256,
     n / 2 ^ 24 % 256, n / 2 ^ 16 % 256, n / 2 ^ 8 % 256, n % 256]

/-- The payload `p` XOR-ed byte-wise with the key `k` repeated cyclically. -/
def xorCyclic (k p : List Nat) : List Nat :=
  (List.range p.length).map (fun i => p.getD i 0 ^^^ k.getD (i % 4) 0)

/-- The masked frame of the specification: the FIN+opcode byte, the length
field with the mask bit set, the key, and the masked payload. -/
def maskedFrame (opcode : Nat) (form : LenForm) (k p : List Nat) : List Nat :=
  [0x80 + opcode] ++ maskedLenField form p.length ++ k ++ xorCyclic k p

/-- The number of entries of a registry that point at a participant with
`Connected = true`. -/
def Room.connectedEntries (r : Room) (registry : List (String × Nat)) : Nat :=
  (registry.filter
    (fun kp =>
      match r.parts[kp.2]? with
      | some x => x.Connected
      | none => false)).length

/-- The function of the same name of gorilla/websocket, in the words of the
specification: true exactly for a close error whose code is not one of the
listed, expected codes. -/
def gorillaIsUnexpectedCloseError (err : WsErr) (expectedCodes : List Int) : Bool :=
  match err with
  | WsErr.closeError code _ => !(expectedCodes.contains (code : Int))
  | _ => false

/-- The unmasked length field of a frame in the words of the specification:
one byte for a length up to 125, 126 and a 2-byte big-endian length up to
65535, otherwise 127 and an 8-byte big-endian length. -/
def unmaskedLenField (n : Nat) : List Nat :=
  if n ≤ 125 then [n]
  else if n ≤ 65535 then [126, n / 256 % 256, n % 256]
  else
    [127, n / 2 ^ 56 % 256, n / 2 ^ 48 % 256, n / 2 ^ 40 % 256, n / 2 ^ 32 % 256,
     n / 2 ^ 24 % 256, n / 2 ^ 16 % 256, n / 2 ^ 8 % 256, n % 256]

/-- The unmasked frame of the specification: the byte `0x80 | opcode`, the
length field, the payload. -/
def unmaskedFrame (opcode : Nat) (d : List Nat) : List Nat :=
  [0x80 ||| opcode] ++ unmaskedLenField d.length ++ d

/-- The opcode of a message type: text 1, binary 2, close 8, ping 9, pong 10;
`none` for any other message type. -/
def opcodeOf (messageType : Int) : Option Nat :=
  if messageType = 1 ∨ messageType = 2 ∨ messageType = 8 ∨ messageType = 9 ∨ messageType = 10
  then some messageType.toNat else none

/-- The header value under `key` holds `token`: one of the pieces of the value
between commas, trimmed, equals the token when case is ignored. -/
def holdsToken (h : List (String × List String)) (key token : String) : Prop :=
  ∃ part ∈ Split (headerGet h key) ',', EqualFold (TrimSpace part) token = true

/-- The conditions of the request validation of `Upgrade`, with the method
compared ignoring case; a header is present when `Header.Get` returns a
non-empty value for it. -/
def Upgrader.Accepts (u : Upgrader) (r : Request) : Prop :=
  EqualFold r.Method "GET" = true
    ∧ (∀ check, u.CheckOrigin = some check → check r = true)
    ∧ holdsToken r.Header "Connection" "Upgrade"
    ∧ holdsToken r.Header "Upgrade" "websocket"
    ∧ headerGet r.Header "Sec-Websocket-Key" ≠ ""
    ∧ headerGet r.Header "Sec-Websocket-Version" = "13"

/-- A handshake request whose method is spelled in lower case. -/
def lowerCaseGet : Request :=
  { Method := "get"
    Header := [("Connection", ["keep-alive, Upgrade"]), ("Upgrade", ["websocket"]),
      ("Sec-Websocket-Key", ["dGhlIHNhbXBsZSBub25jZQ=="]), ("Sec-Websocket-Version", ["13"])] }

/-- A response writer that can be hijacked and written to. -/
def hijackableWriter : ResponseWriter :=
  { hijacker := true, hijackFails := false, writeFails := false }

namespace Auth

/-- The creator may create an account with a role other than admin: it is
empty, equals the new normalized user name, or names an existing account with
role admin. -/
def Manager.creatorAllowed (lib : Lib) (m : Manager) (creator username : String) : Prop :=
  normalizeUsername lib creator = ""
    ∨ normalizeUsername lib creator = normalizeUsername lib username
    ∨ ∃ record, m.repo.FindByUsername lib (normalizeUsername lib creator) = Except.ok record
        ∧ record.Role = RoleAdmin

/-- The call goes on to the repository: its result is the result of
`CreateAccount` of the repository on a record with the normalized user name,
the role asked for and the creator, or the user name for an empty creator. -/
def Manager.Proceeds (lib : Lib) (m : Manager)
    (creator role agency username password displayName : String) (now : Nat → Time) : Prop :=
  ∃ record : AccountRecord,
    record.Username = normalizeUsername lib username ∧ record.Role = role
      ∧ record.CreatedBy = (if normalizeUsername lib creator = "" then normalizeUsername lib username
          else normalizeUsername lib creator)
      ∧ m.CreateAccount lib creator role agency username password displayName now
        = ((m.repo.CreateAccount lib record (now 1)).1,
            { m with repo := (m.repo.CreateAccount lib record (now 1)).2 })

/-- A library for examples: ASCII letters are lowered, the digest is the first
32 character codes of the password, filled with zeros, and a token is the
subject after `jwt.`, read back without any check of the instant. -/
def demoLib : Lib :=
  { ToLower := fun s => String.mk (s.toList.map Char.toLower)
    Sum256 := fun s => (s.toList.map Char.toNat ++ List.replicate 32 0).take 32
    SignedString := fun _ claims => "jwt." ++ (claimString claims "sub").1
    Parse := fun _ token _ =>
      if token.toList.take 4 = ['j', 'w', 't', '.'] then
        some [("sub", ClaimValue.str (String.mk (token.toList.drop 4)))]
      else none }

/-- The manager of the tests right after `NewManager`, at instant 0: the
bootstrap admin is its only account and a token lives for an hour. -/
def bootManager : Manager :=
  (Manager.ensureBootstrapAdmin demoLib
    { jwtSecret := "test-secret", jwtIssuer := "test-suite", tokenTTL := 3600 } 0).2

/-- The manager after admin01 has created the admin account admin02. -/
def twoAdmins : Manager :=
  (bootManager.CreateAccount demoLib "admin01" RoleAdmin "master" "admin02" "pass" "客服02"
    (fun _ => 1)).2

end Auth

namespace Auth

/-- The library reads back, at the instant `now`, the token it signed for the
claims: the token is not empty, has no white space around it, and `Parse`
holds it valid and returns the claims. -/
def Lib.ReadsBack (lib : Lib) (secret : String) (claims : List (String × ClaimValue))
    (now : Time) : Prop :=
  lib.SignedString secret claims ≠ ""
    ∧ TrimSpace (lib.SignedString secret claims) = lib.SignedString secret claims
    ∧ lib.Parse secret (lib.SignedString secret claims) now = some claims

/-- The repository keeps every record under its own user name, which is not
empty and is in normal form, as `CreateAccount` of the repository stores it. -/
def memoryAccountRepo.Kept (lib : Lib) (r : memoryAccountRepo) : Prop :=
  ∀ kv ∈ r.accounts, kv.2.Username = kv.1 ∧ normalizeUsername lib kv.1 = kv.1 ∧ kv.1 ≠ ""

/-- `claims[key]` as a number. -/
def claimNum (claims : List (String × ClaimValue)) (key : String) : Option Int :=
  match mapGet claims key with
  | some (ClaimValue.num n) => some n
  | _ => none

/-- The library `demoLib` with a parser that checks the instant: it knows the
claims in `issued`, and holds a token valid when it is the token signed for
one of them and the instant is before its `exp`. -/
def tableLib (issued : List (List (String × ClaimValue))) : Lib :=
  { demoLib with
    Parse := fun secret token now =>
      issued.find? (fun claims =>
        decide (demoLib.SignedString secret claims = token)
          && (match claimNum claims "exp" with
            | some exp => decide (now < exp)
            | none => true)) }

/-- The manager after the player account player01 has registered itself at
instant 1. -/
def onePlayer : Manager :=
  (bootManager.CreateAccount demoLib "" RolePlayer "agency-a" "player01" "secret" "玩家01"
    (fun _ => 1)).2

/-- The account of player01. -/
def player01 : Account :=
  { Username := "player01", DisplayName := "玩家01", Role := RolePlayer, Agency := "agency-a",
    CreatedAt := 1, CreatedBy := "player01" }

/-- The library whose parser knows the token of player01 signed at instant 10,
which expires an hour later. -/
def hourLib : Lib := tableLib [onePlayer.claims player01 10]

end Auth

/-- The mutexes held after an event, given those held before it. -/
def LockEvent.after (held : List Mutex) : LockEvent → List Mutex
  | LockEvent.acquire mu _ => mu :: held
  | LockEvent.release mu _ => held.erase mu
  | _ => held

/-- The mutex of a room. -/
def Mutex.isRoom : Mutex → Bool
  | Mutex.room _ => true
  | Mutex.hub => false

/-- The event acquires a room lock while the hub lock is held. -/
def takesRoomUnderHub (held : List Mutex) : LockEvent → Bool
  | LockEvent.acquire (Mutex.room _) _ => held.contains Mutex.hub
  | _ => false

/-- The event acquires the hub lock while a room lock is held. -/
def takesHubUnderRoom (held : List Mutex) : LockEvent → Bool
  | LockEvent.acquire Mutex.hub _ => held.any Mutex.isRoom
  | _ => false

/-- The event is done under the hub lock and is neither a lookup in the room
map, nor the creation and insertion of a room, nor a release. -/
def worksUnderHub (held : List Mutex) : LockEvent → Bool
  | LockEvent.lookup => false
  | LockEvent.create => false
  | LockEvent.release _ _ => false
  | _ => held.contains Mutex.hub

/-- No event of the trace is `bad`, the trace starting with `held`. -/
def avoids (bad : List Mutex → LockEvent → Bool) : List Mutex → List LockEvent → Bool
  | _, [] => true
  | held, e :: rest => !(bad held e) && avoids bad (e.after held) rest

/-- The call is one of those that visit every room: `Rooms`, `OnlineAgents`,
and `AssignAgent`, which calls `OnlineAgents`. -/
def HubCall.visitsAllRooms : HubCall → Bool
  | HubCall.rooms => true
  | HubCall.onlineAgents => true
  | HubCall.assignAgent _ _ _ _ => true
  | _ => false

/-- Rooms reachable when every client that is added has the role player or
agent. -/
inductive Room.ReachableRoles : Room → Prop where
  | newRoom (id : String) (now : Time) : Room.ReachableRoles (NewRoom id now)
  | addClient (r : Room) (c : Client) (now : Nat → Time) :
      Room.ReachableRoles r → (c.Role = RolePlayer ∨ c.Role = RoleAgent) →
      Room.ReachableRoles (r.AddClient c now).1
  | removeClient (r : Room) (c : Client) (now : Time) :
      Room.ReachableRoles r → Room.ReachableRoles (r.RemoveClient c now)
  | touch (r : Room) (ts : Time) : Room.ReachableRoles r → Room.ReachableRoles (r.Touch ts)
  | addMessage (r : Room) (msg : ChatMessage) (now : Time) :
      Room.ReachableRoles r → Room.ReachableRoles (r.AddMessage msg now).1
  | setAssignedAgent (r : Room) (agentID displayName : String) (now : Time) :
      Room.ReachableRoles r → Room.ReachableRoles (r.SetAssignedAgent agentID displayName now)

/-- The invariant behind the connected flag: every stored participant is the
one its registry holds under its id, the registries hold participants of their
role under their ids, a participant marked connected has a live client with
its id and role, and no client is live twice. -/
def Room.RolesInv (r : Room) : Prop :=
  (∀ (i : Nat) (x : Participant), r.parts[i]? = some x →
      (x.Role = RolePlayer ∧ mapGet r.players x.ID = some i)
        ∨ (x.Role = RoleAgent ∧ mapGet r.agents x.ID = some i))
    ∧ (∀ (k : String) (p : Nat), mapGet r.players k = some p →
        ∃ x : Participant, r.parts[p]? = some x ∧ x.ID = k ∧ x.Role = RolePlayer)
    ∧ (∀ (k : String) (p : Nat), mapGet r.agents k = some p →
        ∃ x : Participant, r.parts[p]? = some x ∧ x.ID = k ∧ x.Role = RoleAgent)
    ∧ (∀ (i : Nat) (x : Participant), r.parts[i]? = some x → x.Connected = true →
        ∃ c : Client, c ∈ r.clients ∧ c.ID = x.ID ∧ c.Role = x.Role)
    ∧ r.clients.Nodup

/-- The call adds no client with a role other than player or agent. -/
def HubOp.rolesOk : HubOp → Prop
  | HubOp.register c _ => c.Role = RolePlayer ∨ c.Role = RoleAgent
  | _ => True

/-- A hub in which `player1` and `agentA` have registered with `room-1`. -/
def sharedHub : Hub :=
  ((NewClient exampleHub 2 "room-1" "a1" "agent" "客服A").1.Register agentA laterClock).1

/-- The hub `sharedHub` after the write loop of `player1` has exited: the queue
of `player1` is closed and `player1` is still a live client of `room-1`. -/
def halfClosed : Conns := player1.writePumpExit { hub := sharedHub, closed := [] }

/-- The room `room-1` of `sharedHub`: `player1` and `agentA` are live. -/
def sharedRoom : Room := (joinedRoom.AddClient agentA (fun i => laterClock (i + 1))).1

/-- The legacy alias table in the words of the specification. -/
def aliasTable : List (String × String) :=
  [("message", "chat.message"), ("typing", "chat.typing"), ("history", "chat.history"),
   ("system", "system.notice")]

/-- A command name mapped through the alias table, any other string unchanged. -/
def aliasOf (value : String) : String := (mapGet aliasTable value).getD value

/-! ## Envelope normalisation -/

theorem normalizeLegacyType_of_not_alias (v : String) (h1 : v ≠ "message")
    (h2 : v ≠ "typing") (h3 : v ≠ "history") (h4 : v ≠ "system") :
    normalizeLegacyType v = v := by
  unfold normalizeLegacyType
  simp [h1, h2, h3, h4]

theorem normalizeLegacyType_eq_aliasOf (v : String) : normalizeLegacyType v = aliasOf v := by
  by_cases h1 : v = "message"
  · subst h1; decide
  by_cases h2 : v = "typing"
  · subst h2; decide
  by_cases h3 : v = "history"
  · subst h3; decide
  by_cases h4 : v = "system"
  · subst h4; decide
  rw [normalizeLegacyType_of_not_alias v h1 h2 h3 h4]
  have g1 : ¬ "message" = v := fun h => h1 h.symm
  have g2 : ¬ "typing" = v := fun h => h2 h.symm
  have g3 : ¬ "history" = v := fun h => h3 h.symm
  have g4 : ¬ "system" = v := fun h => h4 h.symm
  simp [aliasOf, aliasTable, mapGet, g1, g2, g3, g4]

theorem normalizeLegacyType_idem (v : String) :
    normalizeLegacyType (normalizeLegacyType v) = normalizeLegacyType v := by
  by_cases h1 : v = "message"
  · subst h1; decide
  by_cases h2 : v = "typing"
  · subst h2; decide
  by_cases h3 : v = "history"
  · subst h3; decide
  by_cases h4 : v = "system"
  · subst h4; decide
  rw [normalizeLegacyType_of_not_alias v h1 h2 h3 h4,
    normalizeLegacyType_of_not_alias v h1 h2 h3 h4]

theorem normalizeLegacyType_eq_empty (v : String) : normalizeLegacyType v = "" ↔ v = "" := by
  by_cases h1 : v = "message"
  · subst h1; decide
  by_cases h2 : v = "typing"
  · subst h2; decide
  by_cases h3 : v = "history"
  · subst h3; decide
  by_cases h4 : v = "system"
  · subst h4; decide
  rw [normalizeLegacyType_of_not_alias v h1 h2 h3 h4]

theorem normalizeLegacyType_values :
    normalizeLegacyType "" = "" ∧ normalizeLegacyType "message" = "chat.message"
      ∧ normalizeLegacyType "typing" = "chat.typing"
      ∧ normalizeLegacyType "history" = "chat.history"
      ∧ normalizeLegacyType "system" = "system.notice" := by decide

theorem Normalize_eq (e : Envelope) :
    e.Normalize =
      { e with
        Cmd := if normalizeLegacyType e.Cmd = "" then normalizeLegacyType e.Type_
               else normalizeLegacyType e.Cmd,
        Type_ := if normalizeLegacyType e.Type_ = "" then normalizeLegacyType e.Cmd
                 else normalizeLegacyType e.Type_ } := by
  unfold Envelope.Normalize
  by_cases ha : normalizeLegacyType e.Cmd = "" <;>
    by_cases hb : normalizeLegacyType e.Type_ = "" <;> simp [ha, hb]

/-- C6: `Normalize` is idempotent on every envelope, whatever strings its
`cmd` and `type` hold. -/
theorem Normalize_idempotent (e : Envelope) : e.Normalize.Normalize = e.Normalize := by
  rw [Normalize_eq e, Normalize_eq]
  by_cases ha : normalizeLegacyType e.Cmd = "" <;>
    by_cases hb : normalizeLegacyType e.Type_ = "" <;>
    simp [ha, hb, normalizeLegacyType_idem, normalizeLegacyType_values.1]

/-- C7: `Normalize` sends `cmd` and `type` through the alias table, then fills
an empty `cmd` from `type` and an empty `type` from `cmd`, and keeps every
other field; afterwards `cmd` is empty exactly when `type` is, and an envelope
carrying only a legacy alias in one of the two fields gets the canonical
`cmd`. -/
theorem Normalize_spec (e : Envelope) :
    e.Normalize =
        { e with
          Cmd := if aliasOf e.Cmd = "" then aliasOf e.Type_ else aliasOf e.Cmd,
          Type_ := if aliasOf e.Type_ = ""
                   then (if aliasOf e.Cmd = "" then aliasOf e.Type_ else aliasOf e.Cmd)
                   else aliasOf e.Type_ }
      ∧ (e.Normalize.Cmd = "" ↔ e.Normalize.Type_ = "")
      ∧ aliasOf "message" = "chat.message" ∧ aliasOf "typing" = "chat.typing"
      ∧ aliasOf "history" = "chat.history" ∧ aliasOf "system" = "system.notice"
      ∧ ({ e with Cmd := "message", Type_ := "" }).Normalize.Cmd = "chat.message"
      ∧ ({ e with Cmd := "typing", Type_ := "" }).Normalize.Cmd = "chat.typing"
      ∧ ({ e with Cmd := "history", Type_ := "" }).Normalize.Cmd = "chat.history"
      ∧ ({ e with Cmd := "system", Type_ := "" }).Normalize.Cmd = "system.notice"
      ∧ ({ e with Cmd := "", Type_ := "message" }).Normalize.Cmd = "chat.message"
      ∧ ({ e with Cmd := "", Type_ := "typing" }).Normalize.Cmd = "chat.typing"
      ∧ ({ e with Cmd := "", Type_ := "history" }).Normalize.Cmd = "chat.history"
      ∧ ({ e with Cmd := "", Type_ := "system" }).Normalize.Cmd = "system.notice" := by
  refine ⟨?_, ?_, by decide, by decide, by decide, by decide, ?_, ?_, ?_, ?_, ?_, ?_, ?_, ?_⟩
  · rw [Normalize_eq, ← normalizeLegacyType_eq_aliasOf, ← normalizeLegacyType_eq_aliasOf]
    by_cases ha : normalizeLegacyType e.Cmd = "" <;>
      by_cases hb : normalizeLegacyType e.Type_ = "" <;> simp [ha, hb]
  · rw [Normalize_eq]
    by_cases ha : normalizeLegacyType e.Cmd = "" <;>
      by_cases hb : normalizeLegacyType e.Type_ = "" <;> simp [ha, hb]
  all_goals
    obtain ⟨v0, v1, v2, v3, v4⟩ := normalizeLegacyType_values
    simp [Normalize_eq, v0, v1, v2, v3, v4]

/-! ## The sequence counter and the history -/

theorem update_history (r : Room) (p : Nat) (f : Participant → Participant) :
    (r.update p f).history = r.history := by
  unfold Room.update; split <;> rfl

theorem update_nextSequence (r : Room) (p : Nat) (f : Participant → Participant) :
    (r.update p f).nextSequence = r.nextSequence := by
  unfold Room.update; split <;> rfl

theorem ensureParticipantLocked_history (r : Room) (c : Client) (now : Time) :
    (r.ensureParticipantLocked c now).1.history = r.history
      ∧ (r.ensureParticipantLocked c now).1.nextSequence = r.nextSequence := by
  unfold Room.ensureParticipantLocked
  dsimp only
  constructor <;> (repeat' split) <;> simp only [update_history, update_nextSequence]

theorem AddClient_history (r : Room) (c : Client) (now : Nat → Time) :
    (r.AddClient c now).1.history = r.history
      ∧ (r.AddClient c now).1.nextSequence = r.nextSequence := by
  unfold Room.AddClient
  split
  · exact ensureParticipantLocked_history r c (now 0)
  · have h := ensureParticipantLocked_history { r with clients := r.clients ++ [c] } c (now 0)
    simp only [update_history, update_nextSequence]
    exact h

theorem RemoveClient_history (r : Room) (c : Client) (now : Time) :
    (r.RemoveClient c now).history = r.history
      ∧ (r.RemoveClient c now).nextSequence = r.nextSequence := by
  unfold Room.RemoveClient
  dsimp only
  constructor <;> (repeat' split) <;> simp only [update_history, update_nextSequence]

theorem Touch_history (r : Room) (ts : Time) :
    (r.Touch ts).history = r.history ∧ (r.Touch ts).nextSequence = r.nextSequence := by
  unfold Room.Touch
  constructor <;> split <;> rfl

theorem SetAssignedAgent_history (r : Room) (agentID displayName : String) (now : Time) :
    (r.SetAssignedAgent agentID displayName now).history = r.history
      ∧ (r.SetAssignedAgent agentID displayName now).nextSequence = r.nextSequence := by
  unfold Room.SetAssignedAgent
  dsimp only
  constructor <;> (repeat' split) <;> simp only [update_history, update_nextSequence]

theorem AddMessage_history (r : Room) (msg : ChatMessage) (now : Time) :
    (r.AddMessage msg now).1.history = r.history ++ [(r.AddMessage msg now).2]
      ∧ (r.AddMessage msg now).1.nextSequence = r.nextSequence + 1
      ∧ (r.AddMessage msg now).2.Sequence = r.nextSequence + 1 := by
  unfold Room.AddMessage
  dsimp only
  refine ⟨?_, ?_, rfl⟩
  · split <;> split <;> simp only [update_history]
  · split <;> split <;> simp only [update_nextSequence]

theorem SeqInv_of_eq (r r1 : Room) (hh : r1.history = r.history)
    (hn : r1.nextSequence = r.nextSequence) (hinv : r.SeqInv) : r1.SeqInv := by
  unfold Room.SeqInv at *
  rw [hh, hn]
  exact hinv

theorem SeqInv_AddMessage (r : Room) (msg : ChatMessage) (now : Time) (hinv : r.SeqInv) :
    (r.AddMessage msg now).1.SeqInv := by
  obtain ⟨hh, hn, hs⟩ := AddMessage_history r msg now
  obtain ⟨h1, h2⟩ := hinv
  refine ⟨fun i hi => ?_, ?_⟩
  · have hlen : i < (r.history ++ [(r.AddMessage msg now).2]).length := by rw [← hh]; exact hi
    have hget : (r.AddMessage msg now).1.history.get ⟨i, hi⟩
        = (r.history ++ [(r.AddMessage msg now).2]).get ⟨i, hlen⟩ := by
      simp only [List.get_eq_getElem, hh]
    rw [hget]
    by_cases hlt : i < r.history.length
    · have := h1 i hlt
      simp only [List.get_eq_getElem] at this ⊢
      rw [List.getElem_append_left hlt]
      exact this
    · have hieq : i = r.history.length := by
        simp only [List.length_append, List.length_singleton] at hlen
        omega
      subst hieq
      simp only [List.get_eq_getElem, List.getElem_concat_length]
      rw [hs, h2]
  · rw [hn, hh, h2]
    simp

theorem SeqInv_of_Reachable (r : Room) (hr : r.Reachable) : r.SeqInv := by
  induction hr with
  | newRoom id now =>
    refine ⟨fun i hi => ?_, rfl⟩
    simp [NewRoom] at hi
  | addClient r c now _ ih =>
    exact SeqInv_of_eq r _ (AddClient_history r c now).1 (AddClient_history r c now).2 ih
  | removeClient r c now _ ih =>
    exact SeqInv_of_eq r _ (RemoveClient_history r c now).1 (RemoveClient_history r c now).2 ih
  | touch r ts _ ih =>
    exact SeqInv_of_eq r _ (Touch_history r ts).1 (Touch_history r ts).2 ih
  | addMessage r msg now _ ih => exact SeqInv_AddMessage r msg now ih
  | setAssignedAgent r a d now _ ih =>
    exact SeqInv_of_eq r _ (SetAssignedAgent_history r a d now).1
      (SetAssignedAgent_history r a d now).2 ih

/-- C1: in every room reachable from `NewRoom` by `AddClient`, `RemoveClient`,
`Touch`, `AddMessage` and `SetAssignedAgent`, history entry `i` (0-based) has
sequence `i + 1` and `nextSequence` is the length of the history; every
`AddMessage` returns a message whose sequence is the previous `nextSequence`
plus one. -/
theorem sequence_invariant (r : Room) (hr : r.Reachable) :
    (∀ (i : Nat) (hi : i < r.history.length),
        (r.history.get ⟨i, hi⟩).Sequence = (i : Int) + 1)
      ∧ r.nextSequence = (r.history.length : Int)
      ∧ ∀ (msg : ChatMessage) (now : Time),
          (r.AddMessage msg now).2.Sequence = r.nextSequence + 1 :=
  ⟨(SeqInv_of_Reachable r hr).1, (SeqInv_of_Reachable r hr).2,
    fun msg now => (AddMessage_history r msg now).2.2⟩

theorem exampleRoom_reachable : exampleRoom.Reachable :=
  Room.Reachable.addMessage _ _ _ (Room.Reachable.addMessage _ _ _ (Room.Reachable.newRoom _ _))

theorem sequence_invariant_witness :
    exampleRoom.Reachable
      ∧ (∀ (i : Nat) (hi : i < exampleRoom.history.length),
          (exampleRoom.history.get ⟨i, hi⟩).Sequence = (i : Int) + 1)
      ∧ exampleRoom.nextSequence = (exampleRoom.history.length : Int)
      ∧ ∀ (msg : ChatMessage) (now : Time),
          (exampleRoom.AddMessage msg now).2.Sequence = exampleRoom.nextSequence + 1 :=
  ⟨exampleRoom_reachable, sequence_invariant exampleRoom exampleRoom_reachable⟩

/-! ## MessagesSince -/

theorem scanStart_shift (s : Int) (l : List ChatMessage) (j : Nat) :
    scanStart s l j = j + scanStart s l 0 := by
  induction l generalizing j with
  | nil => simp [scanStart]
  | cons m rest ih =>
    unfold scanStart
    split
    · simp
    · rw [ih (j + 1), ih (0 + 1)]; omega

theorem scanStart_le (s : Int) (l : List ChatMessage) : scanStart s l 0 ≤ l.length := by
  induction l with
  | nil => simp [scanStart]
  | cons m rest ih =>
    unfold scanStart
    split
    · simp
    · rw [scanStart_shift]; simp only [List.length_cons]; omega

theorem drop_scanStart (s : Int) (l : List ChatMessage)
    (hl : l.Pairwise (fun a b => a.Sequence < b.Sequence)) :
    l.drop (scanStart s l 0) = l.filter (fun m => decide (m.Sequence > s)) := by
  induction l with
  | nil => simp [scanStart]
  | cons m rest ih =>
    rw [List.pairwise_cons] at hl
    unfold scanStart
    split
    · rename_i hm
      rw [List.drop_zero]
      symm
      rw [List.filter_eq_self]
      intro a ha
      rcases List.mem_cons.1 ha with rfl | ha
      · simpa using hm
      · have := hl.1 a ha
        simp only [gt_iff_lt, decide_eq_true_eq]
        omega
    · rename_i hm
      rw [scanStart_shift, Nat.add_comm, List.drop_succ_cons, ih hl.2]
      rw [List.filter_cons_of_neg]
      simpa using hm

theorem SeqInv_pairwise (r : Room) (hinv : r.SeqInv) :
    r.history.Pairwise (fun a b => a.Sequence < b.Sequence) := by
  rw [List.pairwise_iff_get]
  intro i j hij
  rw [hinv.1 i.1 i.2, hinv.1 j.1 j.2]
  have : i.1 < j.1 := hij
  omega

theorem SeqInv_mem (r : Room) (hinv : r.SeqInv) (m : ChatMessage) (hm : m ∈ r.history) :
    1 ≤ m.Sequence ∧ m.Sequence ≤ r.nextSequence := by
  obtain ⟨i, hi, rfl⟩ := List.getElem_of_mem hm
  have := hinv.1 i hi
  simp only [List.get_eq_getElem] at this
  rw [this, hinv.2]
  omega

theorem MessagesSince_eq_filter (r : Room) (s : Int) (hinv : r.SeqInv) :
    r.MessagesSince s = (r.history.filter (fun m => decide (m.Sequence > s)), r.nextSequence) := by
  unfold Room.MessagesSince
  dsimp only
  by_cases hs : s > 0
  · simp only [hs, if_true]
    have hle := scanStart_le s r.history
    rw [if_neg (by omega), drop_scanStart s r.history (SeqInv_pairwise r hinv)]
  · simp only [hs, if_false]
    rw [if_neg (by omega), List.drop_zero]
    congr 1
    symm
    rw [List.filter_eq_self]
    intro a ha
    have := (SeqInv_mem r hinv a ha).1
    simp only [gt_iff_lt, decide_eq_true_eq]
    omega

/-- C2: in a room whose history satisfies the sequence invariant, for every
integer `s` (so for every `int64`), `MessagesSince s` returns exactly the
history entries with sequence greater than `s`, in history order, and the
current `nextSequence`; for `s ≤ 0` that is the whole history and for
`s ≥ nextSequence` the empty list. -/
theorem MessagesSince_spec (r : Room) (s : Int) (hinv : r.SeqInv) :
    r.MessagesSince s = (r.history.filter (fun m => decide (m.Sequence > s)), r.nextSequence)
      ∧ (s ≤ 0 → r.MessagesSince s = (r.history, r.nextSequence))
      ∧ (r.nextSequence ≤ s → r.MessagesSince s = ([], r.nextSequence)) := by
  refine ⟨MessagesSince_eq_filter r s hinv, fun hs => ?_, fun hs => ?_⟩
  · rw [MessagesSince_eq_filter r s hinv]
    congr 1
    rw [List.filter_eq_self]
    intro a ha
    have := (SeqInv_mem r hinv a ha).1
    simp only [gt_iff_lt, decide_eq_true_eq]
    omega
  · rw [MessagesSince_eq_filter r s hinv]
    congr 1
    rw [List.filter_eq_nil_iff]
    intro a ha
    have := (SeqInv_mem r hinv a ha).2
    simp only [gt_iff_lt, decide_eq_true_eq]
    omega

theorem MessagesSince_spec_witness :
    exampleRoom.SeqInv
      ∧ (exampleRoom.MessagesSince 1).1.map (fun m => (m.Content, m.Sequence)) = [("world", 2)]
      ∧ (exampleRoom.MessagesSince 1).2 = 2 := by
  have h := MessagesSince_spec exampleRoom 1 (SeqInv_of_Reachable _ exampleRoom_reachable)
  refine ⟨SeqInv_of_Reachable _ exampleRoom_reachable, ?_, ?_⟩
  · rw [h.1]; decide
  · rw [h.1]; decide

/-! ## Maps, channels and the broadcast loop -/

theorem mapGet_mapSet_same {α β : Type} [DecidableEq α] (m : List (α × β)) (k : α) (v : β) :
    mapGet (mapSet m k v) k = some v := by
  induction m with
  | nil => simp [mapSet, mapGet]
  | cons kv rest ih =>
    obtain ⟨k1, v1⟩ := kv
    unfold mapSet
    split
    · simp [mapGet]
    · rename_i hne
      simp only [mapGet, hne, if_false]
      exact ih

theorem mapGet_mapSet_ne {α β : Type} [DecidableEq α] (m : List (α × β)) (k k2 : α) (v : β)
    (hne : k ≠ k2) : mapGet (mapSet m k v) k2 = mapGet m k2 := by
  induction m with
  | nil => simp [mapSet, mapGet, hne]
  | cons kv rest ih =>
    obtain ⟨k1, v1⟩ := kv
    unfold mapSet
    split
    · rename_i heq
      subst heq
      simp [mapGet, hne]
    · by_cases h2 : k1 = k2
      · simp [mapGet, h2]
      · simp only [mapGet, h2, if_false]
        exact ih

theorem trySendTo_rooms (h : Hub) (c : Client) (p : Envelope) :
    (h.trySendTo c p).1.rooms = h.rooms := by
  unfold Hub.trySendTo
  dsimp only
  split <;> rfl

theorem trySendTo_chan_same (h : Hub) (c : Client) (p : Envelope) :
    (h.trySendTo c p).1.chan c = ((h.chan c).trySend p).1 := by
  unfold Hub.trySendTo
  dsimp only
  split
  · simp only [Hub.chan, mapGet_mapSet_same, Option.getD_some]
  · rename_i hf
    unfold Chan.trySend at hf ⊢
    split
    · rename_i hlt
      simp [hlt] at hf
    · rfl

theorem trySendTo_chan_ne (h : Hub) (c d : Client) (p : Envelope) (hne : c ≠ d) :
    (h.trySendTo c p).1.chan d = h.chan d := by
  unfold Hub.trySendTo
  dsimp only
  split
  · simp only [Hub.chan, mapGet_mapSet_ne _ _ _ _ hne]
  · rfl

theorem sendAll_rooms (h : Hub) (cs : List Client) (p : Envelope) :
    (h.sendAll cs p).rooms = h.rooms := by
  induction cs generalizing h with
  | nil => rfl
  | cons c rest ih =>
    show ((h.trySendTo c p).1.sendAll rest p).rooms = h.rooms
    rw [ih, trySendTo_rooms]

theorem sendAll_chan_not_mem (h : Hub) (cs : List Client) (p : Envelope) (d : Client)
    (hd : d ∉ cs) : (h.sendAll cs p).chan d = h.chan d := by
  induction cs generalizing h with
  | nil => rfl
  | cons c rest ih =>
    show ((h.trySendTo c p).1.sendAll rest p).chan d = h.chan d
    rw [ih _ (fun hm => hd (List.mem_cons_of_mem _ hm)),
      trySendTo_chan_ne _ _ _ _ (fun (heq : c = d) => hd (by rw [heq]; exact List.mem_cons_self _ _))]

theorem sendAll_chan_mem (h : Hub) (cs : List Client) (p : Envelope) (d : Client)
    (hnd : cs.Nodup) (hd : d ∈ cs) : (h.sendAll cs p).chan d = ((h.chan d).trySend p).1 := by
  induction cs generalizing h with
  | nil => simp at hd
  | cons c rest ih =>
    rw [List.nodup_cons] at hnd
    show ((h.trySendTo c p).1.sendAll rest p).chan d = ((h.chan d).trySend p).1
    rcases List.mem_cons.1 hd with rfl | hmem
    · rw [sendAll_chan_not_mem _ _ _ _ hnd.1, trySendTo_chan_same]
    · have hne : c ≠ d := fun heq => hnd.1 (by rw [heq]; exact hmem)
      rw [ih _ hnd.2 hmem, trySendTo_chan_ne _ _ _ _ hne]

theorem getRoom_setRoom (h : Hub) (k : String) (room : Room) :
    (h.setRoom k room).getRoom k = some room := by
  simp only [Hub.getRoom, Hub.setRoom, mapGet_mapSet_same]

theorem getRoom_setRoom_ne (h : Hub) (k k2 : String) (room : Room) (hne : k ≠ k2) :
    (h.setRoom k room).getRoom k2 = h.getRoom k2 := by
  simp only [Hub.getRoom, Hub.setRoom, mapGet_mapSet_ne _ _ _ _ hne]

theorem getRoom_sendAll (h : Hub) (cs : List Client) (p : Envelope) (k : String) :
    (h.sendAll cs p).getRoom k = h.getRoom k := by
  simp only [Hub.getRoom, sendAll_rooms]

theorem chan_setRoom (h : Hub) (k : String) (room : Room) (d : Client) :
    (h.setRoom k room).chan d = h.chan d := rfl

/-! ## HandleIncoming, case by case -/

theorem update_clients (r : Room) (p : Nat) (f : Participant → Participant) :
    (r.update p f).clients = r.clients := by
  unfold Room.update; split <;> rfl

theorem AddMessage_clients (r : Room) (msg : ChatMessage) (now : Time) :
    (r.AddMessage msg now).1.clients = r.clients := by
  unfold Room.AddMessage
  dsimp only
  (repeat' split) <;> simp only [update_clients]

theorem AddMessage_stored (r : Room) (msg : ChatMessage) (now : Time) :
    (r.AddMessage msg now).2 =
      { msg with
        Timestamp := if msg.Timestamp = 0 then now else msg.Timestamp,
        Sequence := r.nextSequence + 1 } := by
  unfold Room.AddMessage IsZero
  dsimp only
  by_cases h0 : msg.Timestamp = 0 <;> simp [h0]

theorem Normalize_timestamp (e : Envelope) (t : Time) :
    ({ e with Timestamp := t }).Normalize = { e.Normalize with Timestamp := t } := by
  unfold Envelope.Normalize
  dsimp only
  (repeat' split) <;> rfl

theorem Normalize_fixed (e : Envelope) (hk : normalizeLegacyType e.Cmd = e.Cmd)
    (ht : e.Type_ = e.Cmd) : e.Normalize = e := by
  rw [Normalize_eq, ht, hk]
  simp only [ite_self]
  cases e
  simp_all

/-- Setting a zero timestamp and normalising commute. -/
theorem Normalize_stamp (env : Envelope) (now0 : Time) :
    (if IsZero env.Timestamp then { env with Timestamp := now0 } else env).Normalize
      = { env.Normalize with
          Timestamp := if env.Timestamp = 0 then now0 else env.Timestamp } := by
  unfold IsZero
  by_cases h0 : env.Timestamp = 0
  · simp only [h0, decide_True, if_true, Normalize_timestamp]
  · have ht : env.Normalize.Timestamp = env.Timestamp := by rw [Normalize_eq]
    rw [if_neg (by simp [h0]), if_neg h0, ← ht]


theorem Normalize_mk (k : String) (hk : normalizeLegacyType k = k) (r s sr d ct : String)
    (t : Time) (m : StrMap) (p : Option (List (String × PayloadValue)))
    (hi : List ChatMessage) (sq a : Int) :
    (Envelope.mk k k r s sr d ct t m p hi sq a).Normalize
      = Envelope.mk k k r s sr d ct t m p hi sq a :=
  Normalize_fixed _ hk rfl

theorem Normalize_fields (e : Envelope) :
    e.Normalize.Content = e.Content ∧ e.Normalize.Timestamp = e.Timestamp
      ∧ e.Normalize.Seq = e.Seq ∧ e.Normalize.Metadata = e.Metadata := by
  rw [Normalize_eq]
  exact ⟨rfl, rfl, rfl, rfl⟩

theorem HandleIncoming_no_room (h : Hub) (c : Client) (env : Envelope) (now : Nat → Time)
    (hroom : h.getRoom c.RoomID = none) :
    h.HandleIncoming c env now = (h, some Err.ErrRoomNotFound) := by
  unfold Hub.HandleIncoming
  rw [hroom]

theorem HandleIncoming_chat_empty (h : Hub) (c : Client) (env : Envelope) (now : Nat → Time)
    (room : Room) (hroom : h.getRoom c.RoomID = some room)
    (hcmd : env.Normalize.Cmd = MessageTypeChat) (hcontent : env.Content = "") :
    h.HandleIncoming c env now = (h, some Err.contentRequired) := by
  unfold Hub.HandleIncoming
  rw [hroom]
  dsimp only
  rw [Normalize_stamp]
  dsimp only
  rw [if_pos hcmd, if_pos (by rw [(Normalize_fields env).1]; exact hcontent)]

theorem HandleIncoming_chat (h : Hub) (c : Client) (env : Envelope) (now : Nat → Time)
    (room : Room) (hroom : h.getRoom c.RoomID = some room)
    (hcmd : env.Normalize.Cmd = MessageTypeChat) (hcontent : env.Content ≠ "") :
    h.HandleIncoming c env now =
      ((h.setRoom c.RoomID
          (room.AddMessage
            { RoomID := c.RoomID, SenderID := c.ID, SenderRole := c.Role,
              DisplayName := c.DisplayName, Content := env.Content,
              Timestamp := if env.Timestamp = 0 then now 0 else env.Timestamp } (now 1)).1).sendAll
        room.clients
        { env.Normalize with
          Cmd := MessageTypeChat, Type_ := MessageTypeChat, RoomID := c.RoomID,
          SenderID := c.ID, SenderRole := c.Role, DisplayName := c.DisplayName,
          Timestamp :=
            if (if (if env.Timestamp = 0 then now 0 else env.Timestamp) = 0 then now 1
                else (if env.Timestamp = 0 then now 0 else env.Timestamp)) = 0 then now 2
            else (if (if env.Timestamp = 0 then now 0 else env.Timestamp) = 0 then now 1
                else (if env.Timestamp = 0 then now 0 else env.Timestamp)),
          Seq := room.nextSequence + 1, Ack := room.nextSequence + 1 }, none) := by
  unfold Hub.HandleIncoming
  rw [hroom]
  dsimp only
  rw [Normalize_stamp]
  dsimp only
  rw [if_pos hcmd, if_neg (by rw [(Normalize_fields env).1]; exact hcontent)]
  unfold Hub.broadcast Room.Clients
  dsimp only
  rw [Normalize_mk MessageTypeChat (by decide)]
  simp only [AddMessage_stored, AddMessage_clients, (Normalize_fields env).1, IsZero]
  congr 2
  split_ifs <;> simp_all

theorem Touch_clients (r : Room) (ts : Time) : (r.Touch ts).clients = r.clients := by
  unfold Room.Touch
  split <;> rfl

theorem historySince_Normalize (env : Envelope) (t : Time) :
    historySince { env.Normalize with Timestamp := t } = historySince env := by
  unfold historySince
  dsimp only
  rw [(Normalize_fields env).2.2.1, (Normalize_fields env).2.2.2]

theorem HandleIncoming_typing (h : Hub) (c : Client) (env : Envelope) (now : Nat → Time)
    (room : Room) (hroom : h.getRoom c.RoomID = some room)
    (hcmd : env.Normalize.Cmd = MessageTypeTyping) :
    h.HandleIncoming c env now =
      ((h.setRoom c.RoomID
          (room.Touch (if env.Timestamp = 0 then now 0 else env.Timestamp))).sendAll
        room.clients
        { env.Normalize with
          Cmd := MessageTypeTyping, Type_ := MessageTypeTyping, RoomID := c.RoomID,
          SenderID := c.ID, SenderRole := c.Role, DisplayName := c.DisplayName,
          Timestamp :=
            if (if env.Timestamp = 0 then now 0 else env.Timestamp) = 0 then now 2
            else (if env.Timestamp = 0 then now 0 else env.Timestamp),
          Ack := room.nextSequence }, none) := by
  unfold Hub.HandleIncoming
  rw [hroom]
  dsimp only
  rw [Normalize_stamp]
  dsimp only
  rw [if_neg (by rw [hcmd]; decide), if_pos hcmd]
  unfold Hub.broadcast Room.Clients Room.NextSequence
  dsimp only
  rw [Normalize_mk MessageTypeTyping (by decide)]
  simp only [Touch_clients, (Touch_history _ _).2, IsZero]
  congr 2
  split_ifs <;> simp_all

theorem HandleIncoming_history (h : Hub) (c : Client) (env : Envelope) (now : Nat → Time)
    (room : Room) (hroom : h.getRoom c.RoomID = some room)
    (hcmd : env.Normalize.Cmd = MessageTypeHistory) :
    h.HandleIncoming c env now =
      c.SendEnvelope h
        { Cmd := MessageTypeHistory, Type_ := MessageTypeHistory, RoomID := c.RoomID,
          Timestamp := if env.Timestamp = 0 then now 0 else env.Timestamp,
          History := (room.MessagesSince (historySince env)).1,
          Seq := (room.MessagesSince (historySince env)).2,
          Ack := (room.MessagesSince (historySince env)).2,
          Payload := some [("messages", PayloadValue.messages (room.MessagesSince (historySince env)).1),
                           ("nextSeq", PayloadValue.int (room.MessagesSince (historySince env)).2)] }
        (now 1) := by
  unfold Hub.HandleIncoming
  rw [hroom]
  dsimp only
  rw [Normalize_stamp]
  dsimp only
  rw [if_neg (by rw [hcmd]; decide), if_neg (by rw [hcmd]; decide), if_pos hcmd,
    historySince_Normalize]

theorem HandleIncoming_unknown (h : Hub) (c : Client) (env : Envelope) (now : Nat → Time)
    (room : Room) (hroom : h.getRoom c.RoomID = some room)
    (h1 : env.Normalize.Cmd ≠ MessageTypeChat) (h2 : env.Normalize.Cmd ≠ MessageTypeTyping)
    (h3 : env.Normalize.Cmd ≠ MessageTypeHistory) :
    h.HandleIncoming c env now = (h, some Err.ErrUnknownMessage) := by
  unfold Hub.HandleIncoming
  rw [hroom]
  dsimp only
  rw [Normalize_stamp]
  dsimp only
  rw [if_neg h1, if_neg h2, if_neg h3]

/-- The value of `SendEnvelope`: the envelope, stamped and normalised, appended
to the queue of `c` when it has room, and the buffer-full error otherwise. -/
theorem SendEnvelope_eq (c : Client) (h : Hub) (env : Envelope) (now : Time) :
    c.SendEnvelope h env now =
      if (h.chan c).buf.length < (h.chan c).cap then
        ({ h with
           sends := mapSet h.sends c
             { h.chan c with
               buf := (h.chan c).buf ++
                 [{ env.Normalize with
                    Timestamp := if env.Timestamp = 0 then now else env.Timestamp }] } }, none)
      else (h, some Err.sendBufferFull) := by
  unfold Client.SendEnvelope Hub.trySendTo Chan.trySend
  dsimp only
  rw [Normalize_stamp]
  by_cases hlt : (h.chan c).buf.length < (h.chan c).cap <;> simp [hlt]

/-! ## Chat messages -/

/-- While every queue is open: when the client's room exists with
`nextSequence = n`, the normalised
`cmd` is `chat.message`, the content is not empty and the clock never reads the
zero instant, `HandleIncoming` returns no error, appends exactly one message
with the envelope's content and sequence `n + 1` to the history of that room,
and broadcasts to the room's live clients an envelope with `cmd = type =
chat.message`, the same content, `seq = ack = n + 1` and the stored timestamp. -/
theorem HandleIncoming_chat_message (h : Hub) (c : Client) (env : Envelope) (now : Nat → Time)
    (room : Room) (n : Int) (hroom : h.getRoom c.RoomID = some room)
    (hn : room.nextSequence = n) (hcmd : env.Normalize.Cmd = MessageTypeChat)
    (hcontent : env.Content ≠ "") (hclock : ∀ i, now i ≠ 0) :
    ∃ (stored : ChatMessage) (room1 : Room) (p : Envelope),
      h.HandleIncoming c env now = ((h.setRoom c.RoomID room1).sendAll room.clients p, none)
        ∧ (h.HandleIncoming c env now).2 = none
        ∧ (h.HandleIncoming c env now).1.getRoom c.RoomID = some room1
        ∧ room1.history = room.history ++ [stored]
        ∧ room1.nextSequence = n + 1
        ∧ room1.clients = room.clients
        ∧ stored.Content = env.Content ∧ stored.Sequence = n + 1
        ∧ p.Cmd = MessageTypeChat ∧ p.Type_ = MessageTypeChat ∧ p.Content = env.Content
        ∧ p.Seq = n + 1 ∧ p.Ack = n + 1 ∧ p.Timestamp = stored.Timestamp := by
  have heq := HandleIncoming_chat h c env now room hroom hcmd hcontent
  have hts : (if env.Timestamp = 0 then now 0 else env.Timestamp) ≠ 0 := by
    split
    · exact hclock 0
    · assumption
  refine ⟨_, _, _, heq, ?_, ?_, (AddMessage_history _ _ _).1, ?_, AddMessage_clients _ _ _, ?_, ?_,
    rfl, rfl, ?_, ?_, ?_, ?_⟩
  · rw [heq]
  · rw [heq, getRoom_sendAll, getRoom_setRoom]
  · rw [(AddMessage_history _ _ _).2.1, hn]
  · rw [AddMessage_stored]
  · rw [(AddMessage_history _ _ _).2.2, hn]
  · exact (Normalize_fields env).1
  · show room.nextSequence + 1 = n + 1
    rw [hn]
  · show room.nextSequence + 1 = n + 1
    rw [hn]
  · rw [AddMessage_stored]
    simp only [if_neg hts]

theorem exampleClock_ne_zero (i : Nat) : exampleClock i ≠ 0 := by
  show (100 : Int) + (i : Int) ≠ 0
  omega

theorem HandleIncoming_chat_message_witness :
    exampleHub.getRoom player1.RoomID = some joinedRoom
      ∧ joinedRoom.nextSequence = 0
      ∧ ∃ (stored : ChatMessage) (room1 : Room) (p : Envelope),
          (exampleHub.HandleIncoming player1 { Cmd := "message", Content := "您好" }
              exampleClock).1.getRoom "room-1" = some room1
            ∧ room1.history = [stored] ∧ stored.Sequence = 1
            ∧ p.Cmd = "chat.message" ∧ p.Seq = 1 ∧ p.Ack = 1 := by
  refine ⟨by decide, by decide, ?_⟩
  obtain ⟨stored, room1, p, _, _, h3, h4, _, _, _, h8, h9, _, _, h12, h13, _⟩ :=
    HandleIncoming_chat_message exampleHub player1 { Cmd := "message", Content := "您好" }
      exampleClock joinedRoom 0 (by decide) (by decide) (by decide) (by decide)
      exampleClock_ne_zero
  exact ⟨stored, room1, p, h3, by rw [h4]; rfl, h8, h9, h12, h13⟩

/-! ## The trust boundary -/

theorem Normalize_sender (e : Envelope) (a b d r : String) :
    (e.withSender a b d r).Normalize = e.Normalize.withSender a b d r := by
  unfold Envelope.Normalize Envelope.withSender
  dsimp only
  (repeat' split) <;> rfl

/-- The result of `HandleIncoming` does not depend on the sender fields and the
room id written in the incoming envelope. -/
theorem HandleIncoming_sender_erased (h : Hub) (c : Client) (e : Envelope) (now : Nat → Time)
    (a b d r : String) :
    h.HandleIncoming c (e.withSender a b d r) now = h.HandleIncoming c e now := by
  have hN := Normalize_sender e a b d r
  cases hroom : h.getRoom c.RoomID with
  | none => rw [HandleIncoming_no_room _ _ _ _ hroom, HandleIncoming_no_room _ _ _ _ hroom]
  | some room =>
    by_cases h1 : e.Normalize.Cmd = MessageTypeChat
    · have h1b : (e.withSender a b d r).Normalize.Cmd = MessageTypeChat := by rw [hN]; exact h1
      by_cases hc : e.Content = ""
      · rw [HandleIncoming_chat_empty _ _ _ _ room hroom h1 hc,
          HandleIncoming_chat_empty _ _ _ _ room hroom h1b hc]
      · rw [HandleIncoming_chat _ _ _ _ room hroom h1 hc,
          HandleIncoming_chat _ _ _ _ room hroom h1b hc, hN]
        rfl
    · by_cases h2 : e.Normalize.Cmd = MessageTypeTyping
      · have h2b : (e.withSender a b d r).Normalize.Cmd = MessageTypeTyping := by rw [hN]; exact h2
        rw [HandleIncoming_typing _ _ _ _ room hroom h2,
          HandleIncoming_typing _ _ _ _ room hroom h2b, hN]
        rfl
      · by_cases h3 : e.Normalize.Cmd = MessageTypeHistory
        · have h3b : (e.withSender a b d r).Normalize.Cmd = MessageTypeHistory := by rw [hN]; exact h3
          rw [HandleIncoming_history _ _ _ _ room hroom h3,
            HandleIncoming_history _ _ _ _ room hroom h3b]
          rfl
        · rw [HandleIncoming_unknown _ _ _ _ room hroom h1 h2 h3,
            HandleIncoming_unknown _ _ _ _ room hroom (by rw [hN]; exact h1)
              (by rw [hN]; exact h2) (by rw [hN]; exact h3)]

/-- C4: two incoming envelopes that differ only in `senderId`, `senderRole`,
`displayName` and `roomId` give the same hub state (rooms and queues) and the
same result; for `chat.message` and `chat.typing` the envelope broadcast
carries the identity and room id of the client, and so does the stored
message. -/
theorem sender_fields_forced (h : Hub) (c : Client) (e1 e2 : Envelope) (now : Nat → Time)
    (hsame : e1.withSender e2.SenderID e2.SenderRole e2.DisplayName e2.RoomID = e2) :
    h.HandleIncoming c e1 now = h.HandleIncoming c e2 now
      ∧ (∀ room : Room, h.getRoom c.RoomID = some room →
          e1.Normalize.Cmd = MessageTypeChat → e1.Content ≠ "" →
          ∃ (stored : ChatMessage) (room1 : Room) (p : Envelope),
            h.HandleIncoming c e1 now
                = ((h.setRoom c.RoomID room1).sendAll room.clients p, none)
              ∧ room1.history = room.history ++ [stored]
              ∧ stored.SenderID = c.ID ∧ stored.SenderRole = c.Role
              ∧ stored.DisplayName = c.DisplayName ∧ stored.RoomID = c.RoomID
              ∧ p.Cmd = MessageTypeChat
              ∧ p.SenderID = c.ID ∧ p.SenderRole = c.Role
              ∧ p.DisplayName = c.DisplayName ∧ p.RoomID = c.RoomID)
      ∧ (∀ room : Room, h.getRoom c.RoomID = some room →
          e1.Normalize.Cmd = MessageTypeTyping →
          ∃ (room1 : Room) (p : Envelope),
            h.HandleIncoming c e1 now
                = ((h.setRoom c.RoomID room1).sendAll room.clients p, none)
              ∧ room1.history = room.history
              ∧ p.Cmd = MessageTypeTyping
              ∧ p.SenderID = c.ID ∧ p.SenderRole = c.Role
              ∧ p.DisplayName = c.DisplayName ∧ p.RoomID = c.RoomID) := by
  refine ⟨?_, ?_, ?_⟩
  · rw [← hsame, HandleIncoming_sender_erased]
  · intro room hroom hcmd hcontent
    refine ⟨_, _, _, HandleIncoming_chat h c e1 now room hroom hcmd hcontent,
      (AddMessage_history _ _ _).1, ?_, ?_, ?_, ?_, rfl, rfl, rfl, rfl, rfl⟩ <;>
      rw [AddMessage_stored]
  · intro room hroom hcmd
    exact ⟨_, _, HandleIncoming_typing h c e1 now room hroom hcmd, (Touch_history _ _).1,
      rfl, rfl, rfl, rfl, rfl⟩

theorem sender_fields_forced_witness :
    exampleHub.HandleIncoming player1 { Cmd := "chat.message", Content := "hi" } exampleClock
        = exampleHub.HandleIncoming player1
            { Cmd := "chat.message", Content := "hi", SenderID := "a1", SenderRole := "agent",
              DisplayName := "客服A", RoomID := "room-2" } exampleClock :=
  (sender_fields_forced exampleHub player1 { Cmd := "chat.message", Content := "hi" }
    { Cmd := "chat.message", Content := "hi", SenderID := "a1", SenderRole := "agent",
      DisplayName := "客服A", RoomID := "room-2" } exampleClock rfl).1

/-! ## Broadcast and backpressure -/

theorem trySend_fst (ch : Chan) (p : Envelope) :
    (ch.trySend p).1 = if ch.buf.length < ch.cap then { ch with buf := ch.buf ++ [p] } else ch := by
  unfold Chan.trySend
  split <;> rfl

theorem NewClient_chan (h : Hub) (ptr : Nat) (roomID id role displayName : String) :
    (NewClient h ptr roomID id role displayName).1.chan
        (NewClient h ptr roomID id role displayName).2 = { cap := 16, buf := [] } := by
  simp only [NewClient, Hub.chan, mapGet_mapSet_same, Option.getD_some]

/-- On open queues, `broadcast` serialises the envelope once and enqueues that payload to
every live client of the room whose queue holds fewer items than its capacity,
leaving every other queue, full ones included, and every room unchanged; a
client made by `NewClient` has capacity 16; and `HandleIncoming` returns no
error for a chat or typing envelope whatever the state of the queues. -/
theorem broadcast_drops_on_full (h : Hub) (room : Room) (env : Envelope) (now : Time)
    (hnd : room.clients.Nodup) :
    (∃ p : Envelope,
        p = (if env.Normalize.Timestamp = 0 then { env.Normalize with Timestamp := now }
             else env.Normalize)
          ∧ ∀ d : Client,
              (h.broadcast room env now).chan d =
                if d ∈ room.clients ∧ (h.chan d).buf.length < (h.chan d).cap
                then { h.chan d with buf := (h.chan d).buf ++ [p] } else h.chan d)
      ∧ (h.broadcast room env now).rooms = h.rooms
      ∧ (∀ (hub : Hub) (ptr : Nat) (roomID id role displayName : String),
          (NewClient hub ptr roomID id role displayName).1.chan
            (NewClient hub ptr roomID id role displayName).2 = { cap := 16, buf := [] })
      ∧ (∀ (c : Client) (e : Envelope) (clock : Nat → Time) (r : Room),
          h.getRoom c.RoomID = some r →
          (e.Normalize.Cmd = MessageTypeChat ∧ e.Content ≠ "")
            ∨ e.Normalize.Cmd = MessageTypeTyping →
          (h.HandleIncoming c e clock).2 = none) := by
  refine ⟨⟨_, rfl, fun d => ?_⟩, ?_, NewClient_chan, ?_⟩
  · have hb : h.broadcast room env now
        = h.sendAll room.clients
            (if env.Normalize.Timestamp = 0 then { env.Normalize with Timestamp := now }
             else env.Normalize) := by
      unfold Hub.broadcast Room.Clients IsZero
      dsimp only
      by_cases h0 : env.Normalize.Timestamp = 0 <;> simp [h0]
    rw [hb]
    by_cases hd : d ∈ room.clients
    · rw [sendAll_chan_mem _ _ _ _ hnd hd, trySend_fst]
      by_cases hlt : (h.chan d).buf.length < (h.chan d).cap <;> simp [hd, hlt]
    · rw [sendAll_chan_not_mem _ _ _ _ hd]
      simp [hd]
  · unfold Hub.broadcast
    exact sendAll_rooms _ _ _
  · intro c e clock r hr hcase
    rcases hcase with ⟨hc, hne⟩ | ht
    · rw [HandleIncoming_chat _ _ _ _ r hr hc hne]
    · rw [HandleIncoming_typing _ _ _ _ r hr ht]

theorem broadcast_drops_on_full_witness :
    crowdedRoom.clients.Nodup
      ∧ (crowdedHub.chan agentA).buf.length = 16 ∧ (crowdedHub.chan agentA).cap = 16
      ∧ (crowdedHub.broadcast crowdedRoom { Cmd := "system", Content := "notice" } 60).chan agentA
          = crowdedHub.chan agentA
      ∧ ((crowdedHub.broadcast crowdedRoom { Cmd := "system", Content := "notice" } 60).chan
          player1).buf
          = [{ Cmd := "system.notice", Type_ := "system.notice", Content := "notice",
               Timestamp := 60 }]
      ∧ (crowdedHub.HandleIncoming player1 { Cmd := "message", Content := "hi" }
          exampleClock).2 = none := by
  have hnd : crowdedRoom.clients.Nodup := by decide
  obtain ⟨⟨p, hp, hall⟩, _, _, hret⟩ :=
    broadcast_drops_on_full crowdedHub crowdedRoom { Cmd := "system", Content := "notice" } 60 hnd
  refine ⟨hnd, by decide, by decide, ?_, ?_, ?_⟩
  · rw [hall agentA, if_neg (by decide)]
  · rw [hall player1, if_pos (by decide), hp]
    decide
  · exact hret player1 _ exampleClock crowdedRoom (by decide) (Or.inl ⟨by decide, by decide⟩)

/-! ## Errors of HandleIncoming -/

theorem SendEnvelope_error_iff (c : Client) (h : Hub) (env : Envelope) (now : Time) :
    ((c.SendEnvelope h env now).2 ≠ none ↔ ¬ (h.chan c).buf.length < (h.chan c).cap)
      ∧ ((c.SendEnvelope h env now).2 ≠ none →
          c.SendEnvelope h env now = (h, some Err.sendBufferFull)) := by
  rw [SendEnvelope_eq]
  by_cases hlt : (h.chan c).buf.length < (h.chan c).cap <;> simp [hlt]

/-- C8: `HandleIncoming` returns an error exactly when the room of the client
does not exist, or the normalised `cmd` is `chat.message` with empty content,
or the normalised `cmd` is none of `chat.message`, `chat.typing`,
`chat.history`, or it is `chat.history` and the queue of the requester is full;
and whenever it returns an error the whole hub state, every room and every
queue, is unchanged. -/
theorem HandleIncoming_error_iff (h : Hub) (c : Client) (env : Envelope) (now : Nat → Time) :
    ((h.HandleIncoming c env now).2 ≠ none ↔
        (h.getRoom c.RoomID = none
          ∨ (env.Normalize.Cmd = MessageTypeChat ∧ env.Content = "")
          ∨ (env.Normalize.Cmd ≠ MessageTypeChat ∧ env.Normalize.Cmd ≠ MessageTypeTyping
              ∧ env.Normalize.Cmd ≠ MessageTypeHistory)
          ∨ (env.Normalize.Cmd = MessageTypeHistory
              ∧ ¬ (h.chan c).buf.length < (h.chan c).cap)))
      ∧ ((h.HandleIncoming c env now).2 ≠ none → (h.HandleIncoming c env now).1 = h)
      ∧ (h.getRoom c.RoomID = none →
          (h.HandleIncoming c env now).2 = some Err.ErrRoomNotFound)
      ∧ (h.getRoom c.RoomID ≠ none → env.Normalize.Cmd = MessageTypeChat → env.Content = "" →
          (h.HandleIncoming c env now).2 = some Err.contentRequired)
      ∧ (h.getRoom c.RoomID ≠ none → env.Normalize.Cmd ≠ MessageTypeChat →
          env.Normalize.Cmd ≠ MessageTypeTyping → env.Normalize.Cmd ≠ MessageTypeHistory →
          (h.HandleIncoming c env now).2 = some Err.ErrUnknownMessage)
      ∧ (h.getRoom c.RoomID ≠ none → env.Normalize.Cmd = MessageTypeHistory →
          ¬ (h.chan c).buf.length < (h.chan c).cap →
          (h.HandleIncoming c env now).2 = some Err.sendBufferFull) := by
  have d1 : MessageTypeChat ≠ MessageTypeHistory := by decide
  have d2 : MessageTypeTyping ≠ MessageTypeChat := by decide
  have d3 : MessageTypeTyping ≠ MessageTypeHistory := by decide
  have d4 : MessageTypeHistory ≠ MessageTypeChat := by decide
  have d5 : MessageTypeHistory ≠ MessageTypeTyping := by decide
  cases hroom : h.getRoom c.RoomID with
  | none =>
    rw [HandleIncoming_no_room _ _ _ _ hroom]
    simp
  | some room =>
    by_cases h1 : env.Normalize.Cmd = MessageTypeChat
    · by_cases hc : env.Content = ""
      · rw [HandleIncoming_chat_empty _ _ _ _ room hroom h1 hc]
        simp [h1, hc, d1]
      · rw [HandleIncoming_chat _ _ _ _ room hroom h1 hc]
        simp [h1, hc, d1]
    · by_cases h2 : env.Normalize.Cmd = MessageTypeTyping
      · rw [HandleIncoming_typing _ _ _ _ room hroom h2]
        simp [h2, d2, d3]
      · by_cases h3 : env.Normalize.Cmd = MessageTypeHistory
        · rw [HandleIncoming_history _ _ _ _ room hroom h3]
          obtain ⟨hiff, hst⟩ := SendEnvelope_error_iff c h
            { Cmd := MessageTypeHistory, Type_ := MessageTypeHistory, RoomID := c.RoomID,
              Timestamp := if env.Timestamp = 0 then now 0 else env.Timestamp,
              History := (room.MessagesSince (historySince env)).1,
              Seq := (room.MessagesSince (historySince env)).2,
              Ack := (room.MessagesSince (historySince env)).2,
              Payload := some [("messages",
                  PayloadValue.messages (room.MessagesSince (historySince env)).1),
                ("nextSeq", PayloadValue.int (room.MessagesSince (historySince env)).2)] }
            (now 1)
          refine ⟨?_, ?_, ?_, ?_, ?_, ?_⟩
          · rw [hiff]; simp [h3, d4, d5]
          · intro he; rw [hst he]
          · simp
          · simp [h3, d4]
          · simp [h3]
          · intro _ _ hfull
            rw [hst (hiff.2 hfull)]
        · rw [HandleIncoming_unknown _ _ _ _ room hroom h1 h2 h3]
          simp [h1, h2, h3]

/-! ## Membership and history requests -/

/-- C9 (the code at the failing input): a client that never registered with
`room-1`, and a client that has been removed from it, both get no error from
`HandleIncoming`, and their message is stored in the history of the room under
the next sequence number. -/
theorem HandleIncoming_ignores_membership :
    exampleHub.getRoom outsider.RoomID = some joinedRoom
      ∧ outsider ∉ joinedRoom.clients
      ∧ (exampleHub.HandleIncoming outsider { Cmd := "chat.message", Content := "hi" }
          exampleClock).2 = none
      ∧ ((exampleHub.HandleIncoming outsider { Cmd := "chat.message", Content := "hi" }
          exampleClock).1.getRoom "room-1").map
            (fun r => (r.history.map (fun m => (m.SenderID, m.Sequence)), r.nextSequence))
          = some ([("p9", 1)], 1)
      ∧ ((exampleHub.Unregister player1 exampleClock).getRoom "room-1").map
            (fun r => (r.clients, r.history, r.nextSequence)) = some ([], [], 0)
      ∧ ((exampleHub.Unregister player1 exampleClock).HandleIncoming player1
          { Cmd := "chat.message", Content := "hi" } exampleClock).2 = none
      ∧ (((exampleHub.Unregister player1 exampleClock).HandleIncoming player1
          { Cmd := "chat.message", Content := "hi" } exampleClock).1.getRoom "room-1").map
            (fun r => (r.history.map (fun m => (m.SenderID, m.Sequence)), r.nextSequence))
          = some ([("p1", 1)], 1) := by
  decide

theorem historySince_eq_sinceOf (env : Envelope) : historySince env = sinceOf env := by
  unfold historySince sinceOf
  by_cases h0 : env.Seq = 0
  · simp only [h0, ne_eq, not_true_eq_false, if_true, if_false]
    cases env.Metadata with
    | none => rfl
    | some md =>
      dsimp only
      cases mapGet md "since" with
      | none => rfl
      | some value =>
        dsimp only
        cases ParseInt value <;> rfl
  · simp [h0]

theorem chan_sends_same (h : Hub) (c : Client) (ch : Chan) :
    ({ h with sends := mapSet h.sends c ch } : Hub).chan c = ch := by
  simp only [Hub.chan, mapGet_mapSet_same, Option.getD_some]

theorem chan_sends_ne (h : Hub) (c d : Client) (ch : Chan) (hne : c ≠ d) :
    ({ h with sends := mapSet h.sends c ch } : Hub).chan d = h.chan d := by
  simp only [Hub.chan, mapGet_mapSet_ne _ _ _ _ hne]

/-- C10 fails when the queue of the requester is full: `agentA` asks for the
history while its queue holds 16 of 16 envelopes; the reply is not enqueued,
the hub is unchanged and the call returns the buffer-full error. -/
theorem history_reply_dropped_when_full :
    crowdedHub.getRoom agentA.RoomID = some crowdedRoom
      ∧ crowdedHub.HandleIncoming agentA { Cmd := "chat.history" } exampleClock
          = (crowdedHub, some Err.sendBufferFull)
      ∧ ¬ ∃ p : Envelope,
          ((crowdedHub.HandleIncoming agentA { Cmd := "chat.history" } exampleClock).1.chan
              agentA).buf = (crowdedHub.chan agentA).buf ++ [p] := by
  have heq : crowdedHub.HandleIncoming agentA { Cmd := "chat.history" } exampleClock
      = (crowdedHub, some Err.sendBufferFull) := by decide
  refine ⟨by decide, heq, ?_⟩
  rintro ⟨p, hp⟩
  rw [heq] at hp
  have := congrArg List.length hp
  simp at this

/-- C10, amended: a `chat.history` envelope leaves every room and the queue of
every client other than the requester `c` unchanged; when the queue of `c` has
room, `c` receives exactly one `chat.history` envelope whose history is
`MessagesSince since` and whose `seq` and `ack` are the `nextSequence` of the
room, `since` being the `seq` of the request if non-zero, else the parseable
decimal integer under `since` in its metadata, else 0; when the queue of `c` is
full nothing is enqueued and the call returns the buffer-full error. -/
theorem HandleIncoming_history_unicast (h : Hub) (c : Client) (env : Envelope)
    (now : Nat → Time) (room : Room) (hroom : h.getRoom c.RoomID = some room)
    (hcmd : env.Normalize.Cmd = MessageTypeHistory) :
    (h.HandleIncoming c env now).1.rooms = h.rooms
      ∧ (∀ d : Client, d ≠ c → (h.HandleIncoming c env now).1.chan d = h.chan d)
      ∧ ((h.chan c).buf.length < (h.chan c).cap →
          ∃ p : Envelope,
            (h.HandleIncoming c env now).2 = none
              ∧ (h.HandleIncoming c env now).1.chan c
                  = { h.chan c with buf := (h.chan c).buf ++ [p] }
              ∧ p.Cmd = MessageTypeHistory ∧ p.Type_ = MessageTypeHistory
              ∧ p.RoomID = c.RoomID
              ∧ p.History = (room.MessagesSince (sinceOf env)).1
              ∧ p.Seq = room.nextSequence ∧ p.Ack = room.nextSequence)
      ∧ (¬ (h.chan c).buf.length < (h.chan c).cap →
          h.HandleIncoming c env now = (h, some Err.sendBufferFull)) := by
  rw [HandleIncoming_history _ _ _ _ room hroom hcmd, SendEnvelope_eq, historySince_eq_sinceOf,
    Normalize_mk MessageTypeHistory (by decide)]
  by_cases hlt : (h.chan c).buf.length < (h.chan c).cap
  · rw [if_pos hlt]
    exact ⟨rfl, fun d hd => chan_sends_ne _ _ _ _ (Ne.symm hd),
      fun _ => ⟨_, rfl, chan_sends_same _ _ _, rfl, rfl, rfl, rfl, rfl, rfl⟩,
      fun hn => absurd hlt hn⟩
  · rw [if_neg hlt]
    exact ⟨rfl, fun _ _ => rfl, fun hp => absurd hp hlt, fun _ => rfl⟩

theorem HandleIncoming_history_unicast_witness :
    exampleHub.getRoom player1.RoomID = some joinedRoom
      ∧ ((exampleHub.HandleIncoming player1
            { Cmd := "history", Metadata := some [("since", "0")] } exampleClock).1.rooms
          = exampleHub.rooms) :=
  ⟨by decide,
    (HandleIncoming_history_unicast exampleHub player1
      { Cmd := "history", Metadata := some [("since", "0")] } exampleClock joinedRoom
      (by decide) (by decide)).1⟩

/-! ## Participants behind pointers -/

theorem update_players (r : Room) (p : Nat) (f : Participant → Participant) :
    (r.update p f).players = r.players := by
  unfold Room.update; split <;> rfl

theorem update_agents (r : Room) (p : Nat) (f : Participant → Participant) :
    (r.update p f).agents = r.agents := by
  unfold Room.update; split <;> rfl

theorem update_assignedAgent (r : Room) (p : Nat) (f : Participant → Participant) :
    (r.update p f).assignedAgent = r.assignedAgent := by
  unfold Room.update; split <;> rfl

theorem update_lastActivity (r : Room) (p : Nat) (f : Participant → Participant) :
    (r.update p f).lastActivity = r.lastActivity := by
  unfold Room.update; split <;> rfl

theorem update_createdAt (r : Room) (p : Nat) (f : Participant → Participant) :
    (r.update p f).createdAt = r.createdAt := by
  unfold Room.update; split <;> rfl

theorem update_id (r : Room) (p : Nat) (f : Participant → Participant) :
    (r.update p f).id = r.id := by
  unfold Room.update; split <;> rfl

theorem update_get (r : Room) (p : Nat) (f : Participant → Participant) (q : Nat) :
    (r.update p f).parts[q]? = if q = p then Option.map f r.parts[p]? else r.parts[q]? := by
  unfold Room.update
  cases hp : r.parts[p]? with
  | none =>
    by_cases hq : q = p
    · subst hq; simp [hp]
    · simp [hq]
  | some x =>
    by_cases hq : q = p
    · subst hq
      have hlt : q < r.parts.length := by
        rcases Nat.lt_or_ge q r.parts.length with h | h
        · exact h
        · rw [List.getElem?_eq_none h] at hp; cases hp
      simp [List.getElem?_set, hlt]
    · simp [List.getElem?_set, hq, Ne.symm hq]

theorem update_get_same (r : Room) (p : Nat) (f : Participant → Participant) (x : Participant)
    (hx : r.parts[p]? = some x) : (r.update p f).parts[p]? = some (f x) := by
  rw [update_get, if_pos rfl, hx]; rfl

theorem update_get_ne (r : Room) (p q : Nat) (f : Participant → Participant) (hne : q ≠ p) :
    (r.update p f).parts[q]? = r.parts[q]? := by
  rw [update_get, if_neg hne]

theorem update_registryOf (r : Room) (p : Nat) (f : Participant → Participant) (c : Client) :
    (r.update p f).registryOf c = r.registryOf c := by
  unfold Room.registryOf
  rw [update_players, update_agents]

/-- An update that keeps the id of the participant keeps the room well formed. -/
theorem WF_update (r : Room) (p : Nat) (f : Participant → Participant)
    (hf : ∀ x, (f x).ID = x.ID) (hwf : r.WF) : (r.update p f).WF := by
  obtain ⟨h1, h2, h3⟩ := hwf
  have key : ∀ (q : Nat) (x : Participant), r.parts[q]? = some x →
      ∃ y : Participant, (r.update p f).parts[q]? = some y ∧ y.ID = x.ID := by
    intro q x hx
    by_cases hq : q = p
    · subst hq
      exact ⟨f x, update_get_same r q f x hx, hf x⟩
    · exact ⟨x, by rw [update_get_ne r p q f hq]; exact hx, rfl⟩
  refine ⟨fun k q hk => ?_, fun k q hk => ?_, fun a ha => ?_⟩
  · rw [update_players] at hk
    obtain ⟨x, hx, hid⟩ := h1 k q hk
    obtain ⟨y, hy, hyid⟩ := key q x hx
    exact ⟨y, hy, hyid.trans hid⟩
  · rw [update_agents] at hk
    obtain ⟨x, hx, hid⟩ := h2 k q hk
    obtain ⟨y, hy, hyid⟩ := key q x hx
    exact ⟨y, hy, hyid.trans hid⟩
  · rw [update_assignedAgent] at ha
    obtain ⟨x, hx, hag⟩ := h3 a ha
    obtain ⟨y, hy, hyid⟩ := key a x hx
    exact ⟨y, hy, by rw [update_agents, hyid]; exact hag⟩

theorem WF_congr (r r1 : Room) (hp : r1.players = r.players) (ha : r1.agents = r.agents)
    (hparts : r1.parts = r.parts) (has : r1.assignedAgent = r.assignedAgent) (hwf : r.WF) :
    r1.WF := by
  unfold Room.WF at *
  rw [hp, ha, hparts, has]
  exact hwf

theorem WF_NewRoom (id : String) (now : Time) : (NewRoom id now).WF := by
  refine ⟨fun k p hk => ?_, fun k p hk => ?_, fun a ha => ?_⟩
  · simp [NewRoom, mapGet] at hk
  · simp [NewRoom, mapGet] at hk
  · simp [NewRoom] at ha

theorem WF_Touch (r : Room) (ts : Time) (hwf : r.WF) : (r.Touch ts).WF := by
  unfold Room.Touch
  split
  · exact WF_congr r _ rfl rfl rfl rfl hwf
  · exact hwf

theorem WF_AddMessage (r : Room) (msg : ChatMessage) (now : Time) (hwf : r.WF) :
    (r.AddMessage msg now).1.WF := by
  unfold Room.AddMessage
  dsimp only
  have h3 : ∀ (hist : List ChatMessage) (t : Time) (n : Int),
      ({ r with nextSequence := n, history := hist, lastActivity := t } : Room).WF :=
    fun _ _ _ => WF_congr r _ rfl rfl rfl rfl hwf
  split <;> split <;>
    first
    | exact WF_update _ _ _ (fun _ => rfl) (WF_update _ _ _ (fun _ => rfl) (h3 _ _ _))
    | exact WF_update _ _ _ (fun _ => rfl) (h3 _ _ _)
    | exact h3 _ _ _

theorem WF_RemoveClient (r : Room) (c : Client) (now : Time) (hwf : r.WF) :
    (r.RemoveClient c now).WF := by
  unfold Room.RemoveClient
  dsimp only
  have h1 : ({ r with clients := r.clients.erase c } : Room).WF :=
    WF_congr r _ rfl rfl rfl rfl hwf
  split
  · exact hwf
  · split
    · exact WF_update _ _ _ (fun _ => rfl) (WF_update _ _ _ (fun _ => rfl) h1)
    · exact h1

theorem getElem?_append_new (l : List Participant) (x : Participant) :
    (l ++ [x])[l.length]? = some x := by
  simp

theorem getElem?_append_old (l : List Participant) (x y : Participant) (q : Nat)
    (hq : l[q]? = some y) : (l ++ [x])[q]? = some y := by
  have hlt : q < l.length := by
    rcases Nat.lt_or_ge q l.length with h | h
    · exact h
    · rw [List.getElem?_eq_none h] at hq; cases hq
  rw [List.getElem?_append_left hlt]
  exact hq

theorem mapGet_mapSet (m : List (String × Nat)) (k k2 : String) (v : Nat) :
    mapGet (mapSet m k v) k2 = if k = k2 then some v else mapGet m k2 := by
  by_cases h : k = k2
  · subst h; rw [if_pos rfl, mapGet_mapSet_same]
  · rw [if_neg h, mapGet_mapSet_ne _ _ _ _ h]

/-- `ensureParticipantLocked` when the registry already has the id. -/
theorem ensure_existing (r : Room) (c : Client) (now : Time) (p : Nat)
    (hp : mapGet (r.registryOf c) c.ID = some p) :
    r.ensureParticipantLocked c now
      = (r.update p (fun x => { x with DisplayName := c.DisplayName, Role := c.Role }), p) := by
  unfold Room.ensureParticipantLocked
  unfold Room.registryOf at hp
  dsimp only
  rw [hp]

/-- `ensureParticipantLocked` in a well-formed room whose registry lacks the
id: a participant is stored behind a fresh pointer and entered under the id;
the assigned agent is not re-pointed. -/
theorem ensure_new (r : Room) (c : Client) (now : Time)
    (hp : mapGet (r.registryOf c) c.ID = none) (hwf : r.WF) :
    r.ensureParticipantLocked c now
      = ({ r with
           parts := r.parts ++ [{ ID := c.ID, DisplayName := c.DisplayName, Role := c.Role,
                                  Connected := true, LastSeen := now }],
           players := if c.Role = RolePlayer then mapSet r.players c.ID r.parts.length
                      else r.players,
           agents := if c.Role = RolePlayer then r.agents
                     else mapSet r.agents c.ID r.parts.length }, r.parts.length) := by
  unfold Room.ensureParticipantLocked
  unfold Room.registryOf at hp
  dsimp only
  rw [hp]
  dsimp only
  by_cases hrole : c.Role = RolePlayer
  · have hna : ¬ (RolePlayer = RoleAgent) := by decide
    simp only [hrole, if_true]
    rw [if_neg (fun h => hna h.1)]
  · simp only [hrole, if_false] at hp ⊢
    split
    · rename_i hcond
      exfalso
      obtain ⟨_, hid⟩ := hcond
      cases has : r.assignedAgent with
      | none => simp [has] at hid
      | some a =>
        obtain ⟨x0, hx0, hag⟩ := hwf.2.2 a has
        simp only [has, getElem?_append_old _ _ _ _ hx0, decide_eq_true_eq] at hid
        rw [hid, hp] at hag
        cases hag
    · rfl

theorem WF_ensure (r : Room) (c : Client) (now : Time) (hwf : r.WF) :
    (r.ensureParticipantLocked c now).1.WF := by
  cases hp : mapGet (r.registryOf c) c.ID with
  | some p =>
    rw [ensure_existing r c now p hp]
    exact WF_update _ _ _ (fun _ => rfl) hwf
  | none =>
    rw [ensure_new r c now hp hwf]
    obtain ⟨h1, h2, h3⟩ := hwf
    unfold Room.registryOf at hp
    by_cases hrole : c.Role = RolePlayer
    · simp only [hrole, if_true] at hp ⊢
      refine ⟨fun k q hk => ?_, fun k q hk => ?_, fun a ha => ?_⟩
      · rw [mapGet_mapSet] at hk
        split at hk
        · rename_i hkk
          cases hk
          exact ⟨_, getElem?_append_new _ _, hkk⟩
        · obtain ⟨x, hx, hid⟩ := h1 k q hk
          exact ⟨x, getElem?_append_old _ _ _ _ hx, hid⟩
      · obtain ⟨x, hx, hid⟩ := h2 k q hk
        exact ⟨x, getElem?_append_old _ _ _ _ hx, hid⟩
      · obtain ⟨x, hx, hag⟩ := h3 a ha
        exact ⟨x, getElem?_append_old _ _ _ _ hx, hag⟩
    · simp only [hrole, if_false] at hp ⊢
      refine ⟨fun k q hk => ?_, fun k q hk => ?_, fun a ha => ?_⟩
      · obtain ⟨x, hx, hid⟩ := h1 k q hk
        exact ⟨x, getElem?_append_old _ _ _ _ hx, hid⟩
      · rw [mapGet_mapSet] at hk
        split at hk
        · rename_i hkk
          cases hk
          exact ⟨_, getElem?_append_new _ _, hkk⟩
        · obtain ⟨x, hx, hid⟩ := h2 k q hk
          exact ⟨x, getElem?_append_old _ _ _ _ hx, hid⟩
      · obtain ⟨x, hx, hag⟩ := h3 a ha
        refine ⟨x, getElem?_append_old _ _ _ _ hx, ?_⟩
        show mapGet (mapSet r.agents c.ID r.parts.length) x.ID = some a
        rw [mapGet_mapSet, if_neg]
        · exact hag
        · intro heq
          rw [← heq, hp] at hag
          cases hag

theorem WF_AddClient (r : Room) (c : Client) (now : Nat → Time) (hwf : r.WF) :
    (r.AddClient c now).1.WF := by
  unfold Room.AddClient
  split
  · exact WF_ensure r c (now 0) hwf
  · dsimp only
    have h1 : ({ r with clients := r.clients ++ [c] } : Room).WF :=
      WF_congr r _ rfl rfl rfl rfl hwf
    have h2 := WF_ensure _ c (now 0) h1
    exact WF_congr _ _ rfl rfl rfl rfl
      (WF_update _ _ _ (fun _ => rfl) (WF_update _ _ _ (fun _ => rfl) h2))

theorem WF_SetAssignedAgent (r : Room) (agentID displayName : String) (now : Time)
    (hwf : r.WF) : (r.SetAssignedAgent agentID displayName now).WF := by
  unfold Room.SetAssignedAgent
  dsimp only
  cases hp : mapGet r.agents agentID with
  | some p =>
    dsimp only
    have hw : ((((r.update p (fun x => { x with DisplayName := displayName })).update p
        (fun x => { x with Role := RoleAgent })).update p
        (fun x => { x with Connected := false }))).WF :=
      WF_update _ _ _ (fun _ => rfl) (WF_update _ _ _ (fun _ => rfl)
        (WF_update _ _ _ (fun _ => rfl) hwf))
    obtain ⟨h1, h2, _⟩ := hw
    refine ⟨h1, h2, fun a ha => ?_⟩
    cases ha
    have hp2 : mapGet (((r.update p (fun x => { x with DisplayName := displayName })).update p
        (fun x => { x with Role := RoleAgent })).update p
        (fun x => { x with Connected := false })).agents agentID = some p := by
      simp only [update_agents]; exact hp
    obtain ⟨x, hx, hid⟩ := h2 agentID p hp2
    exact ⟨x, hx, by rw [hid]; exact hp2⟩
  | none =>
    dsimp only
    obtain ⟨h1, h2, h3⟩ := hwf
    have hbase : ({ r with
        parts := r.parts ++ [{ ID := agentID, DisplayName := displayName, Role := RoleAgent,
                               LastSeen := now }],
        agents := mapSet r.agents agentID r.parts.length } : Room).WF := by
      refine ⟨fun k q hk => ?_, fun k q hk => ?_, fun a ha => ?_⟩
      · obtain ⟨x, hx, hid⟩ := h1 k q hk
        exact ⟨x, getElem?_append_old _ _ _ _ hx, hid⟩
      · rw [mapGet_mapSet] at hk
        split at hk
        · rename_i hkk
          cases hk
          exact ⟨_, getElem?_append_new _ _, hkk⟩
        · obtain ⟨x, hx, hid⟩ := h2 k q hk
          exact ⟨x, getElem?_append_old _ _ _ _ hx, hid⟩
      · obtain ⟨x, hx, hag⟩ := h3 a ha
        refine ⟨x, getElem?_append_old _ _ _ _ hx, ?_⟩
        show mapGet (mapSet r.agents agentID r.parts.length) x.ID = some a
        rw [mapGet_mapSet, if_neg]
        · exact hag
        · intro heq
          rw [← heq, hp] at hag
          cases hag
    have hw := WF_update _ r.parts.length (fun x => { x with Connected := false })
      (fun _ => rfl) hbase
    obtain ⟨g1, g2, _⟩ := hw
    refine ⟨g1, g2, fun a ha => ?_⟩
    cases ha
    have hp2 : mapGet (mapSet r.agents agentID r.parts.length) agentID = some r.parts.length :=
      mapGet_mapSet_same _ _ _
    obtain ⟨x, hx, hid⟩ := g2 agentID r.parts.length (by rw [update_agents]; exact hp2)
    exact ⟨x, hx, by rw [hid, update_agents]; exact hp2⟩

theorem WF_of_Reachable (r : Room) (hr : r.Reachable) : r.WF := by
  induction hr with
  | newRoom id now => exact WF_NewRoom id now
  | addClient r c now _ ih => exact WF_AddClient r c now ih
  | removeClient r c now _ ih => exact WF_RemoveClient r c now ih
  | touch r ts _ ih => exact WF_Touch r ts ih
  | addMessage r msg now _ ih => exact WF_AddMessage r msg now ih
  | setAssignedAgent r a d now _ ih => exact WF_SetAssignedAgent r a d now ih

/-! ## The assigned agent -/

/-- C18: in every reachable room with an assigned agent, the assigned pointer
holds a participant, and the agents registry holds that same pointer under the
id of that participant, so the registry entry and the assigned agent are one
object with one id, display name, role, connected flag and last-seen time; the
same holds after any client connects, reconnects or disconnects. -/
theorem assignedAgent_in_registry (r : Room) (hr : r.Reachable) :
    (∀ a : Nat, r.assignedAgent = some a →
        ∃ x : Participant,
          r.parts[a]? = some x ∧ r.AssignedAgent = some x ∧ mapGet r.agents x.ID = some a)
      ∧ (∀ (c : Client) (now : Nat → Time) (a : Nat),
          (r.AddClient c now).1.assignedAgent = some a →
          ∃ x : Participant,
            (r.AddClient c now).1.parts[a]? = some x
              ∧ mapGet (r.AddClient c now).1.agents x.ID = some a)
      ∧ (∀ (c : Client) (now : Time) (a : Nat),
          (r.RemoveClient c now).assignedAgent = some a →
          ∃ x : Participant,
            (r.RemoveClient c now).parts[a]? = some x
              ∧ mapGet (r.RemoveClient c now).agents x.ID = some a) := by
  have hwf := WF_of_Reachable r hr
  refine ⟨fun a ha => ?_, fun c now a ha => ?_, fun c now a ha => ?_⟩
  · obtain ⟨x, hx, hag⟩ := hwf.2.2 a ha
    exact ⟨x, hx, by unfold Room.AssignedAgent; rw [ha]; exact hx, hag⟩
  · exact (WF_AddClient r c now hwf).2.2 a ha
  · exact (WF_RemoveClient r c now hwf).2.2 a ha

theorem assignedRoom_reachable : assignedRoom.Reachable :=
  Room.Reachable.addClient _ _ _
    (Room.Reachable.setAssignedAgent _ _ _ _
      (Room.Reachable.addClient _ _ _ (Room.Reachable.newRoom _ _)))

theorem assignedAgent_in_registry_witness :
    assignedRoom.Reachable
      ∧ assignedRoom.assignedAgent = some 1
      ∧ ∃ x : Participant,
          assignedRoom.parts[1]? = some x ∧ assignedRoom.AssignedAgent = some x
            ∧ mapGet assignedRoom.agents x.ID = some 1 :=
  ⟨assignedRoom_reachable, by decide,
    (assignedAgent_in_registry assignedRoom assignedRoom_reachable).1 1 (by decide)⟩

/-- C16 (the code at the failing input): `agentA` is live in the room and its
participant is connected; `SetAssignedAgent` for its id leaves the client live
and sets `Connected` to false, and after `AssignAgent` the agent is missing
from `OnlineAgents` although its connection is still in the room. -/
theorem SetAssignedAgent_disconnects_live_agent :
    agentA ∈ agentRoom.clients
      ∧ agentRoom.AgentParticipants.map (fun p => (p.ID, p.Connected)) = [("a1", true)]
      ∧ agentA ∈ (agentRoom.SetAssignedAgent "a1" "客服A" 300).clients
      ∧ (agentRoom.SetAssignedAgent "a1" "客服A" 300).AgentParticipants.map
          (fun p => (p.ID, p.Connected)) = [("a1", false)]
      ∧ agentHub.OnlineAgents.map (fun a => a.ID) = ["a1"]
      ∧ (agentHub.AssignAgent "room-1" "a1" "客服A" exampleClock).2.toOption.map
          (fun p => (p.ID, p.Connected)) = some ("a1", false)
      ∧ (agentHub.AssignAgent "room-1" "a1" "客服A" exampleClock).1.OnlineAgents = []
      ∧ ((agentHub.AssignAgent "room-1" "a1" "客服A" exampleClock).1.getRoom "room-1").map
          (fun r => r.clients) = some [agentA] := by
  decide

/-! ## RemoveClient -/

theorem RemoveClient_not_live (r : Room) (c : Client) (now : Time) (hc : c ∉ r.clients) :
    r.RemoveClient c now = r := by
  unfold Room.RemoveClient
  rw [if_pos hc]

theorem RemoveClient_frame (r : Room) (c : Client) (now : Time) :
    (r.RemoveClient c now).players = r.players ∧ (r.RemoveClient c now).agents = r.agents
      ∧ (r.RemoveClient c now).assignedAgent = r.assignedAgent
      ∧ (r.RemoveClient c now).lastActivity = r.lastActivity
      ∧ (r.RemoveClient c now).createdAt = r.createdAt
      ∧ (r.RemoveClient c now).id = r.id := by
  unfold Room.RemoveClient
  dsimp only
  refine ⟨?_, ?_, ?_, ?_, ?_, ?_⟩ <;> (repeat' split) <;>
    simp only [update_players, update_agents, update_assignedAgent, update_lastActivity,
      update_createdAt, update_id]

theorem RemoveClient_clients (r : Room) (c : Client) (now : Time) :
    (r.RemoveClient c now).clients = r.clients.erase c := by
  unfold Room.RemoveClient
  dsimp only
  split
  · rename_i hc
    rw [List.erase_of_not_mem hc]
  · split <;> simp only [update_clients]

/-- The participants after `RemoveClient` of a live client: the one the
registry chosen by `RemoveClient` holds under the id of the client is marked
disconnected, every other one is unchanged. -/
theorem RemoveClient_parts (r : Room) (c : Client) (now : Time) (hc : c ∈ r.clients) (q : Nat) :
    (r.RemoveClient c now).parts[q]? =
      if mapGet (if c.Role = RoleAgent then r.agents else r.players) c.ID = some q
      then Option.map (fun x => { x with Connected := false, LastSeen := now }) r.parts[q]?
      else r.parts[q]? := by
  unfold Room.RemoveClient
  dsimp only
  rw [if_neg (not_not.2 hc)]
  cases hp : mapGet (if c.Role = RoleAgent then r.agents else r.players) c.ID with
  | none => simp
  | some p =>
    dsimp only
    by_cases hq : q = p
    · subst hq
      simp only [update_get, if_true]
      cases r.parts[q]? <;> rfl
    · have hq2 : ¬ (some p = some q) := fun h => hq (Option.some.inj h).symm
      simp only [update_get, if_neg hq, if_neg hq2]

theorem registryOf_eq_of_role (r : Room) (c : Client)
    (hrole : c.Role = RolePlayer ∨ c.Role = RoleAgent) :
    (if c.Role = RoleAgent then r.agents else r.players) = r.registryOf c := by
  unfold Room.registryOf
  rcases hrole with h | h
  · rw [h, if_neg (by decide), if_pos rfl]
  · rw [h, if_pos rfl, if_neg (by decide)]

/-- C15 fails for a role other than `player` and `agent`: `AddClient` enters the
participant of an `admin` client in the agents registry, `RemoveClient` looks
for it in the players registry, so after the client has left the live-client
set the participant that `AddClient` created for it is still marked
connected. -/
theorem RemoveClient_misses_other_roles :
    adminClient ∈ ((NewRoom "room-1" 100).AddClient adminClient exampleClock).1.clients
      ∧ (((NewRoom "room-1" 100).AddClient adminClient exampleClock).1.RemoveClient
            adminClient 300).clients = []
      ∧ (((NewRoom "room-1" 100).AddClient adminClient exampleClock).1.RemoveClient
            adminClient 300).AgentParticipants.map (fun p => (p.ID, p.Connected))
          = [("x1", true)] := by
  decide

/-- C15, amended: for a client `c` whose role is `player` or `agent` and that
is live in a room without repeated clients, `RemoveClient` removes `c` from
the live-client set and
sets `Connected` to false, and `LastSeen` to now, on the participant that the
registry of its role holds under its id, changing no other participant;
history, `nextSequence`, `assignedAgent`, `lastActivity` and both registries
are unchanged; if `c` is not live, `RemoveClient` changes nothing. -/
theorem RemoveClient_spec (r : Room) (c : Client) (now : Time)
    (hrole : c.Role = RolePlayer ∨ c.Role = RoleAgent) (hnd : r.clients.Nodup) :
    (c ∈ r.clients →
        c ∉ (r.RemoveClient c now).clients
          ∧ (∀ d : Client, d ≠ c → (d ∈ (r.RemoveClient c now).clients ↔ d ∈ r.clients))
          ∧ (∀ (p : Nat) (x : Participant),
              mapGet (r.registryOf c) c.ID = some p → r.parts[p]? = some x →
              (r.RemoveClient c now).parts[p]?
                = some { x with Connected := false, LastSeen := now })
          ∧ (∀ q : Nat, mapGet (r.registryOf c) c.ID ≠ some q →
              (r.RemoveClient c now).parts[q]? = r.parts[q]?)
          ∧ (r.RemoveClient c now).history = r.history
          ∧ (r.RemoveClient c now).nextSequence = r.nextSequence
          ∧ (r.RemoveClient c now).assignedAgent = r.assignedAgent
          ∧ (r.RemoveClient c now).lastActivity = r.lastActivity
          ∧ (r.RemoveClient c now).players = r.players
          ∧ (r.RemoveClient c now).agents = r.agents)
      ∧ (c ∉ r.clients → r.RemoveClient c now = r) := by
  refine ⟨fun hc => ?_, RemoveClient_not_live r c now⟩
  obtain ⟨f1, f2, f3, f4, _, _⟩ := RemoveClient_frame r c now
  have hreg := registryOf_eq_of_role r c hrole
  refine ⟨?_, fun d hd => ?_, fun p x hp hx => ?_, fun q hq => ?_,
    (RemoveClient_history r c now).1, (RemoveClient_history r c now).2, f3, f4, f1, f2⟩
  · rw [RemoveClient_clients]
    exact fun hmem => (List.Nodup.mem_erase_iff hnd).1 hmem |>.1 rfl
  · rw [RemoveClient_clients]
    exact List.mem_erase_of_ne hd
  · rw [RemoveClient_parts r c now hc, hreg, if_pos hp, hx]
    rfl
  · rw [RemoveClient_parts r c now hc, hreg, if_neg hq]

theorem RemoveClient_spec_witness :
    (player1.Role = RolePlayer ∨ player1.Role = RoleAgent) ∧ joinedRoom.clients.Nodup
      ∧ player1 ∈ joinedRoom.clients
      ∧ player1 ∉ (joinedRoom.RemoveClient player1 300).clients
      ∧ (joinedRoom.RemoveClient player1 300).history = joinedRoom.history := by
  have h := (RemoveClient_spec joinedRoom player1 300 (Or.inl rfl) (by decide)).1 (by decide)
  exact ⟨Or.inl rfl, by decide, by decide, h.1, h.2.2.2.2.1⟩

/-! ## Live clients and connected participants -/

theorem LiveConnected_congr (r r1 : Room) (hc : r1.clients = r.clients)
    (hp : r1.players = r.players) (ha : r1.agents = r.agents) (hparts : r1.parts = r.parts)
    (hlc : r.LiveConnected) : r1.LiveConnected := by
  unfold Room.LiveConnected Room.registryOf at *
  rw [hc, hp, ha, hparts]
  exact hlc

theorem LiveConnected_update_keep (r : Room) (p : Nat) (f : Participant → Participant)
    (hf : ∀ x, (f x).Connected = x.Connected) (hlc : r.LiveConnected) :
    (r.update p f).LiveConnected := by
  intro c hc
  rw [update_clients] at hc
  obtain ⟨q, x, hq, hx, hcon⟩ := hlc c hc
  rw [update_registryOf]
  by_cases hqp : q = p
  · subst hqp
    exact ⟨q, f x, hq, update_get_same r q f x hx, (hf x).trans hcon⟩
  · exact ⟨q, x, hq, by rw [update_get_ne r p q f hqp]; exact hx, hcon⟩

theorem LiveConnected_update_other (r : Room) (p : Nat) (f : Participant → Participant)
    (hp : ∀ c : Client, c ∈ r.clients → mapGet (r.registryOf c) c.ID ≠ some p)
    (hlc : r.LiveConnected) : (r.update p f).LiveConnected := by
  intro c hc
  rw [update_clients] at hc
  obtain ⟨q, x, hq, hx, hcon⟩ := hlc c hc
  rw [update_registryOf]
  have hqp : q ≠ p := fun h => hp c hc (by rw [hq, h])
  exact ⟨q, x, hq, by rw [update_get_ne r p q f hqp]; exact hx, hcon⟩

theorem registryOf_cases (r : Room) (c : Client) :
    r.registryOf c = r.players ∨ r.registryOf c = r.agents := by
  unfold Room.registryOf
  split
  · exact Or.inl rfl
  · exact Or.inr rfl

/-- In a well-formed room the pointer a registry holds under a key points at a
participant with that key as id. -/
theorem WF_registryOf (r : Room) (hwf : r.WF) (c : Client) (k : String) (p : Nat)
    (hp : mapGet (r.registryOf c) k = some p) :
    ∃ x : Participant, r.parts[p]? = some x ∧ x.ID = k := by
  rcases registryOf_cases r c with h | h
  · rw [h] at hp; exact hwf.1 k p hp
  · rw [h] at hp; exact hwf.2.1 k p hp

theorem LiveConnected_Touch (r : Room) (ts : Time) (hlc : r.LiveConnected) :
    (r.Touch ts).LiveConnected := by
  unfold Room.Touch
  split
  · exact LiveConnected_congr r _ rfl rfl rfl rfl hlc
  · exact hlc

theorem LiveConnected_AddMessage (r : Room) (msg : ChatMessage) (now : Time)
    (hlc : r.LiveConnected) : (r.AddMessage msg now).1.LiveConnected := by
  unfold Room.AddMessage
  dsimp only
  have h3 : ∀ (hist : List ChatMessage) (t : Time) (n : Int),
      ({ r with nextSequence := n, history := hist, lastActivity := t } : Room).LiveConnected :=
    fun _ _ _ => LiveConnected_congr r _ rfl rfl rfl rfl hlc
  split <;> split <;>
    first
    | exact LiveConnected_update_keep _ _ _ (fun _ => rfl)
        (LiveConnected_update_keep _ _ _ (fun _ => rfl) (h3 _ _ _))
    | exact LiveConnected_update_keep _ _ _ (fun _ => rfl) (h3 _ _ _)
    | exact h3 _ _ _

theorem LiveConnected_RemoveClient (r : Room) (c : Client) (now : Time) (hwf : r.WF)
    (hnd : r.clients.Nodup)
    (hid : ∀ d : Client, d ∈ r.clients → d ≠ c → d.ID ≠ c.ID)
    (hlc : r.LiveConnected) : (r.RemoveClient c now).LiveConnected := by
  by_cases hc : c ∈ r.clients
  · intro d hd
    rw [RemoveClient_clients] at hd
    have hdc : d ≠ c := fun h => ((List.Nodup.mem_erase_iff hnd).1 hd).1 h
    have hdm : d ∈ r.clients := List.mem_of_mem_erase hd
    obtain ⟨q, x, hq, hx, hcon⟩ := hlc d hdm
    obtain ⟨f1, f2, _⟩ := RemoveClient_frame r c now
    have hreg : (r.RemoveClient c now).registryOf d = r.registryOf d := by
      unfold Room.registryOf; rw [f1, f2]
    refine ⟨q, x, by rw [hreg]; exact hq, ?_, hcon⟩
    rw [RemoveClient_parts r c now hc, if_neg]
    · exact hx
    · intro hq2
      have hx2 : ∃ y : Participant, r.parts[q]? = some y ∧ y.ID = c.ID := by
        by_cases hr : c.Role = RoleAgent
        · rw [if_pos hr] at hq2; exact hwf.2.1 _ _ hq2
        · rw [if_neg hr] at hq2; exact hwf.1 _ _ hq2
      obtain ⟨y, hy, hyid⟩ := hx2
      obtain ⟨z, hz, hzid⟩ := WF_registryOf r hwf d d.ID q hq
      rw [hy] at hz
      cases hz
      exact hid d hdm hdc (hzid.symm.trans hyid)
  · rw [RemoveClient_not_live r c now hc]
    exact hlc

theorem ensure_clients (r : Room) (c : Client) (now : Time) :
    (r.ensureParticipantLocked c now).1.clients = r.clients := by
  unfold Room.ensureParticipantLocked
  dsimp only
  (repeat' split) <;> simp only [update_clients]

theorem AddClient_clients (r : Room) (c : Client) (now : Nat → Time) :
    (r.AddClient c now).1.clients = if c ∈ r.clients then r.clients else r.clients ++ [c] := by
  unfold Room.AddClient
  split
  · exact ensure_clients r c (now 0)
  · simp only [update_clients, ensure_clients]

/-- `AddClient` of a client that is not yet live, in a well-formed room: the
pointer returned is entered under the id of the client in the registry of its
role, and it points at a connected participant with the display name and the
role of the client. -/
theorem AddClient_new_entry (r : Room) (c : Client) (now : Nat → Time) (hwf : r.WF)
    (hc : c ∉ r.clients) :
    ∃ x : Participant,
      mapGet ((r.AddClient c now).1.registryOf c) c.ID = some (r.AddClient c now).2
        ∧ (r.AddClient c now).1.parts[(r.AddClient c now).2]? = some x
        ∧ x.ID = c.ID ∧ x.DisplayName = c.DisplayName ∧ x.Role = c.Role
        ∧ x.Connected = true ∧ x.LastSeen = now 1 := by
  unfold Room.AddClient
  rw [if_neg hc]
  dsimp only
  have hwf1 : ({ r with clients := r.clients ++ [c] } : Room).WF :=
    WF_congr r _ rfl rfl rfl rfl hwf
  cases hp : mapGet (r.registryOf c) c.ID with
  | some p =>
    have hp1 : mapGet (({ r with clients := r.clients ++ [c] } : Room).registryOf c) c.ID
        = some p := hp
    rw [ensure_existing _ c (now 0) p hp1]
    dsimp only
    obtain ⟨x, hx, hid⟩ := WF_registryOf r hwf c c.ID p hp
    refine ⟨Participant.mk x.ID c.DisplayName c.Role true (now 1), ?_, ?_, hid, rfl, rfl, rfl,
      rfl⟩
    · show mapGet (Room.registryOf _ c) c.ID = some p
      unfold Room.registryOf
      simp only [update_players, update_agents]
      exact hp
    · show (Room.update _ p _).parts[p]? = _
      simp only [update_get, if_true]
      show Option.map _ (Option.map _ (Option.map _ r.parts[p]?)) = _
      rw [hx]
      rfl
  | none =>
    have hp1 : mapGet (({ r with clients := r.clients ++ [c] } : Room).registryOf c) c.ID
        = none := hp
    rw [ensure_new _ c (now 0) hp1 hwf1]
    dsimp only
    refine ⟨Participant.mk c.ID c.DisplayName c.Role true (now 1), ?_, ?_, rfl, rfl, rfl, rfl,
      rfl⟩
    · show mapGet (Room.registryOf _ c) c.ID = some r.parts.length
      unfold Room.registryOf
      simp only [update_players, update_agents]
      by_cases hrole : c.Role = RolePlayer
      · simp only [hrole, if_true, mapGet_mapSet_same]
      · simp only [hrole, if_false, mapGet_mapSet_same]
    · show (Room.update _ r.parts.length _).parts[r.parts.length]? = _
      simp only [update_get, if_true]
      show Option.map _ (Option.map _ (r.parts ++ [_])[r.parts.length]?) = _
      rw [getElem?_append_new]
      rfl

theorem Keeps_refl (r : Room) : r.Keeps r :=
  ⟨fun _ _ h => h, fun _ _ h => h, fun _ x hx hc => ⟨x, hx, hc⟩⟩

theorem Keeps_trans (r r1 r2 : Room) (h1 : r.Keeps r1) (h2 : r1.Keeps r2) : r.Keeps r2 := by
  refine ⟨fun k p h => h2.1 k p (h1.1 k p h), fun k p h => h2.2.1 k p (h1.2.1 k p h),
    fun q x hx hc => ?_⟩
  obtain ⟨y, hy, hyc⟩ := h1.2.2 q x hx hc
  exact h2.2.2 q y hy hyc

theorem Keeps_congr (r r1 : Room) (hp : r1.players = r.players) (ha : r1.agents = r.agents)
    (hparts : r1.parts = r.parts) : r.Keeps r1 := by
  unfold Room.Keeps
  rw [hp, ha, hparts]
  exact Keeps_refl r

theorem Keeps_update (r : Room) (p : Nat) (f : Participant → Participant)
    (hf : ∀ x, x.Connected = true → (f x).Connected = true) : r.Keeps (r.update p f) := by
  refine ⟨fun k q h => by rw [update_players]; exact h,
    fun k q h => by rw [update_agents]; exact h, fun q x hx hc => ?_⟩
  by_cases hqp : q = p
  · subst hqp
    exact ⟨f x, update_get_same r q f x hx, hf x hc⟩
  · exact ⟨x, by rw [update_get_ne r p q f hqp]; exact hx, hc⟩

theorem Keeps_ensure (r : Room) (c : Client) (now : Time) (hwf : r.WF) :
    r.Keeps (r.ensureParticipantLocked c now).1 := by
  cases hp : mapGet (r.registryOf c) c.ID with
  | some p =>
    rw [ensure_existing r c now p hp]
    exact Keeps_update r p _ (fun _ h => h)
  | none =>
    rw [ensure_new r c now hp hwf]
    unfold Room.registryOf at hp
    refine ⟨fun k q h => ?_, fun k q h => ?_,
      fun q x hx hc => ⟨x, getElem?_append_old _ _ _ _ hx, hc⟩⟩
    · by_cases hrole : c.Role = RolePlayer
      · simp only [hrole, if_true] at hp ⊢
        rw [mapGet_mapSet, if_neg]
        · exact h
        · intro heq
          rw [← heq, hp] at h
          cases h
      · simp only [hrole, if_false]
        exact h
    · by_cases hrole : c.Role = RolePlayer
      · simp only [hrole, if_true]
        exact h
      · simp only [hrole, if_false] at hp ⊢
        rw [mapGet_mapSet, if_neg]
        · exact h
        · intro heq
          rw [← heq, hp] at h
          cases h

theorem Keeps_AddClient (r : Room) (c : Client) (now : Nat → Time) (hwf : r.WF) :
    r.Keeps (r.AddClient c now).1 := by
  unfold Room.AddClient
  split
  · exact Keeps_ensure r c (now 0) hwf
  · dsimp only
    have hwf1 : ({ r with clients := r.clients ++ [c] } : Room).WF :=
      WF_congr r _ rfl rfl rfl rfl hwf
    have k0 : r.Keeps ({ r with clients := r.clients ++ [c] } : Room) :=
      Keeps_congr r _ rfl rfl rfl
    have k1 := Keeps_ensure _ c (now 0) hwf1
    have k2 := Keeps_update (Room.ensureParticipantLocked
      ({ r with clients := r.clients ++ [c] } : Room) c (now 0)).1
      (Room.ensureParticipantLocked ({ r with clients := r.clients ++ [c] } : Room) c (now 0)).2
      (fun x => { x with Connected := true }) (fun _ _ => rfl)
    have k3 := Keeps_update _
      (Room.ensureParticipantLocked ({ r with clients := r.clients ++ [c] } : Room) c (now 0)).2
      (fun x => { x with LastSeen := now 1 }) (fun _ h => h)
      |> Keeps_trans _ _ _ k2
    exact Keeps_trans _ _ _ (Keeps_trans _ _ _ (Keeps_trans _ _ _ k0 k1) k3)
      (Keeps_congr _ _ rfl rfl rfl)

theorem registryOf_Keeps (r r1 : Room) (hk : r.Keeps r1) (c : Client) (k : String) (p : Nat)
    (hp : mapGet (r.registryOf c) k = some p) : mapGet (r1.registryOf c) k = some p := by
  unfold Room.registryOf at *
  split
  · rename_i h; rw [if_pos h] at hp; exact hk.1 k p hp
  · rename_i h; rw [if_neg h] at hp; exact hk.2.1 k p hp

theorem LiveConnected_AddClient (r : Room) (c : Client) (now : Nat → Time) (hwf : r.WF)
    (hlc : r.LiveConnected) : (r.AddClient c now).1.LiveConnected := by
  intro d hd
  have hk := Keeps_AddClient r c now hwf
  have hold : d ∈ r.clients → ∃ (p : Nat) (x : Participant),
      mapGet ((r.AddClient c now).1.registryOf d) d.ID = some p
        ∧ (r.AddClient c now).1.parts[p]? = some x ∧ x.Connected = true := by
    intro hdm
    obtain ⟨q, x, hq, hx, hcon⟩ := hlc d hdm
    obtain ⟨y, hy, hyc⟩ := hk.2.2 q x hx hcon
    exact ⟨q, y, registryOf_Keeps r _ hk d d.ID q hq, hy, hyc⟩
  rw [AddClient_clients] at hd
  by_cases hc : c ∈ r.clients
  · rw [if_pos hc] at hd
    exact hold hd
  · rw [if_neg hc] at hd
    rcases List.mem_append.1 hd with hdm | hdc
    · exact hold hdm
    · have hdc2 : d = c := by simpa using hdc
      subst hdc2
      obtain ⟨x, h1, h2, _, _, _, h6, _⟩ := AddClient_new_entry r d now hwf hc
      exact ⟨_, x, h1, h2, h6⟩

theorem LiveConnected_SetAssignedAgent (r : Room) (agentID displayName : String) (now : Time)
    (hwf : r.WF) (hid : ∀ c : Client, c ∈ r.clients → c.ID ≠ agentID)
    (hlc : r.LiveConnected) : (r.SetAssignedAgent agentID displayName now).LiveConnected := by
  unfold Room.SetAssignedAgent
  dsimp only
  cases hp : mapGet r.agents agentID with
  | some p =>
    dsimp only
    have h2 := LiveConnected_update_keep _ p (fun x => { x with Role := RoleAgent })
      (fun _ => rfl)
      (LiveConnected_update_keep r p (fun x => { x with DisplayName := displayName })
        (fun _ => rfl) hlc)
    have h3 := LiveConnected_update_other _ p (fun x => { x with Connected := false }) ?_ h2
    · exact LiveConnected_congr _ _ rfl rfl rfl rfl h3
    · intro c hc hq
      simp only [update_clients] at hc
      simp only [update_registryOf] at hq
      obtain ⟨x, hx, hxid⟩ := WF_registryOf r hwf c c.ID p hq
      obtain ⟨y, hy, hyid⟩ := hwf.2.1 agentID p hp
      rw [hx] at hy
      cases hy
      exact hid c hc (hxid.symm.trans hyid)
  | none =>
    dsimp only
    have hbase : ({ r with
        parts := r.parts ++ [{ ID := agentID, DisplayName := displayName, Role := RoleAgent,
                               LastSeen := now }],
        agents := mapSet r.agents agentID r.parts.length } : Room).LiveConnected := by
      intro c hc
      obtain ⟨q, x, hq, hx, hcon⟩ := hlc c hc
      refine ⟨q, x, ?_, getElem?_append_old _ _ _ _ hx, hcon⟩
      unfold Room.registryOf at hq ⊢
      by_cases hrole : c.Role = RolePlayer
      · simp only [hrole, if_true] at hq ⊢
        exact hq
      · simp only [hrole, if_false] at hq ⊢
        rw [mapGet_mapSet, if_neg (fun h => hid c hc h.symm)]
        exact hq
    have h3 := LiveConnected_update_other _ r.parts.length
      (fun x => { x with Connected := false }) ?_ hbase
    · exact LiveConnected_congr _ _ rfl rfl rfl rfl h3
    · intro c hc hq
      obtain ⟨q, x, hq0, hx, _⟩ := hlc c hc
      have hq1 : mapGet (Room.registryOf ({ r with
          parts := r.parts ++ [{ ID := agentID, DisplayName := displayName, Role := RoleAgent,
                                 LastSeen := now }],
          agents := mapSet r.agents agentID r.parts.length } : Room) c) c.ID = some q := by
        unfold Room.registryOf at hq0 ⊢
        by_cases hrole : c.Role = RolePlayer
        · simp only [hrole, if_true] at hq0 ⊢
          exact hq0
        · simp only [hrole, if_false] at hq0 ⊢
          rw [mapGet_mapSet, if_neg (fun h => hid c hc h.symm)]
          exact hq0
      rw [hq1] at hq
      cases hq
      have hlt : r.parts.length < r.parts.length := by
        rcases Nat.lt_or_ge r.parts.length r.parts.length with h | h
        · exact h
        · rw [List.getElem?_eq_none h] at hx; cases hx
      exact Nat.lt_irrefl _ hlt

theorem SetAssignedAgent_clients (r : Room) (agentID displayName : String) (now : Time) :
    (r.SetAssignedAgent agentID displayName now).clients = r.clients := by
  unfold Room.SetAssignedAgent
  dsimp only
  split <;> simp only [update_clients]

/-- The invariant behind the representation of live clients: well-formed
pointers, a duplicate-free live-client set whose clients have distinct ids,
and a connected participant for every live client. -/
theorem invariant_of_ReachableDistinct (r : Room) (hr : r.ReachableDistinct) :
    r.WF ∧ r.clients.Nodup
      ∧ (∀ c d : Client, c ∈ r.clients → d ∈ r.clients → d ≠ c → d.ID ≠ c.ID)
      ∧ r.LiveConnected := by
  induction hr with
  | newRoom id now =>
    refine ⟨WF_NewRoom id now, by simp [NewRoom], ?_, ?_⟩
    · intro c d hc
      simp [NewRoom] at hc
    · intro c hc
      simp [NewRoom] at hc
  | addClient r c now _ hside ih =>
    obtain ⟨hwf, hnd, hdist, hlc⟩ := ih
    refine ⟨WF_AddClient r c now hwf, ?_, ?_, LiveConnected_AddClient r c now hwf hlc⟩
    · rw [AddClient_clients]
      split
      · exact hnd
      · rename_i hc
        exact List.Nodup.append hnd (List.nodup_singleton c) (by simpa using hc)
    · rw [AddClient_clients]
      by_cases hc : c ∈ r.clients
      · rw [if_pos hc]; exact hdist
      · rw [if_neg hc]
        intro a b ha hb hne
        rcases List.mem_append.1 ha with ha1 | ha2
        · rcases List.mem_append.1 hb with hb1 | hb2
          · exact hdist a b ha1 hb1 hne
          · have hbc : b = c := by simpa using hb2
            subst hbc
            exact fun h => hside a ha1 (fun hab => hne hab.symm) h.symm
        · have hac : a = c := by simpa using ha2
          subst hac
          rcases List.mem_append.1 hb with hb1 | hb2
          · exact hside b hb1 hne
          · have hbc : b = a := by simpa using hb2
            exact absurd hbc hne
  | removeClient r c now _ ih =>
    obtain ⟨hwf, hnd, hdist, hlc⟩ := ih
    by_cases hc : c ∈ r.clients
    · refine ⟨WF_RemoveClient r c now hwf, ?_, ?_,
        LiveConnected_RemoveClient r c now hwf hnd (fun d hd hne => hdist c d hc hd hne) hlc⟩
      · rw [RemoveClient_clients]; exact hnd.erase c
      · rw [RemoveClient_clients]
        exact fun a b ha hb hne =>
          hdist a b (List.mem_of_mem_erase ha) (List.mem_of_mem_erase hb) hne
    · rw [RemoveClient_not_live r c now hc]
      exact ⟨hwf, hnd, hdist, hlc⟩
  | touch r ts _ ih =>
    obtain ⟨hwf, hnd, hdist, hlc⟩ := ih
    refine ⟨WF_Touch r ts hwf, ?_, ?_, LiveConnected_Touch r ts hlc⟩
    · rw [Touch_clients]; exact hnd
    · rw [Touch_clients]; exact hdist
  | addMessage r msg now _ ih =>
    obtain ⟨hwf, hnd, hdist, hlc⟩ := ih
    refine ⟨WF_AddMessage r msg now hwf, ?_, ?_, LiveConnected_AddMessage r msg now hlc⟩
    · rw [AddMessage_clients]; exact hnd
    · rw [AddMessage_clients]; exact hdist
  | setAssignedAgent r a d now _ hside ih =>
    obtain ⟨hwf, hnd, hdist, hlc⟩ := ih
    refine ⟨WF_SetAssignedAgent r a d now hwf, ?_, ?_,
      LiveConnected_SetAssignedAgent r a d now hwf hside hlc⟩
    · rw [SetAssignedAgent_clients]; exact hnd
    · rw [SetAssignedAgent_clients]; exact hdist

theorem joinedRoom_reachable : joinedRoom.Reachable :=
  Room.Reachable.addClient _ _ _ (Room.Reachable.newRoom _ _)

theorem joinedRoom_reachableDistinct : joinedRoom.ReachableDistinct :=
  Room.ReachableDistinct.addClient _ _ _ (Room.ReachableDistinct.newRoom _ _)
    (fun d hd => by simp [NewRoom] at hd)

/-- C14 fails as stated. With a shared id: two connections of the player `p1`
join and the second leaves; the first is still live, yet the one participant
entry under `p1` is marked disconnected. With distinct ids of the live
clients: after the player `p1` left, a client with id `p1` joins as an agent
and has an entry under its id in both registries. -/
theorem shared_id_breaks_connected :
    sharedIdRoom.Reachable ∧ player1 ∈ sharedIdRoom.clients
      ∧ mapGet sharedIdRoom.players "p1" = some 0 ∧ mapGet sharedIdRoom.agents "p1" = none
      ∧ (sharedIdRoom.parts[0]?).map (fun x => x.Connected) = some false
      ∧ ¬ sharedIdRoom.LiveConnected
      ∧ reusedIdRoom.Reachable ∧ reusedIdRoom.clients = [agentP1]
      ∧ mapGet reusedIdRoom.players agentP1.ID = some 0
      ∧ mapGet reusedIdRoom.agents agentP1.ID = some 1 := by
  refine ⟨?_, by decide, by decide, by decide, by decide, ?_, ?_, by decide, by decide,
    by decide⟩
  · exact Room.Reachable.removeClient _ _ _ (Room.Reachable.addClient _ _ _ joinedRoom_reachable)
  · intro h
    obtain ⟨p, x, hp, hx, hcon⟩ := h player1 (by decide)
    have h0 : mapGet (sharedIdRoom.registryOf player1) player1.ID = some 0 := by decide
    rw [h0] at hp
    cases hp
    have h1 : sharedIdRoom.parts[0]?
        = some { ID := "p1", DisplayName := "玩家1", Role := "player", Connected := false,
                 LastSeen := 200 } := by decide
    rw [h1] at hx
    cases hx
    cases hcon
  · exact Room.Reachable.addClient _ _ _ (Room.Reachable.removeClient _ _ _ joinedRoom_reachable)

/-- C14, amended: in every room state reachable through `AddClient`,
`RemoveClient`, `AddMessage`, `Touch` and `SetAssignedAgent`, provided no two
clients live at the same time share a participant id and an agent is assigned
only while no live client has its id, each live client has, in the registry of
its role (players for `player`, agents otherwise), an entry under its id that
points at a participant with that id and `Connected = true`. -/
theorem live_clients_connected (r : Room) (hr : r.ReachableDistinct) :
    ∀ c : Client, c ∈ r.clients →
      ∃ (p : Nat) (x : Participant),
        mapGet (r.registryOf c) c.ID = some p ∧ r.parts[p]? = some x
          ∧ x.ID = c.ID ∧ x.Connected = true := by
  intro c hc
  obtain ⟨hwf, _, _, hlc⟩ := invariant_of_ReachableDistinct r hr
  obtain ⟨p, x, hp, hx, hcon⟩ := hlc c hc
  obtain ⟨y, hy, hyid⟩ := WF_registryOf r hwf c c.ID p hp
  rw [hx] at hy
  cases hy
  exact ⟨p, x, hp, hx, hyid, hcon⟩

theorem live_clients_connected_witness :
    joinedRoom.ReachableDistinct
      ∧ ∃ (p : Nat) (x : Participant),
          mapGet (joinedRoom.registryOf player1) player1.ID = some p
            ∧ joinedRoom.parts[p]? = some x ∧ x.ID = player1.ID ∧ x.Connected = true :=
  ⟨joinedRoom_reachableDistinct,
    live_clients_connected joinedRoom joinedRoom_reachableDistinct player1 (by decide)⟩

/-! ## Typing envelopes and activity -/

/-- C12 fails as stated: in a room with `nextSequence = 0` the typing envelope is
broadcast with `ack = 0`, while the next chat message stored in that room
receives the sequence number 1. -/
theorem typing_ack_is_not_next_sequence :
    (exampleHub.getRoom "room-1").map (fun r => r.nextSequence) = some 0
      ∧ (exampleHub.HandleIncoming player1 { Cmd := "chat.typing" } exampleClock).2 = none
      ∧ (((exampleHub.HandleIncoming player1 { Cmd := "chat.typing" } exampleClock).1.chan
            player1).buf.getLast?).map (fun e => (e.Cmd, e.Ack)) = some ("chat.typing", 0)
      ∧ ((exampleHub.HandleIncoming player1 { Cmd := "chat.typing" } exampleClock).1.getRoom
            "room-1").map (fun r => (r.AddMessage { Content := "next" } 300).2.Sequence)
          = some 1 := by
  decide

/-- C12, amended: for every typing envelope handled in a room, the `ack` of the
broadcast envelope equals the `nextSequence` counter of the room, which the
typing envelope leaves unchanged; the next chat message stored in that room
receives `ack + 1` from `AddMessage`. -/
theorem typing_ack_is_counter (h : Hub) (c : Client) (env : Envelope) (now : Nat → Time)
    (room : Room) (hroom : h.getRoom c.RoomID = some room)
    (hcmd : env.Normalize.Cmd = MessageTypeTyping) :
    ∃ (room1 : Room) (p : Envelope),
      h.HandleIncoming c env now = ((h.setRoom c.RoomID room1).sendAll room.clients p, none)
        ∧ (h.HandleIncoming c env now).1.getRoom c.RoomID = some room1
        ∧ p.Cmd = MessageTypeTyping
        ∧ p.Ack = room.nextSequence
        ∧ room1.nextSequence = room.nextSequence
        ∧ ∀ (msg : ChatMessage) (t : Time), (room1.AddMessage msg t).2.Sequence = p.Ack + 1 := by
  have heq := HandleIncoming_typing h c env now room hroom hcmd
  refine ⟨_, _, heq, ?_, rfl, rfl, (Touch_history _ _).2, fun msg t => ?_⟩
  · rw [heq, getRoom_sendAll, getRoom_setRoom]
  · rw [(AddMessage_history _ msg t).2.2, (Touch_history _ _).2]

theorem typing_ack_is_counter_witness :
    exampleHub.getRoom player1.RoomID = some joinedRoom
      ∧ ∃ (room1 : Room) (p : Envelope),
          (exampleHub.HandleIncoming player1 { Cmd := "typing" } exampleClock).1.getRoom
              player1.RoomID = some room1
            ∧ p.Ack = joinedRoom.nextSequence
            ∧ ∀ (msg : ChatMessage) (t : Time),
                (room1.AddMessage msg t).2.Sequence = p.Ack + 1 := by
  refine ⟨by decide, ?_⟩
  obtain ⟨room1, p, _, h2, _, h4, _, h6⟩ :=
    typing_ack_is_counter exampleHub player1 { Cmd := "typing" } exampleClock joinedRoom
      (by decide) (by decide)
  exact ⟨room1, p, h2, h4, h6⟩

/-- C13 (the code at the failing input): `room-1` was created at 100 and was last
active at 103; a chat message whose envelope carries the timestamp 5, handled
at clock readings from 200 on, is accepted and sets `lastActivity` to 5,
earlier than before and earlier than `createdAt`. -/
theorem chat_timestamp_moves_lastActivity_back :
    (exampleHub.getRoom "room-1").map (fun r => (r.createdAt, r.lastActivity))
        = some (100, 103)
      ∧ (exampleHub.HandleIncoming player1
          { Cmd := "chat.message", Content := "hi", Timestamp := 5 } laterClock).2 = none
      ∧ ((exampleHub.HandleIncoming player1
          { Cmd := "chat.message", Content := "hi", Timestamp := 5 } laterClock).1.getRoom
            "room-1").map (fun r => (r.createdAt, r.lastActivity)) = some (100, 5) := by
  decide

/-! ## Register -/

theorem mapSet_mapSet {α β : Type} [DecidableEq α] (m : List (α × β)) (k : α) (v v2 : β) :
    mapSet (mapSet m k v) k v2 = mapSet m k v2 := by
  induction m with
  | nil => simp [mapSet]
  | cons kv rest ih =>
    obtain ⟨k1, v1⟩ := kv
    by_cases h : k1 = k
    · simp [mapSet, h]
    · simp [mapSet, h, ih]

theorem MessagesSince_zero (r : Room) : r.MessagesSince 0 = (r.history, r.nextSequence) := by
  unfold Room.MessagesSince
  simp

theorem broadcast_rooms (h : Hub) (room : Room) (env : Envelope) (now : Time) :
    (h.broadcast room env now).rooms = h.rooms := by
  unfold Hub.broadcast
  exact sendAll_rooms _ _ _

theorem getRoom_broadcast (h : Hub) (room : Room) (env : Envelope) (now : Time) (k : String) :
    (h.broadcast room env now).getRoom k = h.getRoom k := by
  simp only [Hub.getRoom, broadcast_rooms]

theorem SendEnvelope_rooms (c : Client) (h : Hub) (env : Envelope) (now : Time) :
    (c.SendEnvelope h env now).1.rooms = h.rooms := by
  rw [SendEnvelope_eq]
  split <;> rfl

theorem ensure_entry (r : Room) (c : Client) (now : Time) (hwf : r.WF) :
    ∃ x : Participant,
      (r.ensureParticipantLocked c now).1.parts[(r.ensureParticipantLocked c now).2]? = some x
        ∧ x.ID = c.ID ∧ x.DisplayName = c.DisplayName ∧ x.Role = c.Role
        ∧ mapGet ((r.ensureParticipantLocked c now).1.registryOf c) c.ID
            = some (r.ensureParticipantLocked c now).2 := by
  cases hp : mapGet (r.registryOf c) c.ID with
  | some p =>
    rw [ensure_existing r c now p hp]
    obtain ⟨x, hx, hid⟩ := WF_registryOf r hwf c c.ID p hp
    exact ⟨_, update_get_same r p _ x hx, hid, rfl, rfl, by rw [update_registryOf]; exact hp⟩
  | none =>
    rw [ensure_new r c now hp hwf]
    refine ⟨_, getElem?_append_new _ _, rfl, rfl, rfl, ?_⟩
    unfold Room.registryOf
    by_cases hrole : c.Role = RolePlayer
    · simp only [hrole, if_true, mapGet_mapSet_same]
    · simp only [hrole, if_false, mapGet_mapSet_same]

/-- After `AddClient` in a well-formed room the pointer returned is entered
under the id of the client in the registry of its role and points at a
participant with the id, display name and role of the client, connected if the
client was not live before. -/
theorem AddClient_entry (r : Room) (c : Client) (now : Nat → Time) (hwf : r.WF) :
    ∃ x : Participant,
      (r.AddClient c now).1.parts[(r.AddClient c now).2]? = some x
        ∧ x.ID = c.ID ∧ x.DisplayName = c.DisplayName ∧ x.Role = c.Role
        ∧ mapGet ((r.AddClient c now).1.registryOf c) c.ID = some (r.AddClient c now).2
        ∧ (c ∉ r.clients → x.Connected = true) := by
  by_cases hc : c ∈ r.clients
  · obtain ⟨x, h1, h2, h3, h4, h5⟩ := ensure_entry r c (now 0) hwf
    have he : r.AddClient c now = r.ensureParticipantLocked c (now 0) := by
      unfold Room.AddClient
      rw [if_pos hc]
    rw [he]
    exact ⟨x, h1, h2, h3, h4, h5, fun h => absurd hc h⟩
  · obtain ⟨x, h1, h2, h3, h4, h5, h6, _⟩ := AddClient_new_entry r c now hwf hc
    exact ⟨x, h2, h3, h4, h5, h1, fun _ => h6⟩

theorem ensure_frame (r : Room) (c : Client) (now : Time) (hwf : r.WF) :
    (r.ensureParticipantLocked c now).1.assignedAgent = r.assignedAgent
      ∧ (r.ensureParticipantLocked c now).1.createdAt = r.createdAt
      ∧ (r.ensureParticipantLocked c now).1.id = r.id
      ∧ (r.ensureParticipantLocked c now).1.lastActivity = r.lastActivity := by
  cases hp : mapGet (r.registryOf c) c.ID with
  | some p =>
    rw [ensure_existing r c now p hp]
    exact ⟨update_assignedAgent _ _ _, update_createdAt _ _ _, update_id _ _ _,
      update_lastActivity _ _ _⟩
  | none =>
    rw [ensure_new r c now hp hwf]
    exact ⟨rfl, rfl, rfl, rfl⟩

theorem AddClient_frame (r : Room) (c : Client) (now : Nat → Time) (hwf : r.WF) :
    (r.AddClient c now).1.assignedAgent = r.assignedAgent
      ∧ (r.AddClient c now).1.createdAt = r.createdAt
      ∧ (r.AddClient c now).1.id = r.id := by
  unfold Room.AddClient
  split
  · obtain ⟨h1, h2, h3, _⟩ := ensure_frame r c (now 0) hwf
    exact ⟨h1, h2, h3⟩
  · have hwf1 : ({ r with clients := r.clients ++ [c] } : Room).WF :=
      WF_congr r _ rfl rfl rfl rfl hwf
    obtain ⟨h1, h2, h3, _⟩ := ensure_frame _ c (now 0) hwf1
    simp only [update_assignedAgent, update_createdAt, update_id]
    exact ⟨h1, h2, h3⟩

/-- `Register` with a room id, in a hub whose room for that id, if any, is well
formed: the room found or created is stored with the client added, the full
history is sent to the client when there is one, and the join notice is
broadcast to the room. -/
theorem Register_eq (h : Hub) (c : Client) (now : Nat → Time) (hne : c.RoomID ≠ "")
    (hwf : (h.roomFor c.RoomID (now 0)).WF) :
    h.Register c now =
      ((if (h.registeredRoom c now).history.length > 0 then
          (c.SendEnvelope (h.setRoom c.RoomID (h.registeredRoom c now))
            (historyEnvelope (h.registeredRoom c now) (now 4)) (now 5)).1
        else h.setRoom c.RoomID (h.registeredRoom c now)).broadcast (h.registeredRoom c now)
          (joinNotice c (h.registeredRoom c now) (now 6)) (now 7), none) := by
  obtain ⟨x, hx, _, hname, hrole, _, _⟩ :=
    AddClient_entry (h.roomFor c.RoomID (now 0)) c (fun i => now (i + 1)) hwf
  unfold Hub.Register
  rw [if_neg hne]
  have hset : ((h.getOrCreateRoom c.RoomID (now 0)).1.setRoom c.RoomID
      (h.registeredRoom c now)) = h.setRoom c.RoomID (h.registeredRoom c now) := by
    unfold Hub.getOrCreateRoom Hub.setRoom
    split
    · rfl
    · simp only [mapSet_mapSet]
  have hroom : (h.getOrCreateRoom c.RoomID (now 0)).2 = h.roomFor c.RoomID (now 0) := by
    unfold Hub.getOrCreateRoom Hub.roomFor Hub.getRoom
    split
    · rename_i room hr; rw [hr]; rfl
    · rename_i hr; rw [hr]; rfl
  dsimp only
  rw [hroom]
  show (Hub.broadcast _ (h.registeredRoom c now) _ (now 7), none) = _
  simp only [MessagesSince_zero]
  rw [show ((h.roomFor c.RoomID (now 0)).AddClient c (fun i => now (i + 1))).1
      = h.registeredRoom c now from rfl] at hx ⊢
  rw [hset, hx]
  simp only [Option.getD_some, hname, hrole]
  rfl

theorem roomFor_WF (h : Hub) (roomID : String) (now : Time)
    (hreach : ∀ room0 : Room, h.getRoom roomID = some room0 → room0.Reachable) :
    (h.roomFor roomID now).WF := by
  unfold Hub.roomFor
  cases hr : h.getRoom roomID with
  | none => exact WF_NewRoom roomID now
  | some room0 => exact WF_of_Reachable room0 (hreach room0 hr)

theorem Register_rooms (h : Hub) (c : Client) (now : Nat → Time) (hne : c.RoomID ≠ "")
    (hwf : (h.roomFor c.RoomID (now 0)).WF) :
    (h.Register c now).1.rooms = mapSet h.rooms c.RoomID (h.registeredRoom c now) := by
  rw [Register_eq h c now hne hwf]
  dsimp only
  rw [broadcast_rooms]
  split
  · rw [SendEnvelope_rooms]; rfl
  · rfl

/-- C19 fails as stated: the player `p1` is live through `player1`; a second
connection with the same id registered and unregistered, which marked the
participant disconnected; registering `player1` again succeeds and leaves the
client live, but the participant under its id stays disconnected. -/
theorem register_again_keeps_disconnected :
    (twoTabsHub.getRoom "room-1").map (fun r => r.clients) = some [player1]
      ∧ (twoTabsHub.Register player1 laterClock).2 = none
      ∧ ((twoTabsHub.Register player1 laterClock).1.getRoom "room-1").map
          (fun r => (r.clients, r.players,
            (r.registryValues r.players).map (fun p => (p.ID, p.Connected))))
          = some ([player1], [("p1", 0)], [("p1", false)]) := by
  decide

/-- C19, amended: `Register` with an empty room id fails and leaves the hub
unchanged; with a non-empty room id, in a hub whose room of that id, if any,
is a reachable room, it succeeds, changes no other room, creates the room only
if it is absent (an existing room keeps its history, `nextSequence`,
`createdAt` and assigned agent; a new one starts empty at the current time),
and afterwards the client is live in the room and the registry for its role
holds, under the id of the client, a participant with the id, display name and
role of the client, which is connected whenever the client was not already
live in the room. -/
theorem Register_spec (h : Hub) (c : Client) (now : Nat → Time) :
    (c.RoomID = "" → h.Register c now = (h, some Err.roomIdRequired))
      ∧ (c.RoomID ≠ "" →
          (∀ room0 : Room, h.getRoom c.RoomID = some room0 → room0.Reachable) →
          (h.Register c now).2 = none
            ∧ (∀ k : String, k ≠ c.RoomID → (h.Register c now).1.getRoom k = h.getRoom k)
            ∧ ∃ (room1 : Room) (p : Nat) (x : Participant),
                (h.Register c now).1.getRoom c.RoomID = some room1
                  ∧ (∀ room0 : Room, h.getRoom c.RoomID = some room0 →
                      room1.history = room0.history
                        ∧ room1.nextSequence = room0.nextSequence
                        ∧ room1.createdAt = room0.createdAt
                        ∧ room1.assignedAgent = room0.assignedAgent
                        ∧ (c ∉ room0.clients → x.Connected = true))
                  ∧ (h.getRoom c.RoomID = none →
                      room1.id = c.RoomID ∧ room1.history = [] ∧ room1.nextSequence = 0
                        ∧ room1.createdAt = now 0 ∧ room1.assignedAgent = none
                        ∧ x.Connected = true)
                  ∧ c ∈ room1.clients
                  ∧ mapGet (room1.registryOf c) c.ID = some p
                  ∧ room1.parts[p]? = some x
                  ∧ x.ID = c.ID ∧ x.DisplayName = c.DisplayName ∧ x.Role = c.Role) := by
  refine ⟨fun he => ?_, fun hne hreach => ?_⟩
  · unfold Hub.Register
    rw [if_pos he]
  · have hwf := roomFor_WF h c.RoomID (now 0) hreach
    have hrooms := Register_rooms h c now hne hwf
    obtain ⟨x, hx, hid, hname, hrole, hreg, hconn⟩ :=
      AddClient_entry (h.roomFor c.RoomID (now 0)) c (fun i => now (i + 1)) hwf
    obtain ⟨fa, fc, fi⟩ := AddClient_frame (h.roomFor c.RoomID (now 0)) c (fun i => now (i + 1)) hwf
    obtain ⟨fh, fn⟩ := AddClient_history (h.roomFor c.RoomID (now 0)) c (fun i => now (i + 1))
    refine ⟨by rw [Register_eq h c now hne hwf], fun k hk => ?_,
      h.registeredRoom c now, _, x, ?_, fun room0 hr0 => ?_, fun hnone => ?_, ?_, hreg, hx, hid,
      hname, hrole⟩
    · unfold Hub.getRoom
      rw [hrooms, mapGet_mapSet_ne _ _ _ _ (Ne.symm hk)]
    · unfold Hub.getRoom
      rw [hrooms, mapGet_mapSet_same]
    · have h0 : h.roomFor c.RoomID (now 0) = room0 := by
        unfold Hub.roomFor; rw [hr0]; rfl
      exact ⟨fh.trans (by rw [h0]), fn.trans (by rw [h0]), fc.trans (by rw [h0]),
        fa.trans (by rw [h0]), fun hc => hconn (by rw [h0]; exact hc)⟩
    · have h0 : h.roomFor c.RoomID (now 0) = NewRoom c.RoomID (now 0) := by
        unfold Hub.roomFor; rw [hnone]; rfl
      exact ⟨fi.trans (by rw [h0]; rfl), fh.trans (by rw [h0]; rfl), fn.trans (by rw [h0]; rfl),
        fc.trans (by rw [h0]; rfl), fa.trans (by rw [h0]; rfl),
        hconn (by rw [h0]; simp [NewRoom])⟩
    · show c ∈ ((h.roomFor c.RoomID (now 0)).AddClient c (fun i => now (i + 1))).1.clients
      rw [AddClient_clients]
      split
      · assumption
      · simp

/-! ## Deliveries -/

theorem broadcast_eq_sendAll (h : Hub) (room : Room) (env : Envelope) (now : Time) :
    h.broadcast room env now = h.sendAll room.clients (wireForm env now) := by
  unfold Hub.broadcast Room.Clients IsZero wireForm
  dsimp only
  by_cases h0 : env.Normalize.Timestamp = 0 <;> simp [h0]

/-- The queue of every client after a broadcast to a room without repeated
clients. -/
theorem broadcast_chan (h : Hub) (room : Room) (env : Envelope) (now : Time)
    (hnd : room.clients.Nodup) (d : Client) :
    (h.broadcast room env now).chan d
      = if d ∈ room.clients then (h.chan d).offer (wireForm env now) else h.chan d := by
  rw [broadcast_eq_sendAll]
  by_cases hd : d ∈ room.clients
  · rw [if_pos hd, sendAll_chan_mem _ _ _ _ hnd hd, trySend_fst]
    rfl
  · rw [if_neg hd, sendAll_chan_not_mem _ _ _ _ hd]

theorem SendEnvelope_chan (c : Client) (h : Hub) (env : Envelope) (now : Time) (d : Client) :
    (c.SendEnvelope h env now).1.chan d
      = if d = c then (h.chan c).offer (wireForm env now) else h.chan d := by
  have hw : ({ env.Normalize with
      Timestamp := if env.Timestamp = 0 then now else env.Timestamp } : Envelope)
      = wireForm env now := by
    unfold wireForm
    rw [(Normalize_fields env).2.1]
    split
    · rfl
    · rename_i h0
      rw [← (Normalize_fields env).2.1]
  rw [SendEnvelope_eq, hw]
  unfold Chan.offer
  by_cases hlt : (h.chan c).buf.length < (h.chan c).cap
  · rw [if_pos hlt, if_pos hlt]
    by_cases hd : d = c
    · subst hd
      rw [if_pos rfl]
      exact chan_sends_same _ _ _
    · rw [if_neg hd]
      exact chan_sends_ne _ _ _ _ (Ne.symm hd)
  · rw [if_neg hlt, if_neg hlt]
    split
    · rename_i hd; rw [hd]
    · rfl

theorem Nodup_of_Reachable (r : Room) (hr : r.Reachable) : r.clients.Nodup := by
  induction hr with
  | newRoom id now => simp [NewRoom]
  | addClient r c now _ ih =>
    rw [AddClient_clients]
    split
    · exact ih
    · rename_i hc
      exact List.Nodup.append ih (List.nodup_singleton c) (by simpa using hc)
  | removeClient r c now _ ih => rw [RemoveClient_clients]; exact ih.erase c
  | touch r ts _ ih => rw [Touch_clients]; exact ih
  | addMessage r msg now _ ih => rw [AddMessage_clients]; exact ih
  | setAssignedAgent r a d now _ ih => rw [SetAssignedAgent_clients]; exact ih

theorem wireForm_joinNotice (c : Client) (room : Room) (t now : Time) :
    (wireForm (joinNotice c room t) now).Cmd = MessageTypeSystem
      ∧ (wireForm (joinNotice c room t) now).Type_ = MessageTypeSystem
      ∧ (wireForm (joinNotice c room t) now).Content
          = c.DisplayName ++ " (" ++ c.Role ++ ") 加入對話"
      ∧ (wireForm (joinNotice c room t) now).SenderID = c.ID := by
  unfold wireForm joinNotice
  rw [Normalize_mk MessageTypeSystem (by decide)]
  split <;> exact ⟨rfl, rfl, rfl, rfl⟩

theorem wireForm_historyEnvelope (room : Room) (t now : Time) :
    (wireForm (historyEnvelope room t) now).Cmd = MessageTypeHistory
      ∧ (wireForm (historyEnvelope room t) now).History = room.history
      ∧ (wireForm (historyEnvelope room t) now).Seq = room.nextSequence
      ∧ (wireForm (historyEnvelope room t) now).Ack = room.nextSequence := by
  unfold wireForm historyEnvelope
  rw [Normalize_mk MessageTypeHistory (by decide)]
  split <;> exact ⟨rfl, rfl, rfl, rfl⟩

/-- The queues after `Register`: the client gets the history envelope, when the
history is not empty, and then the join notice; every other live client of the
room gets the join notice; each enqueue happens only if the queue has room. -/
theorem Register_chan (h : Hub) (c : Client) (now : Nat → Time) (hne : c.RoomID ≠ "")
    (hreach : ∀ room0 : Room, h.getRoom c.RoomID = some room0 → room0.Reachable) (d : Client) :
    (h.Register c now).1.chan d =
      if d = c then
        (if (h.registeredRoom c now).history.length > 0 then
          ((h.chan c).offer (wireForm (historyEnvelope (h.registeredRoom c now) (now 4))
            (now 5))).offer (wireForm (joinNotice c (h.registeredRoom c now) (now 6)) (now 7))
        else (h.chan c).offer (wireForm (joinNotice c (h.registeredRoom c now) (now 6)) (now 7)))
      else if d ∈ (h.registeredRoom c now).clients then
        (h.chan d).offer (wireForm (joinNotice c (h.registeredRoom c now) (now 6)) (now 7))
      else h.chan d := by
  have hwf := roomFor_WF h c.RoomID (now 0) hreach
  have hreach1 : (h.registeredRoom c now).Reachable := by
    unfold Hub.registeredRoom
    apply Room.Reachable.addClient
    unfold Hub.roomFor
    cases hr : h.getRoom c.RoomID with
    | none => exact Room.Reachable.newRoom _ _
    | some room0 => exact hreach room0 hr
  have hnd := Nodup_of_Reachable _ hreach1
  have hc : c ∈ (h.registeredRoom c now).clients := by
    show c ∈ ((h.roomFor c.RoomID (now 0)).AddClient c (fun i => now (i + 1))).1.clients
    rw [AddClient_clients]
    split
    · assumption
    · simp
  rw [Register_eq h c now hne hwf]
  dsimp only
  rw [broadcast_chan _ _ _ _ hnd]
  by_cases hd : d = c
  · subst hd
    rw [if_pos hc, if_pos rfl]
    split
    · rw [SendEnvelope_chan, if_pos rfl]; rfl
    · rfl
  · rw [if_neg hd]
    split
    · split
      · rw [SendEnvelope_chan, if_neg hd]; rfl
      · rfl
    · split
      · rw [SendEnvelope_chan, if_neg hd]; rfl
      · rfl

/-- C20 fails as stated when another live client has a full queue: `agentA`
is live in `room-1` with 16 of 16 envelopes queued; a new client made by
`NewClient` registers and receives the join notice, but the queue of `agentA`
is unchanged and holds no join notice. -/
theorem join_notice_dropped_when_full :
    agentA ∈ crowdedRoom.clients
      ∧ (crowdedHub.chan agentA).buf.length = 16 ∧ (crowdedHub.chan agentA).cap = 16
      ∧ ((NewClient crowdedHub 3 "room-1" "p9" "player" "玩家9").1.Register outsider
          exampleClock).2 = none
      ∧ (((NewClient crowdedHub 3 "room-1" "p9" "player" "玩家9").1.Register outsider
          exampleClock).1.chan outsider).buf.map (fun e => (e.Cmd, e.Content))
          = [("system.notice", "玩家9 (player) 加入對話")]
      ∧ ((NewClient crowdedHub 3 "room-1" "p9" "player" "玩家9").1.Register outsider
          exampleClock).1.chan agentA = crowdedHub.chan agentA
      ∧ (((NewClient crowdedHub 3 "room-1" "p9" "player" "玩家9").1.Register outsider
          exampleClock).1.chan agentA).buf = List.replicate 16 fillerNotice := by
  decide

/-- C20, amended: when a client registers with a non-empty room id (the room, if
it exists, being a reachable room), its queue is offered first, if the history
of the room is not empty, a `chat.history` envelope carrying the full history
with `seq = ack = nextSequence`, and then the join notice, a `system.notice`
whose content is the display name of the client, its role in parentheses and
the text 加入對話; with an empty history no history envelope is sent. The join
notice is offered to every other live client of the room as well, the history
envelope to none of them, and no other queue changes. An envelope offered to a
queue is appended when the queue holds fewer items than its capacity and is
dropped otherwise. -/
theorem Register_deliveries (h : Hub) (c : Client) (now : Nat → Time) (hne : c.RoomID ≠ "")
    (hreach : ∀ room0 : Room, h.getRoom c.RoomID = some room0 → room0.Reachable) :
    ∃ (room1 : Room) (hist join : Envelope),
      (h.Register c now).1.getRoom c.RoomID = some room1
        ∧ (∀ room0 : Room, h.getRoom c.RoomID = some room0 →
            room1.history = room0.history ∧ room1.nextSequence = room0.nextSequence
              ∧ ∀ d : Client, d ≠ c → (d ∈ room1.clients ↔ d ∈ room0.clients))
        ∧ (h.getRoom c.RoomID = none → room1.history = [] ∧ room1.clients = [c])
        ∧ hist.Cmd = MessageTypeHistory ∧ hist.History = room1.history
        ∧ hist.Seq = room1.nextSequence ∧ hist.Ack = room1.nextSequence
        ∧ join.Cmd = MessageTypeSystem
        ∧ join.Content = c.DisplayName ++ " (" ++ c.Role ++ ") 加入對話"
        ∧ (room1.history ≠ [] →
            (h.Register c now).1.chan c = ((h.chan c).offer hist).offer join
              ∧ ((h.chan c).buf.length + 2 ≤ (h.chan c).cap →
                  ((h.Register c now).1.chan c).buf = (h.chan c).buf ++ [hist, join]))
        ∧ (room1.history = [] →
            (h.Register c now).1.chan c = (h.chan c).offer join
              ∧ ((h.chan c).buf.length + 1 ≤ (h.chan c).cap →
                  ((h.Register c now).1.chan c).buf = (h.chan c).buf ++ [join]))
        ∧ (∀ d : Client, d ≠ c → d ∈ room1.clients →
            (h.Register c now).1.chan d = (h.chan d).offer join
              ∧ ((h.chan d).buf.length < (h.chan d).cap →
                  ((h.Register c now).1.chan d).buf = (h.chan d).buf ++ [join])
              ∧ (¬ (h.chan d).buf.length < (h.chan d).cap →
                  (h.Register c now).1.chan d = h.chan d))
        ∧ (∀ d : Client, d ≠ c → d ∉ room1.clients →
            (h.Register c now).1.chan d = h.chan d) := by
  have hwf := roomFor_WF h c.RoomID (now 0) hreach
  have hrooms := Register_rooms h c now hne hwf
  have hchan := Register_chan h c now hne hreach
  obtain ⟨j1, _, j3, _⟩ := wireForm_joinNotice c (h.registeredRoom c now) (now 6) (now 7)
  obtain ⟨g1, g2, g3, g4⟩ := wireForm_historyEnvelope (h.registeredRoom c now) (now 4) (now 5)
  obtain ⟨fh, fn⟩ := AddClient_history (h.roomFor c.RoomID (now 0)) c (fun i => now (i + 1))
  have fcl := AddClient_clients (h.roomFor c.RoomID (now 0)) c (fun i => now (i + 1))
  refine ⟨h.registeredRoom c now, _, _, ?_, fun room0 hr0 => ?_, fun hnone => ?_, g1, g2, g3, g4,
    j1, j3, fun hh => ?_, fun hh => ?_, fun d hd hm => ?_, fun d hd hm => ?_⟩
  · unfold Hub.getRoom
    rw [hrooms, mapGet_mapSet_same]
  · have h0 : h.roomFor c.RoomID (now 0) = room0 := by
      unfold Hub.roomFor; rw [hr0]; rfl
    refine ⟨fh.trans (by rw [h0]), fn.trans (by rw [h0]), fun d hd => ?_⟩
    show d ∈ ((h.roomFor c.RoomID (now 0)).AddClient c (fun i => now (i + 1))).1.clients ↔ _
    rw [fcl, h0]
    split
    · exact Iff.rfl
    · simp [hd]
  · have h0 : h.roomFor c.RoomID (now 0) = NewRoom c.RoomID (now 0) := by
      unfold Hub.roomFor; rw [hnone]; rfl
    refine ⟨fh.trans (by rw [h0]; rfl), ?_⟩
    show ((h.roomFor c.RoomID (now 0)).AddClient c (fun i => now (i + 1))).1.clients = [c]
    rw [fcl, h0]
    simp [NewRoom]
  · have hlen : (h.registeredRoom c now).history.length > 0 := List.length_pos.2 hh
    have he := hchan c
    rw [if_pos rfl, if_pos hlen] at he
    refine ⟨he, fun hcap => ?_⟩
    have hlt1 : (h.chan c).buf.length < (h.chan c).cap := by omega
    rw [he]
    unfold Chan.offer
    rw [if_pos hlt1]
    dsimp only
    rw [if_pos (by simp only [List.length_append, List.length_singleton]; omega)]
    simp
  · have hlen : ¬ (h.registeredRoom c now).history.length > 0 := by rw [hh]; simp
    have he := hchan c
    rw [if_pos rfl, if_neg hlen] at he
    refine ⟨he, fun hcap => ?_⟩
    rw [he]
    unfold Chan.offer
    rw [if_pos (by omega)]
  · have he := hchan d
    rw [if_neg hd, if_pos hm] at he
    refine ⟨he, fun hlt => ?_, fun hfull => ?_⟩
    · rw [he]; unfold Chan.offer; rw [if_pos hlt]
    · rw [he]; unfold Chan.offer; rw [if_neg hfull]
  · rw [hchan d, if_neg hd, if_neg hm]

theorem Register_deliveries_witness :
    agentA.RoomID ≠ ""
      ∧ (NewClient exampleHub 2 "room-1" "a1" "agent" "客服A").1.getRoom agentA.RoomID
          = some joinedRoom
      ∧ ∃ (room1 : Room) (join : Envelope),
          ((NewClient exampleHub 2 "room-1" "a1" "agent" "客服A").1.Register agentA
              laterClock).1.getRoom agentA.RoomID = some room1
            ∧ join.Content = "客服A (agent) 加入對話"
            ∧ (((NewClient exampleHub 2 "room-1" "a1" "agent" "客服A").1.Register agentA
                laterClock).1.chan agentA).buf = [join] := by
  have hroom : (NewClient exampleHub 2 "room-1" "a1" "agent" "客服A").1.getRoom agentA.RoomID
      = some joinedRoom := by decide
  obtain ⟨room1, hist, join, h1, h2, _, _, _, _, _, _, h9, _, h11, _, _⟩ :=
    Register_deliveries (NewClient exampleHub 2 "room-1" "a1" "agent" "客服A").1 agentA
      laterClock (by decide)
      (fun room0 hr0 => by
        rw [hroom] at hr0
        cases hr0
        exact joinedRoom_reachable)
  refine ⟨by decide, hroom, room1, join, h1, by rw [h9]; decide, ?_⟩
  have hempty : room1.history = [] := by rw [(h2 joinedRoom hroom).1]; decide
  have hb := (h11 hempty).2 (by decide)
  have hbuf : ((NewClient exampleHub 2 "room-1" "a1" "agent" "客服A").1.chan agentA).buf = [] := by
    decide
  rw [hb, hbuf]
  rfl

/-! ## Operations that store no message -/

/-- The rooms after `Register` with a room id, in any hub. -/
theorem Register_rooms_any (h : Hub) (c : Client) (now : Nat → Time) (hne : c.RoomID ≠ "") :
    (h.Register c now).1.rooms = mapSet h.rooms c.RoomID (h.registeredRoom c now) := by
  unfold Hub.Register
  rw [if_neg hne]
  have hset : ((h.getOrCreateRoom c.RoomID (now 0)).1.setRoom c.RoomID
      (h.registeredRoom c now)) = h.setRoom c.RoomID (h.registeredRoom c now) := by
    unfold Hub.getOrCreateRoom Hub.setRoom
    split
    · rfl
    · simp only [mapSet_mapSet]
  have hroom : (h.getOrCreateRoom c.RoomID (now 0)).2 = h.roomFor c.RoomID (now 0) := by
    unfold Hub.getOrCreateRoom Hub.roomFor Hub.getRoom
    split
    · rename_i room hr; rw [hr]; rfl
    · rename_i hr; rw [hr]; rfl
  dsimp only
  rw [broadcast_rooms, hroom]
  rw [show ((h.roomFor c.RoomID (now 0)).AddClient c (fun i => now (i + 1))).1
      = h.registeredRoom c now from rfl, hset]
  split
  · rw [SendEnvelope_rooms]; rfl
  · rfl

theorem Unregister_rooms (h : Hub) (c : Client) (now : Nat → Time) :
    (h.Unregister c now).rooms =
      if c.RoomID = "" then h.rooms
      else
        match h.getRoom c.RoomID with
        | none => h.rooms
        | some room => mapSet h.rooms c.RoomID (room.RemoveClient c (now 0)) := by
  unfold Hub.Unregister
  split
  · rfl
  · cases hr : h.getRoom c.RoomID with
    | none => rfl
    | some room =>
      dsimp only
      rw [broadcast_rooms]
      rfl

/-- The rooms after `AssignAgent`: the room named gets the assignment under the
name `AssignAgent` uses, which is the name given when the agent is not
online. -/
theorem AssignAgent_rooms (h : Hub) (roomID agentID displayName : String) (now : Nat → Time) :
    ∃ name : String,
      (h.agentPresence agentID = none → name = displayName)
        ∧ (h.AssignAgent roomID agentID displayName now).1.rooms =
          match h.getRoom roomID with
          | none => h.rooms
          | some room => mapSet h.rooms roomID (room.SetAssignedAgent agentID name (now 0)) := by
  refine ⟨match h.agentPresence agentID with
    | some presence => if presence.DisplayName ≠ "" then presence.DisplayName else displayName
    | none => displayName, fun hoff => by rw [hoff], ?_⟩
  unfold Hub.AssignAgent
  cases hr : h.getRoom roomID with
  | none => rfl
  | some room =>
    dsimp only
    split
    · rfl
    · rw [broadcast_rooms]; rfl

theorem Touch_lastActivity (r : Room) (ts : Time) :
    (r.Touch ts).lastActivity = max r.lastActivity ts
      ∧ (ts ≤ r.lastActivity → r.Touch ts = r)
      ∧ (r.lastActivity < ts → (r.Touch ts).lastActivity = ts) := by
  by_cases hlt : r.lastActivity < ts
  · have e : r.Touch ts = { r with lastActivity := ts } := by
      unfold Room.Touch After
      rw [if_pos (by simpa using hlt)]
    rw [e]
    exact ⟨(max_eq_right (le_of_lt hlt)).symm, fun hle => absurd hlt (not_lt.2 hle), fun _ => rfl⟩
  · have e : r.Touch ts = r := by
      unfold Room.Touch After
      rw [if_neg (by simpa using hlt)]
    rw [e]
    exact ⟨(max_eq_left (not_lt.1 hlt)).symm, fun _ => rfl, fun h => absurd h hlt⟩

/-- C11: for a room stored in the hub, a `chat.typing` envelope handled by
`HandleIncoming`, `Register`, `Unregister` and `AssignAgent` leave its history
and `nextSequence` unchanged, whichever room they address, and a room that
`Register` creates starts with an empty history and `nextSequence = 0`; a
typing envelope sets the `lastActivity` of the room of its client to the later
of the previous value and the timestamp of the envelope (the current time when
the envelope has none), since `Touch` advances `lastActivity` only to a strictly
later time. -/
theorem notices_keep_sequence (h : Hub) (k : String) (room : Room)
    (hroom : h.getRoom k = some room) :
    (∀ (c : Client) (env : Envelope) (now : Nat → Time),
        env.Normalize.Cmd = MessageTypeTyping →
        ∃ room1 : Room,
          (h.HandleIncoming c env now).1.getRoom k = some room1
            ∧ room1.history = room.history ∧ room1.nextSequence = room.nextSequence
            ∧ (c.RoomID = k →
                room1.lastActivity
                  = max room.lastActivity (if env.Timestamp = 0 then now 0 else env.Timestamp))
            ∧ (c.RoomID ≠ k → room1 = room))
      ∧ (∀ (c : Client) (now : Nat → Time),
          ∃ room1 : Room,
            (h.Register c now).1.getRoom k = some room1
              ∧ room1.history = room.history ∧ room1.nextSequence = room.nextSequence)
      ∧ (∀ (c : Client) (now : Nat → Time) (k2 : String) (room1 : Room),
          h.getRoom k2 = none → (h.Register c now).1.getRoom k2 = some room1 →
          room1.history = [] ∧ room1.nextSequence = 0)
      ∧ (∀ (c : Client) (now : Nat → Time),
          ∃ room1 : Room,
            (h.Unregister c now).getRoom k = some room1
              ∧ room1.history = room.history ∧ room1.nextSequence = room.nextSequence)
      ∧ (∀ (roomID agentID displayName : String) (now : Nat → Time),
          ∃ room1 : Room,
            (h.AssignAgent roomID agentID displayName now).1.getRoom k = some room1
              ∧ room1.history = room.history ∧ room1.nextSequence = room.nextSequence)
      ∧ (∀ ts : Time,
          (room.Touch ts).lastActivity = max room.lastActivity ts
            ∧ (ts ≤ room.lastActivity → room.Touch ts = room)
            ∧ (room.lastActivity < ts → (room.Touch ts).lastActivity = ts)) := by
  refine ⟨fun c env now hcmd => ?_, fun c now => ?_, fun c now k2 room1 hnone hsome => ?_,
    fun c now => ?_, fun roomID agentID displayName now => ?_, Touch_lastActivity room⟩
  · by_cases hk : c.RoomID = k
    · have hroom2 : h.getRoom c.RoomID = some room := by rw [hk]; exact hroom
      rw [HandleIncoming_typing h c env now room hroom2 hcmd, hk]
      refine ⟨_, by rw [getRoom_sendAll, getRoom_setRoom], (Touch_history _ _).1,
        (Touch_history _ _).2, fun _ => (Touch_lastActivity _ _).1, fun hne => absurd rfl hne⟩
    · refine ⟨room, ?_, rfl, rfl, fun he => absurd he hk, fun _ => rfl⟩
      cases hr : h.getRoom c.RoomID with
      | none => rw [HandleIncoming_no_room h c env now hr]; exact hroom
      | some room2 =>
        rw [HandleIncoming_typing h c env now room2 hr hcmd, getRoom_sendAll,
          getRoom_setRoom_ne _ _ _ _ hk]
        exact hroom
  · by_cases hne : c.RoomID = ""
    · refine ⟨room, ?_, rfl, rfl⟩
      unfold Hub.Register
      rw [if_pos hne]
      exact hroom
    · by_cases hk : c.RoomID = k
      · refine ⟨h.registeredRoom c now, ?_, ?_, ?_⟩
        · unfold Hub.getRoom
          rw [Register_rooms_any h c now hne, hk, mapGet_mapSet_same]
        · have h0 : h.roomFor c.RoomID (now 0) = room := by
            unfold Hub.roomFor; rw [hk, hroom]; rfl
          exact (AddClient_history _ c _).1.trans (by rw [h0])
        · have h0 : h.roomFor c.RoomID (now 0) = room := by
            unfold Hub.roomFor; rw [hk, hroom]; rfl
          exact (AddClient_history _ c _).2.trans (by rw [h0])
      · refine ⟨room, ?_, rfl, rfl⟩
        unfold Hub.getRoom
        rw [Register_rooms_any h c now hne, mapGet_mapSet_ne _ _ _ _ hk]
        exact hroom
  · by_cases hne : c.RoomID = ""
    · unfold Hub.Register at hsome
      rw [if_pos hne, hnone] at hsome
      cases hsome
    · unfold Hub.getRoom at hsome
      rw [Register_rooms_any h c now hne] at hsome
      by_cases hk : c.RoomID = k2
      · rw [hk, mapGet_mapSet_same] at hsome
        cases hsome
        have h0 : h.roomFor c.RoomID (now 0) = NewRoom c.RoomID (now 0) := by
          unfold Hub.roomFor; rw [hk, hnone]; rfl
        exact ⟨(AddClient_history _ c _).1.trans (by rw [h0]; rfl),
          (AddClient_history _ c _).2.trans (by rw [h0]; rfl)⟩
      · rw [mapGet_mapSet_ne _ _ _ _ hk] at hsome
        unfold Hub.getRoom at hnone
        rw [hnone] at hsome
        cases hsome
  · unfold Hub.getRoom
    rw [Unregister_rooms]
    by_cases hne : c.RoomID = ""
    · rw [if_pos hne]; exact ⟨room, hroom, rfl, rfl⟩
    · rw [if_neg hne]
      cases hr : h.getRoom c.RoomID with
      | none => exact ⟨room, hroom, rfl, rfl⟩
      | some room2 =>
        dsimp only
        by_cases hk : c.RoomID = k
        · rw [hk, mapGet_mapSet_same]
          have h2 : room2 = room := by
            rw [hk, hroom] at hr; exact (Option.some.inj hr).symm
          rw [h2]
          exact ⟨_, rfl, (RemoveClient_history _ _ _).1, (RemoveClient_history _ _ _).2⟩
        · rw [mapGet_mapSet_ne _ _ _ _ hk]
          exact ⟨room, hroom, rfl, rfl⟩
  · obtain ⟨name, _, hrooms⟩ := AssignAgent_rooms h roomID agentID displayName now
    unfold Hub.getRoom
    rw [hrooms]
    cases hr : h.getRoom roomID with
    | none => exact ⟨room, hroom, rfl, rfl⟩
    | some room2 =>
      dsimp only
      by_cases hk : roomID = k
      · rw [hk, mapGet_mapSet_same]
        have h2 : room2 = room := by
          rw [hk, hroom] at hr; exact (Option.some.inj hr).symm
        rw [h2]
        exact ⟨_, rfl, (SetAssignedAgent_history _ _ _ _).1, (SetAssignedAgent_history _ _ _ _).2⟩
      · rw [mapGet_mapSet_ne _ _ _ _ hk]
        exact ⟨room, hroom, rfl, rfl⟩

theorem notices_keep_sequence_witness :
    exampleHub.getRoom "room-1" = some joinedRoom
      ∧ ∃ room1 : Room,
          (exampleHub.HandleIncoming player1 { Cmd := "typing", Timestamp := 250 }
              exampleClock).1.getRoom "room-1" = some room1
            ∧ room1.history = joinedRoom.history
            ∧ room1.nextSequence = joinedRoom.nextSequence
            ∧ room1.lastActivity = 250 := by
  have hroom : exampleHub.getRoom "room-1" = some joinedRoom := by decide
  obtain ⟨room1, h1, h2, h3, h4, _⟩ :=
    (notices_keep_sequence exampleHub "room-1" joinedRoom hroom).1 player1
      { Cmd := "typing", Timestamp := 250 } exampleClock (by decide)
  exact ⟨hroom, room1, h1, h2, h3, by rw [h4 rfl]; decide⟩

/-! ## AssignAgent -/

/-- In a well-formed room `SetAssignedAgent` makes the assigned agent a
participant with the given id and display name, the role `agent` and
`Connected = false`. -/
theorem SetAssignedAgent_assigned (r : Room) (agentID displayName : String) (now : Time)
    (hwf : r.WF) :
    ∃ x : Participant,
      (r.SetAssignedAgent agentID displayName now).AssignedAgent = some x
        ∧ x.ID = agentID ∧ x.DisplayName = displayName ∧ x.Role = RoleAgent
        ∧ x.Connected = false := by
  unfold Room.SetAssignedAgent Room.AssignedAgent
  dsimp only
  cases hp : mapGet r.agents agentID with
  | some p =>
    dsimp only
    obtain ⟨x, hx, hid⟩ := hwf.2.1 agentID p hp
    refine ⟨Participant.mk x.ID displayName RoleAgent false x.LastSeen, ?_, hid, rfl, rfl, rfl⟩
    simp only [update_get, if_true]
    rw [hx]
    rfl
  | none =>
    dsimp only
    refine ⟨Participant.mk agentID displayName RoleAgent false now, ?_, rfl, rfl, rfl, rfl⟩
    simp only [update_get, if_true]
    rw [getElem?_append_new]
    rfl

theorem Summary_assigned (r : Room) (x : Participant) (hx : r.AssignedAgent = some x) :
    r.Summary.AssignedAgentID = x.ID ∧ r.Summary.AssignedAgent = x.DisplayName := by
  unfold Room.Summary
  dsimp only
  rw [hx]
  dsimp only
  split <;> exact ⟨rfl, rfl⟩

/-- The summary `Snapshot` builds in place is the one `Summary` returns. -/
theorem Snapshot_Summary (r : Room) : r.Snapshot.Summary = r.Summary := by
  unfold Room.Snapshot Room.Summary Room.AssignedAgent
  dsimp only
  cases hh : r.history.getLast? with
  | none =>
    have hnil : r.history = [] := List.getLast?_eq_none_iff.mp hh
    have hlen : ¬ r.history.length > 0 := by rw [hnil]; decide
    rw [if_neg hlen]
    cases r.assignedAgent with
    | none => rfl
    | some a => cases r.parts[a]? <;> rfl
  | some m =>
    have hlen : r.history.length > 0 := by
      cases hl : r.history with
      | nil => rw [hl] at hh; cases hh
      | cons x xs => exact Nat.succ_pos _
    rw [if_pos hlen]
    cases r.assignedAgent with
    | none => rfl
    | some a => cases r.parts[a]? <;> rfl

/-- `AssignAgent` for an agent that is not online, in a well-formed room. -/
theorem AssignAgent_eq_of_offline (h : Hub) (roomID agentID displayName : String)
    (now : Nat → Time) (room : Room) (hroom : h.getRoom roomID = some room) (hwf : room.WF)
    (hoff : h.agentPresence agentID = none) :
    ∃ x : Participant,
      (room.SetAssignedAgent agentID displayName (now 0)).AssignedAgent = some x
        ∧ x.ID = agentID ∧ x.DisplayName = displayName ∧ x.Role = RoleAgent
        ∧ h.AssignAgent roomID agentID displayName now =
          ((h.setRoom roomID (room.SetAssignedAgent agentID displayName (now 0))).broadcast
            (room.SetAssignedAgent agentID displayName (now 0))
            (Envelope.mk MessageTypeSystem MessageTypeSystem roomID agentID RoleAgent displayName
              ("客服 " ++ displayName ++ " 將協助這個對話") (now 1)
              (some [("assignedAgent", displayName), ("assignedAgentId", agentID)]) none [] 0 0)
            (now 2), Except.ok x) := by
  obtain ⟨x, hx, h1, h2, h3, _⟩ := SetAssignedAgent_assigned room agentID displayName (now 0) hwf
  refine ⟨x, hx, h1, h2, h3, ?_⟩
  unfold Hub.AssignAgent
  rw [hroom, hoff]
  dsimp only
  rw [hx]

theorem wireForm_mk_system (r s sr d ct : String) (t now : Time) (m : StrMap) :
    (wireForm (Envelope.mk MessageTypeSystem MessageTypeSystem r s sr d ct t m none [] 0 0)
        now).Cmd = MessageTypeSystem
      ∧ (wireForm (Envelope.mk MessageTypeSystem MessageTypeSystem r s sr d ct t m none [] 0 0)
        now).Metadata = m
      ∧ (wireForm (Envelope.mk MessageTypeSystem MessageTypeSystem r s sr d ct t m none [] 0 0)
        now).Content = ct := by
  unfold wireForm
  rw [Normalize_mk MessageTypeSystem (by decide)]
  split <;> exact ⟨rfl, rfl, rfl⟩

/-- While every queue is open: in a hub whose room `roomID` exists (and is a
reachable room), for an
agent that is not online, `AssignAgent` returns a participant with the given
id, the role `agent` and the given display name; the snapshot of the room then
reports that id and that name as the assigned agent; history and
`nextSequence` are unchanged; and every live client of the room whose queue
has room receives one `system.notice` whose metadata is `assignedAgent = name`
and `assignedAgentId = agentId`, no other queue being changed. -/
theorem AssignAgent_offline (h : Hub) (roomID agentID displayName : String) (now : Nat → Time)
    (room : Room) (hroom : h.getRoom roomID = some room) (hreach : room.Reachable)
    (hoff : h.agentPresence agentID = none) :
    ∃ (assigned : Participant) (room1 : Room) (snap : RoomSnapshot) (p : Envelope),
      (h.AssignAgent roomID agentID displayName now).2 = Except.ok assigned
        ∧ assigned.ID = agentID ∧ assigned.Role = RoleAgent
        ∧ assigned.DisplayName = displayName
        ∧ (h.AssignAgent roomID agentID displayName now).1.getRoom roomID = some room1
        ∧ (h.AssignAgent roomID agentID displayName now).1.RoomSnapshot roomID = Except.ok snap
        ∧ snap.Summary.AssignedAgentID = agentID ∧ snap.Summary.AssignedAgent = displayName
        ∧ room1.history = room.history ∧ room1.nextSequence = room.nextSequence
        ∧ snap.History = room.history ∧ snap.NextSequence = room.nextSequence
        ∧ p.Cmd = MessageTypeSystem
        ∧ p.Metadata = some [("assignedAgent", displayName), ("assignedAgentId", agentID)]
        ∧ (∀ d : Client, d ∈ room.clients → (h.chan d).buf.length < (h.chan d).cap →
            (h.AssignAgent roomID agentID displayName now).1.chan d
              = { h.chan d with buf := (h.chan d).buf ++ [p] })
        ∧ (∀ d : Client, d ∈ room.clients → ¬ (h.chan d).buf.length < (h.chan d).cap →
            (h.AssignAgent roomID agentID displayName now).1.chan d = h.chan d)
        ∧ (∀ d : Client, d ∉ room.clients →
            (h.AssignAgent roomID agentID displayName now).1.chan d = h.chan d) := by
  have hwf := WF_of_Reachable room hreach
  obtain ⟨x, hx, h1, h2, h3, heq⟩ :=
    AssignAgent_eq_of_offline h roomID agentID displayName now room hroom hwf hoff
  have hnd : (room.SetAssignedAgent agentID displayName (now 0)).clients.Nodup := by
    rw [SetAssignedAgent_clients]; exact Nodup_of_Reachable room hreach
  obtain ⟨w1, w2, _⟩ := wireForm_mk_system roomID agentID RoleAgent displayName
    ("客服 " ++ displayName ++ " 將協助這個對話") (now 1) (now 2)
    (some [("assignedAgent", displayName), ("assignedAgentId", agentID)])
  have hget : (h.AssignAgent roomID agentID displayName now).1.getRoom roomID
      = some (room.SetAssignedAgent agentID displayName (now 0)) := by
    rw [heq, getRoom_broadcast, getRoom_setRoom]
  have hchan : ∀ d : Client, (h.AssignAgent roomID agentID displayName now).1.chan d
      = if d ∈ room.clients then (h.chan d).offer (wireForm
          (Envelope.mk MessageTypeSystem MessageTypeSystem roomID agentID RoleAgent displayName
            ("客服 " ++ displayName ++ " 將協助這個對話") (now 1)
            (some [("assignedAgent", displayName), ("assignedAgentId", agentID)]) none [] 0 0)
          (now 2)) else h.chan d := by
    intro d
    rw [heq]
    dsimp only
    rw [broadcast_chan _ _ _ _ hnd, SetAssignedAgent_clients]
    rfl
  obtain ⟨s1, s2⟩ := Summary_assigned _ x hx
  refine ⟨x, _, (room.SetAssignedAgent agentID displayName (now 0)).Snapshot, _, by rw [heq],
    h1, h3, h2, hget, ?_, (by rw [Snapshot_Summary]; exact s1.trans h1),
    (by rw [Snapshot_Summary]; exact s2.trans h2),
    (SetAssignedAgent_history _ _ _ _).1, (SetAssignedAgent_history _ _ _ _).2,
    (SetAssignedAgent_history _ _ _ _).1, (SetAssignedAgent_history _ _ _ _).2, w1, w2,
    fun d hd hlt => ?_, fun d hd hfull => ?_, fun d hd => ?_⟩
  · unfold Hub.RoomSnapshot
    rw [hget]
  · rw [hchan d, if_pos hd]
    unfold Chan.offer
    rw [if_pos hlt]
  · rw [hchan d, if_pos hd]
    unfold Chan.offer
    rw [if_neg hfull]
  · rw [hchan d, if_neg hd]

theorem AssignAgent_offline_witness :
    exampleHub.getRoom "room-1" = some joinedRoom ∧ joinedRoom.Reachable
      ∧ exampleHub.agentPresence "a1" = none
      ∧ ∃ (assigned : Participant) (snap : RoomSnapshot),
          (exampleHub.AssignAgent "room-1" "a1" "客服A" laterClock).2 = Except.ok assigned
            ∧ assigned.ID = "a1" ∧ assigned.DisplayName = "客服A"
            ∧ (exampleHub.AssignAgent "room-1" "a1" "客服A" laterClock).1.RoomSnapshot "room-1"
                = Except.ok snap
            ∧ snap.Summary.AssignedAgent = "客服A" := by
  have hroom : exampleHub.getRoom "room-1" = some joinedRoom := by decide
  have hoff : exampleHub.agentPresence "a1" = none := by decide
  obtain ⟨assigned, _, snap, _, h1, h2, _, h4, _, h6, _, h8, _⟩ :=
    AssignAgent_offline exampleHub "room-1" "a1" "客服A" laterClock joinedRoom hroom
      joinedRoom_reachable hoff
  exact ⟨hroom, joinedRoom_reachable, hoff, assigned, snap, h1, h2, h4, h6, h8⟩

/-! ## Rooms -/

theorem Summary_lastActivity (r : Room) : r.Summary.LastActivity = r.lastActivity := by
  unfold Room.Summary
  dsimp only
  repeat' split
  all_goals rfl

theorem Rooms_perm (h : Hub) : h.Rooms.Perm (h.rooms.map (fun kr => kr.2.Summary)) :=
  List.perm_insertionSort _ _

theorem Rooms_sorted (h : Hub) :
    h.Rooms.Sorted (fun a b => b.LastActivity ≤ a.LastActivity) := by
  have inst1 : IsTotal RoomSummary (fun a b => After b.LastActivity a.LastActivity = false) :=
    ⟨fun a b => by
      unfold After
      simp only [decide_eq_false_iff_not, not_lt]
      exact le_total _ _⟩
  have inst2 : IsTrans RoomSummary (fun a b => After b.LastActivity a.LastActivity = false) :=
    ⟨fun a b c => by
      unfold After
      simp only [decide_eq_false_iff_not, not_lt]
      intro h1 h2
      exact le_trans h2 h1⟩
  have hs := List.sorted_insertionSort
    (fun a b : RoomSummary => After b.LastActivity a.LastActivity = false)
    (h.rooms.map (fun kr => kr.2.Summary))
  refine List.Pairwise.imp ?_ hs
  intro a b hab
  unfold After at hab
  simpa using hab

/-- **C21.** `Rooms()` is a permutation of the summaries of the rooms of the
hub, one per room; it is sorted by `lastActivity` descending, so no summary has
a later `lastActivity` than one placed before it; and a room whose
`lastActivity` is strictly later than that of every other room comes first. -/
theorem Rooms_spec (h : Hub) :
    h.Rooms.Perm (h.rooms.map (fun kr => kr.2.Summary))
      ∧ h.Rooms.Sorted (fun a b => b.LastActivity ≤ a.LastActivity)
      ∧ (∀ kr : String × Room, kr ∈ h.rooms →
          (∀ kr1 : String × Room, kr1 ∈ h.rooms → kr1 ≠ kr →
            kr1.2.lastActivity < kr.2.lastActivity) →
          h.Rooms.head? = some kr.2.Summary) := by
  refine ⟨Rooms_perm h, Rooms_sorted h, ?_⟩
  intro kr hkr hlate
  have hmem : kr.2.Summary ∈ h.Rooms :=
    (Rooms_perm h).mem_iff.mpr (List.mem_map.mpr ⟨kr, hkr, rfl⟩)
  have hs := Rooms_sorted h
  cases hl : h.Rooms with
  | nil => rw [hl] at hmem; cases hmem
  | cons a l =>
    rw [hl] at hmem hs
    have ha : a ∈ h.Rooms := by rw [hl]; exact List.mem_cons_self _ _
    obtain ⟨kr1, hkr1, rfl⟩ := List.mem_map.mp ((Rooms_perm h).mem_iff.mp ha)
    simp only [List.head?_cons, Option.some.injEq]
    by_cases he : kr1 = kr
    · rw [he]
    · have hlt := hlate kr1 hkr1 he
      rcases List.mem_cons.mp hmem with h1 | h1
      · exact h1.symm
      · have := List.rel_of_sorted_cons hs _ h1
        rw [Summary_lastActivity, Summary_lastActivity] at this
        exact absurd hlt (not_lt.mpr this)

/-! ## The room map of a hub -/

theorem mapGet_eq_none_iff {α β : Type} [DecidableEq α] (m : List (α × β)) (k : α) :
    mapGet m k = none ↔ k ∉ m.map (fun kv => kv.1) := by
  induction m with
  | nil => simp [mapGet]
  | cons kv rest ih =>
    obtain ⟨k1, v1⟩ := kv
    unfold mapGet
    by_cases hk : k1 = k
    · simp [hk]
    · rw [if_neg hk, ih]
      simp only [List.map_cons, List.mem_cons, not_or]
      exact ⟨fun h => ⟨fun e => hk e.symm, h⟩, fun h => h.2⟩

theorem mapSet_keys {α β : Type} [DecidableEq α] (m : List (α × β)) (k : α) (v : β) :
    (mapSet m k v).map (fun kv => kv.1) =
      if k ∈ m.map (fun kv => kv.1) then m.map (fun kv => kv.1)
      else m.map (fun kv => kv.1) ++ [k] := by
  induction m with
  | nil => simp [mapSet]
  | cons kv rest ih =>
    obtain ⟨k1, v1⟩ := kv
    unfold mapSet
    by_cases hk : k1 = k
    · simp [hk]
    · rw [if_neg hk]
      simp only [List.map_cons, List.mem_cons, ih]
      have hk2 : ¬ k = k1 := fun e => hk e.symm
      simp only [hk2, false_or]
      split <;> simp

theorem mapSet_keys_nodup {α β : Type} [DecidableEq α] (m : List (α × β)) (k : α) (v : β)
    (hnd : (m.map (fun kv => kv.1)).Nodup) : ((mapSet m k v).map (fun kv => kv.1)).Nodup := by
  rw [mapSet_keys]
  split
  · exact hnd
  · rename_i hk
    exact List.Nodup.append hnd (List.nodup_singleton k) (by simpa using hk)

theorem mapGet_of_mem {α β : Type} [DecidableEq α] (m : List (α × β)) (k : α) (v : β)
    (hnd : (m.map (fun kv => kv.1)).Nodup) (hmem : (k, v) ∈ m) : mapGet m k = some v := by
  induction m with
  | nil => cases hmem
  | cons kv rest ih =>
    obtain ⟨k1, v1⟩ := kv
    simp only [List.map_cons, List.nodup_cons] at hnd
    unfold mapGet
    rcases List.mem_cons.mp hmem with h1 | h1
    · cases h1
      simp
    · have hk : k1 ≠ k := by
        intro e
        apply hnd.1
        rw [e]
        exact List.mem_map.mpr ⟨(k, v), h1, rfl⟩
      rw [if_neg hk]
      exact ih hnd.2 h1

theorem mem_of_mapGet {α β : Type} [DecidableEq α] (m : List (α × β)) (k : α) (v : β)
    (hget : mapGet m k = some v) : (k, v) ∈ m := by
  induction m with
  | nil => simp [mapGet] at hget
  | cons kv rest ih =>
    obtain ⟨k1, v1⟩ := kv
    unfold mapGet at hget
    by_cases hk : k1 = k
    · rw [if_pos hk] at hget
      cases hget
      rw [hk]
      exact List.mem_cons_self _ _
    · rw [if_neg hk] at hget
      exact List.mem_cons_of_mem _ (ih hget)

theorem ensure_id (r : Room) (c : Client) (now : Time) :
    (r.ensureParticipantLocked c now).1.id = r.id := by
  unfold Room.ensureParticipantLocked
  dsimp only
  repeat' split
  all_goals simp only [update_id]

theorem AddClient_id (r : Room) (c : Client) (now : Nat → Time) :
    (r.AddClient c now).1.id = r.id := by
  unfold Room.AddClient
  split
  · exact ensure_id r c _
  · simp only [update_id]
    exact ensure_id _ c _

theorem RemoveClient_id (r : Room) (c : Client) (now : Time) :
    (r.RemoveClient c now).id = r.id := by
  unfold Room.RemoveClient
  dsimp only
  repeat' split
  all_goals simp only [update_id]

theorem Touch_id (r : Room) (ts : Time) : (r.Touch ts).id = r.id := by
  unfold Room.Touch
  split <;> rfl

theorem AddMessage_id (r : Room) (msg : ChatMessage) (now : Time) :
    (r.AddMessage msg now).1.id = r.id := by
  unfold Room.AddMessage
  dsimp only
  repeat' split
  all_goals simp only [update_id]

theorem SetAssignedAgent_id (r : Room) (agentID displayName : String) (now : Time) :
    (r.SetAssignedAgent agentID displayName now).id = r.id := by
  unfold Room.SetAssignedAgent
  dsimp only
  repeat' split
  all_goals simp only [update_id]

theorem Inv_of_rooms_eq (h h1 : Hub) (he : h1.rooms = h.rooms) (hi : h.Inv) : h1.Inv := by
  unfold Hub.Inv Hub.getRoom at *
  rw [he]
  exact hi

theorem Inv_of_mapSet (h h1 : Hub) (k : String) (r1 : Room)
    (he : h1.rooms = mapSet h.rooms k r1) (hi : h.Inv) (hk : k ≠ "") (hid : r1.id = k)
    (hr : r1.Reachable) (hc : ∀ d : Client, d ∈ r1.clients → d.RoomID = k) : h1.Inv := by
  unfold Hub.Inv Hub.getRoom at *
  rw [he]
  refine ⟨mapSet_keys_nodup _ _ _ hi.1, ?_⟩
  intro k2 r2 hget
  by_cases hkk : k = k2
  · subst hkk
    rw [mapGet_mapSet_same] at hget
    cases hget
    exact ⟨hk, hid, hr, hc⟩
  · rw [mapGet_mapSet_ne _ _ _ _ hkk] at hget
    exact hi.2 k2 r2 hget

theorem Inv_NewHub : NewHub.Inv := by
  unfold Hub.Inv NewHub Hub.getRoom
  simp [mapGet]

theorem HandleIncoming_rooms (h : Hub) (c : Client) (env : Envelope) (now : Nat → Time) :
    (h.HandleIncoming c env now).1.rooms = h.rooms
      ∨ ∃ room : Room, h.getRoom c.RoomID = some room
          ∧ ((∃ (msg : ChatMessage) (t : Time),
                (h.HandleIncoming c env now).1.rooms
                  = mapSet h.rooms c.RoomID (room.AddMessage msg t).1)
              ∨ ∃ ts : Time,
                (h.HandleIncoming c env now).1.rooms = mapSet h.rooms c.RoomID (room.Touch ts)) := by
  cases hroom : h.getRoom c.RoomID with
  | none => left; rw [HandleIncoming_no_room h c env now hroom]
  | some room =>
    by_cases h1 : env.Normalize.Cmd = MessageTypeChat
    · by_cases hcontent : env.Content = ""
      · left; rw [HandleIncoming_chat_empty h c env now room hroom h1 hcontent]
      · right
        refine ⟨room, rfl, Or.inl ?_⟩
        rw [HandleIncoming_chat h c env now room hroom h1 hcontent]
        dsimp only
        rw [sendAll_rooms]
        exact ⟨_, _, rfl⟩
    · by_cases h2 : env.Normalize.Cmd = MessageTypeTyping
      · right
        refine ⟨room, rfl, Or.inr ?_⟩
        rw [HandleIncoming_typing h c env now room hroom h2]
        dsimp only
        rw [sendAll_rooms]
        exact ⟨_, rfl⟩
      · by_cases h3 : env.Normalize.Cmd = MessageTypeHistory
        · left
          rw [HandleIncoming_history h c env now room hroom h3]
          exact SendEnvelope_rooms _ _ _ _
        · left; rw [HandleIncoming_unknown h c env now room hroom h1 h2 h3]

theorem recv_rooms (h : Hub) (c : Client) : (h.recv c).1.rooms = h.rooms := by
  unfold Hub.recv
  split <;> rfl

theorem sendSystemError_rooms (c : Client) (h : Hub) (message : String) (now : Nat → Time) :
    (c.sendSystemError h message now).rooms = h.rooms := by
  unfold Client.sendSystemError
  exact SendEnvelope_rooms _ _ _ _

theorem Inv_step (h : Hub) (op : HubOp) (hi : h.Inv) : (h.step op).Inv := by
  cases op with
  | newClient ptr roomID id role displayName => exact Inv_of_rooms_eq h _ rfl hi
  | register c now =>
    show ((h.Register c now).1).Inv
    by_cases hne : c.RoomID = ""
    · have : h.Register c now = (h, some Err.roomIdRequired) := by
        unfold Hub.Register
        rw [if_pos hne]
      rw [this]
      exact hi
    · refine Inv_of_mapSet h _ c.RoomID (h.registeredRoom c now)
        (Register_rooms_any h c now hne) hi hne ?_ ?_ ?_
      · unfold Hub.registeredRoom Hub.roomFor
        rw [AddClient_id]
        cases hroom : h.getRoom c.RoomID with
        | none => rfl
        | some room => exact (hi.2 _ _ hroom).2.1
      · unfold Hub.registeredRoom Hub.roomFor
        apply Room.Reachable.addClient
        cases hroom : h.getRoom c.RoomID with
        | none => exact Room.Reachable.newRoom _ _
        | some room => exact (hi.2 _ _ hroom).2.2.1
      · intro d hd
        unfold Hub.registeredRoom Hub.roomFor at hd
        rw [AddClient_clients] at hd
        have hold : ∀ d : Client,
            d ∈ ((h.getRoom c.RoomID).getD (NewRoom c.RoomID (now 0))).clients →
              d.RoomID = c.RoomID := by
          intro d hd
          cases hroom : h.getRoom c.RoomID with
          | none => rw [hroom] at hd; cases hd
          | some room => rw [hroom] at hd; exact (hi.2 _ _ hroom).2.2.2 d hd
        split at hd
        · exact hold d hd
        · rcases List.mem_append.mp hd with h1 | h1
          · exact hold d h1
          · rw [List.mem_singleton.mp h1]
  | unregister c now =>
    show (h.Unregister c now).Inv
    have hr := Unregister_rooms h c now
    by_cases hne : c.RoomID = ""
    · rw [if_pos hne] at hr
      exact Inv_of_rooms_eq h _ hr hi
    · rw [if_neg hne] at hr
      cases hroom : h.getRoom c.RoomID with
      | none => rw [hroom] at hr; exact Inv_of_rooms_eq h _ hr hi
      | some room =>
        rw [hroom] at hr
        obtain ⟨hk, hid, hreach, hc⟩ := hi.2 _ _ hroom
        refine Inv_of_mapSet h _ c.RoomID _ hr hi hk ?_ (Room.Reachable.removeClient _ _ _ hreach) ?_
        · rw [RemoveClient_id]; exact hid
        · intro d hd
          rw [RemoveClient_clients] at hd
          exact hc d (List.mem_of_mem_erase hd)
  | handleIncoming c env now =>
    show ((h.HandleIncoming c env now).1).Inv
    rcases HandleIncoming_rooms h c env now with hr | ⟨room, hroom, hr | hr⟩
    · exact Inv_of_rooms_eq h _ hr hi
    · obtain ⟨msg, t, hr⟩ := hr
      obtain ⟨hk, hid, hreach, hc⟩ := hi.2 _ _ hroom
      refine Inv_of_mapSet h _ c.RoomID _ hr hi hk ?_ (Room.Reachable.addMessage _ _ _ hreach) ?_
      · rw [AddMessage_id]; exact hid
      · intro d hd
        rw [AddMessage_clients] at hd
        exact hc d hd
    · obtain ⟨ts, hr⟩ := hr
      obtain ⟨hk, hid, hreach, hc⟩ := hi.2 _ _ hroom
      refine Inv_of_mapSet h _ c.RoomID _ hr hi hk ?_ (Room.Reachable.touch _ _ hreach) ?_
      · rw [Touch_id]; exact hid
      · intro d hd
        rw [Touch_clients] at hd
        exact hc d hd
  | assignAgent roomID agentID displayName now =>
    show ((h.AssignAgent roomID agentID displayName now).1).Inv
    obtain ⟨name, _, hr⟩ := AssignAgent_rooms h roomID agentID displayName now
    cases hroom : h.getRoom roomID with
    | none => rw [hroom] at hr; exact Inv_of_rooms_eq h _ hr hi
    | some room =>
      rw [hroom] at hr
      obtain ⟨hk, hid, hreach, hc⟩ := hi.2 _ _ hroom
      refine Inv_of_mapSet h _ roomID _ hr hi hk ?_
        (Room.Reachable.setAssignedAgent _ _ _ _ hreach) ?_
      · rw [SetAssignedAgent_id]; exact hid
      · intro d hd
        rw [SetAssignedAgent_clients] at hd
        exact hc d hd
  | sendSystemError c message now =>
    exact Inv_of_rooms_eq h _ (sendSystemError_rooms c h message now) hi
  | receive c => exact Inv_of_rooms_eq h _ (recv_rooms h c) hi

theorem Inv_runFrom (h : Hub) (ops : List HubOp) (hi : h.Inv) : (h.runFrom ops).Inv := by
  induction ops generalizing h with
  | nil => exact hi
  | cons op rest ih => exact ih (h.step op) (Inv_step h op hi)

theorem Inv_run (ops : List HubOp) : (Hub.run ops).Inv := Inv_runFrom _ _ Inv_NewHub

/-! ## Rooms are created by Register only -/

/-- The rooms of the hub after one call: those before it, and the room of a
`Register` that returned no error. -/
theorem step_getRoom_isSome (h : Hub) (op : HubOp) (k : String) :
    ((h.step op).getRoom k).isSome = true ↔
      ((h.getRoom k).isSome = true
        ∨ ∃ (c : Client) (now : Nat → Time),
            op = HubOp.register c now ∧ c.RoomID = k ∧ (h.Register c now).2 = none) := by
  have keep : ∀ h1 : Hub, h1.rooms = h.rooms → (h1.getRoom k).isSome = (h.getRoom k).isSome := by
    intro h1 he
    unfold Hub.getRoom
    rw [he]
  have set : ∀ (h1 : Hub) (k1 : String) (r r1 : Room), h.getRoom k1 = some r →
      h1.rooms = mapSet h.rooms k1 r1 → (h1.getRoom k).isSome = (h.getRoom k).isSome := by
    intro h1 k1 r r1 hget he
    unfold Hub.getRoom at *
    rw [he]
    by_cases hk : k1 = k
    · subst hk
      rw [mapGet_mapSet_same, hget]
      rfl
    · rw [mapGet_mapSet_ne _ _ _ _ hk]
  have noreg : ∀ h1 : Hub, (∀ (c : Client) (now : Nat → Time), op ≠ HubOp.register c now) →
      (h1.getRoom k).isSome = (h.getRoom k).isSome →
      ((h1.getRoom k).isSome = true ↔
        ((h.getRoom k).isSome = true
          ∨ ∃ (c : Client) (now : Nat → Time),
              op = HubOp.register c now ∧ c.RoomID = k ∧ (h.Register c now).2 = none)) := by
    intro h1 hop he
    rw [he]
    constructor
    · exact Or.inl
    · rintro (h2 | ⟨c, now, h2, _⟩)
      · exact h2
      · exact absurd h2 (hop c now)
  cases op with
  | newClient ptr roomID id role displayName =>
    exact noreg _ (fun _ _ e => by cases e) (keep _ rfl)
  | register c now =>
    show (((h.Register c now).1).getRoom k).isSome = true ↔ _
    by_cases hne : c.RoomID = ""
    · have hreg : h.Register c now = (h, some Err.roomIdRequired) := by
        unfold Hub.Register
        rw [if_pos hne]
      rw [hreg]
      constructor
      · exact Or.inl
      · rintro (h2 | ⟨c1, now1, h2, _, h3⟩)
        · exact h2
        · cases h2
          rw [hreg] at h3
          cases h3
    · have hnone : (h.Register c now).2 = none := by
        unfold Hub.Register
        rw [if_neg hne]
      have hr := Register_rooms_any h c now hne
      unfold Hub.getRoom
      rw [hr]
      by_cases hk : c.RoomID = k
      · rw [hk, mapGet_mapSet_same]
        simp only [Option.isSome_some, true_iff]
        exact Or.inr ⟨c, now, rfl, hk, hnone⟩
      · rw [mapGet_mapSet_ne _ _ _ _ hk]
        constructor
        · exact Or.inl
        · rintro (h2 | ⟨c1, now1, h2, h3, _⟩)
          · exact h2
          · cases h2
            exact absurd h3 hk
  | unregister c now =>
    refine noreg _ (fun _ _ e => by cases e) ?_
    show ((h.Unregister c now).getRoom k).isSome = _
    have hr := Unregister_rooms h c now
    by_cases hne : c.RoomID = ""
    · rw [if_pos hne] at hr
      exact keep _ hr
    · rw [if_neg hne] at hr
      cases hroom : h.getRoom c.RoomID with
      | none => rw [hroom] at hr; exact keep _ hr
      | some room => rw [hroom] at hr; exact set _ _ _ _ hroom hr
  | handleIncoming c env now =>
    refine noreg _ (fun _ _ e => by cases e) ?_
    show (((h.HandleIncoming c env now).1).getRoom k).isSome = _
    rcases HandleIncoming_rooms h c env now with hr | ⟨room, hroom, ⟨msg, t, hr⟩ | ⟨ts, hr⟩⟩
    · exact keep _ hr
    · exact set _ _ _ _ hroom hr
    · exact set _ _ _ _ hroom hr
  | assignAgent roomID agentID displayName now =>
    refine noreg _ (fun _ _ e => by cases e) ?_
    show (((h.AssignAgent roomID agentID displayName now).1).getRoom k).isSome = _
    obtain ⟨name, _, hr⟩ := AssignAgent_rooms h roomID agentID displayName now
    cases hroom : h.getRoom roomID with
    | none => rw [hroom] at hr; exact keep _ hr
    | some room => rw [hroom] at hr; exact set _ _ _ _ hroom hr
  | sendSystemError c message now =>
    exact noreg _ (fun _ _ e => by cases e) (keep _ (sendSystemError_rooms c h message now))
  | receive c => exact noreg _ (fun _ _ e => by cases e) (keep _ (recv_rooms h c))

/-- A room exists after the calls `ops` exactly when it existed before them or
one of them was a `Register` for its id that returned no error. -/
theorem runFrom_getRoom_isSome (h : Hub) (ops : List HubOp) (k : String) :
    ((h.runFrom ops).getRoom k).isSome = ((h.getRoom k).isSome || everRegistered k h ops) := by
  induction ops generalizing h with
  | nil => simp [Hub.runFrom, everRegistered]
  | cons op rest ih =>
    have hstep := step_getRoom_isSome h op k
    show (((h.step op).runFrom rest).getRoom k).isSome = _
    rw [ih (h.step op)]
    have hcons : everRegistered k h (op :: rest) =
        (op.registers h k || everRegistered k (h.step op) rest) := rfl
    rw [hcons, ← Bool.or_assoc]
    congr 1
    rw [Bool.eq_iff_iff, hstep]
    cases op with
    | register c now =>
      simp only [HubOp.registers, Bool.or_eq_true, Bool.and_eq_true, decide_eq_true_eq,
        Option.isNone_iff_eq_none]
      constructor
      · rintro (h1 | ⟨c1, now1, he, hk, hn⟩)
        · exact Or.inl h1
        · cases he
          exact Or.inr ⟨hk, hn⟩
      · rintro (h1 | h1)
        · exact Or.inl h1
        · exact Or.inr ⟨c, now, rfl, h1.1, h1.2⟩
    | _ => simp [HubOp.registers]

theorem run_getRoom_eq_none (ops : List HubOp) (k : String) :
    (Hub.run ops).getRoom k = none ↔ everRegistered k NewHub ops = false := by
  have h1 := runFrom_getRoom_isSome NewHub ops k
  have h2 : (NewHub.getRoom k).isSome = false := rfl
  rw [h2, Bool.false_or] at h1
  unfold Hub.run
  rw [← h1]
  cases (NewHub.runFrom ops).getRoom k <;> simp

theorem RoomSnapshot_not_found_iff (h : Hub) (k : String) :
    h.RoomSnapshot k = Except.error Err.ErrRoomNotFound ↔ h.getRoom k = none := by
  unfold Hub.RoomSnapshot
  cases h.getRoom k <;> simp

theorem MessagesSince_not_found_iff (h : Hub) (k : String) (sequence : Int) :
    h.MessagesSince k sequence = Except.error Err.ErrRoomNotFound ↔ h.getRoom k = none := by
  unfold Hub.MessagesSince
  cases h.getRoom k <;> simp

theorem AssignAgent_not_found_iff (h : Hub) (k agentID displayName : String) (now : Nat → Time) :
    (h.AssignAgent k agentID displayName now).2 = Except.error Err.ErrRoomNotFound
      ↔ h.getRoom k = none := by
  unfold Hub.AssignAgent
  cases h.getRoom k with
  | none => simp
  | some room =>
    dsimp only
    split <;> simp

theorem HandleIncoming_not_found_iff (h : Hub) (c : Client) (env : Envelope) (now : Nat → Time) :
    (h.HandleIncoming c env now).2 = some Err.ErrRoomNotFound ↔ h.getRoom c.RoomID = none := by
  cases hroom : h.getRoom c.RoomID with
  | none => rw [HandleIncoming_no_room h c env now hroom]; simp
  | some room =>
    simp only [reduceCtorEq, iff_false]
    by_cases h1 : env.Normalize.Cmd = MessageTypeChat
    · by_cases hcontent : env.Content = ""
      · rw [HandleIncoming_chat_empty h c env now room hroom h1 hcontent]; simp
      · rw [HandleIncoming_chat h c env now room hroom h1 hcontent]; simp
    · by_cases h2 : env.Normalize.Cmd = MessageTypeTyping
      · rw [HandleIncoming_typing h c env now room hroom h2]; simp
      · by_cases h3 : env.Normalize.Cmd = MessageTypeHistory
        · rw [HandleIncoming_history h c env now room hroom h3, SendEnvelope_eq]
          split <;> simp
        · rw [HandleIncoming_unknown h c env now room hroom h1 h2 h3]; simp

/-- **C23.** After any calls made one at a time on a new hub, `RoomSnapshot`,
`MessagesSince`, `AssignAgent` and `HandleIncoming` fail with room-not-found
for a room id exactly when none of the calls was a `Register` for that id that
returned no error; and one more call leaves the room ids as they are, except
that such a `Register` adds its own: no call removes a room and only
`Register` creates one. -/
theorem room_not_found_iff_never_registered (ops : List HubOp) (k : String) :
    ((Hub.run ops).RoomSnapshot k = Except.error Err.ErrRoomNotFound
        ↔ everRegistered k NewHub ops = false)
      ∧ (∀ sequence : Int,
          (Hub.run ops).MessagesSince k sequence = Except.error Err.ErrRoomNotFound
            ↔ everRegistered k NewHub ops = false)
      ∧ (∀ (agentID displayName : String) (now : Nat → Time),
          ((Hub.run ops).AssignAgent k agentID displayName now).2
              = Except.error Err.ErrRoomNotFound
            ↔ everRegistered k NewHub ops = false)
      ∧ (∀ (c : Client) (env : Envelope) (now : Nat → Time), c.RoomID = k →
          (((Hub.run ops).HandleIncoming c env now).2 = some Err.ErrRoomNotFound
            ↔ everRegistered k NewHub ops = false))
      ∧ (∀ op : HubOp,
          (((Hub.run ops).step op).getRoom k).isSome = true
            ↔ (((Hub.run ops).getRoom k).isSome = true
                ∨ op.registers (Hub.run ops) k = true)) := by
  refine ⟨?_, ?_, ?_, ?_, ?_⟩
  · rw [RoomSnapshot_not_found_iff, run_getRoom_eq_none]
  · intro sequence
    rw [MessagesSince_not_found_iff, run_getRoom_eq_none]
  · intro agentID displayName now
    rw [AssignAgent_not_found_iff, run_getRoom_eq_none]
  · intro c env now hk
    rw [HandleIncoming_not_found_iff, hk, run_getRoom_eq_none]
  · intro op
    rw [step_getRoom_isSome]
    constructor
    · rintro (h1 | ⟨c, now, rfl, hk, hn⟩)
      · exact Or.inl h1
      · right
        simp [HubOp.registers, hk, hn]
    · rintro (h1 | h1)
      · exact Or.inl h1
      · right
        cases op with
        | register c now =>
          simp only [HubOp.registers, Bool.and_eq_true, decide_eq_true_eq,
            Option.isNone_iff_eq_none] at h1
          exact ⟨c, now, rfl, h1.1, h1.2⟩
        | _ => simp [HubOp.registers] at h1

/-! ## Isolation of rooms -/

theorem broadcast_chan_not_mem (h : Hub) (room : Room) (env : Envelope) (now : Time) (d : Client)
    (hd : d ∉ room.clients) : (h.broadcast room env now).chan d = h.chan d := by
  rw [broadcast_eq_sendAll]
  exact sendAll_chan_not_mem _ _ _ _ hd

theorem SendEnvelope_chan_ne (c : Client) (h : Hub) (env : Envelope) (now : Time) (d : Client)
    (hd : d ≠ c) : (c.SendEnvelope h env now).1.chan d = h.chan d := by
  rw [SendEnvelope_chan, if_neg hd]

theorem Unregister_chan_not_mem (h : Hub) (c : Client) (now : Nat → Time) (d : Client)
    (hd : ∀ room : Room, h.getRoom c.RoomID = some room → d ∉ room.clients) :
    (h.Unregister c now).chan d = h.chan d := by
  unfold Hub.Unregister
  split
  · rfl
  · cases hroom : h.getRoom c.RoomID with
    | none => rfl
    | some room =>
      dsimp only
      rw [broadcast_chan_not_mem, chan_setRoom]
      rw [RemoveClient_clients]
      exact fun hm => hd room hroom (List.mem_of_mem_erase hm)

theorem HandleIncoming_chan_not_mem (h : Hub) (c : Client) (env : Envelope) (now : Nat → Time)
    (d : Client) (hne : d ≠ c)
    (hd : ∀ room : Room, h.getRoom c.RoomID = some room → d ∉ room.clients) :
    (h.HandleIncoming c env now).1.chan d = h.chan d := by
  cases hroom : h.getRoom c.RoomID with
  | none => rw [HandleIncoming_no_room h c env now hroom]
  | some room =>
    by_cases h1 : env.Normalize.Cmd = MessageTypeChat
    · by_cases hcontent : env.Content = ""
      · rw [HandleIncoming_chat_empty h c env now room hroom h1 hcontent]
      · rw [HandleIncoming_chat h c env now room hroom h1 hcontent]
        dsimp only
        rw [sendAll_chan_not_mem _ _ _ _ (hd room hroom), chan_setRoom]
    · by_cases h2 : env.Normalize.Cmd = MessageTypeTyping
      · rw [HandleIncoming_typing h c env now room hroom h2]
        dsimp only
        rw [sendAll_chan_not_mem _ _ _ _ (hd room hroom), chan_setRoom]
      · by_cases h3 : env.Normalize.Cmd = MessageTypeHistory
        · rw [HandleIncoming_history h c env now room hroom h3]
          exact SendEnvelope_chan_ne _ _ _ _ _ hne
        · rw [HandleIncoming_unknown h c env now room hroom h1 h2 h3]

theorem AssignAgent_chan_not_mem (h : Hub) (roomID agentID displayName : String)
    (now : Nat → Time) (d : Client)
    (hd : ∀ room : Room, h.getRoom roomID = some room → d ∉ room.clients) :
    (h.AssignAgent roomID agentID displayName now).1.chan d = h.chan d := by
  unfold Hub.AssignAgent
  cases hroom : h.getRoom roomID with
  | none => rfl
  | some room =>
    dsimp only
    split
    · rfl
    · dsimp only
      rw [broadcast_chan_not_mem, chan_setRoom]
      rw [SetAssignedAgent_clients]
      exact hd room hroom

theorem Register_chan_not_mem (h : Hub) (c : Client) (now : Nat → Time) (d : Client)
    (hne : d ≠ c)
    (hd : ∀ room : Room, h.getRoom c.RoomID = some room → d ∉ room.clients) :
    (h.Register c now).1.chan d = h.chan d := by
  by_cases hk : c.RoomID = ""
  · unfold Hub.Register
    rw [if_pos hk]
  · have hmem : d ∉ (h.registeredRoom c now).clients := by
      unfold Hub.registeredRoom Hub.roomFor
      rw [AddClient_clients]
      have hold : d ∉ ((h.getRoom c.RoomID).getD (NewRoom c.RoomID (now 0))).clients := by
        cases hroom : h.getRoom c.RoomID with
        | none => exact List.not_mem_nil d
        | some room => exact hd room hroom
      split
      · exact hold
      · intro hm
        rcases List.mem_append.mp hm with h1 | h1
        · exact hold h1
        · exact hne (List.mem_singleton.mp h1)
    unfold Hub.Register
    rw [if_neg hk]
    have hroom : (h.getOrCreateRoom c.RoomID (now 0)).2 = h.roomFor c.RoomID (now 0) := by
      unfold Hub.getOrCreateRoom Hub.roomFor Hub.getRoom
      split
      · rename_i room hr; rw [hr]; rfl
      · rename_i hr; rw [hr]; rfl
    have hchan : ∀ x : Client, (h.getOrCreateRoom c.RoomID (now 0)).1.chan x = h.chan x := by
      intro x
      unfold Hub.getOrCreateRoom
      split <;> rfl
    dsimp only
    rw [hroom]
    rw [show ((h.roomFor c.RoomID (now 0)).AddClient c (fun i => now (i + 1))).1
      = h.registeredRoom c now from rfl]
    rw [broadcast_chan_not_mem _ _ _ _ _ hmem]
    split
    · rw [SendEnvelope_chan_ne _ _ _ _ _ hne, chan_setRoom, hchan]
    · rw [chan_setRoom, hchan]

/-- A call on behalf of the room `A` changes the room map at `A` only. -/
theorem step_getRoom_other (h : Hub) (op : HubOp) (A B : String) (hop : op.roomOf = some A)
    (hB : B ≠ A) : (h.step op).getRoom B = h.getRoom B := by
  have keep : ∀ h1 : Hub, h1.rooms = h.rooms → h1.getRoom B = h.getRoom B := by
    intro h1 he
    unfold Hub.getRoom
    rw [he]
  have set : ∀ (h1 : Hub) (r1 : Room), h1.rooms = mapSet h.rooms A r1 →
      h1.getRoom B = h.getRoom B := by
    intro h1 r1 he
    unfold Hub.getRoom
    rw [he, mapGet_mapSet_ne _ _ _ _ (fun e => hB e.symm)]
  cases op with
  | newClient ptr roomID id role displayName => cases hop
  | register c now =>
    cases hop
    show ((h.Register c now).1).getRoom B = _
    by_cases hne : c.RoomID = ""
    · unfold Hub.Register
      rw [if_pos hne]
    · exact set _ _ (Register_rooms_any h c now hne)
  | unregister c now =>
    cases hop
    show (h.Unregister c now).getRoom B = _
    have hr := Unregister_rooms h c now
    by_cases hne : c.RoomID = ""
    · rw [if_pos hne] at hr
      exact keep _ hr
    · rw [if_neg hne] at hr
      cases hroom : h.getRoom c.RoomID with
      | none => rw [hroom] at hr; exact keep _ hr
      | some room => rw [hroom] at hr; exact set _ _ hr
  | handleIncoming c env now =>
    cases hop
    show ((h.HandleIncoming c env now).1).getRoom B = _
    rcases HandleIncoming_rooms h c env now with hr | ⟨room, hroom, ⟨msg, t, hr⟩ | ⟨ts, hr⟩⟩
    · exact keep _ hr
    · exact set _ _ hr
    · exact set _ _ hr
  | assignAgent roomID agentID displayName now =>
    cases hop
    show ((h.AssignAgent A agentID displayName now).1).getRoom B = _
    obtain ⟨name, _, hr⟩ := AssignAgent_rooms h A agentID displayName now
    cases hroom : h.getRoom A with
    | none => rw [hroom] at hr; exact keep _ hr
    | some room => rw [hroom] at hr; exact set _ _ hr
  | sendSystemError c message now => cases hop
  | receive c => cases hop

/-- A call on behalf of the room `A` leaves alone the queue of a client that
was made for another room id. -/
theorem step_chan_other (h : Hub) (hi : h.Inv) (op : HubOp) (A : String)
    (hop : op.roomOf = some A) (d : Client) (hd : d.RoomID ≠ A) :
    (h.step op).chan d = h.chan d := by
  have hnot : ∀ room : Room, h.getRoom A = some room → d ∉ room.clients :=
    fun room hroom hm => hd ((hi.2 A room hroom).2.2.2 d hm)
  cases op with
  | newClient ptr roomID id role displayName => cases hop
  | register c now =>
    cases hop
    exact Register_chan_not_mem h c now d (fun e => hd (by rw [e])) hnot
  | unregister c now =>
    cases hop
    exact Unregister_chan_not_mem h c now d hnot
  | handleIncoming c env now =>
    cases hop
    exact HandleIncoming_chan_not_mem h c env now d (fun e => hd (by rw [e])) hnot
  | assignAgent roomID agentID displayName now =>
    cases hop
    exact AssignAgent_chan_not_mem h A agentID displayName now d hnot
  | sendSystemError c message now => cases hop
  | receive c => cases hop

/-- **C24.** After any calls made one at a time on a new hub, a hub operation
on behalf of the room `A` (`Register`, `Unregister`, `HandleIncoming` with any
envelope, `AssignAgent`) leaves every other room as it was, and leaves the
outbound queue of every client that is live in another room as it was; such a
client is live in `A` neither before nor after the operation. -/
theorem rooms_isolated (ops : List HubOp) (op : HubOp) (A : String)
    (hop : op.roomOf = some A) :
    (∀ B : String, B ≠ A → ((Hub.run ops).step op).getRoom B = (Hub.run ops).getRoom B)
      ∧ ∀ (d : Client) (B : String) (room : Room), B ≠ A →
          (Hub.run ops).getRoom B = some room → d ∈ room.clients →
          ((Hub.run ops).step op).chan d = (Hub.run ops).chan d
            ∧ (∀ roomA : Room, (Hub.run ops).getRoom A = some roomA → d ∉ roomA.clients)
            ∧ (∀ roomA : Room, ((Hub.run ops).step op).getRoom A = some roomA →
                d ∉ roomA.clients) := by
  refine ⟨fun B hB => step_getRoom_other _ op A B hop hB, ?_⟩
  intro d B room hB hroom hd
  have hi := Inv_run ops
  have hhome : d.RoomID = B := (hi.2 B room hroom).2.2.2 d hd
  have hne : d.RoomID ≠ A := by rw [hhome]; exact hB
  refine ⟨step_chan_other _ hi op A hop d hne, ?_, ?_⟩
  · exact fun roomA hA hm => hne ((hi.2 A roomA hA).2.2.2 d hm)
  · exact fun roomA hA hm => hne (((Inv_step _ op hi).2 A roomA hA).2.2.2 d hm)

theorem rooms_isolated_witness :
    (HubOp.handleIncoming player1 { Cmd := "message", Content := "hi" } laterClock).roomOf
        = some "room-1"
      ∧ player2 ∈ (((Hub.run twoRoomCalls).getRoom "room-2").getD (NewRoom "" 0)).clients
      ∧ ((Hub.run twoRoomCalls).step
          (HubOp.handleIncoming player1 { Cmd := "message", Content := "hi" } laterClock)).getRoom
            "room-2" = (Hub.run twoRoomCalls).getRoom "room-2"
      ∧ ((Hub.run twoRoomCalls).step
          (HubOp.handleIncoming player1 { Cmd := "message", Content := "hi" } laterClock)).chan
            player2 = (Hub.run twoRoomCalls).chan player2
      ∧ (((Hub.run twoRoomCalls).step
          (HubOp.handleIncoming player1 { Cmd := "message", Content := "hi" } laterClock)).chan
            player1).buf.length = 2 := by
  have hroom : ∃ room : Room, (Hub.run twoRoomCalls).getRoom "room-2" = some room
      ∧ player2 ∈ room.clients := by
    refine ⟨_, rfl, ?_⟩
    decide
  obtain ⟨room, hget, hmem⟩ := hroom
  have hw := rooms_isolated twoRoomCalls
    (HubOp.handleIncoming player1 { Cmd := "message", Content := "hi" } laterClock) "room-1" rfl
  refine ⟨rfl, by decide, hw.1 "room-2" (by decide), (hw.2 player2 "room-2" room (by decide) hget hmem).1,
    by decide⟩

/-! ## Order of chat messages in a queue -/

theorem offer_buf (ch : Chan) (p : Envelope) :
    (ch.offer p).buf = ch.buf ∨ (ch.offer p).buf = ch.buf ++ [p] := by
  unfold Chan.offer
  split
  · exact Or.inr rfl
  · exact Or.inl rfl

theorem trySend_eq_offer (ch : Chan) (p : Envelope) : (ch.trySend p).1 = ch.offer p := by
  unfold Chan.trySend Chan.offer
  split <;> rfl

theorem wireForm_isChat (env : Envelope) (now : Time)
    (hk : normalizeLegacyType env.Cmd = env.Cmd) (ht : env.Type_ = env.Cmd) :
    (wireForm env now).isChat = decide (env.Cmd = MessageTypeChat) := by
  unfold wireForm
  rw [Normalize_fixed env hk ht]
  unfold Envelope.isChat
  split <;> simp [ht]

theorem counterOf_of_rooms_eq (h h1 : Hub) (he : h1.rooms = h.rooms) (k : String) :
    h1.counterOf k = h.counterOf k := by
  unfold Hub.counterOf Hub.getRoom
  rw [he]

theorem counterOf_mapSet_ne (h h1 : Hub) (k k2 : String) (r1 : Room)
    (he : h1.rooms = mapSet h.rooms k r1) (hne : k ≠ k2) : h1.counterOf k2 = h.counterOf k2 := by
  unfold Hub.counterOf Hub.getRoom
  rw [he, mapGet_mapSet_ne _ _ _ _ hne]

theorem counterOf_mapSet_same (h h1 : Hub) (k : String) (r1 : Room)
    (he : h1.rooms = mapSet h.rooms k r1) : h1.counterOf k = r1.nextSequence := by
  unfold Hub.counterOf Hub.getRoom
  rw [he, mapGet_mapSet_same]

theorem counterOf_some (h : Hub) (k : String) (room : Room) (hroom : h.getRoom k = some room) :
    h.counterOf k = room.nextSequence := by
  unfold Hub.counterOf
  rw [hroom]

/-- A change of the room under `k` that keeps its counter keeps every counter. -/
theorem counterOf_mapSet_keep (h h1 : Hub) (k : String) (room r1 : Room)
    (hroom : h.getRoom k = some room) (he : h1.rooms = mapSet h.rooms k r1)
    (hn : r1.nextSequence = room.nextSequence) (k2 : String) :
    h1.counterOf k2 = h.counterOf k2 := by
  by_cases hk : k = k2
  · subst hk
    rw [counterOf_mapSet_same h h1 k r1 he, counterOf_some h k room hroom, hn]
  · exact counterOf_mapSet_ne h h1 k k2 r1 he hk

theorem counterOf_nonneg (h : Hub) (hi : h.Inv) (k : String) : 0 ≤ h.counterOf k := by
  unfold Hub.counterOf
  cases hroom : h.getRoom k with
  | none => exact le_refl _
  | some room =>
    have hs := SeqInv_of_Reachable room (hi.2 k room hroom).2.2.1
    dsimp only
    rw [hs.2]
    exact Int.natCast_nonneg _

theorem Enqueues_of_eq (h h1 : Hub) (d : Client) (hc : h1.chan d = h.chan d)
    (hn : h.counterOf d.RoomID ≤ h1.counterOf d.RoomID) : h.Enqueues h1 d :=
  ⟨[], by rw [hc, List.append_nil], Or.inl ⟨fun _ he => (List.not_mem_nil _ he).elim, hn⟩⟩

theorem Enqueues_offer (h h1 : Hub) (d : Client) (p : Envelope)
    (hc : h1.chan d = (h.chan d).offer p) (hp : p.isChat = false)
    (hn : h.counterOf d.RoomID ≤ h1.counterOf d.RoomID) : h.Enqueues h1 d := by
  rcases offer_buf (h.chan d) p with hb | hb
  · exact ⟨[], by rw [hc, hb, List.append_nil], Or.inl ⟨fun _ he => (List.not_mem_nil _ he).elim, hn⟩⟩
  · refine ⟨[p], by rw [hc, hb], Or.inl ⟨fun e he => ?_, hn⟩⟩
    rw [List.mem_singleton.mp he]
    exact hp

theorem Enqueues_offer_offer (h h1 : Hub) (d : Client) (p q : Envelope)
    (hc : h1.chan d = ((h.chan d).offer p).offer q) (hp : p.isChat = false)
    (hq : q.isChat = false) (hn : h.counterOf d.RoomID ≤ h1.counterOf d.RoomID) :
    h.Enqueues h1 d := by
  have hmem : ∀ (es : List Envelope), (∀ e : Envelope, e ∈ es → e = p ∨ e = q) →
      ∀ e : Envelope, e ∈ es → e.isChat = false := by
    intro es hes e he
    rcases hes e he with h1 | h1 <;> rw [h1] <;> assumption
  rcases offer_buf (h.chan d) p with hb | hb <;>
    rcases offer_buf ((h.chan d).offer p) q with hb2 | hb2
  · exact ⟨[], by rw [hc, hb2, hb, List.append_nil], Or.inl ⟨fun _ he => (List.not_mem_nil _ he).elim, hn⟩⟩
  · exact ⟨[q], by rw [hc, hb2, hb], Or.inl ⟨hmem _ (by simp), hn⟩⟩
  · exact ⟨[p], by rw [hc, hb2, hb], Or.inl ⟨hmem _ (by simp), hn⟩⟩
  · exact ⟨[p, q], by rw [hc, hb2, hb, List.append_assoc]; rfl,
      Or.inl ⟨hmem _ (by simp), hn⟩⟩

theorem normalizeLegacyType_system :
    normalizeLegacyType MessageTypeSystem = MessageTypeSystem := by decide

theorem normalizeLegacyType_history :
    normalizeLegacyType MessageTypeHistory = MessageTypeHistory := by decide

theorem Enqueues_broadcast (h h0 : Hub) (room : Room) (env : Envelope) (now : Time) (d : Client)
    (hnd : room.clients.Nodup) (hch : h0.chan d = h.chan d)
    (hchat : (wireForm env now).isChat = false)
    (hn : h.counterOf d.RoomID ≤ (h0.broadcast room env now).counterOf d.RoomID) :
    h.Enqueues (h0.broadcast room env now) d := by
  have hc := broadcast_chan h0 room env now hnd d
  rw [hch] at hc
  split at hc
  · exact Enqueues_offer h _ d _ hc hchat hn
  · exact Enqueues_of_eq h _ d hc hn

theorem Enqueues_SendEnvelope (h : Hub) (c : Client) (env : Envelope) (now : Time) (d : Client)
    (hchat : (wireForm env now).isChat = false) : h.Enqueues (c.SendEnvelope h env now).1 d := by
  have hn : h.counterOf d.RoomID ≤ (c.SendEnvelope h env now).1.counterOf d.RoomID :=
    le_of_eq (counterOf_of_rooms_eq h _ (SendEnvelope_rooms c h env now) _).symm
  have hc := SendEnvelope_chan c h env now d
  split at hc
  · rename_i hd
    exact Enqueues_offer h _ d _ (by rw [hc, hd]) hchat hn
  · exact Enqueues_of_eq h _ d hc hn

theorem Register_counterOf (h : Hub) (c : Client) (now : Nat → Time) (k2 : String) :
    (h.Register c now).1.counterOf k2 = h.counterOf k2 := by
  by_cases hne : c.RoomID = ""
  · unfold Hub.Register
    rw [if_pos hne]
  · have hr := Register_rooms_any h c now hne
    have hn : (h.registeredRoom c now).nextSequence
        = (h.roomFor c.RoomID (now 0)).nextSequence := (AddClient_history _ _ _).2
    cases hroom : h.getRoom c.RoomID with
    | some room =>
      refine counterOf_mapSet_keep h _ c.RoomID room _ hroom hr ?_ k2
      rw [hn]
      unfold Hub.roomFor
      rw [hroom]
      rfl
    | none =>
      by_cases hk : c.RoomID = k2
      · subst hk
        rw [counterOf_mapSet_same h _ c.RoomID _ hr, hn]
        unfold Hub.roomFor Hub.counterOf
        rw [hroom]
        rfl
      · exact counterOf_mapSet_ne h _ c.RoomID k2 _ hr hk

theorem Enqueues_register (h : Hub) (hi : h.Inv) (c : Client) (now : Nat → Time) (d : Client) :
    h.Enqueues (h.Register c now).1 d := by
  have hn : h.counterOf d.RoomID ≤ (h.Register c now).1.counterOf d.RoomID :=
    le_of_eq (Register_counterOf h c now d.RoomID).symm
  by_cases hne : c.RoomID = ""
  · refine Enqueues_of_eq h _ d ?_ hn
    unfold Hub.Register
    rw [if_pos hne]
  · have hc := Register_chan h c now hne (fun room0 hroom0 => (hi.2 _ _ hroom0).2.2.1) d
    have hj : ∀ t1 t2 : Time,
        (wireForm (joinNotice c (h.registeredRoom c now) t1) t2).isChat = false := by
      intro t1 t2
      rw [wireForm_isChat _ _ normalizeLegacyType_system rfl]
      show decide (MessageTypeSystem = MessageTypeChat) = false
      decide
    have hh : ∀ t1 t2 : Time,
        (wireForm (historyEnvelope (h.registeredRoom c now) t1) t2).isChat = false := by
      intro t1 t2
      rw [wireForm_isChat _ _ normalizeLegacyType_history rfl]
      show decide (MessageTypeHistory = MessageTypeChat) = false
      decide
    by_cases hd : d = c
    · rw [if_pos hd] at hc
      split at hc
      · exact Enqueues_offer_offer h _ d _ _ (by rw [hc, hd]) (hh _ _) (hj _ _) hn
      · exact Enqueues_offer h _ d _ (by rw [hc, hd]) (hj _ _) hn
    · rw [if_neg hd] at hc
      split at hc
      · exact Enqueues_offer h _ d _ hc (hj _ _) hn
      · exact Enqueues_of_eq h _ d hc hn

theorem Enqueues_unregister (h : Hub) (hi : h.Inv) (c : Client) (now : Nat → Time) (d : Client) :
    h.Enqueues (h.Unregister c now) d := by
  have hr := Unregister_rooms h c now
  by_cases hne : c.RoomID = ""
  · rw [if_pos hne] at hr
    refine Enqueues_of_eq h _ d ?_ (le_of_eq (counterOf_of_rooms_eq h _ hr _).symm)
    unfold Hub.Unregister
    rw [if_pos hne]
  · rw [if_neg hne] at hr
    cases hroom : h.getRoom c.RoomID with
    | none =>
      rw [hroom] at hr
      refine Enqueues_of_eq h _ d ?_ (le_of_eq (counterOf_of_rooms_eq h _ hr _).symm)
      unfold Hub.Unregister
      rw [if_neg hne, hroom]
    | some room =>
      rw [hroom] at hr
      have hn : h.counterOf d.RoomID ≤ (h.Unregister c now).counterOf d.RoomID :=
        le_of_eq (counterOf_mapSet_keep h _ c.RoomID room _ hroom hr
          (RemoveClient_history _ _ _).2 _).symm
      have hnd : (room.RemoveClient c (now 0)).clients.Nodup :=
        Nodup_of_Reachable _ (Room.Reachable.removeClient _ _ _ (hi.2 _ _ hroom).2.2.1)
      have he : h.Unregister c now
          = (h.setRoom c.RoomID (room.RemoveClient c (now 0))).broadcast
              (room.RemoveClient c (now 0))
              { Cmd := MessageTypeSystem, Type_ := MessageTypeSystem,
                RoomID := (room.RemoveClient c (now 0)).id, Timestamp := now 1,
                Content := c.DisplayName ++ " 離開對話", SenderID := c.ID,
                SenderRole := c.Role, DisplayName := c.DisplayName }
              (now 2) := by
        unfold Hub.Unregister
        rw [if_neg hne, hroom]
      rw [he] at hn ⊢
      refine Enqueues_broadcast h _ _ _ _ d hnd (chan_setRoom _ _ _ _) ?_ hn
      rw [wireForm_isChat _ _ normalizeLegacyType_system rfl]
      show decide (MessageTypeSystem = MessageTypeChat) = false
      decide

theorem Enqueues_assignAgent (h : Hub) (hi : h.Inv) (roomID agentID displayName : String)
    (now : Nat → Time) (d : Client) :
    h.Enqueues (h.AssignAgent roomID agentID displayName now).1 d := by
  obtain ⟨name, _, hr⟩ := AssignAgent_rooms h roomID agentID displayName now
  cases hroom : h.getRoom roomID with
  | none =>
    rw [hroom] at hr
    refine Enqueues_of_eq h _ d ?_ (le_of_eq (counterOf_of_rooms_eq h _ hr _).symm)
    unfold Hub.AssignAgent
    rw [hroom]
  | some room =>
    rw [hroom] at hr
    have hn : h.counterOf d.RoomID
        ≤ (h.AssignAgent roomID agentID displayName now).1.counterOf d.RoomID :=
      le_of_eq (counterOf_mapSet_keep h _ roomID room _ hroom hr
        (SetAssignedAgent_history _ _ _ _).2 _).symm
    have hc : (h.AssignAgent roomID agentID displayName now).1.chan d = h.chan d
        ∨ ∃ p : Envelope, p.isChat = false
            ∧ (h.AssignAgent roomID agentID displayName now).1.chan d = (h.chan d).offer p := by
      unfold Hub.AssignAgent
      rw [hroom]
      dsimp only
      split
      · exact Or.inl rfl
      · dsimp only
        rw [broadcast_chan _ _ _ _
          (Nodup_of_Reachable _
            (Room.Reachable.setAssignedAgent _ _ _ _ (hi.2 _ _ hroom).2.2.1)) d, chan_setRoom]
        split
        · right
          refine ⟨_, ?_, rfl⟩
          rw [wireForm_isChat _ _ normalizeLegacyType_system rfl]
          show decide (MessageTypeSystem = MessageTypeChat) = false
          decide
        · exact Or.inl rfl
    rcases hc with hc | ⟨p, hp, hc⟩
    · exact Enqueues_of_eq h _ d hc hn
    · exact Enqueues_offer h _ d p hc hp hn

theorem Enqueues_sendSystemError (h : Hub) (c : Client) (message : String) (now : Nat → Time)
    (d : Client) : h.Enqueues (c.sendSystemError h message now) d := by
  unfold Client.sendSystemError
  refine Enqueues_SendEnvelope h c _ _ d ?_
  rw [wireForm_isChat _ _ normalizeLegacyType_system rfl]
  show decide (MessageTypeSystem = MessageTypeChat) = false
  decide

theorem Enqueues_sendAll (h h0 : Hub) (cs : List Client) (p : Envelope) (d : Client)
    (hnd : cs.Nodup) (hch : h0.chan d = h.chan d) (hp : p.isChat = false)
    (hn : h.counterOf d.RoomID ≤ (h0.sendAll cs p).counterOf d.RoomID) :
    h.Enqueues (h0.sendAll cs p) d := by
  by_cases hd : d ∈ cs
  · refine Enqueues_offer h _ d p ?_ hp hn
    rw [sendAll_chan_mem _ _ _ _ hnd hd, trySend_eq_offer, hch]
  · refine Enqueues_of_eq h _ d ?_ hn
    rw [sendAll_chan_not_mem _ _ _ _ hd, hch]

theorem HandleIncoming_chat_form (h : Hub) (c : Client) (env : Envelope) (now : Nat → Time)
    (room : Room) (hroom : h.getRoom c.RoomID = some room)
    (hcmd : env.Normalize.Cmd = MessageTypeChat) (hcontent : env.Content ≠ "") :
    ∃ (msg : ChatMessage) (out : Envelope), out.Seq = room.nextSequence + 1
      ∧ h.HandleIncoming c env now =
          ((h.setRoom c.RoomID (room.AddMessage msg (now 1)).1).sendAll room.clients out, none) := by
  refine ⟨_, _, ?_, HandleIncoming_chat h c env now room hroom hcmd hcontent⟩
  rfl

theorem Enqueues_handleIncoming (h : Hub) (hi : h.Inv) (c : Client) (env : Envelope)
    (now : Nat → Time) (d : Client) : h.Enqueues (h.HandleIncoming c env now).1 d := by
  cases hroom : h.getRoom c.RoomID with
  | none =>
    rw [HandleIncoming_no_room h c env now hroom]
    exact Enqueues_of_eq h _ d rfl (le_refl _)
  | some room =>
    obtain ⟨_, _, hreach, hhome⟩ := hi.2 _ _ hroom
    have hnd := Nodup_of_Reachable room hreach
    by_cases h1 : env.Normalize.Cmd = MessageTypeChat
    · by_cases hcontent : env.Content = ""
      · rw [HandleIncoming_chat_empty h c env now room hroom h1 hcontent]
        exact Enqueues_of_eq h _ d rfl (le_refl _)
      · obtain ⟨msg, out, hseq, hform⟩ := HandleIncoming_chat_form h c env now room hroom h1 hcontent
        rw [hform]
        dsimp only
        have hrooms : ∀ p : Envelope,
            ((h.setRoom c.RoomID (room.AddMessage msg (now 1)).1).sendAll room.clients p).rooms
              = mapSet h.rooms c.RoomID (room.AddMessage msg (now 1)).1 := by
          intro p
          rw [sendAll_rooms]
          rfl
        have hnext := (AddMessage_history room msg (now 1)).2.1
        have hmono : ∀ (p : Envelope) (k : String), h.counterOf k
            ≤ ((h.setRoom c.RoomID (room.AddMessage msg (now 1)).1).sendAll room.clients
                p).counterOf k := by
          intro p k
          by_cases hk : c.RoomID = k
          · rw [← hk, counterOf_mapSet_same h _ c.RoomID _ (hrooms p),
              counterOf_some h _ room hroom, hnext]
            exact Int.le_add_one (le_refl _)
          · rw [counterOf_mapSet_ne h _ c.RoomID k _ (hrooms p) hk]
        by_cases hd : d ∈ room.clients
        · have hdr : d.RoomID = c.RoomID := hhome d hd
          have hc : ((h.setRoom c.RoomID (room.AddMessage msg (now 1)).1).sendAll room.clients
              out).chan d = (h.chan d).offer out := by
            rw [sendAll_chan_mem _ _ _ _ hnd hd, trySend_eq_offer, chan_setRoom]
          rcases offer_buf (h.chan d) out with hb | hb
          · exact ⟨[], by rw [hc, hb, List.append_nil],
              Or.inl ⟨fun _ he => (List.not_mem_nil _ he).elim, hmono out _⟩⟩
          · refine ⟨[out], by rw [hc, hb], Or.inr ⟨out, rfl, ?_, ?_⟩⟩
            · rw [hseq, hdr, counterOf_some h _ room hroom]
            · rw [hdr, counterOf_mapSet_same h _ c.RoomID _ (hrooms out),
                counterOf_some h _ room hroom, hnext]
        · refine Enqueues_of_eq h _ d ?_ (hmono _ _)
          rw [sendAll_chan_not_mem _ _ _ _ hd, chan_setRoom]
    · by_cases h2 : env.Normalize.Cmd = MessageTypeTyping
      · rw [HandleIncoming_typing h c env now room hroom h2]
        dsimp only
        refine Enqueues_sendAll h _ _ _ d hnd (chan_setRoom _ _ _ _) ?_ ?_
        · show (decide (MessageTypeTyping = MessageTypeChat)
            || decide (MessageTypeTyping = MessageTypeChat)) = false
          decide
        · refine le_of_eq (Eq.symm ?_)
          refine counterOf_mapSet_keep h _ c.RoomID room
            (room.Touch (if env.Timestamp = 0 then now 0 else env.Timestamp)) hroom ?_
            (Touch_history _ _).2 _
          rw [sendAll_rooms]
          rfl
      · by_cases h3 : env.Normalize.Cmd = MessageTypeHistory
        · rw [HandleIncoming_history h c env now room hroom h3]
          refine Enqueues_SendEnvelope h c _ _ d ?_
          rw [wireForm_isChat _ _ normalizeLegacyType_history rfl]
          show decide (MessageTypeHistory = MessageTypeChat) = false
          decide
        · rw [HandleIncoming_unknown h c env now room hroom h1 h2 h3]
          exact Enqueues_of_eq h _ d rfl (le_refl _)

/-- Strictly increasing chat sequences bounded by `b` stay so when envelopes
that are no chat messages are appended and the bound does not go down, or when
one chat message with sequence `b + 1` is appended and the bound becomes
`b + 1`. -/
theorem ordered_append (l es : List Envelope) (b b1 : Int) (hb0 : 0 ≤ b)
    (hp : (l.filter Envelope.isChat).Pairwise (fun x y => x.Seq < y.Seq))
    (hbnd : ∀ e : Envelope, e ∈ l → e.isChat = true → 1 ≤ e.Seq ∧ e.Seq ≤ b)
    (hes : ((∀ e : Envelope, e ∈ es → e.isChat = false) ∧ b ≤ b1)
      ∨ ∃ e : Envelope, es = [e] ∧ e.Seq = b + 1 ∧ b1 = b + 1) :
    ((l ++ es).filter Envelope.isChat).Pairwise (fun x y => x.Seq < y.Seq)
      ∧ ∀ e : Envelope, e ∈ l ++ es → e.isChat = true → 1 ≤ e.Seq ∧ e.Seq ≤ b1 := by
  rcases hes with ⟨hno, hle⟩ | ⟨e0, rfl, hseq, hb1⟩
  · have hf : es.filter Envelope.isChat = [] := by
      rw [List.filter_eq_nil_iff]
      intro e he
      rw [hno e he]
      exact Bool.false_ne_true
    refine ⟨by rw [List.filter_append, hf, List.append_nil]; exact hp, ?_⟩
    intro e he hc
    rcases List.mem_append.mp he with h1 | h1
    · exact ⟨(hbnd e h1 hc).1, le_trans (hbnd e h1 hc).2 hle⟩
    · rw [hno e h1] at hc
      cases hc
  · constructor
    · rw [List.filter_append]
      by_cases hc0 : e0.isChat = true
      · rw [List.filter_cons_of_pos hc0, List.filter_nil, List.pairwise_append]
        refine ⟨hp, List.pairwise_singleton _ _, ?_⟩
        intro x hx y hy
        rw [List.mem_singleton.mp hy, hseq]
        have hxl := List.mem_filter.mp hx
        exact Int.lt_add_one_iff.mpr (hbnd x hxl.1 hxl.2).2
      · rw [List.filter_cons_of_neg hc0, List.filter_nil, List.append_nil]
        exact hp
    · intro e he hc
      rcases List.mem_append.mp he with h1 | h1
      · exact ⟨(hbnd e h1 hc).1, by rw [hb1]; exact Int.le_add_one (hbnd e h1 hc).2⟩
      · rw [List.mem_singleton.mp h1, hseq, hb1]
        exact ⟨by omega, le_refl _⟩

theorem ordered_prefix (l l1 : List Envelope) (b : Int)
    (hp : ((l ++ l1).filter Envelope.isChat).Pairwise (fun x y => x.Seq < y.Seq))
    (hbnd : ∀ e : Envelope, e ∈ l ++ l1 → e.isChat = true → 1 ≤ e.Seq ∧ e.Seq ≤ b) :
    ((l ++ ([] : List Envelope)).filter Envelope.isChat).Pairwise (fun x y => x.Seq < y.Seq)
      ∧ ∀ e : Envelope, e ∈ l ++ ([] : List Envelope) → e.isChat = true → 1 ≤ e.Seq ∧ e.Seq ≤ b := by
  rw [List.append_nil]
  rw [List.filter_append, List.pairwise_append] at hp
  exact ⟨hp.1, fun e he hc => hbnd e (List.mem_append_left _ he) hc⟩

theorem recv_chan_ne (h : Hub) (c d : Client) (hne : d ≠ c) : (h.recv c).1.chan d = h.chan d := by
  unfold Hub.recv
  split
  · rfl
  · exact chan_sends_ne _ _ _ _ (fun e => hne e.symm)

theorem recv_some (h : Hub) (c : Client) (p : Envelope) (hp : (h.recv c).2 = some p) :
    (h.chan c).buf = p :: ((h.recv c).1.chan c).buf := by
  unfold Hub.recv at hp ⊢
  unfold Chan.recv at hp ⊢
  cases hb : (h.chan c).buf with
  | nil => rw [hb] at hp; cases hp
  | cons q rest =>
    rw [hb] at hp
    simp only [Option.some.injEq] at hp
    simp only [hp]
    rw [chan_sends_same]

theorem recv_none (h : Hub) (c : Client) (hp : (h.recv c).2 = none) : (h.recv c).1 = h := by
  unfold Hub.recv at hp ⊢
  split
  · rfl
  · rename_i pc hpc
    rw [hpc] at hp
    cases hp

/-- A call that is no receive and no `NewClient` appends to the delivered
envelopes what it enqueues. -/
theorem Ordered_of_Enqueues (s s1 : Session) (d : Client) (hi : s.hub.Inv)
    (hw : s1.written = s.written) (he : s.hub.Enqueues s1.hub d) (hord : s.Ordered d) :
    s1.Ordered d := by
  obtain ⟨es, hbuf, hes⟩ := he
  unfold Session.Ordered Session.deliveredTo at *
  rw [hw, hbuf, ← List.append_assoc]
  exact ordered_append _ es _ _ (counterOf_nonneg _ hi _) hord.1 hord.2 hes

theorem Ordered_congr (s s1 : Session) (d : Client)
    (hd : s1.deliveredTo d = s.deliveredTo d)
    (hn : s1.hub.counterOf d.RoomID = s.hub.counterOf d.RoomID) (hord : s.Ordered d) :
    s1.Ordered d := by
  unfold Session.Ordered at *
  rw [hd, hn]
  exact hord

theorem Ordered_step (s : Session) (hi : s.hub.Inv) (op : HubOp) (d : Client)
    (hord : s.Ordered d) : (s.step op).Ordered d := by
  cases op with
  | newClient ptr roomID id role displayName =>
    by_cases hd : d = Client.mk ptr id displayName role roomID
    · have hc : ((s.step (HubOp.newClient ptr roomID id role displayName)).hub.chan d).buf
          = [] := by
        show ((NewClient s.hub ptr roomID id role displayName).1.chan d).buf = []
        rw [hd]
        unfold NewClient
        dsimp only
        rw [chan_sends_same]
      unfold Session.Ordered Session.deliveredTo at *
      rw [hc]
      exact ordered_prefix _ _ _ hord.1 hord.2
    · refine Ordered_congr s _ d ?_ rfl hord
      unfold Session.deliveredTo
      congr 1
      show ((NewClient s.hub ptr roomID id role displayName).1.chan d).buf = _
      unfold NewClient
      dsimp only
      rw [chan_sends_ne _ _ _ _ (fun e => hd e.symm)]
  | register c now => exact Ordered_of_Enqueues s _ d hi rfl (Enqueues_register _ hi c now d) hord
  | unregister c now =>
    exact Ordered_of_Enqueues s _ d hi rfl (Enqueues_unregister _ hi c now d) hord
  | handleIncoming c env now =>
    exact Ordered_of_Enqueues s _ d hi rfl (Enqueues_handleIncoming _ hi c env now d) hord
  | assignAgent roomID agentID displayName now =>
    exact Ordered_of_Enqueues s _ d hi rfl
      (Enqueues_assignAgent _ hi roomID agentID displayName now d) hord
  | sendSystemError c message now =>
    exact Ordered_of_Enqueues s _ d hi rfl (Enqueues_sendSystemError _ c message now d) hord
  | receive c =>
    have hn : (s.step (HubOp.receive c)).hub.counterOf d.RoomID = s.hub.counterOf d.RoomID :=
      counterOf_of_rooms_eq _ _ (recv_rooms s.hub c) _
    refine Ordered_congr s _ d ?_ hn hord
    unfold Session.deliveredTo
    show (((match (s.hub.recv c).2 with
            | some p => s.written ++ [(c, p)]
            | none => s.written).filter (fun ce : Client × Envelope => decide (ce.1 = d))).map
              (fun ce : Client × Envelope => ce.2))
          ++ ((s.hub.recv c).1.chan d).buf = _
    cases hp : (s.hub.recv c).2 with
    | none =>
      dsimp only
      rw [recv_none _ _ hp]
    | some p =>
      dsimp only
      by_cases hd : d = c
      · subst hd
        rw [recv_some _ _ _ hp]
        simp
      · rw [recv_chan_ne _ _ _ hd]
        have hcd : ¬ c = d := fun e => hd e.symm
        simp [List.filter_append, hcd]

theorem Session_run_inv (s : Session) (ops : List HubOp) (hi : s.hub.Inv)
    (hord : ∀ d : Client, s.Ordered d) :
    (s.runFrom ops).hub.Inv ∧ ∀ d : Client, (s.runFrom ops).Ordered d := by
  induction ops generalizing s with
  | nil => exact ⟨hi, hord⟩
  | cons op rest ih =>
    exact ih (s.step op) (Inv_step s.hub op hi) (fun d => Ordered_step s hi op d (hord d))

theorem Session_run_hub (s : Session) (ops : List HubOp) :
    (s.runFrom ops).hub = s.hub.runFrom ops := by
  induction ops generalizing s with
  | nil => rfl
  | cons op rest ih => exact ih (s.step op)

/-- **C25.** After any calls made one at a time on a new hub, the
`chat.message` envelopes delivered to any one client (those written to its
connection, then those waiting in its outbound queue) are in strictly
increasing order of `seq`, and so are those in its queue; each `seq` lies
between 1 and the counter of the room of the client, so it is the sequence of
an entry of the history of that room. -/
theorem chat_delivered_in_sequence_order (ops : List HubOp) (c : Client) :
    (((Session.run ops).deliveredTo c).filter Envelope.isChat).Pairwise
        (fun a b => a.Seq < b.Seq)
      ∧ ((((Session.run ops).hub.chan c).buf).filter Envelope.isChat).Pairwise
          (fun a b => a.Seq < b.Seq)
      ∧ (Session.run ops).hub = Hub.run ops
      ∧ ∀ e : Envelope, e ∈ (Session.run ops).deliveredTo c → e.isChat = true →
          ∃ (room : Room) (m : ChatMessage), (Hub.run ops).getRoom c.RoomID = some room
            ∧ m ∈ room.history ∧ m.Sequence = e.Seq := by
  have h0 : ∀ d : Client, (Session.mk NewHub []).Ordered d := by
    intro d
    unfold Session.Ordered Session.deliveredTo
    exact ⟨List.Pairwise.nil, fun e he => (List.not_mem_nil _ he).elim⟩
  have hio : (Session.run ops).hub.Inv ∧ ∀ d : Client, (Session.run ops).Ordered d :=
    Session_run_inv (Session.mk NewHub []) ops Inv_NewHub h0
  obtain ⟨hi, hord⟩ := hio
  have hhub : (Session.run ops).hub = Hub.run ops := Session_run_hub _ ops
  have hc := hord c
  refine ⟨hc.1, ?_, hhub, ?_⟩
  · have h1 := hc.1
    unfold Session.deliveredTo at h1
    rw [List.filter_append, List.pairwise_append] at h1
    exact h1.2.1
  · intro e he hchat
    obtain ⟨hlo, hhi⟩ := hc.2 e he hchat
    rw [← hhub]
    unfold Hub.counterOf at hhi
    cases hroom : (Session.run ops).hub.getRoom c.RoomID with
    | none =>
      rw [hroom] at hhi
      dsimp only at hhi
      omega
    | some room =>
      rw [hroom] at hhi
      dsimp only at hhi
      have hs := SeqInv_of_Reachable room (hi.2 _ _ hroom).2.2.1
      rw [hs.2] at hhi
      have hlt : (e.Seq - 1).toNat < room.history.length := by omega
      refine ⟨room, room.history.get ⟨(e.Seq - 1).toNat, hlt⟩, rfl, List.get_mem _ _ _, ?_⟩
      rw [hs.1 _ hlt]
      omega

/-! ## OnlineAgents -/

theorem ensure_agents (r : Room) (c : Client) (now : Time) :
    (r.ensureParticipantLocked c now).1.agents = r.agents
      ∨ ∃ v : Nat, (r.ensureParticipantLocked c now).1.agents = mapSet r.agents c.ID v := by
  unfold Room.ensureParticipantLocked
  dsimp only
  split
  · exact Or.inl (update_agents _ _ _)
  · by_cases hrole : c.Role = RolePlayer
    · left
      simp only [hrole, if_true]
      split <;> rfl
    · right
      refine ⟨r.parts.length, ?_⟩
      simp only [hrole, if_false]
      split <;> rfl

theorem AddClient_agents (r : Room) (c : Client) (now : Nat → Time) :
    (r.AddClient c now).1.agents = r.agents
      ∨ ∃ v : Nat, (r.AddClient c now).1.agents = mapSet r.agents c.ID v := by
  unfold Room.AddClient
  split
  · exact ensure_agents r c _
  · simp only [update_agents]
    exact ensure_agents { r with clients := r.clients ++ [c] } c _

theorem AddMessage_agents (r : Room) (msg : ChatMessage) (now : Time) :
    (r.AddMessage msg now).1.agents = r.agents := by
  unfold Room.AddMessage
  dsimp only
  repeat' split
  all_goals simp only [update_agents]

theorem Touch_agents (r : Room) (ts : Time) : (r.Touch ts).agents = r.agents := by
  unfold Room.Touch
  split <;> rfl

theorem SetAssignedAgent_agents (r : Room) (agentID displayName : String) (now : Time) :
    (r.SetAssignedAgent agentID displayName now).agents = r.agents
      ∨ ∃ v : Nat,
          (r.SetAssignedAgent agentID displayName now).agents = mapSet r.agents agentID v := by
  unfold Room.SetAssignedAgent
  dsimp only
  split
  · left
    simp only [update_agents]
  · right
    exact ⟨r.parts.length, by simp only [update_agents]⟩

/-- The keys of the agents registry of a reachable room are distinct. -/
theorem agents_nodup_of_Reachable (r : Room) (hr : r.Reachable) :
    (r.agents.map (fun kp => kp.1)).Nodup := by
  induction hr with
  | newRoom id now => simp [NewRoom]
  | addClient r c now _ ih =>
    rcases AddClient_agents r c now with h1 | ⟨v, h1⟩ <;> rw [h1]
    · exact ih
    · exact mapSet_keys_nodup _ _ _ ih
  | removeClient r c now _ ih => rw [(RemoveClient_frame r c now).2.1]; exact ih
  | touch r ts _ ih => rw [Touch_agents]; exact ih
  | addMessage r msg now _ ih => rw [AddMessage_agents]; exact ih
  | setAssignedAgent r a d now _ ih =>
    rcases SetAssignedAgent_agents r a d now with h1 | ⟨v, h1⟩ <;> rw [h1]
    · exact ih
    · exact mapSet_keys_nodup _ _ _ ih

theorem OnlineAgents_eq (h : Hub) :
    h.OnlineAgents = ((catalogOf h.agentEntries).map (fun ke => ke.2)).insertionSort
      (fun a b => presenceLess b a = false) := by
  unfold Hub.OnlineAgents
  dsimp only
  congr 2
  unfold catalogOf Hub.agentEntries
  generalize ([] : List (String × AgentPresence)) = init
  induction h.rooms generalizing init with
  | nil => rfl
  | cons kr rest ih =>
    rw [List.foldl_cons, List.flatMap_cons, List.foldl_append, List.foldl_map]
    exact ih _

theorem catalogOf_snoc (P : List (String × Participant)) (q : String × Participant) :
    catalogOf (P ++ [q]) = catalogAdd (catalogOf P) q.1 q.2 := by
  unfold catalogOf
  rw [List.foldl_append]
  rfl

/-- What the catalog holds under `id` after the pairs `P`: nothing if no
connected agent of `P` has that id; otherwise the presence with that id whose
rooms are the room ids of the connected pairs with that id, in order, and whose
`LastSeen` is the latest of theirs. -/
theorem catalogOf_spec (P : List (String × Participant)) :
    ((catalogOf P).map (fun ke => ke.1)).Nodup
      ∧ ∀ id : String,
          (mapGet (catalogOf P) id = none →
            ∀ q : String × Participant, q ∈ P → q.2.Connected = true → q.2.ID ≠ id)
          ∧ ∀ e : AgentPresence, mapGet (catalogOf P) id = some e →
              e.ID = id
                ∧ e.Rooms = (P.filter (fun q => q.2.Connected && decide (q.2.ID = id))).map
                    (fun q => q.1)
                ∧ (∃ q : String × Participant, q ∈ P ∧ q.2.Connected = true ∧ q.2.ID = id
                    ∧ q.2.LastSeen = e.LastSeen)
                ∧ ∀ q : String × Participant, q ∈ P → q.2.Connected = true → q.2.ID = id →
                    q.2.LastSeen ≤ e.LastSeen := by
  induction P using List.reverseRecOn with
  | nil =>
    refine ⟨by simp [catalogOf], fun id => ⟨fun _ q hq => (List.not_mem_nil _ hq).elim, ?_⟩⟩
    intro e he
    simp [catalogOf, mapGet] at he
  | append_singleton P q ih =>
    obtain ⟨hnd, hall⟩ := ih
    rw [catalogOf_snoc]
    unfold catalogAdd
    by_cases hconn : q.2.Connected = false
    · rw [if_pos hconn]
      refine ⟨hnd, fun id => ⟨?_, ?_⟩⟩
      · intro hnone q1 hq1 hc1
        rcases List.mem_append.mp hq1 with h1 | h1
        · exact (hall id).1 hnone q1 h1 hc1
        · rw [List.mem_singleton.mp h1, hconn] at hc1
          cases hc1
      · intro e he
        obtain ⟨h1, h2, ⟨q0, hq0, h3⟩, h4⟩ := (hall id).2 e he
        refine ⟨h1, ?_, ⟨q0, List.mem_append_left _ hq0, h3⟩, ?_⟩
        · rw [h2, List.filter_append]
          simp [hconn]
        · intro q1 hq1 hc1 hid1
          rcases List.mem_append.mp hq1 with h5 | h5
          · exact h4 q1 h5 hc1 hid1
          · rw [List.mem_singleton.mp h5, hconn] at hc1
            cases hc1
    · rw [if_neg hconn]
      have hct : q.2.Connected = true := by
        cases hq : q.2.Connected
        · exact absurd hq hconn
        · rfl
      dsimp only
      refine ⟨mapSet_keys_nodup _ _ _ hnd, fun id => ?_⟩
      by_cases hid : q.2.ID = id
      · subst hid
        rw [mapGet_mapSet_same]
        refine ⟨fun hn => (by cases hn), ?_⟩
        intro e he
        simp only [Option.some.injEq] at he
        cases hget : mapGet (catalogOf P) q.2.ID with
        | none =>
          rw [hget] at he
          dsimp only at he
          have hno := (hall q.2.ID).1 hget
          have hfil : P.filter (fun q1 => q1.2.Connected && decide (q1.2.ID = q.2.ID)) = [] := by
            rw [List.filter_eq_nil_iff]
            intro q1 hq1
            simp only [Bool.and_eq_true, decide_eq_true_eq, not_and]
            exact fun hc1 => hno q1 hq1 hc1
          have hafter : After q.2.LastSeen q.2.LastSeen = false := by
            unfold After
            simp
          rw [hafter] at he
          simp only [Bool.false_eq_true, if_false] at he
          subst he
          refine ⟨rfl, ?_, ⟨q, List.mem_append_right _ (List.mem_singleton_self q), hct, rfl, rfl⟩,
            ?_⟩
          · rw [List.filter_append, hfil]
            simp [hct]
          · intro q1 hq1 hc1 hid1
            rcases List.mem_append.mp hq1 with h5 | h5
            · exact absurd hid1 (hno q1 h5 hc1)
            · rw [List.mem_singleton.mp h5]
        | some e0 =>
          rw [hget] at he
          dsimp only at he
          obtain ⟨h1, h2, ⟨q0, hq0, hc0, hid0, hls0⟩, h4⟩ := (hall q.2.ID).2 e0 hget
          have hrooms : e.Rooms = e0.Rooms ++ [q.1] := by
            rw [← he]
            split <;> rfl
          have hid2 : e.ID = e0.ID := by
            rw [← he]
            split <;> rfl
          have hls : e.LastSeen = if After q.2.LastSeen e0.LastSeen then q.2.LastSeen
              else e0.LastSeen := by
            rw [← he]
            split <;> rfl
          refine ⟨hid2.trans h1, ?_, ?_, ?_⟩
          · rw [hrooms, h2, List.filter_append]
            simp [hct]
          · by_cases haf : After q.2.LastSeen e0.LastSeen = true
            · refine ⟨q, List.mem_append_right _ (List.mem_singleton_self q), hct, rfl, ?_⟩
              rw [hls, if_pos haf]
            · refine ⟨q0, List.mem_append_left _ hq0, hc0, hid0, ?_⟩
              rw [hls, if_neg haf, hls0]
          · intro q1 hq1 hc1 hid1
            have hmax : e0.LastSeen ≤ e.LastSeen ∧ q.2.LastSeen ≤ e.LastSeen := by
              rw [hls]
              unfold After
              split
              · rename_i hlt
                simp only [decide_eq_true_eq] at hlt
                exact ⟨le_of_lt hlt, le_refl _⟩
              · rename_i hlt
                simp only [decide_eq_true_eq, not_lt] at hlt
                exact ⟨le_refl _, hlt⟩
            rcases List.mem_append.mp hq1 with h5 | h5
            · exact le_trans (h4 q1 h5 hc1 hid1) hmax.1
            · rw [List.mem_singleton.mp h5]
              exact hmax.2
      · rw [mapGet_mapSet_ne _ _ _ _ hid]
        have hfil : (P ++ [q]).filter (fun q1 => q1.2.Connected && decide (q1.2.ID = id))
            = P.filter (fun q1 => q1.2.Connected && decide (q1.2.ID = id)) := by
          rw [List.filter_append]
          simp [hid]
        refine ⟨?_, ?_⟩
        · intro hnone q1 hq1 hc1
          rcases List.mem_append.mp hq1 with h1 | h1
          · exact (hall id).1 hnone q1 h1 hc1
          · rw [List.mem_singleton.mp h1]
            exact hid
        · intro e he
          obtain ⟨h1, h2, ⟨q0, hq0, h3⟩, h4⟩ := (hall id).2 e he
          refine ⟨h1, by rw [hfil]; exact h2, ⟨q0, List.mem_append_left _ hq0, h3⟩, ?_⟩
          intro q1 hq1 hc1 hid1
          rcases List.mem_append.mp hq1 with h5 | h5
          · exact h4 q1 h5 hc1 hid1
          · rw [List.mem_singleton.mp h5] at hid1
            exact absurd hid1 hid

/-- In a well-formed room whose agents registry has distinct keys, an entry of
the registry points at a participant with the key as its id. -/
theorem agents_entry_id (r : Room) (hwf : r.WF) (hnd : (r.agents.map (fun kp => kp.1)).Nodup)
    (kp : String × Nat) (hkp : kp ∈ r.agents) (x : Participant) (hx : r.parts[kp.2]? = some x) :
    x.ID = kp.1 := by
  obtain ⟨y, hy, hid⟩ := hwf.2.1 kp.1 kp.2 (mapGet_of_mem _ _ _ hnd hkp)
  rw [hx] at hy
  cases hy
  exact hid

theorem connectedAgent_iff (r : Room) (hwf : r.WF)
    (hnd : (r.agents.map (fun kp => kp.1)).Nodup) (id : String) (x : Participant) :
    r.connectedAgent id = some x
      ↔ x ∈ r.AgentParticipants ∧ x.Connected = true ∧ x.ID = id := by
  unfold Room.connectedAgent Room.AgentParticipants Room.registryValues
  constructor
  · intro hc
    cases hget : mapGet r.agents id with
    | none => rw [hget] at hc; cases hc
    | some p =>
      rw [hget] at hc
      dsimp only at hc
      cases hp : r.parts[p]? with
      | none => rw [hp] at hc; cases hc
      | some y =>
        rw [hp] at hc
        dsimp only at hc
        split at hc
        · rename_i hconn
          cases hc
          refine ⟨List.mem_filterMap.mpr ⟨(id, p), mem_of_mapGet _ _ _ hget, hp⟩, hconn, ?_⟩
          exact agents_entry_id r hwf hnd (id, p) (mem_of_mapGet _ _ _ hget) _ hp
        · cases hc
  · rintro ⟨hmem, hconn, hid⟩
    obtain ⟨kp, hkp, hx⟩ := List.mem_filterMap.mp hmem
    have hk : kp.1 = id := by rw [← agents_entry_id r hwf hnd kp hkp x hx]; exact hid
    have hget : mapGet r.agents id = some kp.2 := by
      rw [← hk]
      exact mapGet_of_mem _ _ _ hnd hkp
    rw [hget]
    dsimp only
    rw [hx]
    dsimp only
    rw [if_pos hconn]

/-- At most one participant of a registry with distinct keys passes a test that
fixes the id. -/
theorem registry_filter_le_one (parts : List Participant) (m : List (String × Nat))
    (hnd : (m.map (fun kp => kp.1)).Nodup)
    (hkey : ∀ kp : String × Nat, kp ∈ m → ∀ x : Participant, parts[kp.2]? = some x →
      x.ID = kp.1)
    (f : Participant → Bool) (id : String) (hf : ∀ x : Participant, f x = true → x.ID = id) :
    ((m.filterMap (fun kp => parts[kp.2]?)).filter f).length ≤ 1 := by
  induction m with
  | nil => simp
  | cons kp rest ih =>
    simp only [List.map_cons, List.nodup_cons] at hnd
    have ihr := ih hnd.2 (fun kp1 h1 => hkey kp1 (List.mem_cons_of_mem _ h1))
    cases hp : parts[kp.2]? with
    | none =>
      simp only [List.filterMap_cons, hp]
      exact ihr
    | some x =>
      simp only [List.filterMap_cons, hp]
      by_cases hfx : f x = true
      · rw [List.filter_cons_of_pos hfx]
        have hnil : (rest.filterMap (fun kp => parts[kp.2]?)).filter f = [] := by
          rw [List.filter_eq_nil_iff]
          intro y hy hfy
          obtain ⟨kp1, hkp1, hy1⟩ := List.mem_filterMap.mp hy
          have h1 : y.ID = kp1.1 := hkey kp1 (List.mem_cons_of_mem _ hkp1) y hy1
          have h2 : x.ID = kp.1 := hkey kp (List.mem_cons_self _ _) x hp
          apply hnd.1
          rw [← h2, hf x hfx, ← hf y hfy, h1]
          exact List.mem_map.mpr ⟨kp1, hkp1, rfl⟩
        rw [hnil]
        exact le_refl _
      · rw [List.filter_cons_of_neg hfx]
        exact ihr

/-- The room ids under which a connected agent with the id `id` is visited are
taken from the keys of the room map, in order, each at most once. -/
theorem entries_rooms_sublist (rooms : List (String × Room)) (id : String)
    (hroom : ∀ kr : String × Room, kr ∈ rooms →
      kr.2.id = kr.1 ∧ kr.2.WF ∧ (kr.2.agents.map (fun kp => kp.1)).Nodup) :
    (((rooms.flatMap (fun kr => kr.2.AgentParticipants.map (fun agent => (kr.2.id, agent)))).filter
        (fun q => q.2.Connected && decide (q.2.ID = id))).map (fun q => q.1)).Sublist
      (rooms.map (fun kr => kr.1)) := by
  induction rooms with
  | nil => simp
  | cons kr rest ih =>
    have ihr := ih (fun kr1 h1 => hroom kr1 (List.mem_cons_of_mem _ h1))
    obtain ⟨hid, hwf, hnd⟩ := hroom kr (List.mem_cons_self _ _)
    rw [List.flatMap_cons, List.filter_append, List.map_append, List.map_cons]
    have hfirst : ((kr.2.AgentParticipants.map (fun agent => (kr.2.id, agent))).filter
        (fun q => q.2.Connected && decide (q.2.ID = id))).map (fun q => q.1)
        = (kr.2.AgentParticipants.filter
            (fun x => x.Connected && decide (x.ID = id))).map (fun _ => kr.1) := by
      rw [List.filter_map, List.map_map]
      rw [hid]
      rfl
    rw [hfirst]
    have hlen := registry_filter_le_one kr.2.parts kr.2.agents hnd
      (fun kp hkp x hx => agents_entry_id kr.2 hwf hnd kp hkp x hx)
      (fun x => x.Connected && decide (x.ID = id)) id
      (fun x hx => by
        simp only [Bool.and_eq_true, decide_eq_true_eq] at hx
        exact hx.2)
    have hl : kr.2.AgentParticipants.filter (fun x => x.Connected && decide (x.ID = id))
        = (kr.2.registryValues kr.2.agents).filter
            (fun x => x.Connected && decide (x.ID = id)) := rfl
    rw [hl]
    unfold Room.registryValues
    cases hfl : (kr.2.agents.filterMap (fun kp => kr.2.parts[kp.2]?)).filter
        (fun x => x.Connected && decide (x.ID = id)) with
    | nil => exact List.Sublist.cons _ ihr
    | cons y ys =>
      rw [hfl] at hlen
      cases ys with
      | nil => exact List.Sublist.cons₂ _ ihr
      | cons z zs => simp at hlen

theorem mem_agentEntries (h : Hub) (hi : h.Inv) (k : String) (x : Participant) :
    ((k, x) ∈ h.agentEntries ∧ x.Connected = true)
      ↔ ∃ r : Room, h.getRoom k = some r ∧ r.connectedAgent x.ID = some x := by
  unfold Hub.agentEntries
  constructor
  · rintro ⟨hmem, hconn⟩
    obtain ⟨kr, hkr, hq⟩ := List.mem_flatMap.mp hmem
    obtain ⟨a, ha, he⟩ := List.mem_map.mp hq
    cases he
    have hget : h.getRoom kr.1 = some kr.2 := mapGet_of_mem _ _ _ hi.1 hkr
    obtain ⟨_, hid, hreach, _⟩ := hi.2 _ _ hget
    refine ⟨kr.2, by rw [hid]; exact hget, ?_⟩
    exact (connectedAgent_iff kr.2 (WF_of_Reachable _ hreach)
      (agents_nodup_of_Reachable _ hreach) _ _).mpr ⟨ha, hconn, rfl⟩
  · rintro ⟨r, hget, hc⟩
    obtain ⟨_, hid, hreach, _⟩ := hi.2 _ _ hget
    obtain ⟨hmem, hconn, _⟩ := (connectedAgent_iff r (WF_of_Reachable _ hreach)
      (agents_nodup_of_Reachable _ hreach) _ _).mp hc
    refine ⟨List.mem_flatMap.mpr ⟨(k, r), mem_of_mapGet _ _ _ hget, ?_⟩, hconn⟩
    exact List.mem_map.mpr ⟨x, hmem, by rw [hid]⟩

theorem presenceLess_false_iff (a b : AgentPresence) :
    presenceLess b a = false ↔ presenceLe a b := by
  unfold presenceLess presenceLe
  by_cases hd : b.DisplayName = a.DisplayName
  · rw [if_pos hd]
    simp only [decide_eq_false_iff_not, not_lt]
    constructor
    · exact fun hle => Or.inr ⟨hd.symm, hle⟩
    · rintro (hlt | ⟨_, hle⟩)
      · rw [hd] at hlt
        exact absurd hlt (lt_irrefl _)
      · exact hle
  · rw [if_neg hd]
    simp only [decide_eq_false_iff_not, not_lt]
    constructor
    · exact fun hle => Or.inl (lt_of_le_of_ne hle (fun e => hd e.symm))
    · rintro (hlt | ⟨he, _⟩)
      · exact le_of_lt hlt
      · exact absurd he.symm hd

theorem presenceLe_total (a b : AgentPresence) : presenceLe a b ∨ presenceLe b a := by
  unfold presenceLe
  rcases lt_trichotomy a.DisplayName b.DisplayName with h1 | h1 | h1
  · exact Or.inl (Or.inl h1)
  · rcases le_total a.ID b.ID with h2 | h2
    · exact Or.inl (Or.inr ⟨h1, h2⟩)
    · exact Or.inr (Or.inr ⟨h1.symm, h2⟩)
  · exact Or.inr (Or.inl h1)

theorem presenceLe_trans (a b c : AgentPresence) (hab : presenceLe a b) (hbc : presenceLe b c) :
    presenceLe a c := by
  unfold presenceLe at *
  rcases hab with h1 | ⟨h1, h2⟩ <;> rcases hbc with h3 | ⟨h3, h4⟩
  · exact Or.inl (lt_trans h1 h3)
  · exact Or.inl (by rw [← h3]; exact h1)
  · exact Or.inl (by rw [h1]; exact h3)
  · exact Or.inr ⟨h1.trans h3, le_trans h2 h4⟩

theorem OnlineAgents_sorted (h : Hub) : h.OnlineAgents.Sorted presenceLe := by
  have inst1 : IsTotal AgentPresence (fun a b => presenceLess b a = false) :=
    ⟨fun a b => by
      rw [presenceLess_false_iff, presenceLess_false_iff]
      exact presenceLe_total a b⟩
  have inst2 : IsTrans AgentPresence (fun a b => presenceLess b a = false) :=
    ⟨fun a b c => by
      rw [presenceLess_false_iff, presenceLess_false_iff, presenceLess_false_iff]
      exact presenceLe_trans a b c⟩
  rw [OnlineAgents_eq]
  have hs := List.sorted_insertionSort (fun a b : AgentPresence => presenceLess b a = false)
    ((catalogOf h.agentEntries).map (fun ke => ke.2))
  exact List.Pairwise.imp (fun hab => (presenceLess_false_iff _ _).mp hab) hs

theorem mem_OnlineAgents (h : Hub) (e : AgentPresence) :
    e ∈ h.OnlineAgents ↔ mapGet (catalogOf h.agentEntries) e.ID = some e := by
  obtain ⟨hnd, hall⟩ := catalogOf_spec h.agentEntries
  rw [OnlineAgents_eq, (List.perm_insertionSort _ _).mem_iff]
  constructor
  · intro hm
    obtain ⟨ke, hke, rfl⟩ := List.mem_map.mp hm
    have hget := mapGet_of_mem _ ke.1 ke.2 hnd hke
    rw [((hall ke.1).2 ke.2 hget).1]
    exact hget
  · intro hget
    exact List.mem_map.mpr ⟨(e.ID, e), mem_of_mapGet _ _ _ hget, rfl⟩

theorem OnlineAgents_ids_nodup (h : Hub) : (h.OnlineAgents.map (fun e => e.ID)).Nodup := by
  obtain ⟨hnd, hall⟩ := catalogOf_spec h.agentEntries
  rw [OnlineAgents_eq]
  refine (((List.perm_insertionSort _ _).map _).nodup_iff).mpr ?_
  rw [List.map_map]
  have he : (catalogOf h.agentEntries).map ((fun e : AgentPresence => e.ID) ∘ fun ke => ke.2)
      = (catalogOf h.agentEntries).map (fun ke => ke.1) := by
    apply List.map_congr_left
    intro ke hke
    exact ((hall ke.1).2 ke.2 (mapGet_of_mem _ ke.1 ke.2 hnd hke)).1
  rw [he]
  exact hnd

/-- `OnlineAgents` on a hub that satisfies the invariant of the room map. -/
theorem OnlineAgents_of_Inv (h : Hub) (hi : h.Inv) :
    (h.OnlineAgents.map (fun e => e.ID)).Nodup
      ∧ (∀ id : String, (∃ e : AgentPresence, e ∈ h.OnlineAgents ∧ e.ID = id)
          ↔ ∃ (k : String) (r : Room), h.getRoom k = some r
              ∧ (r.connectedAgent id).isSome = true)
      ∧ (∀ e : AgentPresence, e ∈ h.OnlineAgents →
          e.Rooms.Nodup
            ∧ (∀ k : String, k ∈ e.Rooms
                ↔ ∃ r : Room, h.getRoom k = some r ∧ (r.connectedAgent e.ID).isSome = true)
            ∧ (∃ (k : String) (r : Room) (x : Participant), h.getRoom k = some r
                ∧ r.connectedAgent e.ID = some x ∧ x.LastSeen = e.LastSeen)
            ∧ ∀ (k : String) (r : Room) (x : Participant), h.getRoom k = some r →
                r.connectedAgent e.ID = some x → x.LastSeen ≤ e.LastSeen)
      ∧ h.OnlineAgents.Sorted presenceLe := by
  obtain ⟨hnd, hall⟩ := catalogOf_spec h.agentEntries
  have hroomWF : ∀ (k : String) (r : Room), h.getRoom k = some r →
      r.WF ∧ (r.agents.map (fun kp => kp.1)).Nodup :=
    fun k r hget => ⟨WF_of_Reachable _ (hi.2 k r hget).2.2.1,
      agents_nodup_of_Reachable _ (hi.2 k r hget).2.2.1⟩
  have hconnID : ∀ (k : String) (r : Room) (id : String) (x : Participant),
      h.getRoom k = some r → r.connectedAgent id = some x → x.ID = id := by
    intro k r id x hget hc
    exact ((connectedAgent_iff r (hroomWF k r hget).1 (hroomWF k r hget).2 id x).mp hc).2.2
  refine ⟨OnlineAgents_ids_nodup h, ?_, ?_, OnlineAgents_sorted h⟩
  · intro id
    constructor
    · rintro ⟨e, he, hid⟩
      rw [mem_OnlineAgents] at he
      obtain ⟨_, _, ⟨q, hq, hqc, hqid, _⟩, _⟩ := (hall e.ID).2 e he
      obtain ⟨r, hget, hc⟩ := (mem_agentEntries h hi q.1 q.2).mp ⟨hq, hqc⟩
      refine ⟨q.1, r, hget, ?_⟩
      rw [← hid, ← hqid, hc]
      rfl
    · rintro ⟨k, r, hget, hsome⟩
      obtain ⟨x, hx⟩ := Option.isSome_iff_exists.mp hsome
      have hxid := hconnID k r id x hget hx
      have hmem := (mem_agentEntries h hi k x).mpr ⟨r, hget, by rw [hxid]; exact hx⟩
      cases hcat : mapGet (catalogOf h.agentEntries) id with
      | none => exact absurd hxid ((hall id).1 hcat (k, x) hmem.1 hmem.2)
      | some e =>
        have heid := ((hall id).2 e hcat).1
        exact ⟨e, (mem_OnlineAgents h e).mpr (by rw [heid]; exact hcat), heid⟩
  · intro e he
    rw [mem_OnlineAgents] at he
    obtain ⟨_, hrooms, ⟨q, hq, hqc, hqid, hqls⟩, hmax⟩ := (hall e.ID).2 e he
    refine ⟨?_, ?_, ?_, ?_⟩
    · rw [hrooms]
      refine List.Nodup.sublist (entries_rooms_sublist h.rooms e.ID ?_) hi.1
      intro kr hkr
      have hget : h.getRoom kr.1 = some kr.2 := mapGet_of_mem _ _ _ hi.1 hkr
      exact ⟨(hi.2 _ _ hget).2.1, hroomWF _ _ hget⟩
    · intro k
      rw [hrooms]
      constructor
      · intro hk
        obtain ⟨q1, hq1, rfl⟩ := List.mem_map.mp hk
        obtain ⟨hq1m, hq1f⟩ := List.mem_filter.mp hq1
        simp only [Bool.and_eq_true, decide_eq_true_eq] at hq1f
        obtain ⟨r, hget, hc⟩ := (mem_agentEntries h hi q1.1 q1.2).mp ⟨hq1m, hq1f.1⟩
        refine ⟨r, hget, ?_⟩
        rw [← hq1f.2, hc]
        rfl
      · rintro ⟨r, hget, hsome⟩
        obtain ⟨x, hx⟩ := Option.isSome_iff_exists.mp hsome
        have hxid := hconnID k r e.ID x hget hx
        have hmem := (mem_agentEntries h hi k x).mpr ⟨r, hget, by rw [hxid]; exact hx⟩
        refine List.mem_map.mpr ⟨(k, x), List.mem_filter.mpr ⟨hmem.1, ?_⟩, rfl⟩
        simp only [Bool.and_eq_true, decide_eq_true_eq]
        exact ⟨hmem.2, hxid⟩
    · obtain ⟨r, hget, hc⟩ := (mem_agentEntries h hi q.1 q.2).mp ⟨hq, hqc⟩
      exact ⟨q.1, r, q.2, hget, by rw [← hqid]; exact hc, hqls⟩
    · intro k r x hget hx
      have hxid := hconnID k r e.ID x hget hx
      have hmem := (mem_agentEntries h hi k x).mpr ⟨r, hget, by rw [hxid]; exact hx⟩
      exact hmax (k, x) hmem.1 hmem.2 hxid

/-- **C22.** After any calls made one at a time on a new hub, `OnlineAgents()`
has exactly one entry for every agent id that is marked connected in the agents
registry of at least one room, and no other entry; the room list of an entry
holds exactly the ids of those rooms, each once; its `LastSeen` is the latest
`LastSeen` of that agent over those rooms; and the entries are sorted by
display name, then by id. -/
theorem OnlineAgents_spec (ops : List HubOp) :
    ((Hub.run ops).OnlineAgents.map (fun e => e.ID)).Nodup
      ∧ (∀ id : String, (∃ e : AgentPresence, e ∈ (Hub.run ops).OnlineAgents ∧ e.ID = id)
          ↔ ∃ (k : String) (r : Room), (Hub.run ops).getRoom k = some r
              ∧ (r.connectedAgent id).isSome = true)
      ∧ (∀ e : AgentPresence, e ∈ (Hub.run ops).OnlineAgents →
          e.Rooms.Nodup
            ∧ (∀ k : String, k ∈ e.Rooms
                ↔ ∃ r : Room, (Hub.run ops).getRoom k = some r
                    ∧ (r.connectedAgent e.ID).isSome = true)
            ∧ (∃ (k : String) (r : Room) (x : Participant), (Hub.run ops).getRoom k = some r
                ∧ r.connectedAgent e.ID = some x ∧ x.LastSeen = e.LastSeen)
            ∧ ∀ (k : String) (r : Room) (x : Participant), (Hub.run ops).getRoom k = some r →
                r.connectedAgent e.ID = some x → x.LastSeen ≤ e.LastSeen)
      ∧ (Hub.run ops).OnlineAgents.Sorted presenceLe :=
  OnlineAgents_of_Inv (Hub.run ops) (Inv_run ops)

/-! ## Concurrent calls to HandleIncoming -/

/-- `HandleIncoming` of a chat message is `storeChat` followed by `sendChat`. -/
theorem HandleIncoming_two_steps (h : Hub) (c : Client) (env : Envelope) (now : Nat → Time)
    (h1 : Hub) (out : Envelope) (hs : h.storeChat c env now = some (h1, out)) :
    h.HandleIncoming c env now = (h1.sendChat c.RoomID out (now 2), none) := by
  unfold Hub.storeChat at hs
  unfold Hub.HandleIncoming
  cases hroom : h.getRoom c.RoomID with
  | none => rw [hroom] at hs; cases hs
  | some room =>
    rw [hroom] at hs
    dsimp only at hs ⊢
    generalize (if IsZero env.Timestamp then { env with Timestamp := now 0 } else env).Normalize
      = env2 at hs ⊢
    by_cases hcmd : env2.Cmd = MessageTypeChat
    · rw [if_pos hcmd] at hs ⊢
      by_cases hcontent : env2.Content = ""
      · rw [if_pos hcontent] at hs
        cases hs
      · rw [if_neg hcontent] at hs ⊢
        simp only [Option.some.injEq, Prod.mk.injEq] at hs
        obtain ⟨hh, ho⟩ := hs
        subst hh
        subst ho
        unfold Hub.sendChat
        rw [getRoom_setRoom]
    · rw [if_neg hcmd] at hs
      cases hs

/-- Counterexample to C26. `player1` and `agentA` are live in `room-1`. The
call of `player1` runs `AddMessage` and gets sequence 1, the call of `agentA`
runs `AddMessage` and gets sequence 2; the call of `agentA` then reaches
`broadcast` first. The queue of `player1` holds sequence 2 before sequence
1. -/
theorem concurrent_calls_reorder :
    ((Hub.run pairCalls).storeChat player1 { Cmd := "message", Content := "one" }
        laterClock).bind
      (fun first =>
        (first.1.storeChat agentA { Cmd := "message", Content := "two" } laterClock).map
          (fun second =>
            (first.2.Seq, second.2.Seq,
              chatSeqs (((second.1.sendChat "room-1" second.2 (laterClock 2)).sendChat "room-1"
                first.2 (laterClock 2)).chan player1).buf)))
      = some (1, 2, [2, 1]) := by
  decide

theorem chatCall_eq_step (h : Hub) (call : Client × Envelope × (Nat → Time)) :
    h.chatCall call = h ∨ h.chatCall call = h.step (HubOp.handleIncoming call.1 call.2.1 call.2.2) := by
  unfold Hub.chatCall
  cases hs : h.storeChat call.1 call.2.1 call.2.2 with
  | none => exact Or.inl rfl
  | some ho =>
    right
    show _ = (h.HandleIncoming call.1 call.2.1 call.2.2).1
    rw [HandleIncoming_two_steps h call.1 call.2.1 call.2.2 ho.1 ho.2 hs]

theorem chatCalls_eq_runFrom (h : Hub) (calls : List (Client × Envelope × (Nat → Time))) :
    ∃ ops : List HubOp, calls.foldl Hub.chatCall h = h.runFrom ops := by
  induction calls generalizing h with
  | nil => exact ⟨[], rfl⟩
  | cons call rest ih =>
    rw [List.foldl_cons]
    rcases chatCall_eq_step h call with he | he
    · rw [he]
      exact ih h
    · rw [he]
      obtain ⟨ops, hops⟩ := ih (h.step (HubOp.handleIncoming call.1 call.2.1 call.2.2))
      exact ⟨HubOp.handleIncoming call.1 call.2.1 call.2.2 :: ops, hops⟩

theorem runFrom_append (h : Hub) (ops ops1 : List HubOp) :
    (h.runFrom ops).runFrom ops1 = h.runFrom (ops ++ ops1) := by
  unfold Hub.runFrom
  rw [List.foldl_append]

/-- The chat messages in the queue of a client, after any calls made one at a
time on a new hub, have strictly increasing `seq`. -/
theorem run_queue_ordered (ops : List HubOp) (d : Client) :
    (chatSeqs ((Hub.run ops).chan d).buf).Pairwise (fun a b => a < b) := by
  have h0 : ∀ c : Client, (Session.mk NewHub []).Ordered c := by
    intro c
    unfold Session.Ordered Session.deliveredTo
    exact ⟨List.Pairwise.nil, fun e he => (List.not_mem_nil _ he).elim⟩
  have hio : ∀ c : Client, (Session.run ops).Ordered c :=
    (Session_run_inv (Session.mk NewHub []) ops Inv_NewHub h0).2
  have hhub : (Session.run ops).hub = Hub.run ops := Session_run_hub _ ops
  have h1 := (hio d).1
  unfold Session.deliveredTo at h1
  rw [List.filter_append, List.pairwise_append, hhub] at h1
  unfold chatSeqs
  rw [List.pairwise_map]
  exact h1.2.1

/-- **C26, amended.** When `chat.message` calls to `HandleIncoming` are made
after any earlier calls and no call is interrupted between its `AddMessage` and
the end of its `broadcast`, the `chat.message` envelopes in the queue of every
client are in the order of the sequence numbers `AddMessage` assigned: no
recipient has a higher `seq` before a lower one. -/
theorem serial_calls_in_sequence_order (ops : List HubOp)
    (calls : List (Client × Envelope × (Nat → Time))) (d : Client) :
    (chatSeqs ((calls.foldl Hub.chatCall (Hub.run ops)).chan d).buf).Pairwise
      (fun a b => a < b) := by
  obtain ⟨ops1, hops⟩ := chatCalls_eq_runFrom (Hub.run ops) calls
  rw [hops]
  unfold Hub.run
  rw [runFrom_append]
  exact run_queue_ordered (ops ++ ops1) d

/-! ## Closing the queue of a client -/

/-- C27 fails on the code. `player1` has registered with `room-1`; its write
loop exits, and the deferred function of `WritePump` closes its queue without
unregistering it. The client is then in the live-client set of `room-1` with a
closed queue, and the next broadcast to the room, the join notice of `agentA`,
comes to it. When instead the read loop exits, the deferred function of
`ReadPump` unregisters first, and no room holds the closed client. -/
theorem write_loop_exit_leaves_closed_client_live :
    player1 ∈ (player1.writePumpExit { hub := exampleHub, closed := [] }).closed
      ∧ (player1.writePumpExit { hub := exampleHub, closed := [] }).hub.getRoom "room-1"
          = some joinedRoom
      ∧ player1 ∈ joinedRoom.Clients
      ∧ (player1.writePumpExit { hub := exampleHub, closed := [] }).sendsOnClosed
          ((player1.writePumpExit { hub := exampleHub, closed := [] }).hub.registeredRoom agentA
            laterClock) = true
      ∧ player1 ∈ (player1.readPumpExit { hub := exampleHub, closed := [] } laterClock).closed
      ∧ ((player1.readPumpExit { hub := exampleHub, closed := [] } laterClock).hub.rooms.all
          (fun kr => (player1.readPumpExit { hub := exampleHub, closed := [] }
            laterClock).sendsOnClosed kr.2 = false)) = true := by
  decide

/-! ## Frames of simplews -/

theorem unmaskFrom_eq_map (k : List Nat) (i : Nat) (q : List Nat) :
    unmaskFrom k i q
      = (List.range q.length).map (fun j => q.getD j 0 ^^^ k.getD ((i + j) % 4) 0) := by
  induction q generalizing i with
  | nil => rfl
  | cons b rest ih =>
    rw [unmaskFrom, ih (i + 1), List.length_cons, List.range_succ_eq_map, List.map_cons,
      List.map_map]
    congr 1
    apply List.map_congr_left
    intro j _
    simp only [Function.comp, List.getD_cons_succ]
    rw [show i + 1 + j = i + (j + 1) by omega]

theorem xorCyclic_eq_unmaskFrom (k p : List Nat) : xorCyclic k p = unmaskFrom k 0 p := by
  rw [unmaskFrom_eq_map]
  unfold xorCyclic
  apply List.map_congr_left
  intro j _
  rw [Nat.zero_add]

theorem unmaskFrom_length (k : List Nat) (i : Nat) (q : List Nat) :
    (unmaskFrom k i q).length = q.length := by
  induction q generalizing i with
  | nil => rfl
  | cons b rest ih => rw [unmaskFrom, List.length_cons, List.length_cons, ih]

/-- Masking twice with the same key gives the payload back. -/
theorem unmaskFrom_unmaskFrom (k : List Nat) (i : Nat) (p : List Nat) :
    unmaskFrom k i (unmaskFrom k i p) = p := by
  induction p generalizing i with
  | nil => rfl
  | cons b rest ih => rw [unmaskFrom, unmaskFrom, ih, Nat.xor_cancel_right]

theorem readFull_append (a b : List Nat) : readFull (a ++ b) a.length = some (a, b) := by
  unfold readFull
  rw [if_pos (by rw [List.length_append]; omega), List.take_left, List.drop_left]

theorem short_bits : ∀ n : Nat, n < 126 →
    (0x80 + n) &&& 0x7F = n ∧ (0x80 + n) &&& 0x80 ≠ 0 := by
  decide

theorem beUint16_bytes (n : Nat) (hn : n < 2 ^ 16) :
    beUint16 ([n / 256 % 256, n % 256]) = n := by
  unfold beUint16
  simp only [List.getD_cons_zero, List.getD_cons_succ]
  omega

theorem beUint64_bytes (n : Nat) (hn : n < 2 ^ 64) :
    beUint64 [n / 2 ^ 56 % 256, n / 2 ^ 48 % 256, n / 2 ^ 40 % 256, n / 2 ^ 32 % 256,
      n / 2 ^ 24 % 256, n / 2 ^ 16 % 256, n / 2 ^ 8 % 256, n % 256] = n := by
  unfold beUint64
  simp only [List.take, List.foldl_cons, List.foldl_nil]
  omega

theorem toInt64_of_lt (n : Nat) (hn : n < 2 ^ 63) : toInt64 n = (n : Int) := by
  unfold toInt64
  have h1 : n % 2 ^ 64 = n := Nat.mod_eq_of_lt (by omega)
  rw [h1, if_pos hn]

/-- `readFrame` once the two header bytes are read. -/
theorem readFrame_header (L : Int) (b0 b1 : Nat) (tail out : List Nat) (pongs : List (List Nat)) :
    (Conn.mk L (b0 :: b1 :: tail) out pongs).readFrame =
      if b0 &&& 0x80 = 0 then
        (Except.error (Failure.error WsErr.errUnsupportedData), Conn.mk L tail out pongs)
      else
        match readPayloadLen b1 tail with
        | none => (Except.error (Failure.error WsErr.readFailed), Conn.mk L [] out pongs)
        | some lr =>
          if L > 0 ∧ lr.1 > L then
            (Except.error (Failure.error WsErr.readLimitExceeded), Conn.mk L lr.2 out pongs)
          else if b1 &&& 0x80 = 0 then
            (Except.error (Failure.error WsErr.notMasked), Conn.mk L lr.2 out pongs)
          else
            match readFull lr.2 4 with
            | none => (Except.error (Failure.error WsErr.readFailed), Conn.mk L [] out pongs)
            | some kr =>
              if lr.1 < 0 then (Except.error Failure.makeslicePanic, Conn.mk L kr.2 out pongs)
              else
                match readFull kr.2 lr.1.toNat with
                | none =>
                  (Except.error (Failure.error WsErr.readFailed), Conn.mk L [] out pongs)
                | some pr =>
                  (Except.ok (b0 &&& 0x0F, unmaskFrom kr.1 0 pr.1), Conn.mk L pr.2 out pongs) := by
  unfold Conn.readFrame
  have h2 : readFull (b0 :: b1 :: tail) 2 = some ([b0, b1], tail) := by
    unfold readFull
    simp
  rw [h2]
  dsimp only
  simp only [List.getD_cons_zero, List.getD_cons_succ]
  by_cases hfin : b0 &&& 0x80 = 0
  · simp [hfin]
  · simp only [hfin, ne_eq, not_false_eq_true, decide_True, if_false, Bool.true_eq_false]
    cases readPayloadLen b1 tail with
    | none => rfl
    | some lr =>
      dsimp only
      by_cases hlim : L > 0 ∧ lr.1 > L
      · rw [if_pos hlim, if_pos hlim]
      · rw [if_neg hlim, if_neg hlim]
        by_cases hmask : b1 &&& 0x80 = 0
        · simp [hmask]
        · simp only [hmask, not_false_eq_true, decide_True, if_true, if_false]

theorem opcode_bits : ∀ op : Nat, op < 16 →
    (0x80 + op) &&& 0x80 ≠ 0 ∧ (0x80 + op) &&& 0x0F = op := by
  decide

/-- The length field of the specification, read by the `switch` of
`readFrame`, gives the length it was made from. -/
theorem readPayloadLen_maskedLenField (form : LenForm) (n : Nat) (tail : List Nat)
    (hform : form.holds n) :
    ∃ (b1 : Nat) (ext : List Nat), maskedLenField form n = b1 :: ext
      ∧ b1 &&& 0x80 ≠ 0 ∧ readPayloadLen b1 (ext ++ tail) = some ((n : Int), tail) := by
  cases form with
  | short =>
    have hn : n < 126 := Nat.lt_succ_of_le hform
    obtain ⟨h1, h2⟩ := short_bits n hn
    refine ⟨0x80 + n, [], rfl, h2, ?_⟩
    unfold readPayloadLen
    dsimp only
    rw [h1]
    have h126 : ¬ (n : Int) = 126 := by omega
    have h127 : ¬ (n : Int) = 127 := by omega
    rw [if_neg h126, if_neg h127]
    rfl
  | ext16 =>
    refine ⟨0x80 + 126, [n / 256 % 256, n % 256], rfl, by decide, ?_⟩
    unfold readPayloadLen
    have hb : ((0x80 + 126) &&& 0x7F : Nat) = 126 := by decide
    dsimp only
    rw [hb]
    have hr : readFull ([n / 256 % 256, n % 256] ++ tail) 2
        = some ([n / 256 % 256, n % 256], tail) := readFull_append [n / 256 % 256, n % 256] tail
    simp only [Nat.cast_ofNat, if_true, hr]
    rw [beUint16_bytes n hform]
  | ext64 =>
    refine ⟨0x80 + 127,
      [n / 2 ^ 56 % 256, n / 2 ^ 48 % 256, n / 2 ^ 40 % 256, n / 2 ^ 32 % 256,
       n / 2 ^ 24 % 256, n / 2 ^ 16 % 256, n / 2 ^ 8 % 256, n % 256], rfl, by decide, ?_⟩
    unfold readPayloadLen
    have hb : ((0x80 + 127) &&& 0x7F : Nat) = 127 := by decide
    dsimp only
    rw [hb]
    have hr := readFull_append
      [n / 2 ^ 56 % 256, n / 2 ^ 48 % 256, n / 2 ^ 40 % 256, n / 2 ^ 32 % 256,
       n / 2 ^ 24 % 256, n / 2 ^ 16 % 256, n / 2 ^ 8 % 256, n % 256] tail
    have hlen : [n / 2 ^ 56 % 256, n / 2 ^ 48 % 256, n / 2 ^ 40 % 256, n / 2 ^ 32 % 256,
       n / 2 ^ 24 % 256, n / 2 ^ 16 % 256, n / 2 ^ 8 % 256, n % 256].length = 8 := rfl
    rw [hlen] at hr
    have h126 : ¬ ((127 : Nat) : Int) = 126 := by decide
    have h127 : ((127 : Nat) : Int) = 127 := rfl
    rw [if_neg h126, if_pos h127, hr]
    dsimp only
    have hform1 : n < 2 ^ 63 := hform
    rw [beUint64_bytes n (by omega), toInt64_of_lt n hform1]

/-- `readFrame` on a masked frame of the specification followed by `rest`. -/
theorem readFrame_maskedFrame (L : Int) (opcode : Nat) (form : LenForm) (k p rest out : List Nat)
    (pongs : List (List Nat)) (hop : opcode < 16) (hk : k.length = 4)
    (hform : form.holds p.length) (hlim : L ≤ 0 ∨ (p.length : Int) ≤ L) :
    (Conn.mk L (maskedFrame opcode form k p ++ rest) out pongs).readFrame
      = (Except.ok (opcode, p), Conn.mk L rest out pongs) := by
  obtain ⟨b1, ext, hfield, hmask, hlen⟩ :=
    readPayloadLen_maskedLenField form p.length (k ++ xorCyclic k p ++ rest) hform
  obtain ⟨hfin, hopc⟩ := opcode_bits opcode hop
  have hin : maskedFrame opcode form k p ++ rest
      = (0x80 + opcode) :: b1 :: (ext ++ (k ++ xorCyclic k p ++ rest)) := by
    unfold maskedFrame
    rw [hfield]
    simp only [List.singleton_append, List.cons_append, List.append_assoc, List.nil_append]
  rw [hin, readFrame_header, if_neg hfin, hlen]
  dsimp only
  have hnl : ¬ (L > 0 ∧ (p.length : Int) > L) := by omega
  rw [if_neg hnl, if_neg hmask]
  have hkr : readFull (k ++ xorCyclic k p ++ rest) 4 = some (k, xorCyclic k p ++ rest) := by
    rw [List.append_assoc, ← hk]
    exact readFull_append k _
  rw [hkr]
  dsimp only
  have hnn : ¬ ((p.length : Int) < 0) := by omega
  rw [if_neg hnn, Int.toNat_ofNat]
  have hlenx : (xorCyclic k p).length = p.length := by
    rw [xorCyclic_eq_unmaskFrom, unmaskFrom_length]
  have hpr : readFull (xorCyclic k p ++ rest) p.length = some (xorCyclic k p, rest) := by
    rw [← hlenx]
    exact readFull_append _ _
  rw [hpr]
  dsimp only
  rw [hopc, xorCyclic_eq_unmaskFrom, unmaskFrom_unmaskFrom]

theorem readMessageLoop_succ (fuel : Nat) (c : Conn) :
    Conn.readMessageLoop (fuel + 1) c =
      match c.readFrame with
      | (Except.error e, c1) => (Except.error e, c1)
      | (Except.ok (opcode, payload), c1) =>
        if opcode = 0x1 then (Except.ok (TextMessage, payload), c1)
        else if opcode = 0x2 then (Except.ok (BinaryMessage, payload), c1)
        else if opcode = 0x8 then
          if payload.length ≥ 2 then
            (Except.error (Failure.error
              (WsErr.closeError (beUint16 (payload.take 2)) (payload.drop 2))), c1)
          else (Except.error (Failure.error (WsErr.closeError CloseNormalClosure [])), c1)
        else if opcode = 0x9 then
          Conn.readMessageLoop fuel (c1.WriteMessage PongMessage payload).1
        else if opcode = 0xA then
          Conn.readMessageLoop fuel { c1 with pongs := c1.pongs ++ [payload] }
        else (Except.error (Failure.error WsErr.errUnsupportedData), c1) := rfl

theorem ReadMessage_maskedFrame (L : Int) (opcode : Nat) (form : LenForm)
    (k p rest out : List Nat) (pongs : List (List Nat)) (hop : opcode = 1 ∨ opcode = 2)
    (hk : k.length = 4) (hform : form.holds p.length) (hlim : L ≤ 0 ∨ (p.length : Int) ≤ L) :
    (Conn.mk L (maskedFrame opcode form k p ++ rest) out pongs).ReadMessage
      = (Except.ok ((opcode : Int), p), Conn.mk L rest out pongs) := by
  have hop16 : opcode < 16 := by omega
  unfold Conn.ReadMessage
  rw [readMessageLoop_succ, readFrame_maskedFrame L opcode form k p rest out pongs hop16 hk hform
    hlim]
  dsimp only
  rcases hop with h1 | h1 <;> subst h1 <;> rfl

/-- **C29.** For a payload `p` within the read limit (and shorter than
`2 ^ 63` bytes, in a form of the length field that can hold its length), a
4-byte key `k` and the opcode 1 or 2, reading the masked frame of the
specification gives the opcode and exactly `p` from `readFrame`, and the
matching message type and exactly `p` from `ReadMessage`; the bytes after the
frame are left on the connection, nothing is written and the pong handler is
not called, so a second such frame behind the first is returned by the next
`ReadMessage`. -/
theorem masked_frame_round_trip (L : Int) (opcode : Nat) (form : LenForm)
    (k p rest out : List Nat) (pongs : List (List Nat)) (hop : opcode = 1 ∨ opcode = 2)
    (hk : k.length = 4) (hform : form.holds p.length) (hlim : L ≤ 0 ∨ (p.length : Int) ≤ L) :
    (Conn.mk L (maskedFrame opcode form k p ++ rest) out pongs).readFrame
        = (Except.ok (opcode, p), Conn.mk L rest out pongs)
      ∧ (Conn.mk L (maskedFrame opcode form k p ++ rest) out pongs).ReadMessage
        = (Except.ok ((if opcode = 1 then TextMessage else BinaryMessage), p),
            Conn.mk L rest out pongs)
      ∧ ∀ (opcode2 : Nat) (form2 : LenForm) (k2 p2 rest2 : List Nat),
          opcode2 = 1 ∨ opcode2 = 2 → k2.length = 4 → form2.holds p2.length →
          (L ≤ 0 ∨ (p2.length : Int) ≤ L) → rest = maskedFrame opcode2 form2 k2 p2 ++ rest2 →
          (Conn.mk L (maskedFrame opcode form k p ++ rest) out pongs).ReadMessage.2.ReadMessage
            = (Except.ok ((if opcode2 = 1 then TextMessage else BinaryMessage), p2),
                Conn.mk L rest2 out pongs) := by
  have htype : ∀ op : Nat, op = 1 ∨ op = 2 →
      ((op : Nat) : Int) = if op = 1 then TextMessage else BinaryMessage := by
    intro op h
    rcases h with h1 | h1 <;> subst h1 <;> rfl
  have hop16 : opcode < 16 := by omega
  refine ⟨readFrame_maskedFrame L opcode form k p rest out pongs hop16 hk hform hlim, ?_, ?_⟩
  · rw [ReadMessage_maskedFrame L opcode form k p rest out pongs hop hk hform hlim,
      htype opcode hop]
  · intro opcode2 form2 k2 p2 rest2 hop2 hk2 hform2 hlim2 hrest
    rw [ReadMessage_maskedFrame L opcode form k p rest out pongs hop hk hform hlim]
    dsimp only
    rw [hrest, ReadMessage_maskedFrame L opcode2 form2 k2 p2 rest2 out pongs hop2 hk2 hform2
      hlim2, htype opcode2 hop2]

theorem masked_frame_round_trip_witness :
    ((1 : Nat) = 1 ∨ (1 : Nat) = 2) ∧ [1, 2, 3, 4].length = 4
      ∧ maskedFrame 1 LenForm.short [1, 2, 3, 4] [72, 105] = [129, 130, 1, 2, 3, 4, 73, 107]
      ∧ (Conn.mk 8192 ([129, 130, 1, 2, 3, 4, 73, 107] ++ [130, 129, 9, 9, 9, 9, 8]) [] []).ReadMessage
          = (Except.ok (TextMessage, [72, 105]),
              Conn.mk 8192 [130, 129, 9, 9, 9, 9, 8] [] [])
      ∧ (Conn.mk 8192 [130, 129, 9, 9, 9, 9, 8] [] []).ReadMessage
          = (Except.ok (BinaryMessage, [1]), Conn.mk 8192 [] [] []) := by
  have hform : LenForm.short.holds [72, 105].length := by
    show (2 : Nat) ≤ 125
    decide
  have hw := masked_frame_round_trip 8192 1 LenForm.short [1, 2, 3, 4] [72, 105]
    [130, 129, 9, 9, 9, 9, 8] [] [] (Or.inl rfl) rfl hform (Or.inr (by decide))
  have hframe : maskedFrame 1 LenForm.short [1, 2, 3, 4] [72, 105]
      = [129, 130, 1, 2, 3, 4, 73, 107] := by decide
  rw [hframe] at hw
  exact ⟨Or.inl rfl, rfl, hframe, hw.2.1, rfl⟩

theorem readFull_some (r : List Nat) (n : Nat) (ab : List Nat × List Nat)
    (h : readFull r n = some ab) : ab.1 = r.take n ∧ ab.2 = r.drop n := by
  unfold readFull at h
  split at h
  · cases h
    exact ⟨rfl, rfl⟩
  · cases h

theorem readPayloadLen_suffix (b1 : Nat) (r : List Nat) (lr : Int × List Nat)
    (h : readPayloadLen b1 r = some lr) : lr.2 <:+ r := by
  unfold readPayloadLen at h
  dsimp only at h
  split at h
  · cases hr : readFull r 2 with
    | none => rw [hr] at h; cases h
    | some er =>
      rw [hr] at h
      cases h
      rw [(readFull_some r 2 er hr).2]
      exact List.drop_suffix _ _
  · split at h
    · cases hr : readFull r 8 with
      | none => rw [hr] at h; cases h
      | some er =>
        rw [hr] at h
        cases h
        rw [(readFull_some r 8 er hr).2]
        exact List.drop_suffix _ _
    · cases h
      exact List.suffix_refl _

/-- What a frame returned by `readFrame` looks like: both the FIN bit and the
mask bit are set, the bytes left are a suffix of those before, and under a
positive read limit the payload is not longer than the limit. -/
theorem readFrame_ok (c : Conn) (op : Nat) (p : List Nat) (c1 : Conn)
    (h : c.readFrame = (Except.ok (op, p), c1)) :
    ∃ (b0 b1 : Nat) (tail : List Nat), c.input = b0 :: b1 :: tail
      ∧ b0 &&& 0x80 ≠ 0 ∧ b1 &&& 0x80 ≠ 0 ∧ c1.input <:+ tail
      ∧ c1.readLimit = c.readLimit ∧ c1.output = c.output ∧ c1.pongs = c.pongs
      ∧ (c.readLimit > 0 → (p.length : Int) ≤ c.readLimit) := by
  obtain ⟨L, input, out, pongs⟩ := c
  cases input with
  | nil =>
    unfold Conn.readFrame readFull at h
    simp at h
  | cons b0 rest =>
    cases rest with
    | nil =>
      unfold Conn.readFrame readFull at h
      simp at h
    | cons b1 tail =>
      rw [readFrame_header] at h
      refine ⟨b0, b1, tail, rfl, ?_⟩
      by_cases hfin : b0 &&& 0x80 = 0
      · rw [if_pos hfin] at h
        cases h
      · rw [if_neg hfin] at h
        cases hlr : readPayloadLen b1 tail with
        | none => rw [hlr] at h; cases h
        | some lr =>
          rw [hlr] at h
          dsimp only at h
          by_cases hlim : L > 0 ∧ lr.1 > L
          · rw [if_pos hlim] at h
            cases h
          · rw [if_neg hlim] at h
            by_cases hmask : b1 &&& 0x80 = 0
            · rw [if_pos hmask] at h
              cases h
            · rw [if_neg hmask] at h
              cases hkr : readFull lr.2 4 with
              | none => rw [hkr] at h; cases h
              | some kr =>
                rw [hkr] at h
                dsimp only at h
                by_cases hneg : lr.1 < 0
                · rw [if_pos hneg] at h
                  cases h
                · rw [if_neg hneg] at h
                  cases hpr : readFull kr.2 lr.1.toNat with
                  | none => rw [hpr] at h; cases h
                  | some pr =>
                    rw [hpr] at h
                    dsimp only at h
                    simp only [Prod.mk.injEq, Except.ok.injEq] at h
                    obtain ⟨⟨_, hp⟩, hc1⟩ := h
                    subst hc1
                    refine ⟨hfin, hmask, ?_, rfl, rfl, rfl, ?_⟩
                    · dsimp only
                      rw [(readFull_some _ _ pr hpr).2, (readFull_some _ _ kr hkr).2]
                      exact ((List.drop_suffix _ _).trans (List.drop_suffix _ _)).trans
                        (readPayloadLen_suffix b1 tail lr hlr)
                    · intro hL
                      dsimp only at hL ⊢
                      rw [← hp, unmaskFrom_length, (readFull_some _ _ pr hpr).1,
                        List.length_take]
                      have h1 : ¬ lr.1 > L := fun h2 => hlim ⟨hL, h2⟩
                      omega

theorem WriteMessage_frame (c : Conn) (messageType : Int) (data : List Nat) :
    (c.WriteMessage messageType data).1.input = c.input
      ∧ (c.WriteMessage messageType data).1.readLimit = c.readLimit := by
  unfold Conn.WriteMessage
  dsimp only
  repeat' split
  all_goals exact ⟨rfl, rfl⟩

/-- A message returned by the loop of `ReadMessage` is the payload of a frame
`readFrame` returned, read at some later point of the same connection. -/
theorem readMessageLoop_ok (fuel : Nat) (c : Conn) (t : Int) (p : List Nat) (c2 : Conn)
    (h : Conn.readMessageLoop fuel c = (Except.ok (t, p), c2)) :
    ∃ (c1 : Conn) (op : Nat), c1.readFrame = (Except.ok (op, p), c2)
      ∧ c1.input <:+ c.input ∧ c1.readLimit = c.readLimit := by
  induction fuel generalizing c with
  | zero =>
    unfold Conn.readMessageLoop at h
    cases h
  | succ fuel ih =>
    rw [readMessageLoop_succ] at h
    cases hrf : c.readFrame with
    | mk res c1 =>
      rw [hrf] at h
      cases res with
      | error e => cases h
      | ok opp =>
        obtain ⟨op, payload⟩ := opp
        dsimp only at h
        obtain ⟨b0, b1, tail, hin, _, _, hsuf, hL, _, _, _⟩ := readFrame_ok c op payload c1 hrf
        have hsuf1 : c1.input <:+ c.input := by
          rw [hin]
          exact hsuf.trans ((List.suffix_cons _ _).trans (List.suffix_cons _ _))
        split at h
        · simp only [Prod.mk.injEq, Except.ok.injEq] at h
          obtain ⟨⟨_, hp⟩, hc⟩ := h
          subst hp
          subst hc
          exact ⟨c, op, hrf, List.suffix_refl _, rfl⟩
        · split at h
          · simp only [Prod.mk.injEq, Except.ok.injEq] at h
            obtain ⟨⟨_, hp⟩, hc⟩ := h
            subst hp
            subst hc
            exact ⟨c, op, hrf, List.suffix_refl _, rfl⟩
          · split at h
            · split at h <;> cases h
            · split at h
              · obtain ⟨c0, op0, h0, hs0, hl0⟩ := ih _ h
                rw [(WriteMessage_frame c1 PongMessage payload).1] at hs0
                rw [(WriteMessage_frame c1 PongMessage payload).2] at hl0
                exact ⟨c0, op0, h0, hs0.trans hsuf1, hl0.trans hL⟩
              · split at h
                · obtain ⟨c0, op0, h0, hs0, hl0⟩ := ih _ h
                  exact ⟨c0, op0, h0, hs0.trans hsuf1, hl0.trans hL⟩
                · cases h

theorem ReadMessage_of_readFrame_error (c : Conn) (f : Failure) (c1 : Conn)
    (h : c.readFrame = (Except.error f, c1)) : c.ReadMessage = (Except.error f, c1) := by
  unfold Conn.ReadMessage
  rw [readMessageLoop_succ, h]

/-- A frame whose declared length, as the `int64` the code compares, exceeds a
positive read limit is rejected with the read-limit error as soon as the
length field is read: neither the mask key nor the payload is read. -/
theorem readFrame_over_limit (L : Int) (b0 b1 : Nat) (tail out : List Nat)
    (pongs : List (List Nat)) (lr : Int × List Nat) (hL : L > 0) (hfin : b0 &&& 0x80 ≠ 0)
    (hlen : readPayloadLen b1 tail = some lr) (hover : lr.1 > L) :
    (Conn.mk L (b0 :: b1 :: tail) out pongs).readFrame
      = (Except.error (Failure.error WsErr.readLimitExceeded), Conn.mk L lr.2 out pongs) := by
  rw [readFrame_header, if_neg hfin, hlen]
  dsimp only
  rw [if_pos ⟨hL, hover⟩]

/-- Under a positive read limit `ReadMessage` returns no payload longer than
the limit. -/
theorem ReadMessage_within_limit (c : Conn) (t : Int) (p : List Nat) (c2 : Conn)
    (hL : c.readLimit > 0) (h : c.ReadMessage = (Except.ok (t, p), c2)) :
    (p.length : Int) ≤ c.readLimit := by
  obtain ⟨c1, op, hrf, _, hl⟩ := readMessageLoop_ok _ c t p c2 h
  obtain ⟨_, _, _, _, _, _, _, _, _, _, hle⟩ := readFrame_ok c1 op p c2 hrf
  rw [← hl]
  exact hle (by rw [hl]; exact hL)

/-- C28 fails on the code for 64-bit lengths from `2 ^ 63` on. With the read
limit 8192, a masked frame whose 8-byte length field holds `2 ^ 63` gets the
payload length `-2 ^ 63` from the conversion to `int64`; the comparison with
the limit lets it pass, the mask key is read, and `make` panics on the negative
length, in `readFrame` and so in `ReadMessage`. The same frame without the mask
bit fails with the error for unmasked frames, not with the read-limit error.
The length `2 ^ 63 - 1` is rejected with the read-limit error before the mask
key is read. -/
theorem read_limit_missed_from_2_pow_63 :
    readPayloadLen 0xFF [0x80, 0, 0, 0, 0, 0, 0, 0, 1, 2, 3, 4]
        = some (-(2 : Int) ^ 63, [1, 2, 3, 4])
      ∧ (Conn.mk 8192 [0x81, 0xFF, 0x80, 0, 0, 0, 0, 0, 0, 0, 1, 2, 3, 4] [] []).readFrame
          = (Except.error Failure.makeslicePanic, Conn.mk 8192 [] [] [])
      ∧ (Conn.mk 8192 [0x81, 0xFF, 0x80, 0, 0, 0, 0, 0, 0, 0, 1, 2, 3, 4] [] []).ReadMessage
          = (Except.error Failure.makeslicePanic, Conn.mk 8192 [] [] [])
      ∧ (Conn.mk 8192 [0x81, 0x7F, 0x80, 0, 0, 0, 0, 0, 0, 0, 1, 2, 3, 4] [] []).readFrame
          = (Except.error (Failure.error WsErr.notMasked), Conn.mk 8192 [1, 2, 3, 4] [] [])
      ∧ (Conn.mk 8192 [0x81, 0xFF, 0x7F, 0xFF, 0xFF, 0xFF, 0xFF, 0xFF, 0xFF, 0xFF, 1, 2, 3, 4]
            [] []).readFrame
          = (Except.error (Failure.error WsErr.readLimitExceeded),
              Conn.mk 8192 [1, 2, 3, 4] [] []) := by
  refine ⟨by decide, rfl, rfl, rfl, rfl⟩

/-- **C30.** For every frame whose FIN bit is clear, whatever the rest of it,
`readFrame` fails with the unsupported-data error, and so does `ReadMessage`;
for every frame whose mask bit is clear both fail with an error; and a payload
`ReadMessage` returns is the payload of a frame, further on in the same
connection, that has both bits set. -/
theorem frame_without_fin_or_mask_fails (L : Int) (b0 b1 : Nat) (tail out : List Nat)
    (pongs : List (List Nat)) :
    (b0 &&& 0x80 = 0 →
        (Conn.mk L (b0 :: b1 :: tail) out pongs).readFrame.1
            = Except.error (Failure.error WsErr.errUnsupportedData)
          ∧ (Conn.mk L (b0 :: b1 :: tail) out pongs).ReadMessage.1
            = Except.error (Failure.error WsErr.errUnsupportedData))
      ∧ (b1 &&& 0x80 = 0 →
          ∃ e : WsErr,
            (Conn.mk L (b0 :: b1 :: tail) out pongs).readFrame.1
                = Except.error (Failure.error e)
              ∧ (Conn.mk L (b0 :: b1 :: tail) out pongs).ReadMessage.1
                = Except.error (Failure.error e))
      ∧ ∀ (c c2 : Conn) (t : Int) (p : List Nat), c.ReadMessage = (Except.ok (t, p), c2) →
          ∃ (c1 : Conn) (op f0 f1 : Nat) (rest : List Nat),
            c1.input <:+ c.input ∧ c1.input = f0 :: f1 :: rest
              ∧ f0 &&& 0x80 ≠ 0 ∧ f1 &&& 0x80 ≠ 0
              ∧ c1.readFrame = (Except.ok (op, p), c2) := by
  have herr : ∀ (f : Failure) (c1 : Conn),
      (Conn.mk L (b0 :: b1 :: tail) out pongs).readFrame = (Except.error f, c1) →
      (Conn.mk L (b0 :: b1 :: tail) out pongs).readFrame.1 = Except.error f
        ∧ (Conn.mk L (b0 :: b1 :: tail) out pongs).ReadMessage.1 = Except.error f := by
    intro f c1 h
    rw [ReadMessage_of_readFrame_error _ f c1 h, h]
    exact ⟨rfl, rfl⟩
  refine ⟨?_, ?_, ?_⟩
  · intro hfin
    refine herr _ (Conn.mk L tail out pongs) ?_
    rw [readFrame_header, if_pos hfin]
  · intro hmask
    by_cases hfin : b0 &&& 0x80 = 0
    · refine ⟨WsErr.errUnsupportedData, herr _ (Conn.mk L tail out pongs) ?_⟩
      rw [readFrame_header, if_pos hfin]
    · cases hlr : readPayloadLen b1 tail with
      | none =>
        refine ⟨WsErr.readFailed, herr _ (Conn.mk L [] out pongs) ?_⟩
        rw [readFrame_header, if_neg hfin, hlr]
      | some lr =>
        by_cases hlim : L > 0 ∧ lr.1 > L
        · refine ⟨WsErr.readLimitExceeded, herr _ (Conn.mk L lr.2 out pongs) ?_⟩
          rw [readFrame_header, if_neg hfin, hlr]
          dsimp only
          rw [if_pos hlim]
        · refine ⟨WsErr.notMasked, herr _ (Conn.mk L lr.2 out pongs) ?_⟩
          rw [readFrame_header, if_neg hfin, hlr]
          dsimp only
          rw [if_neg hlim, if_pos hmask]
  · intro c c2 t p h
    obtain ⟨c1, op, hrf, hsuf, _⟩ := readMessageLoop_ok _ c t p c2 h
    obtain ⟨f0, f1, rest, hin, h0, h1, _⟩ := readFrame_ok c1 op p c2 hrf
    exact ⟨c1, op, f0, f1, rest, hsuf, hin, h0, h1, hrf⟩

/-- The loop of `ReadMessage` does not run out of fuel: with more fuel than
bytes left on the connection, the result does not depend on the fuel. -/
theorem readMessageLoop_fuel (fuel1 fuel2 : Nat) (c : Conn) (h1 : c.input.length < fuel1)
    (h2 : c.input.length < fuel2) :
    Conn.readMessageLoop fuel1 c = Conn.readMessageLoop fuel2 c := by
  induction fuel1 generalizing fuel2 c with
  | zero => omega
  | succ f1 ih =>
    cases fuel2 with
    | zero => omega
    | succ f2 =>
      rw [readMessageLoop_succ, readMessageLoop_succ]
      cases hrf : c.readFrame with
      | mk res c1 =>
        cases res with
        | error e => rfl
        | ok opp =>
          obtain ⟨op, payload⟩ := opp
          obtain ⟨b0, b1, tail, hin, _, _, hsuf, _, _, _, _⟩ := readFrame_ok c op payload c1 hrf
          have hlen : c1.input.length + 2 ≤ c.input.length := by
            rw [hin, List.length_cons, List.length_cons]
            have := hsuf.length_le
            omega
          dsimp only
          split
          · rfl
          · split
            · rfl
            · split
              · rfl
              · split
                · have hw := (WriteMessage_frame c1 PongMessage payload).1
                  exact ih f2 _ (by rw [hw]; omega) (by rw [hw]; omega)
                · split
                  · exact ih f2 _ (by dsimp only; omega) (by dsimp only; omega)
                  · rfl

/-! ## Summary and Snapshot -/

theorem connectedCount_eq_connectedEntries (r : Room) (registry : List (String × Nat)) :
    r.connectedCount registry = r.connectedEntries registry := by
  unfold Room.connectedCount Room.connectedEntries Room.registryValues
  induction registry with
  | nil => rfl
  | cons kp rest ih =>
    cases hp : r.parts[kp.2]? with
    | none =>
      simp only [List.filterMap_cons, hp, List.filter_cons, Bool.false_eq_true, if_false]
      exact ih
    | some x =>
      simp only [List.filterMap_cons, hp, List.filter_cons]
      cases hx : x.Connected
      · simp only [Bool.false_eq_true, if_false]
        exact ih
      · simp only [if_true, List.length_cons]
        rw [ih]

theorem Summary_counts (r : Room) :
    r.Summary.PlayerCount = r.players.length ∧ r.Summary.AgentCount = r.agents.length
      ∧ r.Summary.ConnectedPlayerCount = r.connectedCount r.players
      ∧ r.Summary.ConnectedAgentCount = r.connectedCount r.agents := by
  unfold Room.Summary
  dsimp only
  repeat' split
  all_goals exact ⟨rfl, rfl, rfl, rfl⟩

theorem Summary_unassigned (r : Room) (h : r.assignedAgent = none) :
    r.Summary.AssignedAgentID = "" ∧ r.Summary.AssignedAgent = "" := by
  unfold Room.Summary Room.AssignedAgent
  rw [h]
  dsimp only
  split <;> exact ⟨rfl, rfl⟩

theorem Summary_lastMessage (r : Room) :
    (r.history = [] → r.Summary.LastMessage = "")
      ∧ ∀ (l : List ChatMessage) (m : ChatMessage), r.history = l ++ [m] →
          r.Summary.LastMessage = m.Content := by
  constructor
  · intro h
    unfold Room.Summary
    rw [h]
    simp only [List.getLast?_nil]
    cases r.AssignedAgent <;> rfl
  · intro l m h
    unfold Room.Summary
    rw [h]
    have hl : (l ++ [m]).getLast? = some m := by simp
    rw [hl]

/-- **C36.** In every reachable room, `Summary()` reports as `playerCount` and
`agentCount` the sizes of the two registries, as `connectedPlayerCount` and
`connectedAgentCount` the numbers of their entries with `connected = true`,
the id and display name of the assigned agent when one is set (and empty
strings when none is), and as `lastMessage` the content of the last history
entry, empty when there is none; `Snapshot().Summary` equals `Summary()`,
`Snapshot().History` is the full history and `Snapshot().NextSequence` is its
length. -/
theorem Summary_Snapshot_spec (r : Room) (hr : r.Reachable) :
    r.Summary.PlayerCount = r.players.length ∧ r.Summary.AgentCount = r.agents.length
      ∧ r.Summary.ConnectedPlayerCount = r.connectedEntries r.players
      ∧ r.Summary.ConnectedAgentCount = r.connectedEntries r.agents
      ∧ (∀ a : Nat, r.assignedAgent = some a →
          ∃ x : Participant, r.parts[a]? = some x ∧ r.Summary.AssignedAgentID = x.ID
            ∧ r.Summary.AssignedAgent = x.DisplayName)
      ∧ (r.assignedAgent = none → r.Summary.AssignedAgentID = "" ∧ r.Summary.AssignedAgent = "")
      ∧ (r.history = [] → r.Summary.LastMessage = "")
      ∧ (∀ (l : List ChatMessage) (m : ChatMessage), r.history = l ++ [m] →
          r.Summary.LastMessage = m.Content)
      ∧ r.Snapshot.Summary = r.Summary ∧ r.Snapshot.History = r.history
      ∧ r.Snapshot.NextSequence = (r.history.length : Int) := by
  obtain ⟨c1, c2, c3, c4⟩ := Summary_counts r
  refine ⟨c1, c2, c3.trans (connectedCount_eq_connectedEntries r _),
    c4.trans (connectedCount_eq_connectedEntries r _), ?_, Summary_unassigned r,
    (Summary_lastMessage r).1, (Summary_lastMessage r).2, Snapshot_Summary r, rfl, ?_⟩
  · intro a ha
    obtain ⟨x, hx, _⟩ := (WF_of_Reachable r hr).2.2 a ha
    have hassigned : r.AssignedAgent = some x := by
      unfold Room.AssignedAgent
      rw [ha]
      exact hx
    exact ⟨x, hx, Summary_assigned r x hassigned⟩
  · exact (SeqInv_of_Reachable r hr).2

theorem Summary_Snapshot_spec_witness :
    assignedRoom.Reachable
      ∧ assignedRoom.Summary.PlayerCount = 1 ∧ assignedRoom.Summary.AgentCount = 1
      ∧ assignedRoom.Summary.ConnectedAgentCount = assignedRoom.connectedEntries assignedRoom.agents
      ∧ assignedRoom.Summary.AssignedAgentID = "a1"
      ∧ assignedRoom.Snapshot.Summary = assignedRoom.Summary
      ∧ assignedRoom.Snapshot.NextSequence = (assignedRoom.history.length : Int) := by
  obtain ⟨_, _, _, h4, _, _, _, _, h9, _, h11⟩ :=
    Summary_Snapshot_spec assignedRoom assignedRoom_reachable
  exact ⟨assignedRoom_reachable, by decide, by decide, h4, by decide, h9, h11⟩

/-! ## Writing frames and classifying close errors -/

/-- **C33.** `IsUnexpectedCloseError` called with no code list is true exactly
when the error is a close error whose code is 1001 or 1006; and it is false for
every error that is not a close error, whatever codes are supplied. -/
theorem IsUnexpectedCloseError_spec (err : WsErr) (codes : List Int) :
    (IsUnexpectedCloseError err [] = true
        ↔ ∃ (code : Nat) (text : List Nat),
            err = WsErr.closeError code text ∧ (code = 1001 ∨ code = 1006))
      ∧ ((∀ (code : Nat) (text : List Nat), err ≠ WsErr.closeError code text) →
          IsUnexpectedCloseError err codes = false) := by
  constructor
  · cases err with
    | closeError code text =>
      unfold IsUnexpectedCloseError
      simp only [List.length_nil, if_true, Bool.or_eq_true, decide_eq_true_eq,
        WsErr.closeError.injEq]
      constructor
      · rintro (h | h)
        · exact ⟨code, text, ⟨rfl, rfl⟩, Or.inl (by exact_mod_cast h)⟩
        · exact ⟨code, text, ⟨rfl, rfl⟩, Or.inr (by exact_mod_cast h)⟩
      · rintro ⟨code1, text1, ⟨hc, _⟩, h | h⟩
        · left; rw [hc, h]
        · right; rw [hc, h]
    | _ => simp [IsUnexpectedCloseError]
  · intro hno
    cases err with
    | closeError code text => exact absurd rfl (hno code text)
    | _ => rfl

/-- C34 fails on the code. With the codes 1001 and 1006 listed as expected, the
function of gorilla/websocket is false for a close error with code 1001 and
true for one with code 1000; `IsUnexpectedCloseError` is true for the first and
false for the second. With no code listed, gorilla's function is true for the
close error with code 1000 and this one is false. -/
theorem IsUnexpectedCloseError_inverts_gorilla :
    IsUnexpectedCloseError (WsErr.closeError 1001 []) [1001, 1006] = true
      ∧ gorillaIsUnexpectedCloseError (WsErr.closeError 1001 []) [1001, 1006] = false
      ∧ IsUnexpectedCloseError (WsErr.closeError 1000 []) [1001, 1006] = false
      ∧ gorillaIsUnexpectedCloseError (WsErr.closeError 1000 []) [1001, 1006] = true
      ∧ IsUnexpectedCloseError (WsErr.closeError 1000 []) [] = false
      ∧ gorillaIsUnexpectedCloseError (WsErr.closeError 1000 []) [] = true := by
  decide

theorem putUint16_eq (n : Nat) : putUint16 n = [n / 256 % 256, n % 256] := rfl

/-- `WriteMessage` for a message type that has an opcode. -/
theorem WriteMessage_of_opcode (c : Conn) (messageType : Int) (d : List Nat) (op : Nat)
    (hop : opcodeOf messageType = some op) :
    c.WriteMessage messageType d
      = ({ c with output := c.output ++ unmaskedFrame op d }, none) := by
  unfold opcodeOf at hop
  split at hop
  · rename_i ht
    cases hop
    unfold Conn.WriteMessage unmaskedFrame unmaskedLenField putUint16 putUint64
    rcases ht with h | h | h | h | h <;> subst h <;> dsimp only <;>
      (by_cases h1 : d.length ≤ 125
       · by_cases h0 : d.length > 0
         · simp [h1, h0, TextMessage, BinaryMessage, CloseMessage, PingMessage, PongMessage]
         · have hd : d = [] := List.length_eq_zero.mp (by omega)
           simp [hd, TextMessage, BinaryMessage, CloseMessage, PingMessage, PongMessage]
       · have h0 : d.length > 0 := by omega
         by_cases h2 : d.length ≤ 65535
         · simp [h1, h2, h0, TextMessage, BinaryMessage, CloseMessage, PingMessage, PongMessage]
         · simp [h1, h2, h0, TextMessage, BinaryMessage, CloseMessage, PingMessage,
             PongMessage])
  · cases hop

/-- **C32.** For a message type among text, binary, close, ping and pong and
every payload `d`, `WriteMessage` returns no error and writes exactly the byte
`0x80 | opcode`, the unmasked length field of the specification and `d`; for
any other message type it returns the unsupported-data error and writes
nothing. -/
theorem WriteMessage_spec (c : Conn) (messageType : Int) (d : List Nat) :
    (∀ op : Nat, opcodeOf messageType = some op →
        c.WriteMessage messageType d
          = ({ c with output := c.output ++ unmaskedFrame op d }, none))
      ∧ (opcodeOf messageType = none →
        c.WriteMessage messageType d = (c, some WsErr.errUnsupportedData))
      ∧ opcodeOf TextMessage = some 1 ∧ opcodeOf BinaryMessage = some 2
      ∧ opcodeOf CloseMessage = some 8 ∧ opcodeOf PingMessage = some 9
      ∧ opcodeOf PongMessage = some 10 := by
  refine ⟨fun op hop => WriteMessage_of_opcode c messageType d op hop, ?_, by decide, by decide,
    by decide, by decide, by decide⟩
  intro hnone
  unfold opcodeOf at hnone
  split at hnone
  · cases hnone
  · rename_i ht
    simp only [not_or] at ht
    obtain ⟨h1, h2, h8, h9, h10⟩ := ht
    unfold Conn.WriteMessage
    simp [TextMessage, BinaryMessage, CloseMessage, PingMessage, PongMessage, h1, h2, h8, h9, h10]

/-- The loop of `ReadMessage` with any fuel above the number of bytes left is
`ReadMessage`. -/
theorem readMessageLoop_eq_ReadMessage (fuel : Nat) (c : Conn) (h : c.input.length < fuel) :
    Conn.readMessageLoop fuel c = c.ReadMessage :=
  readMessageLoop_fuel fuel (c.input.length + 1) c h (Nat.lt_succ_self _)

theorem beUint16_take (payload : List Nat) :
    beUint16 (payload.take 2) = payload.getD 0 0 * 256 + payload.getD 1 0 := by
  unfold beUint16
  cases payload with
  | nil => rfl
  | cons a rest =>
    cases rest with
    | nil => rfl
    | cons b rest1 => rfl

/-- **C31.** When `readFrame` returns a frame, `ReadMessage` does the following
with it. A close frame (opcode 8) gives the close error whose code is the
big-endian 16-bit value of the first two payload bytes and whose text is the
rest, or code 1000 with an empty text when the payload has fewer than two
bytes. A ping frame (opcode 9) is answered by writing one pong frame with the
same payload, and a pong frame (opcode 10) is passed to the pong handler; in
both cases the result is that of reading on from the next frame. Any opcode
other than 1, 2, 8, 9 and 10 gives the unsupported-data error. -/
theorem ReadMessage_control_frames (c c1 : Conn) (op : Nat) (payload : List Nat)
    (h : c.readFrame = (Except.ok (op, payload), c1)) :
    (op = 8 → 2 ≤ payload.length →
        c.ReadMessage
          = (Except.error (Failure.error
              (WsErr.closeError (payload.getD 0 0 * 256 + payload.getD 1 0) (payload.drop 2))),
             c1))
      ∧ (op = 8 → payload.length < 2 →
        c.ReadMessage = (Except.error (Failure.error (WsErr.closeError 1000 [])), c1))
      ∧ (op = 9 →
        c.ReadMessage
          = ({ c1 with output := c1.output ++ unmaskedFrame 10 payload } : Conn).ReadMessage)
      ∧ (op = 10 →
        c.ReadMessage = ({ c1 with pongs := c1.pongs ++ [payload] } : Conn).ReadMessage)
      ∧ (op ≠ 1 → op ≠ 2 → op ≠ 8 → op ≠ 9 → op ≠ 10 →
        c.ReadMessage = (Except.error (Failure.error WsErr.errUnsupportedData), c1)) := by
  obtain ⟨b0, b1, tail, hin, _, _, hsuf, _, _, _, _⟩ := readFrame_ok c op payload c1 h
  have hlen : c1.input.length < c.input.length := by
    rw [hin, List.length_cons, List.length_cons]
    have := hsuf.length_le
    omega
  have hstep : c.ReadMessage = Conn.readMessageLoop (c.input.length + 1) c := rfl
  rw [hstep, readMessageLoop_succ, h]
  dsimp only
  refine ⟨?_, ?_, ?_, ?_, ?_⟩
  · intro h8 h2
    subst h8
    rw [if_neg (by decide), if_neg (by decide), if_pos rfl, if_pos h2, beUint16_take]
  · intro h8 h2
    subst h8
    rw [if_neg (by decide), if_neg (by decide), if_pos rfl, if_neg (by omega)]
  · intro h9
    subst h9
    rw [if_neg (by decide), if_neg (by decide), if_neg (by decide), if_pos rfl,
      WriteMessage_of_opcode c1 PongMessage payload 10 (by decide)]
    exact readMessageLoop_eq_ReadMessage _ _ hlen
  · intro h10
    subst h10
    rw [if_neg (by decide), if_neg (by decide), if_neg (by decide), if_neg (by decide),
      if_pos rfl]
    exact readMessageLoop_eq_ReadMessage _ _ hlen
  · intro h1 h2 h8 h9 h10
    rw [if_neg h1, if_neg h2, if_neg h8, if_neg h9, if_neg h10]

theorem ReadMessage_control_frames_witness :
    (Conn.mk 8192 [137, 129, 1, 2, 3, 4, 6, 129, 130, 1, 2, 3, 4, 73, 107] [] []).readFrame
        = (Except.ok (9, [7]), Conn.mk 8192 [129, 130, 1, 2, 3, 4, 73, 107] [] [])
      ∧ (Conn.mk 8192 [137, 129, 1, 2, 3, 4, 6, 129, 130, 1, 2, 3, 4, 73, 107] [] []).ReadMessage
        = (Except.ok (TextMessage, [72, 105]), Conn.mk 8192 [] [138, 1, 7] [])
      ∧ (Conn.mk 8192 [136, 130, 0, 0, 0, 0, 3, 233] [] []).ReadMessage
        = (Except.error (Failure.error (WsErr.closeError 1001 [])), Conn.mk 8192 [] [] []) := by
  have hrf : (Conn.mk 8192 [137, 129, 1, 2, 3, 4, 6, 129, 130, 1, 2, 3, 4, 73, 107] []
      []).readFrame
      = (Except.ok (9, [7]), Conn.mk 8192 [129, 130, 1, 2, 3, 4, 73, 107] [] []) := rfl
  have hw := (ReadMessage_control_frames _ _ 9 [7] hrf).2.2.1 rfl
  refine ⟨hrf, ?_, rfl⟩
  rw [hw]
  rfl

/-! ## The opening handshake -/

theorem EqualFold_empty_Upgrade : EqualFold (TrimSpace "") "Upgrade" = false := by decide

theorem EqualFold_empty_websocket : EqualFold (TrimSpace "") "websocket" = false := by decide

theorem Split_empty : Split "" ',' = [""] := by decide

theorem headerContainsToken_iff (h : List (String × List String)) (key token : String)
    (ht : EqualFold (TrimSpace "") token = false) :
    headerContainsToken h key token = true ↔ holdsToken h key token := by
  unfold headerContainsToken holdsToken
  dsimp only
  by_cases hv : headerGet h key = ""
  · rw [if_pos hv, hv, Split_empty]
    constructor
    · intro hf
      cases hf
    · rintro ⟨part, hp, he⟩
      rw [List.mem_singleton] at hp
      rw [hp, ht] at he
      cases he
  · rw [if_neg hv, List.any_eq_true]

theorem Upgrade_of_Accepts (u : Upgrader) (w : ResponseWriter) (r : Request)
    (responseHeader : List (String × List String)) (acceptKey : String → String)
    (ha : u.Accepts r) :
    (u.Upgrade w r responseHeader acceptKey).1
      ≠ Except.error (HandshakeErr.declared WsErr.errBadRequest) := by
  obtain ⟨hm, ho, hc, hu, hk, hv⟩ := ha
  have hc1 := (headerContainsToken_iff r.Header "Connection" "Upgrade"
    EqualFold_empty_Upgrade).2 hc
  have hu1 := (headerContainsToken_iff r.Header "Upgrade" "websocket"
    EqualFold_empty_websocket).2 hu
  unfold Upgrader.Upgrade
  rw [if_neg (by rw [hm]; decide)]
  split
  · rename_i hrej
    exfalso
    cases hco : u.CheckOrigin with
    | none => rw [hco] at hrej; cases hrej
    | some check => rw [hco] at hrej; simp [ho check hco] at hrej
  rw [if_neg (by rw [hc1, hu1]; decide)]
  dsimp only
  rw [if_neg hk, if_neg (by rw [hv]; decide)]
  by_cases h1 : w.hijacker = false
  · rw [if_pos h1]; intro h; cases h
  · rw [if_neg h1]
    by_cases h2 : w.hijackFails = true
    · rw [if_pos h2]; intro h; cases h
    · rw [if_neg h2]
      by_cases h3 : w.writeFails = true
      · rw [if_pos h3]; intro h; cases h
      · rw [if_neg h3]; intro h; cases h

theorem Upgrade_of_not_Accepts (u : Upgrader) (w : ResponseWriter) (r : Request)
    (responseHeader : List (String × List String)) (acceptKey : String → String)
    (ha : ¬ u.Accepts r) :
    u.Upgrade w r responseHeader acceptKey
      = (Except.error (HandshakeErr.declared WsErr.errBadRequest), []) := by
  unfold Upgrader.Upgrade
  by_cases hm : EqualFold r.Method "GET" = false
  · rw [if_pos hm]
  rw [if_neg hm]
  split
  · rfl
  rename_i ho
  by_cases hc : headerContainsToken r.Header "Connection" "Upgrade" = false
      ∨ headerContainsToken r.Header "Upgrade" "websocket" = false
  · rw [if_pos hc]
  rw [if_neg hc]
  dsimp only
  by_cases hk : headerGet r.Header "Sec-Websocket-Key" = ""
  · rw [if_pos hk]
  rw [if_neg hk]
  by_cases hv : headerGet r.Header "Sec-Websocket-Version" ≠ "13"
  · rw [if_pos hv]
  exfalso
  apply ha
  rw [not_or] at hc
  refine ⟨by simpa using hm, ?_,
    (headerContainsToken_iff r.Header "Connection" "Upgrade" EqualFold_empty_Upgrade).1
      (by simpa using hc.1),
    (headerContainsToken_iff r.Header "Upgrade" "websocket" EqualFold_empty_websocket).1
      (by simpa using hc.2), hk, not_not.1 hv⟩
  intro check hco
  rw [hco] at ho
  simpa using ho

/-- C35, counterexample: a request whose method is spelled `get`, not `GET`,
with the handshake headers in place passes the validation of `Upgrade`, which
goes on to open the connection. -/
theorem lower_case_method_passes_validation :
    lowerCaseGet.Method ≠ "GET"
      ∧ (Upgrader.Upgrade { CheckOrigin := none } hijackableWriter lowerCaseGet []
            (fun _ => "s3pPLMBiTxaQ9kYGzzhZRbK+xOo=")).1
          = Except.ok { readLimit := 0 } := by
  constructor
  · decide
  · rfl

/-- C35, amended: `Upgrade` passes request validation exactly when the method is
GET with case ignored, the origin check (if configured) accepts, the
Connection header holds the token Upgrade and the Upgrade header the token
websocket (case ignored, token by token over the comma-separated contents),
Sec-WebSocket-Key is present and Sec-WebSocket-Version equals 13; in every
other case it fails with the bad-handshake error and nothing is written. -/
theorem Upgrade_validation (u : Upgrader) (w : ResponseWriter) (r : Request)
    (responseHeader : List (String × List String)) (acceptKey : String → String) :
    (u.Accepts r ↔ (u.Upgrade w r responseHeader acceptKey).1
        ≠ Except.error (HandshakeErr.declared WsErr.errBadRequest))
      ∧ (¬ u.Accepts r → u.Upgrade w r responseHeader acceptKey
          = (Except.error (HandshakeErr.declared WsErr.errBadRequest), [])) := by
  refine ⟨⟨Upgrade_of_Accepts u w r responseHeader acceptKey, ?_⟩,
    Upgrade_of_not_Accepts u w r responseHeader acceptKey⟩
  intro hne
  by_contra ha
  exact hne (by rw [Upgrade_of_not_Accepts u w r responseHeader acceptKey ha])

/-! ## The account manager -/

namespace Auth

theorem FindByUsername_error (lib : Lib) (r : memoryAccountRepo) (username : String)
    (err : AuthErr) (h : r.FindByUsername lib username = Except.error err) :
    err = AuthErr.accountNotFound := by
  unfold memoryAccountRepo.FindByUsername at h
  cases hg : mapGet r.accounts (normalizeUsername lib username) with
  | none => rw [hg] at h; cases h; rfl
  | some a => rw [hg] at h; cases h

theorem checkCreator_admin (lib : Lib) (m : Manager) (creator username : String) :
    m.checkCreator lib creator RoleAdmin username
      = if creator ≠ "admin01" then some AuthErr.forbidden else none := by
  unfold Manager.checkCreator
  rw [if_pos rfl]

theorem checkCreator_other (lib : Lib) (m : Manager) (creator role username : String)
    (hr : role ≠ RoleAdmin) :
    ((creator = "" ∨ creator = username
        ∨ ∃ record, m.repo.FindByUsername lib creator = Except.ok record
            ∧ record.Role = RoleAdmin) → m.checkCreator lib creator role username = none)
      ∧ (¬ (creator = "" ∨ creator = username
        ∨ ∃ record, m.repo.FindByUsername lib creator = Except.ok record
            ∧ record.Role = RoleAdmin)
          → m.checkCreator lib creator role username = some AuthErr.forbidden) := by
  unfold Manager.checkCreator
  rw [if_neg hr]
  by_cases hc : creator ≠ "" ∧ creator ≠ username
  · rw [if_pos hc]
    cases hf : m.repo.FindByUsername lib creator with
    | error err =>
      have he := FindByUsername_error lib m.repo creator err hf
      subst he
      constructor
      · rintro (h | h | ⟨record, h, _⟩)
        · exact absurd h hc.1
        · exact absurd h hc.2
        · cases h
      · intro _
        rfl
    | ok record =>
      constructor
      · rintro (h | h | ⟨record2, h, hrole⟩)
        · exact absurd h hc.1
        · exact absurd h hc.2
        · cases h
          show (if record.Role ≠ RoleAdmin then some AuthErr.forbidden else none) = none
          rw [if_neg (not_not.2 hrole)]
      · intro hn
        show (if record.Role ≠ RoleAdmin then some AuthErr.forbidden else none)
          = some AuthErr.forbidden
        rw [if_pos]
        intro hrole
        exact hn (Or.inr (Or.inr ⟨record, rfl, hrole⟩))
  · rw [if_neg hc]
    constructor
    · intro _
      rfl
    · intro hn
      exfalso
      apply hc
      constructor
      · intro h
        exact hn (Or.inl h)
      · intro h
        exact hn (Or.inr (Or.inl h))

theorem CreateAccount_of_check_some (lib : Lib) (m : Manager)
    (creator role agency username password displayName : String) (now : Nat → Time)
    (hu : normalizeUsername lib username ≠ "") (hp : TrimSpace password ≠ "") (err : AuthErr)
    (hc : m.checkCreator lib (normalizeUsername lib creator) role (normalizeUsername lib username)
      = some err) :
    m.CreateAccount lib creator role agency username password displayName now
      = (Except.error err, m) := by
  unfold Manager.CreateAccount
  dsimp only
  rw [if_neg hu, if_neg hp, hc]

theorem CreateAccount_of_check_none (lib : Lib) (m : Manager)
    (creator role agency username password displayName : String) (now : Nat → Time)
    (hu : normalizeUsername lib username ≠ "") (hp : TrimSpace password ≠ "")
    (hc : m.checkCreator lib (normalizeUsername lib creator) role (normalizeUsername lib username)
      = none) :
    m.Proceeds lib creator role agency username password displayName now := by
  unfold Manager.Proceeds Manager.CreateAccount
  dsimp only
  rw [if_neg hu, if_neg hp, hc]
  exact ⟨_, rfl, rfl, rfl, rfl⟩

/-- C37: for a user name and a password that pass the input checks,
`CreateAccount` with role admin succeeds only when the normalized creator is
admin01, and for every other creator, an existing admin included, returns
ErrForbidden and leaves the manager as it was; with another role it goes on to
the repository when the creator is empty, equals the new normalized user name
or names an existing account with role admin, and returns ErrForbidden,
leaving the manager as it was, otherwise. -/
theorem CreateAccount_authorization (lib : Lib) (m : Manager)
    (creator role agency username password displayName : String) (now : Nat → Time)
    (hu : normalizeUsername lib username ≠ "") (hp : TrimSpace password ≠ "") :
    (role = RoleAdmin →
        ((∃ account, (m.CreateAccount lib creator role agency username password displayName
            now).1 = Except.ok account) → normalizeUsername lib creator = "admin01")
        ∧ (normalizeUsername lib creator ≠ "admin01" →
            m.CreateAccount lib creator role agency username password displayName now
              = (Except.error AuthErr.forbidden, m)))
      ∧ (role ≠ RoleAdmin →
        (m.creatorAllowed lib creator username →
            m.Proceeds lib creator role agency username password displayName now)
        ∧ (¬ m.creatorAllowed lib creator username →
            m.CreateAccount lib creator role agency username password displayName now
              = (Except.error AuthErr.forbidden, m))) := by
  constructor
  · intro hr
    subst hr
    have hforb : normalizeUsername lib creator ≠ "admin01" →
        m.CreateAccount lib creator RoleAdmin agency username password displayName now
          = (Except.error AuthErr.forbidden, m) := by
      intro hne
      apply CreateAccount_of_check_some lib m creator RoleAdmin agency username password
        displayName now hu hp
      rw [checkCreator_admin, if_pos hne]
    refine ⟨?_, hforb⟩
    rintro ⟨account, hok⟩
    by_contra hne
    rw [hforb hne] at hok
    cases hok
  · intro hr
    have hck := checkCreator_other lib m (normalizeUsername lib creator) role
      (normalizeUsername lib username) hr
    constructor
    · intro ha
      exact CreateAccount_of_check_none lib m creator role agency username password
        displayName now hu hp (hck.1 ha)
    · intro ha
      exact CreateAccount_of_check_some lib m creator role agency username password
        displayName now hu hp _ (hck.2 ha)

/-- C37, witness: admin02 is an existing admin account, and its call of
`CreateAccount` for a new admin account returns ErrForbidden and leaves the
manager as it was. -/
theorem CreateAccount_authorization_witness :
    normalizeUsername demoLib "admin03" ≠ "" ∧ TrimSpace "pass" ≠ ""
      ∧ (twoAdmins.repo.FindByUsername demoLib "admin02").toOption.map (fun r => r.Role)
          = some RoleAdmin
      ∧ twoAdmins.CreateAccount demoLib "admin02" RoleAdmin "master" "admin03" "pass" "客服03"
          (fun _ => 2) = (Except.error AuthErr.forbidden, twoAdmins) :=
  ⟨by decide, by decide, by decide,
    ((CreateAccount_authorization demoLib twoAdmins "admin02" RoleAdmin "master" "admin03" "pass"
      "客服03" (fun _ => 2) (by decide) (by decide)).1 rfl).2 (by decide)⟩

end Auth

/-! ## Login, Authenticate and Logout -/

namespace Auth

theorem Authenticate_error (lib : Lib) (m : Manager) (token : String) (now : Time) (e : AuthErr)
    (h : m.Authenticate lib token now = Except.error e) : e = AuthErr.unauthorized := by
  unfold Manager.Authenticate at h
  dsimp only at h
  repeat' split at h
  all_goals first
    | (cases h; rfl)
    | cases h

theorem Authenticate_ok (lib : Lib) (m : Manager) (token : String) (now : Time)
    (account : Account) (h : m.Authenticate lib token now = Except.ok account) :
    ∃ claims, lib.Parse m.jwtSecret (TrimSpace token) now = some claims
      ∧ m.tokens.LookupSubject (TrimSpace token) now = Except.ok (claimString claims "sub").1 := by
  unfold Manager.Authenticate at h
  dsimp only at h
  split at h
  · cases h
  split at h
  · cases h
  rename_i claims hp
  split at h
  · cases h
  split at h
  · cases h
  split at h
  · cases h
  rename_i stored hl
  split at h
  · cases h
  rename_i hs
  refine ⟨claims, hp, ?_⟩
  rw [hl, not_not.1 hs]

theorem Authenticate_eq (lib : Lib) (m : Manager) (token : String) (now : Time)
    (claims : List (String × ClaimValue)) (record : AccountRecord)
    (hne : TrimSpace token ≠ "")
    (hp : lib.Parse m.jwtSecret (TrimSpace token) now = some claims)
    (hiss : (claimString claims "iss").2 = true → m.jwtIssuer ≠ ""
      → (claimString claims "iss").1 = m.jwtIssuer)
    (hsub : (claimString claims "sub").1 ≠ "")
    (hl : m.tokens.LookupSubject (TrimSpace token) now = Except.ok (claimString claims "sub").1)
    (hf : m.repo.FindByUsername lib (claimString claims "sub").1 = Except.ok record) :
    m.Authenticate lib token now = Except.ok record.toAccount := by
  unfold Manager.Authenticate
  dsimp only
  rw [if_neg hne, hp]
  dsimp only
  rw [if_neg (fun h => h.2.2 (hiss h.1 h.2.1)), if_neg hsub, hl]
  dsimp only
  rw [if_neg (not_not.2 rfl), hf]

theorem mapGet_filter_ne {β : Type} (l : List (String × β)) (key : String) :
    mapGet (l.filter (fun kv => decide (kv.1 ≠ key))) key = none := by
  rw [mapGet_eq_none_iff]
  intro hmem
  obtain ⟨kv, hkv, hk⟩ := List.mem_map.1 hmem
  have h2 := (List.mem_filter.1 hkv).2
  simp only [decide_eq_true_eq] at h2
  exact h2 hk

theorem LookupSubject_DeleteToken (s : RedisTokenStore) (token : String) (now : Time) :
    (s.DeleteToken token).LookupSubject token now = Except.error AuthErr.tokenNotFound := by
  unfold RedisTokenStore.LookupSubject RedisTokenStore.DeleteToken
  dsimp only
  rw [mapGet_filter_ne]

theorem LookupSubject_SaveToken (s : RedisTokenStore) (token subject : String) (ttl : Int)
    (t0 now : Time) (h : now < t0 + ttl) :
    (s.SaveToken token subject ttl t0).LookupSubject token now = Except.ok subject := by
  unfold RedisTokenStore.LookupSubject RedisTokenStore.SaveToken
  dsimp only
  rw [mapGet_mapSet_same]
  by_cases ht : ttl > 0
  · rw [if_pos ht]
    dsimp only
    rw [if_pos h]
  · rw [if_neg ht]

theorem claims_sub (m : Manager) (account : Account) (now : Time) :
    claimString (m.claims account now) "sub" = (account.Username, true) := by
  unfold Manager.claims
  dsimp only
  by_cases hi : m.jwtIssuer ≠ ""
  · rw [if_pos hi]
    simp [claimString, mapGet, mapSet]
  · rw [if_neg hi]
    simp [claimString, mapGet]

theorem claims_iss (m : Manager) (account : Account) (now : Time)
    (h : (claimString (m.claims account now) "iss").2 = true) :
    (claimString (m.claims account now) "iss").1 = m.jwtIssuer := by
  unfold Manager.claims at h ⊢
  dsimp only at h ⊢
  by_cases hi : m.jwtIssuer ≠ ""
  · rw [if_pos hi]
    simp [claimString, mapGet, mapSet]
  · rw [if_neg hi] at h
    simp [claimString, mapGet] at h

theorem Logout_Authenticate (lib : Lib) (m : Manager) (token : String) (now : Time) :
    (m.Logout token).Authenticate lib token now = Except.error AuthErr.unauthorized := by
  cases hr : (m.Logout token).Authenticate lib token now with
  | error e => rw [Authenticate_error lib _ token now e hr]
  | ok account =>
    exfalso
    obtain ⟨claims, _, hl⟩ := Authenticate_ok lib _ token now account hr
    by_cases hne : TrimSpace token = ""
    · unfold Manager.Authenticate at hr
      dsimp only at hr
      rw [if_pos hne] at hr
      cases hr
    · unfold Manager.Logout at hl
      dsimp only at hl
      rw [if_neg hne] at hl
      dsimp only at hl
      rw [LookupSubject_DeleteToken] at hl
      cases hl

theorem Login_Authenticate (lib : Lib) (m m2 : Manager) (username password token : String)
    (t0 now : Time) (account : Account)
    (hlogin : m.Login lib username password t0 = (Except.ok (token, account), m2))
    (hkept : m.repo.Kept lib) (hexp : now < t0 + m.tokenTTL)
    (hread : lib.ReadsBack m.jwtSecret (m.claims account t0) now) :
    m2.Authenticate lib token now = Except.ok account := by
  unfold Manager.Login at hlogin
  dsimp only at hlogin
  split at hlogin
  · cases hlogin
  cases hf : m.repo.FindByUsername lib (normalizeUsername lib username) with
  | error err =>
    rw [hf] at hlogin
    dsimp only at hlogin
    split at hlogin <;> cases hlogin
  | ok record =>
    rw [hf] at hlogin
    dsimp only at hlogin
    split at hlogin
    · cases hlogin
    simp only [Prod.mk.injEq, Except.ok.injEq] at hlogin
    obtain ⟨⟨htok, hacc⟩, hm2⟩ := hlogin
    subst hm2
    subst hacc
    unfold Manager.generateToken at htok
    obtain ⟨hne, htrim, hparse⟩ := hread
    rw [htok] at hne htrim hparse
    unfold memoryAccountRepo.FindByUsername at hf
    cases hg : mapGet m.repo.accounts (normalizeUsername lib (normalizeUsername lib username)) with
    | none => rw [hg] at hf; cases hf
    | some r =>
      rw [hg] at hf
      cases hf
      obtain ⟨hname, hnorm, hkey⟩ := hkept _ (mem_of_mapGet _ _ _ hg)
      dsimp only at hname hnorm hkey
      have hsub := claims_sub m record.toAccount t0
      apply Authenticate_eq lib _ token now (m.claims record.toAccount t0) record
      · rw [htrim]; exact hne
      · rw [htrim]; exact hparse
      · intro h _
        exact claims_iss m record.toAccount t0 h
      · rw [hsub]
        show record.Username ≠ ""
        rw [hname]; exact hkey
      · rw [htrim, hsub]
        show (m.tokens.SaveToken _ record.Username m.tokenTTL t0).LookupSubject token now
          = Except.ok record.Username
        rw [← htok]
        exact LookupSubject_SaveToken _ _ _ _ _ _ hexp
      · rw [hsub]
        show m.repo.FindByUsername lib record.Username = Except.ok record
        unfold memoryAccountRepo.FindByUsername
        rw [hname, hnorm, hg]

/-- C38, counterexample: player01 logs in at instant 10 and gets a token that
lives an hour. No `Logout` is called: `Authenticate` returns the account at
instant 20, and fails with ErrUnauthorized at instant 4000, when the token has
expired. -/
theorem token_expires_before_Logout :
    (onePlayer.Login hourLib "player01" "secret" 10).1 = Except.ok ("jwt.player01", player01)
      ∧ (onePlayer.Login hourLib "player01" "secret" 10).2.Authenticate hourLib "jwt.player01" 20
          = Except.ok player01
      ∧ (onePlayer.Login hourLib "player01" "secret" 10).2.Authenticate hourLib "jwt.player01"
          4000 = Except.error AuthErr.unauthorized := by
  refine ⟨?_, ?_, ?_⟩ <;> rfl

/-- C38, amended: for every token, `Authenticate` succeeds only if the token
store currently maps that token to the subject named in the token; hence after
`Logout(token)` every `Authenticate(token)` fails with ErrUnauthorized, while
between a successful `Login` and the `Logout` it returns the account that
logged in as long as the token has not expired: the instant is before the
expiry and the library reads the token back. -/
theorem Authenticate_Login_Logout (lib : Lib) (m : Manager) (token : String) :
    (∀ (now : Time) (account : Account), m.Authenticate lib token now = Except.ok account →
        ∃ claims, lib.Parse m.jwtSecret (TrimSpace token) now = some claims
          ∧ m.tokens.LookupSubject (TrimSpace token) now
              = Except.ok (claimString claims "sub").1)
      ∧ (∀ now : Time,
          (m.Logout token).Authenticate lib token now = Except.error AuthErr.unauthorized)
      ∧ (∀ (username password : String) (t0 now : Time) (account : Account) (m2 : Manager),
          m.Login lib username password t0 = (Except.ok (token, account), m2) →
          m.repo.Kept lib → now < t0 + m.tokenTTL →
          lib.ReadsBack m.jwtSecret (m.claims account t0) now →
          m2.Authenticate lib token now = Except.ok account) :=
  ⟨fun now account h => Authenticate_ok lib m token now account h,
    fun now => Logout_Authenticate lib m token now,
    fun username password t0 now account m2 hlogin hkept hexp hread =>
      Login_Authenticate lib m m2 username password token t0 now account hlogin hkept hexp hread⟩

/-- C38, witness: the repository of `onePlayer` keeps its records under their
user names, instant 20 is before the expiry of the token of player01 signed at
instant 10 and the library reads that token back, so `Authenticate` returns
player01; after `Logout` it fails. -/
theorem Authenticate_Login_Logout_witness :
    onePlayer.repo.Kept hourLib ∧ (20 : Time) < 10 + onePlayer.tokenTTL
      ∧ hourLib.ReadsBack onePlayer.jwtSecret (onePlayer.claims player01 10) 20
      ∧ (onePlayer.Login hourLib "player01" "secret" 10).2.Authenticate hourLib "jwt.player01" 20
          = Except.ok player01
      ∧ ((onePlayer.Login hourLib "player01" "secret" 10).2.Logout "jwt.player01").Authenticate
          hourLib "jwt.player01" 20 = Except.error AuthErr.unauthorized :=
  ⟨by unfold memoryAccountRepo.Kept; decide, by decide,
    ⟨by decide, by decide, rfl⟩,
    (Authenticate_Login_Logout hourLib onePlayer "jwt.player01").2.2 "player01" "secret" 10 20
      player01 _ rfl (by unfold memoryAccountRepo.Kept; decide) (by decide)
      ⟨by decide, by decide, rfl⟩,
    (Authenticate_Login_Logout hourLib
      (onePlayer.Login hourLib "player01" "secret" 10).2 "jwt.player01").2.1 20⟩

end Auth

/-! ## The order of the locks -/

theorem avoids_append (bad : List Mutex → LockEvent → Bool) (s t : List LockEvent)
    (held : List Mutex) :
    avoids bad held (s ++ t)
      = (avoids bad held s && avoids bad (s.foldl (fun hd e => e.after hd) held) t) := by
  induction s generalizing held with
  | nil => simp [avoids]
  | cons e rest ih => simp [avoids, ih, Bool.and_assoc]

theorem visit_one_foldl (r : Room) (held : List Mutex) :
    (r.locked false ++ [LockEvent.work]).foldl (fun hd e => e.after hd) held = held := by
  simp [Room.locked, LockEvent.after]

theorem visit_foldl (rooms : List (String × Room)) (held : List Mutex) :
    (rooms.flatMap (fun kr => kr.2.locked false ++ [LockEvent.work])).foldl
      (fun hd e => e.after hd) held = held := by
  induction rooms with
  | nil => rfl
  | cons kr rest ih =>
    rw [List.flatMap_cons, List.foldl_append, visit_one_foldl, ih]

theorem visit_avoids (rooms : List (String × Room)) (held : List Mutex) :
    avoids takesHubUnderRoom held
      (rooms.flatMap (fun kr => kr.2.locked false ++ [LockEvent.work])) = true := by
  induction rooms with
  | nil => rfl
  | cons kr rest ih =>
    rw [List.flatMap_cons, avoids_append, visit_one_foldl, ih]
    simp [Room.locked, avoids, takesHubUnderRoom, LockEvent.after]

theorem locked_avoids_hub (r : Room) (write : Bool) (held : List Mutex) :
    avoids takesHubUnderRoom held (r.locked write) = true := by
  simp [Room.locked, avoids, takesHubUnderRoom, LockEvent.after]

theorem getOrCreateRoomLocks_cases (h : Hub) (roomID : String) :
    h.getOrCreateRoomLocks roomID
        = [LockEvent.acquire Mutex.hub true, LockEvent.lookup, LockEvent.release Mutex.hub true]
      ∨ h.getOrCreateRoomLocks roomID
        = [LockEvent.acquire Mutex.hub true, LockEvent.lookup, LockEvent.create,
            LockEvent.release Mutex.hub true] := by
  unfold Hub.getOrCreateRoomLocks
  cases mapGet h.rooms roomID with
  | none => right; rfl
  | some r => left; rfl

theorem RegisterLocks_ok (h : Hub) (c : Client) (now : Nat → Time) :
    avoids takesHubUnderRoom [] (h.RegisterLocks c now) = true
      ∧ avoids takesRoomUnderHub [] (h.RegisterLocks c now) = true
      ∧ avoids worksUnderHub [] (h.RegisterLocks c now) = true := by
  unfold Hub.RegisterLocks
  by_cases hc : c.RoomID = ""
  · rw [if_pos hc]
    exact ⟨rfl, rfl, rfl⟩
  · rw [if_neg hc]
    dsimp only
    rcases getOrCreateRoomLocks_cases h c.RoomID with hg | hg <;> rw [hg] <;>
      simp [Hub.broadcastLocks, Room.locked, avoids, takesHubUnderRoom, takesRoomUnderHub,
        worksUnderHub, LockEvent.after, Mutex.isRoom]

theorem UnregisterLocks_ok (h : Hub) (c : Client) :
    avoids takesHubUnderRoom [] (h.UnregisterLocks c) = true
      ∧ avoids takesRoomUnderHub [] (h.UnregisterLocks c) = true
      ∧ avoids worksUnderHub [] (h.UnregisterLocks c) = true := by
  unfold Hub.UnregisterLocks
  by_cases hc : c.RoomID = ""
  · rw [if_pos hc]
    exact ⟨rfl, rfl, rfl⟩
  · rw [if_neg hc]
    cases h.getRoom c.RoomID <;>
      simp [Hub.getRoomLocks, Hub.broadcastLocks, Room.locked, avoids, takesHubUnderRoom,
        takesRoomUnderHub, worksUnderHub, LockEvent.after, Mutex.isRoom]

theorem HandleIncomingLocks_ok (h : Hub) (c : Client) (env : Envelope) (now : Nat → Time) :
    avoids takesHubUnderRoom [] (h.HandleIncomingLocks c env now) = true
      ∧ avoids takesRoomUnderHub [] (h.HandleIncomingLocks c env now) = true
      ∧ avoids worksUnderHub [] (h.HandleIncomingLocks c env now) = true := by
  unfold Hub.HandleIncomingLocks
  cases h.getRoom c.RoomID with
  | none =>
    simp [Hub.getRoomLocks, avoids, takesHubUnderRoom, takesRoomUnderHub, worksUnderHub,
      LockEvent.after]
  | some room =>
    dsimp only
    repeat' split
    all_goals
      simp [Hub.getRoomLocks, Hub.broadcastLocks, Room.locked, avoids, takesHubUnderRoom,
        takesRoomUnderHub, worksUnderHub, LockEvent.after, Mutex.isRoom]

theorem getRoom_then_locked_ok (h : Hub) (roomID : String) :
    avoids takesHubUnderRoom []
        (Hub.getRoomLocks ++ (match h.getRoom roomID with
          | none => []
          | some room => room.locked false)) = true
      ∧ avoids takesRoomUnderHub []
        (Hub.getRoomLocks ++ (match h.getRoom roomID with
          | none => []
          | some room => room.locked false)) = true
      ∧ avoids worksUnderHub []
        (Hub.getRoomLocks ++ (match h.getRoom roomID with
          | none => []
          | some room => room.locked false)) = true := by
  cases h.getRoom roomID <;>
    simp [Hub.getRoomLocks, Room.locked, avoids, takesHubUnderRoom, takesRoomUnderHub,
      worksUnderHub, LockEvent.after, Mutex.isRoom]

theorem visitLocks_avoid_hub (rooms : List (String × Room)) :
    avoids takesHubUnderRoom []
      ([LockEvent.acquire Mutex.hub false]
        ++ rooms.flatMap (fun kr => kr.2.locked false ++ [LockEvent.work])
        ++ [LockEvent.work, LockEvent.release Mutex.hub false]) = true := by
  rw [avoids_append, avoids_append, List.foldl_append, visit_foldl, visit_avoids]
  simp [avoids, takesHubUnderRoom, LockEvent.after, Mutex.isRoom]

theorem visitLocks_foldl (rooms : List (String × Room)) :
    ([LockEvent.acquire Mutex.hub false]
        ++ rooms.flatMap (fun kr => kr.2.locked false ++ [LockEvent.work])
        ++ [LockEvent.work, LockEvent.release Mutex.hub false]).foldl
      (fun hd e => e.after hd) [] = [] := by
  rw [List.foldl_append, List.foldl_append, visit_foldl]
  simp [LockEvent.after]

theorem AssignAgentLocks_ok (h : Hub) (roomID agentID displayName : String)
    (now : Nat → Time) :
    avoids takesHubUnderRoom [] (h.AssignAgentLocks roomID agentID displayName now) = true := by
  unfold Hub.AssignAgentLocks
  cases h.getRoom roomID with
  | none => simp [Hub.getRoomLocks, avoids, takesHubUnderRoom, LockEvent.after]
  | some room =>
    dsimp only
    rw [avoids_append]
    have hg : Hub.getRoomLocks.foldl (fun hd e => e.after hd) [] = [] := by
      simp [Hub.getRoomLocks, LockEvent.after]
    rw [hg]
    have h1 : avoids takesHubUnderRoom [] Hub.getRoomLocks = true := by
      simp [Hub.getRoomLocks, avoids, takesHubUnderRoom, LockEvent.after]
    rw [h1, Bool.true_and]
    simp only [List.append_assoc]
    rw [avoids_append]
    unfold Hub.OnlineAgentsLocks
    rw [visitLocks_avoid_hub, visitLocks_foldl, Bool.true_and]
    split <;>
      simp [Hub.broadcastLocks, Room.locked, avoids, takesHubUnderRoom, LockEvent.after,
        Mutex.isRoom]

/-- C39, counterexample: `Rooms()` on a hub with the room room-1 takes the read
lock of the hub, then the read lock of the room, and appends and sorts before it
releases the hub lock. -/
theorem Rooms_takes_room_lock_under_hub_lock :
    agentHub.RoomsLocks
        = [LockEvent.acquire Mutex.hub false, LockEvent.acquire (Mutex.room "room-1") false,
            LockEvent.work, LockEvent.release (Mutex.room "room-1") false, LockEvent.work,
            LockEvent.work, LockEvent.release Mutex.hub false]
      ∧ avoids takesRoomUnderHub [] agentHub.RoomsLocks = false
      ∧ avoids worksUnderHub [] agentHub.RoomsLocks = false := by
  decide

/-- C39, amended: no operation of the hub acquires the hub lock while it holds
a room lock; and no operation other than `Rooms()`, `OnlineAgents()` and
`AssignAgent`, which calls `OnlineAgents()`, acquires a room lock while it holds
the hub lock, the only work these other operations do under the hub lock being
the lookup or the insertion in the room map. -/
theorem lock_order (h : Hub) (call : HubCall) :
    avoids takesHubUnderRoom [] (h.locks call) = true
      ∧ (call.visitsAllRooms = false →
          avoids takesRoomUnderHub [] (h.locks call) = true
            ∧ avoids worksUnderHub [] (h.locks call) = true) := by
  cases call with
  | register c now => exact ⟨(RegisterLocks_ok h c now).1, fun _ => (RegisterLocks_ok h c now).2⟩
  | unregister c => exact ⟨(UnregisterLocks_ok h c).1, fun _ => (UnregisterLocks_ok h c).2⟩
  | handleIncoming c env now =>
    exact ⟨(HandleIncomingLocks_ok h c env now).1, fun _ => (HandleIncomingLocks_ok h c env now).2⟩
  | rooms => exact ⟨visitLocks_avoid_hub h.rooms, fun hv => by cases hv⟩
  | roomSnapshot roomID =>
    exact ⟨(getRoom_then_locked_ok h roomID).1, fun _ => (getRoom_then_locked_ok h roomID).2⟩
  | assignAgent roomID agentID displayName now =>
    exact ⟨AssignAgentLocks_ok h roomID agentID displayName now, fun hv => by cases hv⟩
  | messagesSince roomID =>
    exact ⟨(getRoom_then_locked_ok h roomID).1, fun _ => (getRoom_then_locked_ok h roomID).2⟩
  | onlineAgents => exact ⟨visitLocks_avoid_hub h.rooms, fun hv => by cases hv⟩

/-! ## Connected participants and live clients -/

theorem RolesInv_congr (r r1 : Room) (hparts : r1.parts = r.parts)
    (hplayers : r1.players = r.players) (hagents : r1.agents = r.agents)
    (hclients : r1.clients = r.clients) (hinv : r.RolesInv) : r1.RolesInv := by
  unfold Room.RolesInv at *
  rw [hparts, hplayers, hagents, hclients]
  exact hinv

theorem RolesInv_NewRoom (id : String) (now : Time) : (NewRoom id now).RolesInv := by
  unfold Room.RolesInv NewRoom
  simp [mapGet]

theorem update_get_cases (r : Room) (p : Nat) (f : Participant → Participant) (i : Nat)
    (y : Participant) (h : (r.update p f).parts[i]? = some y) :
    (i ≠ p ∧ r.parts[i]? = some y) ∨ (i = p ∧ ∃ x, r.parts[p]? = some x ∧ y = f x) := by
  by_cases hi : i = p
  · right
    subst hi
    rw [update_get, if_pos rfl] at h
    cases hx : r.parts[i]? with
    | none => rw [hx] at h; cases h
    | some x =>
      rw [hx] at h
      cases h
      exact ⟨rfl, x, rfl, rfl⟩
  · left
    rw [update_get_ne _ _ _ _ hi] at h
    exact ⟨hi, h⟩

theorem update_get_some (r : Room) (p : Nat) (f : Participant → Participant) (q : Nat)
    (x : Participant) (h : r.parts[q]? = some x) :
    (r.update p f).parts[q]? = some (if q = p then f x else x) := by
  by_cases hq : q = p
  · subst hq
    rw [update_get_same _ _ _ _ h, if_pos rfl]
  · rw [update_get_ne _ _ _ _ hq, if_neg hq, h]

/-- An update through a pointer that keeps the id and the role of the
participant, and marks it connected only if it was or a live client has its id
and role, keeps the invariant. -/
theorem RolesInv_update (r : Room) (p : Nat) (f : Participant → Participant)
    (hinv : r.RolesInv)
    (hf : ∀ x, r.parts[p]? = some x → (f x).ID = x.ID ∧ (f x).Role = x.Role
      ∧ ((f x).Connected = true → x.Connected = true
          ∨ ∃ c : Client, c ∈ r.clients ∧ c.ID = x.ID ∧ c.Role = x.Role)) :
    (r.update p f).RolesInv := by
  obtain ⟨h1, h2, h3, h4, h5⟩ := hinv
  unfold Room.RolesInv
  rw [update_players, update_agents, update_clients]
  refine ⟨?_, ?_, ?_, ?_, h5⟩
  · intro i y hy
    rcases update_get_cases r p f i y hy with ⟨_, hy⟩ | ⟨hi, x, hx, hyx⟩
    · exact h1 i y hy
    · subst hi
      obtain ⟨hid, hrole, _⟩ := hf x hx
      rw [hyx, hid, hrole]
      exact h1 i x hx
  · intro k q hq
    obtain ⟨x, hx, hid, hrole⟩ := h2 k q hq
    refine ⟨_, update_get_some r p f q x hx, ?_, ?_⟩
    · by_cases hqp : q = p
      · subst hqp; rw [if_pos rfl, (hf x hx).1]; exact hid
      · rw [if_neg hqp]; exact hid
    · by_cases hqp : q = p
      · subst hqp; rw [if_pos rfl, (hf x hx).2.1]; exact hrole
      · rw [if_neg hqp]; exact hrole
  · intro k q hq
    obtain ⟨x, hx, hid, hrole⟩ := h3 k q hq
    refine ⟨_, update_get_some r p f q x hx, ?_, ?_⟩
    · by_cases hqp : q = p
      · subst hqp; rw [if_pos rfl, (hf x hx).1]; exact hid
      · rw [if_neg hqp]; exact hid
    · by_cases hqp : q = p
      · subst hqp; rw [if_pos rfl, (hf x hx).2.1]; exact hrole
      · rw [if_neg hqp]; exact hrole
  · intro i y hy hc
    rcases update_get_cases r p f i y hy with ⟨_, hy⟩ | ⟨hi, x, hx, hyx⟩
    · exact h4 i y hy hc
    · subst hi
      obtain ⟨hid, hrole, hconn⟩ := hf x hx
      rw [hyx] at hc
      rw [hyx, hid, hrole]
      rcases hconn hc with hxc | hw
      · exact h4 i x hx hxc
      · exact hw

theorem getElem?_snoc_cases {α : Type} (l : List α) (n : α) (i : Nat) (y : α)
    (h : (l ++ [n])[i]? = some y) :
    l[i]? = some y ∨ (i = l.length ∧ y = n) := by
  rcases Nat.lt_or_ge i l.length with hlt | hge
  · left
    rw [List.getElem?_append_left hlt] at h
    exact h
  · right
    rw [List.getElem?_append_right hge] at h
    cases hd : i - l.length with
    | zero =>
      rw [hd] at h
      simp at h
      exact ⟨by omega, h.symm⟩
    | succ m =>
      rw [hd] at h
      simp at h

theorem getElem?_snoc_of_some {α : Type} (l : List α) (n : α) (i : Nat) (y : α)
    (h : l[i]? = some y) : (l ++ [n])[i]? = some y := by
  have hlt : i < l.length := by
    rcases Nat.lt_or_ge i l.length with hlt | hge
    · exact hlt
    · rw [List.getElem?_eq_none hge] at h; cases h
  rw [List.getElem?_append_left hlt]
  exact h

theorem getElem?_snoc_length {α : Type} (l : List α) (n : α) :
    (l ++ [n])[l.length]? = some n := by
  simp

theorem getElem?_length_none {α : Type} (l : List α) : l[l.length]? = none := by
  simp

/-- A new participant entered at the end of the store and under its id in the
registry of its role keeps the invariant. -/
theorem RolesInv_new (r r1 : Room) (n : Participant) (hinv : r.RolesInv)
    (hrole : n.Role = RolePlayer ∨ n.Role = RoleAgent)
    (hnone : mapGet (if n.Role = RolePlayer then r.players else r.agents) n.ID = none)
    (hconn : n.Connected = true → ∃ c : Client, c ∈ r.clients ∧ c.ID = n.ID ∧ c.Role = n.Role)
    (hparts : r1.parts = r.parts ++ [n])
    (hplayers : r1.players
      = if n.Role = RolePlayer then mapSet r.players n.ID r.parts.length else r.players)
    (hagents : r1.agents
      = if n.Role = RolePlayer then r.agents else mapSet r.agents n.ID r.parts.length)
    (hclients : r1.clients = r.clients) : r1.RolesInv := by
  obtain ⟨h1, h2, h3, h4, h5⟩ := hinv
  have hpa : RolePlayer ≠ RoleAgent := by decide
  unfold Room.RolesInv
  rw [hparts, hplayers, hagents, hclients]
  refine ⟨?_, ?_, ?_, ?_, h5⟩
  · intro i y hy
    rcases getElem?_snoc_cases _ _ _ _ hy with hy | ⟨hi, hyn⟩
    · rcases h1 i y hy with ⟨hr, hg⟩ | ⟨hr, hg⟩
      · left
        refine ⟨hr, ?_⟩
        by_cases hn : n.Role = RolePlayer
        · rw [if_pos hn]
          rw [if_pos hn] at hnone
          have hne : n.ID ≠ y.ID := by
            intro he
            rw [he, hg] at hnone
            cases hnone
          rw [mapGet_mapSet_ne _ _ _ _ hne]
          exact hg
        · rw [if_neg hn]; exact hg
      · right
        refine ⟨hr, ?_⟩
        by_cases hn : n.Role = RolePlayer
        · rw [if_pos hn]; exact hg
        · rw [if_neg hn]
          rw [if_neg hn] at hnone
          have hne : n.ID ≠ y.ID := by
            intro he
            rw [he, hg] at hnone
            cases hnone
          rw [mapGet_mapSet_ne _ _ _ _ hne]
          exact hg
    · subst hyn
      subst hi
      by_cases hn : y.Role = RolePlayer
      · left
        rw [if_pos hn, mapGet_mapSet_same]
        exact ⟨hn, rfl⟩
      · right
        rw [if_neg hn, mapGet_mapSet_same]
        rcases hrole with hr | hr
        · exact absurd hr hn
        · exact ⟨hr, rfl⟩
  · intro k q hq
    by_cases hn : n.Role = RolePlayer
    · rw [if_pos hn] at hq
      by_cases hk : n.ID = k
      · subst hk
        rw [mapGet_mapSet_same] at hq
        cases hq
        exact ⟨n, getElem?_snoc_length _ _, rfl, hn⟩
      · rw [mapGet_mapSet_ne _ _ _ _ hk] at hq
        obtain ⟨x, hx, hid, hr⟩ := h2 k q hq
        exact ⟨x, getElem?_snoc_of_some _ _ _ _ hx, hid, hr⟩
    · rw [if_neg hn] at hq
      obtain ⟨x, hx, hid, hr⟩ := h2 k q hq
      exact ⟨x, getElem?_snoc_of_some _ _ _ _ hx, hid, hr⟩
  · intro k q hq
    by_cases hn : n.Role = RolePlayer
    · rw [if_pos hn] at hq
      obtain ⟨x, hx, hid, hr⟩ := h3 k q hq
      exact ⟨x, getElem?_snoc_of_some _ _ _ _ hx, hid, hr⟩
    · rw [if_neg hn] at hq
      by_cases hk : n.ID = k
      · subst hk
        rw [mapGet_mapSet_same] at hq
        cases hq
        rcases hrole with hr | hr
        · exact absurd hr hn
        · exact ⟨n, getElem?_snoc_length _ _, rfl, hr⟩
      · rw [mapGet_mapSet_ne _ _ _ _ hk] at hq
        obtain ⟨x, hx, hid, hr⟩ := h3 k q hq
        exact ⟨x, getElem?_snoc_of_some _ _ _ _ hx, hid, hr⟩
  · intro i y hy hc
    rcases getElem?_snoc_cases _ _ _ _ hy with hy | ⟨_, hyn⟩
    · exact h4 i y hy hc
    · subst hyn
      exact hconn hc

/-- The entry of a client with the role player or agent, looked up in the
registry of its role, points at a participant with its id and role. -/
theorem RolesInv_entry (r : Room) (c : Client) (p : Nat) (hinv : r.RolesInv)
    (hrole : c.Role = RolePlayer ∨ c.Role = RoleAgent)
    (hp : mapGet (if c.Role = RolePlayer then r.players else r.agents) c.ID = some p) :
    ∃ x : Participant, r.parts[p]? = some x ∧ x.ID = c.ID ∧ x.Role = c.Role := by
  obtain ⟨_, h2, h3, _, _⟩ := hinv
  by_cases hn : c.Role = RolePlayer
  · rw [if_pos hn] at hp
    obtain ⟨x, hx, hid, hr⟩ := h2 _ _ hp
    exact ⟨x, hx, hid, hr.trans hn.symm⟩
  · rw [if_neg hn] at hp
    obtain ⟨x, hx, hid, hr⟩ := h3 _ _ hp
    rcases hrole with h | h
    · exact absurd h hn
    · exact ⟨x, hx, hid, hr.trans h.symm⟩

theorem ensure_new_fields (r : Room) (c : Client) (now : Time)
    (hp : mapGet (if c.Role = RolePlayer then r.players else r.agents) c.ID = none) :
    (r.ensureParticipantLocked c now).2 = r.parts.length
      ∧ (r.ensureParticipantLocked c now).1.parts
          = r.parts ++ [{ ID := c.ID, DisplayName := c.DisplayName, Role := c.Role,
                          Connected := true, LastSeen := now }]
      ∧ (r.ensureParticipantLocked c now).1.players
          = (if c.Role = RolePlayer then mapSet r.players c.ID r.parts.length else r.players)
      ∧ (r.ensureParticipantLocked c now).1.agents
          = (if c.Role = RolePlayer then r.agents else mapSet r.agents c.ID r.parts.length) := by
  unfold Room.ensureParticipantLocked
  dsimp only
  rw [hp]
  dsimp only
  by_cases hn : c.Role = RolePlayer
  · simp only [if_pos hn]
    split <;> exact ⟨rfl, rfl, rfl, rfl⟩
  · simp only [if_neg hn]
    split <;> exact ⟨rfl, rfl, rfl, rfl⟩

/-- `ensureParticipantLocked` for a live client with the role player or agent
keeps the invariant, and returns a pointer at a participant with the id and
the role of the client. -/
theorem RolesInv_ensure (r : Room) (c : Client) (now : Time) (hinv : r.RolesInv)
    (hrole : c.Role = RolePlayer ∨ c.Role = RoleAgent) (hc : c ∈ r.clients) :
    (r.ensureParticipantLocked c now).1.RolesInv
      ∧ ∃ x : Participant,
          (r.ensureParticipantLocked c now).1.parts[(r.ensureParticipantLocked c now).2]? = some x
            ∧ x.ID = c.ID ∧ x.Role = c.Role := by
  cases hp : mapGet (if c.Role = RolePlayer then r.players else r.agents) c.ID with
  | some p =>
    have he : r.ensureParticipantLocked c now
        = (r.update p (fun x => { x with DisplayName := c.DisplayName, Role := c.Role }), p) := by
      unfold Room.ensureParticipantLocked
      dsimp only
      rw [hp]
    obtain ⟨x, hx, hid, hr⟩ := RolesInv_entry r c p hinv hrole hp
    rw [he]
    constructor
    · apply RolesInv_update r p _ hinv
      intro y hy
      rw [hx] at hy
      cases hy
      exact ⟨rfl, hr.symm, fun h => Or.inl h⟩
    · exact ⟨_, update_get_same r p _ x hx, hid, rfl⟩
  | none =>
    obtain ⟨h2, hparts, hplayers, hagents⟩ := ensure_new_fields r c now hp
    constructor
    · exact RolesInv_new r _
        { ID := c.ID, DisplayName := c.DisplayName, Role := c.Role, Connected := true,
          LastSeen := now } hinv hrole hp (fun _ => ⟨c, hc, rfl, rfl⟩) hparts hplayers hagents
        (ensure_clients r c now)
    · rw [h2, hparts]
      exact ⟨_, getElem?_snoc_length _ _, rfl, rfl⟩

theorem RolesInv_addLive (r : Room) (c : Client) (hinv : r.RolesInv) (hc : c ∉ r.clients) :
    Room.RolesInv { r with clients := r.clients ++ [c] } := by
  obtain ⟨h1, h2, h3, h4, h5⟩ := hinv
  refine ⟨h1, h2, h3, ?_, ?_⟩
  · intro i x hx hcon
    obtain ⟨d, hd, hid, hr⟩ := h4 i x hx hcon
    exact ⟨d, List.mem_append_left _ hd, hid, hr⟩
  · show (r.clients ++ [c]).Nodup
    rw [List.nodup_append]
    refine ⟨h5, List.nodup_singleton c, ?_⟩
    intro a ha hb
    rw [List.mem_singleton] at hb
    subst hb
    exact hc ha

theorem RolesInv_AddClient (r : Room) (c : Client) (now : Nat → Time) (hinv : r.RolesInv)
    (hrole : c.Role = RolePlayer ∨ c.Role = RoleAgent) : (r.AddClient c now).1.RolesInv := by
  unfold Room.AddClient
  by_cases hc : c ∈ r.clients
  · rw [if_pos hc]
    exact (RolesInv_ensure r c (now 0) hinv hrole hc).1
  · rw [if_neg hc]
    dsimp only
    have hmem : c ∈ ({ r with clients := r.clients ++ [c] } : Room).clients :=
      List.mem_append_right _ (List.mem_singleton.2 rfl)
    obtain ⟨hi1, x, hx, hid, hr⟩ := RolesInv_ensure { r with clients := r.clients ++ [c] } c
      (now 0) (RolesInv_addLive r c hinv hc) hrole hmem
    have hcl := ensure_clients { r with clients := r.clients ++ [c] } c (now 0)
    refine RolesInv_congr _ _ rfl rfl rfl rfl ?_
    apply RolesInv_update
    · apply RolesInv_update _ _ _ hi1
      intro y hy
      rw [hx] at hy
      cases hy
      refine ⟨rfl, rfl, fun _ => Or.inr ⟨c, ?_, hid.symm, hr.symm⟩⟩
      rw [hcl]
      exact hmem
    · intro y _
      exact ⟨rfl, rfl, fun h => Or.inl h⟩

theorem RolesInv_erase (r r1 : Room) (c : Client) (hinv : r.RolesInv)
    (hparts : r1.parts = r.parts) (hplayers : r1.players = r.players)
    (hagents : r1.agents = r.agents) (hclients : r1.clients = r.clients.erase c)
    (hno : ∀ (i : Nat) (x : Participant), r.parts[i]? = some x → x.Connected = true →
      ¬ (x.ID = c.ID ∧ x.Role = c.Role)) : r1.RolesInv := by
  obtain ⟨h1, h2, h3, h4, h5⟩ := hinv
  unfold Room.RolesInv
  rw [hparts, hplayers, hagents, hclients]
  refine ⟨h1, h2, h3, ?_, h5.erase c⟩
  intro i x hx hcon
  obtain ⟨d, hd, hid, hr⟩ := h4 i x hx hcon
  have hne : d ≠ c := by
    intro he
    subst he
    exact hno i x hx hcon ⟨hid.symm, hr.symm⟩
  exact ⟨d, (List.mem_erase_of_ne hne).2 hd, hid, hr⟩

theorem update_parts_congr (r r1 : Room) (p : Nat) (f : Participant → Participant)
    (h : r1.parts = r.parts) : (r1.update p f).parts = (r.update p f).parts := by
  unfold Room.update
  rw [h]
  cases r.parts[p]? with
  | none => exact h
  | some x => rfl

/-- The participant a registry holds under the id of `c`, in the registry that
`RemoveClient` reads, is the only one with the id and the role of `c`. -/
theorem RolesInv_pointer (r : Room) (c : Client) (hinv : r.RolesInv) (i : Nat)
    (x : Participant) (hx : r.parts[i]? = some x) (hid : x.ID = c.ID) (hr : x.Role = c.Role) :
    mapGet (if c.Role = RoleAgent then r.agents else r.players) c.ID = some i := by
  have hpa : RolePlayer ≠ RoleAgent := by decide
  rcases hinv.1 i x hx with ⟨hrole, hg⟩ | ⟨hrole, hg⟩
  · rw [if_neg (by rw [← hr, hrole]; exact hpa), ← hid]
    exact hg
  · rw [if_pos (by rw [← hr, hrole]), ← hid]
    exact hg

theorem RolesInv_RemoveClient (r : Room) (c : Client) (now : Time) (hinv : r.RolesInv) :
    (r.RemoveClient c now).RolesInv := by
  unfold Room.RemoveClient
  by_cases hc : c ∈ r.clients
  · rw [if_neg (not_not.2 hc)]
    dsimp only
    cases hp : mapGet (if c.Role = RoleAgent then r.agents else r.players) c.ID with
    | none =>
      dsimp only
      refine RolesInv_erase r { r with clients := r.clients.erase c } c hinv rfl rfl rfl rfl ?_
      intro i x hx _ hh
      rw [RolesInv_pointer r c hinv i x hx hh.1 hh.2] at hp
      cases hp
    | some p =>
      dsimp only
      have hi2 : ((r.update p (fun x => { x with Connected := false })).update p
          (fun x => { x with LastSeen := now })).RolesInv := by
        apply RolesInv_update
        · apply RolesInv_update _ _ _ hinv
          intro y _
          exact ⟨rfl, rfl, fun h => by cases h⟩
        · intro y _
          exact ⟨rfl, rfl, fun h => Or.inl h⟩
      apply RolesInv_erase _ _ c hi2
      · rw [update_parts_congr _ (r.update p (fun x => { x with Connected := false })) p _]
        exact update_parts_congr _ r p _ rfl
      · simp only [update_players]
      · simp only [update_agents]
      · simp only [update_clients]
      · intro i y hy hcon hh
        have hptr := RolesInv_pointer _ c hi2 i y hy hh.1 hh.2
        simp only [update_players, update_agents] at hptr
        rw [hp] at hptr
        cases hptr
        rcases update_get_cases _ _ _ _ _ hy with ⟨hne, _⟩ | ⟨_, z, hz, hyz⟩
        · exact hne rfl
        · rcases update_get_cases _ _ _ _ _ hz with ⟨hne, _⟩ | ⟨_, w, _, hzw⟩
          · exact hne rfl
          · rw [hyz, hzw] at hcon
            cases hcon
  · rw [if_pos hc]
    exact hinv

theorem RolesInv_Touch (r : Room) (ts : Time) (hinv : r.RolesInv) : (r.Touch ts).RolesInv := by
  unfold Room.Touch
  split
  · exact RolesInv_congr r _ rfl rfl rfl rfl hinv
  · exact hinv

theorem RolesInv_lastSeen (r : Room) (registry : List (String × Nat)) (k : String) (ts : Time)
    (hinv : r.RolesInv) :
    Room.RolesInv (match mapGet registry k with
      | some p => r.update p (fun x => { x with LastSeen := ts })
      | none => r) := by
  cases mapGet registry k with
  | none => exact hinv
  | some p =>
    apply RolesInv_update _ _ _ hinv
    intro y _
    exact ⟨rfl, rfl, fun h => Or.inl h⟩

theorem RolesInv_AddMessage (r : Room) (msg : ChatMessage) (now : Time) (hinv : r.RolesInv) :
    (r.AddMessage msg now).1.RolesInv := by
  unfold Room.AddMessage
  dsimp only
  apply RolesInv_lastSeen
  apply RolesInv_lastSeen
  exact RolesInv_congr r _ rfl rfl rfl rfl hinv

theorem RolesInv_SetAssignedAgent (r : Room) (agentID displayName : String) (now : Time)
    (hinv : r.RolesInv) : (r.SetAssignedAgent agentID displayName now).RolesInv := by
  unfold Room.SetAssignedAgent
  dsimp only
  refine RolesInv_congr _ _ rfl rfl rfl rfl ?_
  apply RolesInv_update
  · cases hp : mapGet r.agents agentID with
    | some existing =>
      dsimp only
      obtain ⟨x, hx, _, hr⟩ := hinv.2.2.1 _ _ hp
      apply RolesInv_update
      · apply RolesInv_update _ _ _ hinv
        intro y _
        exact ⟨rfl, rfl, fun h => Or.inl h⟩
      · intro y hy
        rw [update_get_same _ _ _ _ hx] at hy
        cases hy
        exact ⟨rfl, hr.symm, fun h => Or.inl h⟩
    | none =>
      dsimp only
      have hpa : ¬ (RoleAgent = RolePlayer) := by decide
      refine RolesInv_new r _
        { ID := agentID, DisplayName := displayName, Role := RoleAgent, LastSeen := now } hinv
        (Or.inr rfl) ?_ (fun h => by cases h) rfl ?_ ?_ rfl
      · rw [if_neg hpa]; exact hp
      · rw [if_neg hpa]
      · rw [if_neg hpa]
  · intro y _
    exact ⟨rfl, rfl, fun h => by cases h⟩

theorem RolesInv_of_ReachableRoles (r : Room) (hr : r.ReachableRoles) : r.RolesInv := by
  induction hr with
  | newRoom id now => exact RolesInv_NewRoom id now
  | addClient r c now _ hrole ih => exact RolesInv_AddClient r c now ih hrole
  | removeClient r c now _ ih => exact RolesInv_RemoveClient r c now ih
  | touch r ts _ ih => exact RolesInv_Touch r ts ih
  | addMessage r msg now _ ih => exact RolesInv_AddMessage r msg now ih
  | setAssignedAgent r agentID displayName now _ ih =>
    exact RolesInv_SetAssignedAgent r agentID displayName now ih

theorem RolesInv_rooms_eq (h h1 : Hub) (he : h1.rooms = h.rooms)
    (hroles : ∀ (k : String) (r : Room), h.getRoom k = some r → r.RolesInv) :
    ∀ (k : String) (r : Room), h1.getRoom k = some r → r.RolesInv := by
  unfold Hub.getRoom at *
  rw [he]
  exact hroles

theorem RolesInv_rooms_mapSet (h h1 : Hub) (k : String) (r1 : Room)
    (he : h1.rooms = mapSet h.rooms k r1)
    (hroles : ∀ (k : String) (r : Room), h.getRoom k = some r → r.RolesInv)
    (hr1 : r1.RolesInv) :
    ∀ (k : String) (r : Room), h1.getRoom k = some r → r.RolesInv := by
  unfold Hub.getRoom at *
  rw [he]
  intro k2 r2 hget
  by_cases hkk : k = k2
  · subst hkk
    rw [mapGet_mapSet_same] at hget
    cases hget
    exact hr1
  · rw [mapGet_mapSet_ne _ _ _ _ hkk] at hget
    exact hroles k2 r2 hget

theorem RolesInv_step (h : Hub) (op : HubOp) (hok : op.rolesOk)
    (hroles : ∀ (k : String) (r : Room), h.getRoom k = some r → r.RolesInv) :
    ∀ (k : String) (r : Room), (h.step op).getRoom k = some r → r.RolesInv := by
  cases op with
  | newClient ptr roomID id role displayName => exact RolesInv_rooms_eq h _ rfl hroles
  | register c now =>
    show ∀ (k : String) (r : Room), (h.Register c now).1.getRoom k = some r → r.RolesInv
    by_cases hne : c.RoomID = ""
    · have : h.Register c now = (h, some Err.roomIdRequired) := by
        unfold Hub.Register
        rw [if_pos hne]
      rw [this]
      exact hroles
    · refine RolesInv_rooms_mapSet h _ c.RoomID (h.registeredRoom c now)
        (Register_rooms_any h c now hne) hroles ?_
      unfold Hub.registeredRoom Hub.roomFor
      apply RolesInv_AddClient _ _ _ _ hok
      cases hroom : h.getRoom c.RoomID with
      | none => exact RolesInv_NewRoom _ _
      | some room => exact hroles _ _ hroom
  | unregister c now =>
    show ∀ (k : String) (r : Room), (h.Unregister c now).getRoom k = some r → r.RolesInv
    have hr := Unregister_rooms h c now
    by_cases hne : c.RoomID = ""
    · rw [if_pos hne] at hr
      exact RolesInv_rooms_eq h _ hr hroles
    · rw [if_neg hne] at hr
      cases hroom : h.getRoom c.RoomID with
      | none => rw [hroom] at hr; exact RolesInv_rooms_eq h _ hr hroles
      | some room =>
        rw [hroom] at hr
        exact RolesInv_rooms_mapSet h _ c.RoomID _ hr hroles
          (RolesInv_RemoveClient _ _ _ (hroles _ _ hroom))
  | handleIncoming c env now =>
    show ∀ (k : String) (r : Room), (h.HandleIncoming c env now).1.getRoom k = some r →
      r.RolesInv
    rcases HandleIncoming_rooms h c env now with hr | ⟨room, hroom, hr | hr⟩
    · exact RolesInv_rooms_eq h _ hr hroles
    · obtain ⟨msg, t, hr⟩ := hr
      exact RolesInv_rooms_mapSet h _ c.RoomID _ hr hroles
        (RolesInv_AddMessage _ _ _ (hroles _ _ hroom))
    · obtain ⟨ts, hr⟩ := hr
      exact RolesInv_rooms_mapSet h _ c.RoomID _ hr hroles
        (RolesInv_Touch _ _ (hroles _ _ hroom))
  | assignAgent roomID agentID displayName now =>
    show ∀ (k : String) (r : Room),
      (h.AssignAgent roomID agentID displayName now).1.getRoom k = some r → r.RolesInv
    obtain ⟨name, _, hr⟩ := AssignAgent_rooms h roomID agentID displayName now
    cases hroom : h.getRoom roomID with
    | none => rw [hroom] at hr; exact RolesInv_rooms_eq h _ hr hroles
    | some room =>
      rw [hroom] at hr
      exact RolesInv_rooms_mapSet h _ roomID _ hr hroles
        (RolesInv_SetAssignedAgent _ _ _ _ (hroles _ _ hroom))
  | sendSystemError c message now =>
    exact RolesInv_rooms_eq h _ (sendSystemError_rooms c h message now) hroles
  | receive c => exact RolesInv_rooms_eq h _ (recv_rooms h c) hroles

theorem RolesInv_runFrom (h : Hub) (ops : List HubOp) (hok : ∀ op ∈ ops, op.rolesOk)
    (hroles : ∀ (k : String) (r : Room), h.getRoom k = some r → r.RolesInv) :
    ∀ (k : String) (r : Room), (h.runFrom ops).getRoom k = some r → r.RolesInv := by
  induction ops generalizing h with
  | nil => exact hroles
  | cons op rest ih =>
    exact ih (h.step op) (fun o ho => hok o (List.mem_cons_of_mem _ ho))
      (RolesInv_step h op (hok op (List.mem_cons_self _ _)) hroles)

theorem RolesInv_run (ops : List HubOp) (hok : ∀ op ∈ ops, op.rolesOk) :
    ∀ (k : String) (r : Room), (Hub.run ops).getRoom k = some r → r.RolesInv := by
  apply RolesInv_runFrom _ _ hok
  intro k r hget
  unfold NewHub Hub.getRoom at hget
  simp [mapGet] at hget

/-- A connected agent of a room that satisfies the invariant has a live client
with its id and the role agent. -/
theorem connectedAgent_live (r : Room) (hinv : r.RolesInv) (id : String)
    (hc : (r.connectedAgent id).isSome = true) :
    ∃ c : Client, c ∈ r.clients ∧ c.ID = id ∧ c.Role = RoleAgent := by
  unfold Room.connectedAgent at hc
  cases hp : mapGet r.agents id with
  | none => rw [hp] at hc; cases hc
  | some p =>
    rw [hp] at hc
    dsimp only at hc
    obtain ⟨x, hx, hid, hr⟩ := hinv.2.2.1 _ _ hp
    rw [hx] at hc
    dsimp only at hc
    by_cases hcon : x.Connected = true
    · obtain ⟨c, hmem, hcid, hcr⟩ := hinv.2.2.2.1 p x hx hcon
      exact ⟨c, hmem, hcid.trans hid, hcr.trans hr⟩
    · rw [if_neg hcon] at hc
      cases hc

/-- C40: in every room reachable when every client that is added has the role
player or agent, a participant marked connected has a live client with its id
and role; hence, after any calls that register only such clients,
`OnlineAgents()` lists an agent under a room only if that room has a live
client with the id of the agent and the role agent. -/
theorem connected_participant_has_live_client :
    (∀ r : Room, r.ReachableRoles → ∀ x : Participant, x ∈ r.parts → x.Connected = true →
        ∃ c : Client, c ∈ r.clients ∧ c.ID = x.ID ∧ c.Role = x.Role)
      ∧ (∀ ops : List HubOp, (∀ op ∈ ops, op.rolesOk) →
          ∀ e : AgentPresence, e ∈ (Hub.run ops).OnlineAgents → ∀ k : String, k ∈ e.Rooms →
            ∃ r : Room, (Hub.run ops).getRoom k = some r
              ∧ ∃ c : Client, c ∈ r.clients ∧ c.ID = e.ID ∧ c.Role = RoleAgent) := by
  constructor
  · intro r hr x hx hcon
    obtain ⟨i, hi, hget⟩ := List.mem_iff_getElem.1 hx
    have hsome : r.parts[i]? = some x := by
      rw [List.getElem?_eq_getElem hi, hget]
    exact (RolesInv_of_ReachableRoles r hr).2.2.2.1 i x hsome hcon
  · intro ops hok e he k hk
    obtain ⟨r, hget, hc⟩ := (((OnlineAgents_of_Inv _ (Inv_run ops)).2.2.1 e he).2.1 k).1 hk
    exact ⟨r, hget, connectedAgent_live r (RolesInv_run ops hok k r hget) e.ID hc⟩

/-- C40, witness: the room joined by the agent `agentA` is reachable with
clients of the roles player and agent, its one participant is marked
connected, and it has a live client with the id a1 and the role agent. -/
theorem connected_participant_has_live_client_witness :
    agentRoom.ReachableRoles
      ∧ agentRoom.parts.map (fun x => (x.ID, x.Role, x.Connected)) = [("a1", "agent", true)]
      ∧ ∃ c : Client, c ∈ agentRoom.clients ∧ c.ID = "a1" ∧ c.Role = "agent" :=
  ⟨Room.ReachableRoles.addClient _ agentA exampleClock (Room.ReachableRoles.newRoom _ _)
      (Or.inr rfl),
    by decide,
    connected_participant_has_live_client.1 agentRoom
      (Room.ReachableRoles.addClient _ agentA exampleClock (Room.ReachableRoles.newRoom _ _)
        (Or.inr rfl))
      (agentRoom.parts.head (by decide)) (by decide) (by decide)⟩

/-! ## Sends on closed queues -/

/-- The loop of `broadcast` panics exactly when one of the clients has a closed
channel; otherwise it is the loop over `Hub`. -/
theorem Conns_sendAll_eq (s : Conns) (clients : List Client) (p : Envelope) :
    s.sendAll clients p
      = if clients.any (fun client => decide (client ∈ s.closed)) = true then Outcome.panics
        else Outcome.returns { s with hub := s.hub.sendAll clients p } := by
  induction clients generalizing s with
  | nil => rfl
  | cons client rest ih =>
    unfold Conns.sendAll Conns.trySendTo
    by_cases hc : client ∈ s.closed
    · rw [if_pos hc]
      simp [hc]
    · rw [if_neg hc]
      dsimp only
      rw [ih]
      simp [hc, Hub.sendAll]

/-- `broadcast` panics exactly when a live client of the room has a closed
channel; otherwise it is `Hub.broadcast`. -/
theorem Conns_broadcast_eq (s : Conns) (room : Room) (env : Envelope) (now : Time) :
    s.broadcast room env now
      = if s.sendsOnClosed room = true then Outcome.panics
        else Outcome.returns { s with hub := s.hub.broadcast room env now } := by
  unfold Conns.broadcast Conns.sendsOnClosed Hub.broadcast
  dsimp only
  rw [Conns_sendAll_eq]

/-- With no channel closed, `SendEnvelope` returns what `Client.SendEnvelope`
returns. -/
theorem Conns_SendEnvelope_of_open (h : Hub) (c : Client) (env : Envelope) (now : Time) :
    Conns.SendEnvelope { hub := h, closed := [] } c env now
      = Outcome.returns ({ hub := (c.SendEnvelope h env now).1, closed := [] },
          (c.SendEnvelope h env now).2) := by
  unfold Conns.SendEnvelope Client.SendEnvelope Conns.trySendTo
  dsimp only
  simp only [List.not_mem_nil, if_false]
  by_cases hr : (h.trySendTo c
      (if IsZero env.Timestamp then { env with Timestamp := now } else env).Normalize).2 = true
  · simp only [if_pos hr]
  · simp only [if_neg hr]

/-- With no channel closed, `HandleIncoming` returns what `Hub.HandleIncoming`
returns. -/
theorem Conns_HandleIncoming_of_open (h : Hub) (c : Client) (env : Envelope)
    (now : Nat → Time) :
    Conns.HandleIncoming { hub := h, closed := [] } c env now
      = Outcome.returns ({ hub := (h.HandleIncoming c env now).1, closed := [] },
          (h.HandleIncoming c env now).2) := by
  unfold Conns.HandleIncoming Hub.HandleIncoming
  dsimp only
  cases h.getRoom c.RoomID with
  | none => rfl
  | some room =>
    dsimp only
    generalize (if IsZero env.Timestamp then { env with Timestamp := now 0 } else env).Normalize
      = env2
    by_cases h1 : env2.Cmd = MessageTypeChat
    · simp only [if_pos h1]
      by_cases h2 : env2.Content = ""
      · simp only [if_pos h2]
      · simp only [if_neg h2]
        rw [Conns_broadcast_eq]
        simp [Conns.sendsOnClosed, Outcome.noError]
    · simp only [if_neg h1]
      by_cases h3 : env2.Cmd = MessageTypeTyping
      · simp only [if_pos h3]
        rw [Conns_broadcast_eq]
        simp [Conns.sendsOnClosed, Outcome.noError]
      · simp only [if_neg h3]
        by_cases h4 : env2.Cmd = MessageTypeHistory
        · simp only [if_pos h4]
          exact Conns_SendEnvelope_of_open h c _ (now 1)
        · simp only [if_neg h4]

/-- With no channel closed, `AssignAgent` returns what `Hub.AssignAgent`
returns. -/
theorem Conns_AssignAgent_of_open (h : Hub) (roomID agentID displayName : String)
    (now : Nat → Time) :
    Conns.AssignAgent { hub := h, closed := [] } roomID agentID displayName now
      = Outcome.returns ({ hub := (h.AssignAgent roomID agentID displayName now).1, closed := [] },
          (h.AssignAgent roomID agentID displayName now).2) := by
  unfold Conns.AssignAgent Hub.AssignAgent
  dsimp only
  cases h.getRoom roomID with
  | none => rfl
  | some room =>
    dsimp only
    have key : ∀ name : String,
        (match (room.SetAssignedAgent agentID name (now 0)).AssignedAgent with
          | none =>
            Outcome.returns
              (({ hub := h.setRoom roomID (room.SetAssignedAgent agentID name (now 0)),
                  closed := [] } : Conns), (Except.error Err.unableToAssign : Except Err Participant))
          | some assigned =>
            match Conns.broadcast
                { hub := h.setRoom roomID (room.SetAssignedAgent agentID name (now 0)),
                  closed := [] }
                (room.SetAssignedAgent agentID name (now 0))
                { Cmd := MessageTypeSystem, Type_ := MessageTypeSystem, RoomID := roomID,
                  Timestamp := now 1, Content := "客服 " ++ name ++ " 將協助這個對話",
                  SenderID := agentID, SenderRole := RoleAgent, DisplayName := name,
                  Metadata := some [("assignedAgent", name), ("assignedAgentId", agentID)] }
                (now 2) with
            | Outcome.panics => Outcome.panics
            | Outcome.returns s2 => Outcome.returns (s2, Except.ok assigned))
          = Outcome.returns
              ({ hub := (match (room.SetAssignedAgent agentID name (now 0)).AssignedAgent with
                  | none =>
                    (h.setRoom roomID (room.SetAssignedAgent agentID name (now 0)),
                      (Except.error Err.unableToAssign : Except Err Participant))
                  | some assigned =>
                    ((h.setRoom roomID (room.SetAssignedAgent agentID name (now 0))).broadcast
                        (room.SetAssignedAgent agentID name (now 0))
                        { Cmd := MessageTypeSystem, Type_ := MessageTypeSystem, RoomID := roomID,
                          Timestamp := now 1, Content := "客服 " ++ name ++ " 將協助這個對話",
                          SenderID := agentID, SenderRole := RoleAgent, DisplayName := name,
                          Metadata := some [("assignedAgent", name), ("assignedAgentId", agentID)] }
                        (now 2), Except.ok assigned)).1, closed := [] },
                (match (room.SetAssignedAgent agentID name (now 0)).AssignedAgent with
                  | none =>
                    (h.setRoom roomID (room.SetAssignedAgent agentID name (now 0)),
                      (Except.error Err.unableToAssign : Except Err Participant))
                  | some assigned =>
                    ((h.setRoom roomID (room.SetAssignedAgent agentID name (now 0))).broadcast
                        (room.SetAssignedAgent agentID name (now 0))
                        { Cmd := MessageTypeSystem, Type_ := MessageTypeSystem, RoomID := roomID,
                          Timestamp := now 1, Content := "客服 " ++ name ++ " 將協助這個對話",
                          SenderID := agentID, SenderRole := RoleAgent, DisplayName := name,
                          Metadata := some [("assignedAgent", name), ("assignedAgentId", agentID)] }
                        (now 2), Except.ok assigned)).2) := by
      intro name
      cases (room.SetAssignedAgent agentID name (now 0)).AssignedAgent with
      | none => rfl
      | some assigned =>
        dsimp only
        rw [Conns_broadcast_eq]
        simp [Conns.sendsOnClosed]
    exact key _

/-- C3 fails on the code. `player1` and `agentA` are live in `room-1`, whose
counter is 0; the write loop of `player1` has exited, so its queue is closed
while it is still live. `agentA` sends a `chat.message` with the content 您好:
`HandleIncoming` stores the message and panics in `broadcast` at the send to
`player1`, instead of returning no error. With the queue of `player1` open
the same call returns no error. -/
theorem chat_message_panics_on_closed_queue :
    halfClosed.hub.getRoom agentA.RoomID = some sharedRoom
      ∧ sharedRoom.nextSequence = 0 ∧ sharedRoom.Clients = [player1, agentA]
      ∧ halfClosed.closed = [player1]
      ∧ ({ Cmd := "message", Content := "您好" } : Envelope).Normalize.Cmd = MessageTypeChat
      ∧ halfClosed.HandleIncoming agentA { Cmd := "message", Content := "您好" } laterClock
          = Outcome.panics
      ∧ ∃ s : Conns,
          Conns.HandleIncoming { hub := sharedHub, closed := [] } agentA
              { Cmd := "message", Content := "您好" } laterClock
            = Outcome.returns (s, none) := by
  refine ⟨by decide, by decide, by decide, by decide, by decide, by decide, ?_⟩
  rw [Conns_HandleIncoming_of_open]
  exact ⟨_, congrArg (fun e => Outcome.returns (_, e)) (by decide)⟩

/-- C5 fails on the code. In the same state the queue of `player1` holds fewer
items than its capacity, and it is closed: `broadcast` of a notice to `room-1`
panics at the send to `player1`, where the claim has it enqueue the payload
and never fail. -/
theorem broadcast_panics_on_closed_queue :
    player1 ∈ sharedRoom.Clients ∧ player1 ∈ halfClosed.closed
      ∧ (halfClosed.hub.chan player1).buf.length < (halfClosed.hub.chan player1).cap
      ∧ halfClosed.broadcast sharedRoom { Cmd := "system", Content := "notice" } 300
          = Outcome.panics := by
  decide

/-- C17 fails on the code. In the same state the agent a2 is not online and
`room-1` exists: `AssignAgent` sets the assignment and panics in `broadcast` at
the send to `player1`, instead of returning the participant. -/
theorem AssignAgent_panics_on_closed_queue :
    halfClosed.hub.getRoom "room-1" = some sharedRoom
      ∧ halfClosed.hub.agentPresence "a2" = none
      ∧ halfClosed.AssignAgent "room-1" "a2" "客服B" laterClock = Outcome.panics := by
  refine ⟨by decide, by decide, rfl⟩

end Ws
